import Mathlib

/-! # openroutergo: the client builder and the chat-completion response model

A shallow embedding of `client.go` and `chat_completion_response.go`.

* Go strings are byte sequences (`GoString`); nothing in Go makes them valid UTF-8.
* Pointers are addresses into an explicit `Heap`; `nil` is `none`.  A nil dereference
  (a Go panic) is the result `none` of the operation that performs it.
* A Go method that mutates its receiver takes the heap, or the receiver, and returns the
  new one.
* The standard-library functions the two files call (`encoding/json`, `unicode/utf8`,
  `unicode/utf16`, `strconv`) are embedded next to the code that calls them.  `Marshal`
  and `Unmarshal` work on bytes: `json.scan` is the scanner, which checks the input and
  delimits its values, and the `store...` functions are the decoder, one for each kind of
  target that the two files declare.
* Two declarations of the package are not among the sources at hand: the function
  `strutil.RemoveTrailingSlashes` and the type `ChatCompletionMessage`.  The first is
  modelled from the spec; the decoding of the second is a parameter (`MessageCodec`).
* The sections on RFC 3629 and RFC 8259 are specifications, written from the RFCs: what
  valid UTF-8 is, what a JSON string token is and which string it stands for.
-/

namespace openroutergo

/-! ## Bytes, strings, durations -/

/-- A Go `byte`. -/
abbrev Byte := Fin 256

/-- A Go `string`: an arbitrary sequence of bytes. -/
abbrev GoString := List Byte

/-- The conversion `byte(n)` of a non-negative integer: truncation to eight bits. -/
def byte (n : Nat) : Byte := ⟨n % 256, Nat.mod_lt _ (by decide)⟩

/-- A Go `time.Duration`: a count of nanoseconds. -/
abbrev Duration := Int

/-- The constant `time.Minute`. -/
def time.Minute : Duration := 60 * 1000000000

namespace utf8

/-- The constant `utf8.RuneError`, U+FFFD. -/
def RuneError : Nat := 0xFFFD

/-- The constant `utf8.MaxRune`. -/
def MaxRune : Nat := 0x10FFFF

/-- The function `utf8.EncodeRune` (with `utf8.AppendRune`, which writes the same bytes):
the UTF-8 encoding of the rune `r`, where a surrogate or a rune beyond `MaxRune` is
encoded as `RuneError`.  Runes are non-negative here. -/
def EncodeRune (r : Nat) : List Byte :=
  if r ≤ 0x7F then [byte r]
  else if r ≤ 0x7FF then [byte (0xC0 ||| (r >>> 6)), byte (0x80 ||| (r &&& 0x3F))]
  else if r > MaxRune ∨ (0xD800 ≤ r ∧ r ≤ 0xDFFF) then [byte 0xEF, byte 0xBF, byte 0xBD]
  else if r ≤ 0xFFFF then
    [byte (0xE0 ||| (r >>> 12)), byte (0x80 ||| ((r >>> 6) &&& 0x3F)), byte (0x80 ||| (r &&& 0x3F))]
  else
    [byte (0xF0 ||| (r >>> 18)), byte (0x80 ||| ((r >>> 12) &&& 0x3F)),
     byte (0x80 ||| ((r >>> 6) &&& 0x3F)), byte (0x80 ||| (r &&& 0x3F))]

end utf8

/-- A Go string literal: the UTF-8 bytes of the text between the quotes. -/
def str (s : String) : GoString := s.toList.flatMap (fun c => utf8.EncodeRune c.toNat)

/-! ## Errors -/

/-- Modelled from the spec: the error values `ErrBaseURLRequired` and `ErrAPIKeyRequired`
are declared in a file of the package that is not part of the sources at hand; the spec
names them `ConfigurationError::BaseURLRequired` and `ConfigurationError::APIKeyRequired`,
two distinct errors.  The other two constructors are the two error types that
`encoding/json` returns from `Unmarshal`. -/
inductive GoError where
  | ErrBaseURLRequired
  | ErrAPIKeyRequired
  | SyntaxError
  | UnmarshalTypeError
  deriving DecidableEq, Repr

/-! ## client.go -/

/-- The constant `defaultBaseURL`. -/
def defaultBaseURL : GoString := str "https://openrouter.ai/api/v1"

/-- The constant `defaultTimeout`. -/
def defaultTimeout : Duration := 3 * time.Minute

/-- The struct `net/http.Client`.  The package reads and writes `Timeout` only; the other
three fields are interface and function values, kept as uninterpreted handles. -/
structure http.Client where
  Transport : Nat := 0
  CheckRedirect : Nat := 0
  Jar : Nat := 0
  Timeout : Duration := 0
  deriving DecidableEq, Repr

/-- The struct `Client`.  `httpClient` is a `*http.Client`: an address or nil. -/
structure Client where
  httpClient : Option Nat := none
  baseURL : GoString := []
  apiKey : GoString := []
  refererURL : GoString := []
  refererTitle : GoString := []
  deriving DecidableEq, Repr

/-- The struct `clientBuilder`.  `client` is a `*Client`: an address or nil. -/
structure clientBuilder where
  client : Option Nat := none
  deriving DecidableEq, Repr

/-- The objects that pointers point to.  An address is an index into the list of the
objects of its type; allocation appends. -/
structure Heap where
  transports : List http.Client := []
  clients : List Client := []
  builders : List clientBuilder := []
  deriving DecidableEq, Repr

/-- Modelled from the spec: `strutil.RemoveTrailingSlashes` lives in the package
`internal/strutil`, which is not part of the sources at hand.  The spec says of
`withBaseURL` that it "stores URL with trailing slash(es) stripped" and that the
"normalization is purely textual": every `/` at the end of the string is removed. -/
def strutil.RemoveTrailingSlashes (s : GoString) : GoString :=
  s.rdropWhile (fun b => b.val = 0x2F)

/-- The object `b.client` points to, for a builder at address `b`: `none` when `b` is
not the address of a builder or `b.client` is nil (the dereference panics). -/
def Heap.clientOf (σ : Heap) (b : Nat) : Option (Nat × Client) :=
  match σ.builders[b]? with
  | none => none
  | some bld =>
    match bld.client with
    | none => none
    | some c =>
      match σ.clients[c]? with
      | none => none
      | some cl => some (c, cl)

/-- The assignment `b.client.f = v`, as an update of the client object at address `c`. -/
def Heap.setClient (σ : Heap) (c : Nat) (cl : Client) : Heap :=
  { σ with clients := σ.clients.set c cl }

/-- The function `NewClient`: allocates a transport with the default timeout, a client
with the default base URL, and a builder; returns the heap and the builder's address. -/
def NewClient (σ : Heap) : Heap × Nat :=
  let t := σ.transports.length
  let c := σ.clients.length
  let b := σ.builders.length
  ({ transports := σ.transports ++ [{ Timeout := defaultTimeout }],
     clients := σ.clients ++ [{ httpClient := some t, baseURL := defaultBaseURL }],
     builders := σ.builders ++ [{ client := some c }] }, b)

/-- The method `clientBuilder.WithBaseURL`. -/
def clientBuilder.WithBaseURL (σ : Heap) (b : Nat) (baseURL : GoString) : Option (Heap × Nat) :=
  match σ.clientOf b with
  | none => none
  | some (c, cl) =>
    some (σ.setClient c { cl with baseURL := strutil.RemoveTrailingSlashes baseURL }, b)

/-- The method `clientBuilder.WithAPIKey`. -/
def clientBuilder.WithAPIKey (σ : Heap) (b : Nat) (apiKey : GoString) : Option (Heap × Nat) :=
  match σ.clientOf b with
  | none => none
  | some (c, cl) => some (σ.setClient c { cl with apiKey := apiKey }, b)

/-- The method `clientBuilder.WithHTTPClient`. -/
def clientBuilder.WithHTTPClient (σ : Heap) (b : Nat) (httpClient : Option Nat) :
    Option (Heap × Nat) :=
  match σ.clientOf b with
  | none => none
  | some (c, cl) => some (σ.setClient c { cl with httpClient := httpClient }, b)

/-- The method `clientBuilder.WithDefaultTimeout`: a nil `httpClient` is first replaced by
a freshly allocated `&http.Client{}`; then `Timeout` is written through the pointer. -/
def clientBuilder.WithDefaultTimeout (σ : Heap) (b : Nat) (timeout : Duration) :
    Option (Heap × Nat) :=
  match σ.clientOf b with
  | none => none
  | some (c, cl) =>
    let alloc : Heap × Nat :=
      match cl.httpClient with
      | none =>
        let t := σ.transports.length
        (Heap.setClient { σ with transports := σ.transports ++ [http.Client.mk 0 0 0 0] } c
          { cl with httpClient := some t }, t)
      | some t => (σ, t)
    match alloc.1.transports[alloc.2]? with
    | none => none
    | some tr =>
      some ({ alloc.1 with
              transports := alloc.1.transports.set alloc.2 { tr with Timeout := timeout } }, b)

/-- The method `clientBuilder.WithRefererURL`. -/
def clientBuilder.WithRefererURL (σ : Heap) (b : Nat) (refererURL : GoString) :
    Option (Heap × Nat) :=
  match σ.clientOf b with
  | none => none
  | some (c, cl) => some (σ.setClient c { cl with refererURL := refererURL }, b)

/-- The method `clientBuilder.WithRefererTitle`. -/
def clientBuilder.WithRefererTitle (σ : Heap) (b : Nat) (refererTitle : GoString) :
    Option (Heap × Nat) :=
  match σ.clientOf b with
  | none => none
  | some (c, cl) => some (σ.setClient c { cl with refererTitle := refererTitle }, b)

/-- The method `clientBuilder.Create`: the heap after the call, the returned `*Client`
and the returned `error`. -/
def clientBuilder.Create (σ : Heap) (b : Nat) : Option (Heap × Option Nat × Option GoError) :=
  match σ.clientOf b with
  | none => none
  | some (c, cl) =>
    if cl.baseURL = [] then some (σ, none, some GoError.ErrBaseURLRequired)
    else if cl.apiKey = [] then some (σ, none, some GoError.ErrAPIKeyRequired)
    else some (σ, some c, none)

/-- A call of one of the six mutators of the builder, with its argument. -/
inductive Mutator where
  | WithBaseURL (baseURL : GoString)
  | WithAPIKey (apiKey : GoString)
  | WithHTTPClient (httpClient : Option Nat)
  | WithDefaultTimeout (timeout : Duration)
  | WithRefererURL (refererURL : GoString)
  | WithRefererTitle (refererTitle : GoString)
  deriving DecidableEq, Repr

/-- Runs one mutator call on the builder at address `b`. -/
def Mutator.run (σ : Heap) (b : Nat) : Mutator → Option (Heap × Nat)
  | .WithBaseURL u => clientBuilder.WithBaseURL σ b u
  | .WithAPIKey k => clientBuilder.WithAPIKey σ b k
  | .WithHTTPClient p => clientBuilder.WithHTTPClient σ b p
  | .WithDefaultTimeout d => clientBuilder.WithDefaultTimeout σ b d
  | .WithRefererURL u => clientBuilder.WithRefererURL σ b u
  | .WithRefererTitle t => clientBuilder.WithRefererTitle σ b t

/-- A chain of mutator calls `b.m₁(..).m₂(..)...`, each on the builder that the one
before returned. -/
def Mutator.chain (σ : Heap) (b : Nat) : List Mutator → Option (Heap × Nat)
  | [] => some (σ, b)
  | m :: ms =>
    match m.run σ b with
    | none => none
    | some (σ₁, b₁) => Mutator.chain σ₁ b₁ ms

/-- The heap in which nothing has been allocated. -/
def Heap.empty : Heap := Heap.mk [] [] []

/-- The call `b.Create()` on the builder that a call returning `r` returned; a panic in
the chain before it is a panic of the whole expression. -/
def thenCreate (r : Option (Heap × Nat)) : Option (Heap × Option Nat × Option GoError) :=
  match r with
  | none => none
  | some (σ, b) => clientBuilder.Create σ b

/-- The object a returned `*Client` points to, in the heap returned with it. -/
def createdClient (r : Option (Heap × Option Nat × Option GoError)) : Option Client :=
  match r with
  | some (σ, some c, _) => σ.clients[c]?
  | _ => none

/-- A chain of calls that replaces the transport by nil, sets a timeout, and supplies
a base URL and a key. -/
def exampleChain : List Mutator :=
  [Mutator.WithRefererTitle (str "app"), Mutator.WithHTTPClient none,
   Mutator.WithDefaultTimeout 5, Mutator.WithBaseURL (str "https://x//"),
   Mutator.WithAPIKey (str "k")]

/-- The heap after `exampleChain` has run on `NewClient()` in the empty heap. -/
def exampleChainHeap : Heap :=
  Heap.mk [http.Client.mk 0 0 0 defaultTimeout, http.Client.mk 0 0 0 5]
    [Client.mk (some 1) (str "https://x") (str "k") [] (str "app")] [clientBuilder.mk (some 0)]

/-- The heap after `NewClient().WithAPIKey("k").WithBaseURL("")` in the empty heap: the
key is set and the base URL is missing. -/
def exampleNoBaseURLHeap : Heap :=
  Heap.mk [http.Client.mk 0 0 0 defaultTimeout]
    [Client.mk (some 0) [] (str "k") [] []] [clientBuilder.mk (some 0)]

/-! ## unicode/utf8 and unicode/utf16 -/

namespace utf8

/-- The table `first`: information about the first byte of a UTF-8 sequence.  `0xF0` (`as`)
is ASCII, `0xF1` (`xx`) is invalid; otherwise the low three bits are the length of the
sequence and the high four bits index `acceptRanges`. -/
def first (p0 : Nat) : Nat :=
  if p0 < 0x80 then 0xF0
  else if p0 < 0xC2 then 0xF1
  else if p0 < 0xE0 then 0x02
  else if p0 = 0xE0 then 0x13
  else if p0 < 0xED then 0x03
  else if p0 = 0xED then 0x23
  else if p0 < 0xF0 then 0x03
  else if p0 = 0xF0 then 0x34
  else if p0 < 0xF4 then 0x04
  else if p0 = 0xF4 then 0x44
  else 0xF1

/-- The table `acceptRanges`: the range `(lo, hi)` of valid second bytes. -/
def acceptRanges (i : Nat) : Nat × Nat :=
  match i with
  | 0 => (0x80, 0xBF)
  | 1 => (0xA0, 0xBF)
  | 2 => (0x80, 0x9F)
  | 3 => (0x90, 0xBF)
  | 4 => (0x80, 0x8F)
  | _ => (0, 0)

/-- The function `utf8.DecodeRune` (and `utf8.DecodeRuneInString`): the first rune of `p`
and the number of bytes it takes; `(RuneError, 0)` for the empty input and `(RuneError, 1)`
for an invalid encoding. -/
def DecodeRune (p : List Byte) : Nat × Nat :=
  match p with
  | [] => (RuneError, 0)
  | p0 :: t =>
    let x := first p0.val
    if x ≥ 0xF0 then
      -- `mask := rune(x) << 31 >> 31` is all ones when bit 0 of `x` is set (`xx`)
      if x &&& 1 = 1 then (RuneError, 1) else (p0.val, 1)
    else
      let sz := x &&& 7
      let accept := acceptRanges (x >>> 4)
      if p.length < sz then (RuneError, 1)
      else
        match t with
        | [] => (RuneError, 1)
        | b1 :: t1 =>
          if b1.val < accept.1 ∨ accept.2 < b1.val then (RuneError, 1)
          else if sz ≤ 2 then (((p0.val &&& 0x1F) <<< 6) ||| (b1.val &&& 0x3F), 2)
          else
            match t1 with
            | [] => (RuneError, 1)
            | b2 :: t2 =>
              if b2.val < 0x80 ∨ 0xBF < b2.val then (RuneError, 1)
              else if sz ≤ 3 then
                ((((p0.val &&& 0x0F) <<< 12) ||| ((b1.val &&& 0x3F) <<< 6)) |||
                  (b2.val &&& 0x3F), 3)
              else
                match t2 with
                | [] => (RuneError, 1)
                | b3 :: _ =>
                  if b3.val < 0x80 ∨ 0xBF < b3.val then (RuneError, 1)
                  else
                    (((((p0.val &&& 0x07) <<< 18) ||| ((b1.val &&& 0x3F) <<< 12)) |||
                      ((b2.val &&& 0x3F) <<< 6)) ||| (b3.val &&& 0x3F), 4)

end utf8

namespace utf16

/-- The function `utf16.IsSurrogate`. -/
def IsSurrogate (r : Nat) : Bool := 0xD800 ≤ r && r < 0xE000

/-- The function `utf16.DecodeRune`: the rune of a surrogate pair, U+FFFD when the pair is
not valid.  The second argument is `none` for the rune `-1`. -/
def DecodeRune (r1 : Nat) (r2 : Option Nat) : Nat :=
  match r2 with
  | none => 0xFFFD
  | some r2 =>
    if 0xD800 ≤ r1 ∧ r1 < 0xDC00 ∧ 0xDC00 ≤ r2 ∧ r2 < 0xE000 then
      (((r1 - 0xD800) <<< 10) ||| (r2 - 0xDC00)) + 0x10000
    else 0xFFFD

end utf16

/-! ## encoding/json: writing a string -/

namespace json

/-- The table `htmlSafeSet`: the ASCII bytes that `Marshal` copies into a string unescaped.
Every byte from `0x20` to `0x7F` except the five bytes `"`, `&`, `<`, `>` and `\`. -/
def htmlSafeSet (b : Nat) : Bool :=
  0x20 ≤ b && b < 0x80 && b != 0x22 && b != 0x26 && b != 0x3C && b != 0x3E && b != 0x5C

/-- The constant `hex`, `"0123456789abcdef"`, indexed. -/
def hex (n : Nat) : Byte := if n < 10 then byte (0x30 + n) else byte (0x61 + (n - 10))

/-- The loop of `appendString` from the position where `src` starts, with `escapeHTML`
set as `Marshal` sets it.  Each round consumes at least one byte; `fuel` bounds the
number of rounds. -/
def appendStringLoop : Nat → List Byte → List Byte
  | 0, _ => []
  | _ + 1, [] => []
  | fuel + 1, b :: rest =>
    if b.val < 0x80 then
      if htmlSafeSet b.val then b :: appendStringLoop fuel rest
      else if b.val = 0x5C ∨ b.val = 0x22 then 0x5C :: b :: appendStringLoop fuel rest
      else if b.val = 0x08 then 0x5C :: 0x62 :: appendStringLoop fuel rest
      else if b.val = 0x0C then 0x5C :: 0x66 :: appendStringLoop fuel rest
      else if b.val = 0x0A then 0x5C :: 0x6E :: appendStringLoop fuel rest
      else if b.val = 0x0D then 0x5C :: 0x72 :: appendStringLoop fuel rest
      else if b.val = 0x09 then 0x5C :: 0x74 :: appendStringLoop fuel rest
      else
        0x5C :: 0x75 :: 0x30 :: 0x30 :: hex (b.val >>> 4) :: hex (b.val &&& 0xF) ::
          appendStringLoop fuel rest
    else
      let d := utf8.DecodeRune ((b :: rest).take 4)
      if d.1 = utf8.RuneError ∧ d.2 = 1 then
        0x5C :: 0x75 :: 0x66 :: 0x66 :: 0x66 :: 0x64 ::
          appendStringLoop fuel ((b :: rest).drop d.2)
      else if d.1 = 0x2028 ∨ d.1 = 0x2029 then
        0x5C :: 0x75 :: 0x32 :: 0x30 :: 0x32 :: hex (d.1 &&& 0xF) ::
          appendStringLoop fuel ((b :: rest).drop d.2)
      else (b :: rest).take d.2 ++ appendStringLoop fuel ((b :: rest).drop d.2)

/-- The function `appendString` as `Marshal` calls it: the JSON string literal for `src`,
in which a byte that is not valid UTF-8 is written as the escape of U+FFFD.  (The
two-character escapes of backspace and form feed are those of Go 1.22 and later; earlier
releases write the six-character escapes, which stand for the same bytes.) -/
def appendString (src : GoString) : List Byte :=
  0x22 :: (appendStringLoop src.length src ++ [0x22])

/-- The call `json.Marshal(s)` for a Go string `s`: the bytes and the error, which is
always nil. -/
def MarshalString (s : GoString) : List Byte × Option GoError := (appendString s, none)

/-! ## encoding/json: reading -/

/-- The function `isSpace` of the scanner. -/
def isSpace (c : Byte) : Bool := c.val = 0x20 || c.val = 0x09 || c.val = 0x0D || c.val = 0x0A

/-- Skips the white space at the start of the input. -/
def skipSpace : List Byte → List Byte
  | [] => []
  | c :: rest => if isSpace c then skipSpace rest else c :: rest

/-- Whether `c` is a hexadecimal digit, as the scanner tests it in a `\u` escape. -/
def isHex (c : Byte) : Bool :=
  (0x30 ≤ c.val && c.val ≤ 0x39) || (0x61 ≤ c.val && c.val ≤ 0x66) ||
    (0x41 ≤ c.val && c.val ≤ 0x46)

/-- The scanner inside a string literal, after the opening quote (`stateInString`,
`stateInStringEsc`, `stateInStringEscU` to `stateInStringEscU123`): the bytes up to the
closing quote and the input after it, `none` for a syntax error.  Each round consumes at
least one byte; `fuel` bounds the number of rounds. -/
def scanString : Nat → List Byte → Option (List Byte × List Byte)
  | 0, _ => none
  | _ + 1, [] => none
  | fuel + 1, c :: rest =>
    if c.val = 0x22 then some ([], rest)
    else if c.val = 0x5C then
      match rest with
      | [] => none
      | e :: rest₁ =>
        if e.val = 0x62 ∨ e.val = 0x66 ∨ e.val = 0x6E ∨ e.val = 0x72 ∨ e.val = 0x74 ∨
            e.val = 0x5C ∨ e.val = 0x2F ∨ e.val = 0x22 then
          match scanString fuel rest₁ with
          | none => none
          | some (body, after) => some (c :: e :: body, after)
        else if e.val = 0x75 then
          if 4 ≤ rest₁.length ∧ (rest₁.take 4).all isHex then
            match scanString fuel (rest₁.drop 4) with
            | none => none
            | some (body, after) => some (c :: e :: rest₁.take 4 ++ body, after)
          else none
        else none
    else if c.val < 0x20 then none
    else
      match scanString fuel rest with
      | none => none
      | some (body, after) => some (c :: body, after)

/-- The digits at the start of the input, and the input after them. -/
def scanDigits : List Byte → List Byte × List Byte
  | [] => ([], [])
  | c :: rest =>
    if 0x30 ≤ c.val ∧ c.val ≤ 0x39 then (c :: (scanDigits rest).1, (scanDigits rest).2)
    else ([], c :: rest)

/-- The scanner after the integer part of a number (`state0`, `stateDot`, `stateDot0`): an
optional fraction. -/
def scanFrac (input : List Byte) : Option (List Byte × List Byte) :=
  match input with
  | [] => some ([], [])
  | d :: rest =>
    if d.val = 0x2E then
      if (scanDigits rest).1 = [] then none
      else some (d :: (scanDigits rest).1, (scanDigits rest).2)
    else some ([], input)

/-- The scanner after the fraction of a number (`stateE`, `stateESign`, `stateE0`): an
optional exponent. -/
def scanExp (input : List Byte) : Option (List Byte × List Byte) :=
  match input with
  | [] => some ([], [])
  | e :: rest =>
    if e.val = 0x65 ∨ e.val = 0x45 then
      match rest with
      | [] => none
      | s :: rest₁ =>
        if s.val = 0x2B ∨ s.val = 0x2D then
          if (scanDigits rest₁).1 = [] then none
          else some (e :: s :: (scanDigits rest₁).1, (scanDigits rest₁).2)
        else if (scanDigits rest).1 = [] then none
        else some (e :: (scanDigits rest).1, (scanDigits rest).2)
    else some ([], input)

/-- The scanner on the digits of a number, after the optional minus sign (`stateNeg`,
`state0`, `state1` and the states of the fraction and the exponent). -/
def scanUnsigned (input : List Byte) : Option (List Byte × List Byte) :=
  match input with
  | [] => none
  | d :: rest =>
    let intPart : Option (List Byte × List Byte) :=
      if d.val = 0x30 then some ([d], rest)
      else if 0x31 ≤ d.val ∧ d.val ≤ 0x39 then
        some (d :: (scanDigits rest).1, (scanDigits rest).2)
      else none
    match intPart with
    | none => none
    | some (ip, r₁) =>
      match scanFrac r₁ with
      | none => none
      | some (fp, r₂) =>
        match scanExp r₂ with
        | none => none
        | some (ep, r₃) => some (ip ++ fp ++ ep, r₃)

/-- The scanner on a number literal: the literal and the input after it. -/
def scanNumber (input : List Byte) : Option (List Byte × List Byte) :=
  match input with
  | [] => none
  | c :: rest =>
    if c.val = 0x2D then
      match scanUnsigned rest with
      | none => none
      | some (item, after) => some (c :: item, after)
    else scanUnsigned input

/-- The scanner on one of the literals `true`, `false` and `null`. -/
def scanWord (word : List Byte) (input : List Byte) : Option (List Byte × List Byte) :=
  if word.isPrefixOf input then some (word, input.drop word.length) else none

end json

/-- A JSON value as the scanner of `encoding/json` delimits it: a literal (`null`, `true`,
`false`, a number or a string) is kept as its bytes, as the decoder receives it; the key
of an object member is the string literal of the key. -/
inductive JSON where
  | literal (item : List Byte)
  | array (elems : List JSON)
  | object (members : List (List Byte × JSON))

namespace json

/-- The constant `maxNestingDepth` of the scanner. -/
def maxNestingDepth : Nat := 10000

mutual

/-- The scanner on a value that starts at the first byte of the input: the value and the
input after it, `none` for a syntax error.  `depth` is the number of arrays and objects
that are open; `fuel` bounds the depth of the recursion. -/
def parseValue : Nat → Nat → List Byte → Option (JSON × List Byte)
  | 0, _, _ => none
  | fuel + 1, depth, input =>
    match input with
    | [] => none
    | c :: rest =>
      if c.val = 0x7B then
        if depth + 1 > maxNestingDepth then none
        else
          match skipSpace rest with
          | [] => none
          | c₁ :: rest₁ =>
            if c₁.val = 0x7D then some (JSON.object [], rest₁)
            else
              match parseMembers fuel (depth + 1) (c₁ :: rest₁) with
              | none => none
              | some (ms, after) => some (JSON.object ms, after)
      else if c.val = 0x5B then
        if depth + 1 > maxNestingDepth then none
        else
          match skipSpace rest with
          | [] => none
          | c₁ :: rest₁ =>
            if c₁.val = 0x5D then some (JSON.array [], rest₁)
            else
              match parseElems fuel (depth + 1) (c₁ :: rest₁) with
              | none => none
              | some (es, after) => some (JSON.array es, after)
      else if c.val = 0x22 then
        match scanString rest.length rest with
        | none => none
        | some (body, after) => some (JSON.literal (c :: (body ++ [0x22])), after)
      else if c.val = 0x74 then
        match scanWord [0x74, 0x72, 0x75, 0x65] input with
        | none => none
        | some (item, after) => some (JSON.literal item, after)
      else if c.val = 0x66 then
        match scanWord [0x66, 0x61, 0x6C, 0x73, 0x65] input with
        | none => none
        | some (item, after) => some (JSON.literal item, after)
      else if c.val = 0x6E then
        match scanWord [0x6E, 0x75, 0x6C, 0x6C] input with
        | none => none
        | some (item, after) => some (JSON.literal item, after)
      else
        match scanNumber input with
        | none => none
        | some (item, after) => some (JSON.literal item, after)

/-- The scanner on the elements of an array, from the first byte of an element to the
closing bracket. -/
def parseElems : Nat → Nat → List Byte → Option (List JSON × List Byte)
  | 0, _, _ => none
  | fuel + 1, depth, input =>
    match parseValue fuel depth input with
    | none => none
    | some (v, rest) =>
      match skipSpace rest with
      | [] => none
      | c :: rest₁ =>
        if c.val = 0x2C then
          match parseElems fuel depth (skipSpace rest₁) with
          | none => none
          | some (es, after) => some (v :: es, after)
        else if c.val = 0x5D then some ([v], rest₁)
        else none

/-- The scanner on the members of an object, from the opening quote of a key to the
closing brace. -/
def parseMembers : Nat → Nat → List Byte → Option (List (List Byte × JSON) × List Byte)
  | 0, _, _ => none
  | fuel + 1, depth, input =>
    match input with
    | [] => none
    | q :: rest =>
      if q.val = 0x22 then
        match scanString rest.length rest with
        | none => none
        | some (body, after) =>
          match skipSpace after with
          | [] => none
          | c :: rest₁ =>
            if c.val = 0x3A then
              match parseValue fuel depth (skipSpace rest₁) with
              | none => none
              | some (v, rest₂) =>
                match skipSpace rest₂ with
                | [] => none
                | c₂ :: rest₃ =>
                  if c₂.val = 0x2C then
                    match parseMembers fuel depth (skipSpace rest₃) with
                    | none => none
                    | some (ms, after₂) => some ((q :: (body ++ [0x22]), v) :: ms, after₂)
                  else if c₂.val = 0x7D then some ([(q :: (body ++ [0x22]), v)], rest₃)
                  else none
            else none
      else none

end

/-- The scanner on a whole input (`checkValid`, with the tokens it passes): one value
between optional white space, `none` for a syntax error. -/
def scan (data : List Byte) : Option JSON :=
  match parseValue (2 * data.length + 2) 0 (skipSpace data) with
  | none => none
  | some (t, rest) => if skipSpace rest = [] then some t else none

/-- The value of a hexadecimal digit in `getu4`, `none` for another byte. -/
def hexVal (c : Byte) : Option Nat :=
  if 0x30 ≤ c.val ∧ c.val ≤ 0x39 then some (c.val - 0x30)
  else if 0x61 ≤ c.val ∧ c.val ≤ 0x66 then some (c.val - 0x61 + 10)
  else if 0x41 ≤ c.val ∧ c.val ≤ 0x46 then some (c.val - 0x41 + 10)
  else none

/-- The function `getu4`: the rune of the escape `\uXXXX` at the start of `s`, `none`
(Go: `-1`) when `s` does not start with one. -/
def getu4 (s : List Byte) : Option Nat :=
  match s with
  | b0 :: b1 :: h1 :: h2 :: h3 :: h4 :: _ =>
    if b0.val ≠ 0x5C ∨ b1.val ≠ 0x75 then none
    else
      match hexVal h1, hexVal h2, hexVal h3, hexVal h4 with
      | some v1, some v2, some v3, some v4 => some ((((0 * 16 + v1) * 16 + v2) * 16 + v3) * 16 + v4)
      | _, _, _, _ => none
  | _ => none

/-- The first loop of `unquoteBytes`: the input from the first byte that needs unquoting
(a backslash, a quote, a control character or an invalid UTF-8 byte) on. -/
def unquoteSkip : Nat → List Byte → List Byte
  | 0, s => s
  | _ + 1, [] => []
  | fuel + 1, c :: rest =>
    if c.val = 0x5C ∨ c.val = 0x22 ∨ c.val < 0x20 then c :: rest
    else if c.val < 0x80 then unquoteSkip fuel rest
    else
      let d := utf8.DecodeRune (c :: rest)
      if d.1 = utf8.RuneError ∧ d.2 = 1 then c :: rest
      else unquoteSkip fuel ((c :: rest).drop d.2)

/-- The second loop of `unquoteBytes`: the bytes that the rest of the literal stands for,
`none` when it is not a valid literal. -/
def unquoteLoop : Nat → List Byte → Option (List Byte)
  | 0, _ => none
  | _ + 1, [] => some []
  | fuel + 1, c :: rest =>
    if c.val = 0x5C then
      match rest with
      | [] => none
      | e :: rest₁ =>
        if e.val = 0x22 ∨ e.val = 0x5C ∨ e.val = 0x2F ∨ e.val = 0x27 then
          (unquoteLoop fuel rest₁).map (fun t => e :: t)
        else if e.val = 0x62 then (unquoteLoop fuel rest₁).map (fun t => 0x08 :: t)
        else if e.val = 0x66 then (unquoteLoop fuel rest₁).map (fun t => 0x0C :: t)
        else if e.val = 0x6E then (unquoteLoop fuel rest₁).map (fun t => 0x0A :: t)
        else if e.val = 0x72 then (unquoteLoop fuel rest₁).map (fun t => 0x0D :: t)
        else if e.val = 0x74 then (unquoteLoop fuel rest₁).map (fun t => 0x09 :: t)
        else if e.val = 0x75 then
          match getu4 (c :: rest) with
          | none => none
          | some rr =>
            if utf16.IsSurrogate rr then
              let dec := utf16.DecodeRune rr (getu4 ((c :: rest).drop 6))
              if dec ≠ 0xFFFD then
                (unquoteLoop fuel ((c :: rest).drop 12)).map (fun t => utf8.EncodeRune dec ++ t)
              else
                (unquoteLoop fuel ((c :: rest).drop 6)).map
                  (fun t => utf8.EncodeRune 0xFFFD ++ t)
            else
              (unquoteLoop fuel ((c :: rest).drop 6)).map (fun t => utf8.EncodeRune rr ++ t)
        else none
    else if c.val = 0x22 ∨ c.val < 0x20 then none
    else if c.val < 0x80 then (unquoteLoop fuel rest).map (fun t => c :: t)
    else
      let d := utf8.DecodeRune (c :: rest)
      (unquoteLoop fuel ((c :: rest).drop d.2)).map (fun t => utf8.EncodeRune d.1 ++ t)

/-- The function `unquoteBytes`: the bytes that the string literal `s` stands for, `none`
(Go: `ok == false`) when `s` is not a string literal. -/
def unquoteBytes (s : List Byte) : Option (List Byte) :=
  if s.length < 2 ∨ s.head? ≠ some 0x22 ∨ s.getLast? ≠ some 0x22 then none
  else
    let body := (s.drop 1).dropLast
    let tail := unquoteSkip body.length body
    if tail = [] then some body
    else
      match unquoteLoop (tail.length + 1) tail with
      | none => none
      | some t => some (body.take (body.length - tail.length) ++ t)

/-- The outcome of decoding one value into a target: the target after the call, the
field `savedError` of the decoder after the call, and the error the call returned. -/
structure Out (α : Type) where
  val : α
  saved : Option GoError
  err : Option GoError

/-- The method `decodeState.saveError`: the first error saved is kept. -/
def saveError (saved : Option GoError) (e : GoError) : Option GoError :=
  match saved with
  | none => some e
  | some e₀ => some e₀

/-- The kinds of literal that `literalStore` tells apart by the first byte of the item.
`invalid` is an item that the scanner cannot have delimited (Go panics on it). -/
inductive LiteralKind where
  | null
  | bool
  | string
  | number
  | invalid
  deriving DecidableEq, Repr

/-- The switch of `literalStore` on the first byte of the item. -/
def literalKind (item : List Byte) : LiteralKind :=
  match item with
  | [] => LiteralKind.invalid
  | c :: _ =>
    if c.val = 0x6E then LiteralKind.null
    else if c.val = 0x74 ∨ c.val = 0x66 then LiteralKind.bool
    else if c.val = 0x22 then LiteralKind.string
    else if c.val = 0x2D ∨ (0x30 ≤ c.val ∧ c.val ≤ 0x39) then LiteralKind.number
    else LiteralKind.invalid

/-- The outcome of a value of the wrong JSON type: the target is left as it is and an
`UnmarshalTypeError` is saved; decoding goes on. -/
def typeError {α : Type} (v : α) (saved : Option GoError) : Out α :=
  ⟨v, saveError saved GoError.UnmarshalTypeError, none⟩

/-- The outcome of an item that the scanner cannot have delimited.  Go panics there; it is
reported here as the syntax error with which `checkValid` rejects such an input. -/
def outOfSync {α : Type} (v : α) (saved : Option GoError) : Out α :=
  ⟨v, saved, some GoError.SyntaxError⟩

/-- The method `decodeState.value` for a target of kind `string`.  An array, an object, a
boolean or a number is a type error; `null` leaves the target as it is. -/
def storeString (t : JSON) (v : GoString) (saved : Option GoError) : Out GoString :=
  match t with
  | JSON.array _ => typeError v saved
  | JSON.object _ => typeError v saved
  | JSON.literal item =>
    match literalKind item with
    | LiteralKind.null => ⟨v, saved, none⟩
    | LiteralKind.bool => typeError v saved
    | LiteralKind.string =>
      match unquoteBytes item with
      | none => outOfSync v saved
      | some s => ⟨s, saved, none⟩
    | LiteralKind.number => typeError v saved
    | LiteralKind.invalid => outOfSync v saved

/-- The function `json.Unmarshal(data, &v)`, for a target whose decoding is `dec`: the
target after the call and the error returned.  The input is checked as a whole first; then
the value is decoded, and the error is the one the decoding returned or else the one it
saved. -/
def Unmarshal {α : Type} (dec : JSON → α → Option GoError → Out α) (data : List Byte) (v : α) :
    α × Option GoError :=
  match scan data with
  | none => (v, some GoError.SyntaxError)
  | some t =>
    match (dec t v none).err with
    | some e => ((dec t v none).val, some e)
    | none => ((dec t v none).val, (dec t v none).saved)

end json

/-! ## chat_completion_response.go: the finish reason -/

/-- The type `chatCompletionFinishReason`, an `enum.Member[string]`: a struct with the one
field `Value`. -/
structure chatCompletionFinishReason where
  Value : GoString
  deriving DecidableEq, Repr

/-- The method `chatCompletionFinishReason.MarshalJSON`. -/
def chatCompletionFinishReason.MarshalJSON (cfr : chatCompletionFinishReason) :
    List Byte × Option GoError :=
  json.MarshalString cfr.Value

/-- The method `chatCompletionFinishReason.UnmarshalJSON`: the receiver after the call and
the error returned. -/
def chatCompletionFinishReason.UnmarshalJSON (cfr : chatCompletionFinishReason)
    (data : List Byte) : chatCompletionFinishReason × Option GoError :=
  match json.Unmarshal json.storeString data [] with
  | (_, some err) => (cfr, some err)
  | (value, none) => ({ Value := value }, none)

/-- The variable `FinishReasonStop`. -/
def FinishReasonStop : chatCompletionFinishReason := ⟨str "stop"⟩

/-- The variable `FinishReasonLength`. -/
def FinishReasonLength : chatCompletionFinishReason := ⟨str "length"⟩

/-- The variable `FinishReasonContentFilter`. -/
def FinishReasonContentFilter : chatCompletionFinishReason := ⟨str "content_filter"⟩

/-- The variable `FinishReasonToolCalls`. -/
def FinishReasonToolCalls : chatCompletionFinishReason := ⟨str "tool_calls"⟩

/-- The variable `FinishReasonError`. -/
def FinishReasonError : chatCompletionFinishReason := ⟨str "error"⟩

/-! ## What a JSON string is: RFC 3629 and RFC 8259

The definitions of this section follow the two RFCs, not the code.  They say which byte
sequences are UTF-8 and which byte sequences are string tokens of JSON, and what string a
token stands for. -/

namespace rfc3629

/-- The rule `UTF8-tail = %x80-BF`. -/
def tail (b : Byte) : Bool := 0x80 ≤ b.val && b.val ≤ 0xBF

/-- The rule `UTF8-2 = %xC2-DF UTF8-tail`. -/
def char2 (b0 b1 : Byte) : Bool := 0xC2 ≤ b0.val && b0.val ≤ 0xDF && tail b1

/-- The rule `UTF8-3 = %xE0 %xA0-BF UTF8-tail / %xE1-EC 2( UTF8-tail ) /
%xED %x80-9F UTF8-tail / %xEE-EF 2( UTF8-tail )`. -/
def char3 (b0 b1 b2 : Byte) : Bool :=
  ((b0.val = 0xE0 && 0xA0 ≤ b1.val && b1.val ≤ 0xBF) ||
   (0xE1 ≤ b0.val && b0.val ≤ 0xEC && tail b1) ||
   (b0.val = 0xED && 0x80 ≤ b1.val && b1.val ≤ 0x9F) ||
   (0xEE ≤ b0.val && b0.val ≤ 0xEF && tail b1)) && tail b2

/-- The rule `UTF8-4 = %xF0 %x90-BF 2( UTF8-tail ) / %xF1-F3 3( UTF8-tail ) /
%xF4 %x80-8F 2( UTF8-tail )`. -/
def char4 (b0 b1 b2 b3 : Byte) : Bool :=
  ((b0.val = 0xF0 && 0x90 ≤ b1.val && b1.val ≤ 0xBF) ||
   (0xF1 ≤ b0.val && b0.val ≤ 0xF3 && tail b1) ||
   (b0.val = 0xF4 && 0x80 ≤ b1.val && b1.val ≤ 0x8F)) && tail b2 && tail b3

/-- The rule `UTF8-octets = *( UTF8-char )`: whether the bytes are valid UTF-8. -/
def valid : List Byte → Bool
  | [] => true
  | b0 :: rest =>
    if b0.val < 0x80 then valid rest
    else
      match rest with
      | [] => false
      | b1 :: r1 =>
        if char2 b0 b1 then valid r1
        else
          match r1 with
          | [] => false
          | b2 :: r2 =>
            if char3 b0 b1 b2 then valid r2
            else
              match r2 with
              | [] => false
              | b3 :: r3 => if char4 b0 b1 b2 b3 then valid r3 else false

/-- The UTF-8 encoding of the scalar value `c` (RFC 3629, section 3). -/
def encode (c : Nat) : List Byte :=
  if c < 0x80 then [byte c]
  else if c < 0x800 then [byte (0xC0 + c / 0x40), byte (0x80 + c % 0x40)]
  else if c < 0x10000 then
    [byte (0xE0 + c / 0x1000), byte (0x80 + c / 0x40 % 0x40), byte (0x80 + c % 0x40)]
  else
    [byte (0xF0 + c / 0x40000), byte (0x80 + c / 0x1000 % 0x40), byte (0x80 + c / 0x40 % 0x40),
     byte (0x80 + c % 0x40)]

end rfc3629

namespace rfc8259

/-- The value of a `HEXDIG`; the letters may be uppercase or lowercase. -/
def hexDigit (c : Byte) : Option Nat :=
  if 0x30 ≤ c.val ∧ c.val ≤ 0x39 then some (c.val - 0x30)
  else if 0x41 ≤ c.val ∧ c.val ≤ 0x46 then some (c.val - 0x41 + 10)
  else if 0x61 ≤ c.val ∧ c.val ≤ 0x66 then some (c.val - 0x61 + 10)
  else none

/-- The number that four hexadecimal digits write. -/
def hex4 (h1 h2 h3 h4 : Byte) : Option Nat :=
  match hexDigit h1, hexDigit h2, hexDigit h3, hexDigit h4 with
  | some v1, some v2, some v3, some v4 => some (v1 * 0x1000 + v2 * 0x100 + v3 * 0x10 + v4)
  | _, _, _, _ => none

/-- The two-character escapes: the byte after the backslash and the byte it stands for. -/
def simpleEscape (e : Byte) : Option Byte :=
  if e.val = 0x22 then some 0x22
  else if e.val = 0x5C then some 0x5C
  else if e.val = 0x2F then some 0x2F
  else if e.val = 0x62 then some 0x08
  else if e.val = 0x66 then some 0x0C
  else if e.val = 0x6E then some 0x0A
  else if e.val = 0x72 then some 0x0D
  else if e.val = 0x74 then some 0x09
  else none

/-- The characters between the quotes of a string token (rule `*char` of RFC 8259,
section 7, on UTF-8 text) and the string they stand for: an unescaped character other
than the quote, the backslash and the control characters stands for itself; a
two-character escape for its byte; `\uXXXX` for the UTF-8 encoding of the code point
`XXXX`; and a pair of such escapes that is a UTF-16 surrogate pair for the UTF-8 encoding
of the code point of the pair.  An escape that is a lone surrogate stands for no string. -/
inductive StringBody : List Byte → GoString → Prop where
  | nil : StringBody [] []
  | ascii (b : Byte) (t : List Byte) (s : GoString)
      (h : 0x20 ≤ b.val ∧ b.val < 0x80 ∧ b.val ≠ 0x22 ∧ b.val ≠ 0x5C) :
      StringBody t s → StringBody (b :: t) (b :: s)
  | utf8_2 (b0 b1 : Byte) (t : List Byte) (s : GoString) (h : rfc3629.char2 b0 b1 = true) :
      StringBody t s → StringBody (b0 :: b1 :: t) (b0 :: b1 :: s)
  | utf8_3 (b0 b1 b2 : Byte) (t : List Byte) (s : GoString)
      (h : rfc3629.char3 b0 b1 b2 = true) :
      StringBody t s → StringBody (b0 :: b1 :: b2 :: t) (b0 :: b1 :: b2 :: s)
  | utf8_4 (b0 b1 b2 b3 : Byte) (t : List Byte) (s : GoString)
      (h : rfc3629.char4 b0 b1 b2 b3 = true) :
      StringBody t s → StringBody (b0 :: b1 :: b2 :: b3 :: t) (b0 :: b1 :: b2 :: b3 :: s)
  | escape (e v : Byte) (t : List Byte) (s : GoString) (h : simpleEscape e = some v) :
      StringBody t s → StringBody (0x5C :: e :: t) (v :: s)
  | escapeU (h1 h2 h3 h4 : Byte) (c : Nat) (t : List Byte) (s : GoString)
      (h : hex4 h1 h2 h3 h4 = some c) (hc : c < 0xD800 ∨ 0xE000 ≤ c) :
      StringBody t s →
      StringBody (0x5C :: 0x75 :: h1 :: h2 :: h3 :: h4 :: t) (rfc3629.encode c ++ s)
  | escapePair (h1 h2 h3 h4 l1 l2 l3 l4 : Byte) (hi lo : Nat) (t : List Byte) (s : GoString)
      (hhi : hex4 h1 h2 h3 h4 = some hi) (hlo : hex4 l1 l2 l3 l4 = some lo)
      (hr : 0xD800 ≤ hi ∧ hi < 0xDC00 ∧ 0xDC00 ≤ lo ∧ lo < 0xE000) :
      StringBody t s →
      StringBody
        (0x5C :: 0x75 :: h1 :: h2 :: h3 :: h4 :: 0x5C :: 0x75 :: l1 :: l2 :: l3 :: l4 :: t)
        (rfc3629.encode (0x10000 + (hi - 0xD800) * 0x400 + (lo - 0xDC00)) ++ s)

/-- A string token of JSON and the string it stands for: `quotation-mark *char
quotation-mark`. -/
inductive StringToken : List Byte → GoString → Prop where
  | mk (body : List Byte) (s : GoString) :
      StringBody body s → StringToken (0x22 :: (body ++ [0x22])) s

end rfc8259

/-! ## encoding/json: reading numbers, structs and slices -/

namespace strconv

/-- The call `strconv.ParseInt(s, 10, 64)`: an optional sign and decimal digits, within
the range of `int64`; `none` for a syntax or range error. -/
def ParseInt (s : List Byte) : Option Int :=
  match s with
  | [] => none
  | c :: rest =>
    let digits := if c.val = 0x2B ∨ c.val = 0x2D then rest else c :: rest
    if digits = [] then none
    else if digits.all (fun d => 0x30 ≤ d.val && d.val ≤ 0x39) then
      let n : Nat := digits.foldl (fun acc d => acc * 10 + (d.val - 0x30)) 0
      if c.val = 0x2D then
        if n ≤ 2 ^ 63 then some (-(n : Int)) else none
      else
        if n < 2 ^ 63 then some (n : Int) else none
    else none

end strconv

mutual

/-- The text of a value: the item of a literal; for an array or an object, its tokens
without white space between them.  (The decoder hands an `Unmarshaler` the bytes of the
value as they stand in the input, white space between the tokens included.) -/
def JSON.raw : JSON → List Byte
  | JSON.literal item => item
  | JSON.array elems => 0x5B :: (JSON.rawElems elems ++ [0x5D])
  | JSON.object members => 0x7B :: (JSON.rawMembers members ++ [0x7D])

/-- The texts of the elements of an array, with commas between them. -/
def JSON.rawElems : List JSON → List Byte
  | [] => []
  | [e] => e.raw
  | e :: e₁ :: es => e.raw ++ 0x2C :: JSON.rawElems (e₁ :: es)

/-- The texts of the members of an object, with commas between them. -/
def JSON.rawMembers : List (List Byte × JSON) → List Byte
  | [] => []
  | [(k, v)] => k ++ 0x3A :: v.raw
  | (k, v) :: m :: ms => k ++ 0x3A :: (v.raw ++ 0x2C :: JSON.rawMembers (m :: ms))

end

namespace json

/-- The function `foldRune` where its result is an ASCII rune: the long s folds to `S` and
the Kelvin sign to `K`.  No other rune beyond ASCII has an ASCII rune in its orbit of
`unicode.SimpleFold`; for those Go returns some rune beyond ASCII, and so does this
definition (the rune itself), which is all that a comparison with the folded name of a
field, which is ASCII, depends on. -/
def foldRune (r : Nat) : Nat :=
  if r = 0x17F then 0x53 else if r = 0x212A then 0x4B else r

/-- The loop of `appendFoldedName`: ASCII letters are made upper case, and a rune beyond
ASCII is replaced by `foldRune` of it. -/
def appendFoldedName : Nat → List Byte → List Byte
  | 0, _ => []
  | _ + 1, [] => []
  | fuel + 1, c :: rest =>
    if c.val < 0x80 then
      (if 0x61 ≤ c.val ∧ c.val ≤ 0x7A then byte (c.val - 0x20) else c) ::
        appendFoldedName fuel rest
    else
      utf8.EncodeRune (foldRune (utf8.DecodeRune (c :: rest)).1) ++
        appendFoldedName fuel ((c :: rest).drop (utf8.DecodeRune (c :: rest)).2)

/-- The function `foldName`. -/
def foldName (name : GoString) : GoString := appendFoldedName name.length name

/-- The field that a key of an object names, by its index in the list of the JSON names of
the fields of the struct: the field whose name is the key (`byExactName`) or else the one
whose name is the key up to case (`byFoldedName`). -/
def fieldIndex (names : List GoString) (key : GoString) : Option Nat :=
  match names.indexOf? key with
  | some i => some i
  | none => (names.map foldName).indexOf? (foldName key)

/-- Whether the key token `k` of a member names the field with index `i`. -/
def names (fields : List GoString) (i : Nat) (k : List Byte) : Bool :=
  match unquoteBytes k with
  | none => false
  | some key => fieldIndex fields key == some i

/-- Whether no member of an object names the field with index `i`. -/
def omits (fields : List GoString) (i : Nat) (members : List (List Byte × JSON)) : Bool :=
  members.all (fun m => !names fields i m.1)

/-- The method `decodeState.value` for a target of kind `int`.  A number that
`strconv.ParseInt` rejects (a fraction, an exponent, a value outside `int64`) is a type
error, like a string, a boolean, an array or an object. -/
def storeInt (t : JSON) (v : Int) (saved : Option GoError) : Out Int :=
  match t with
  | JSON.array _ => typeError v saved
  | JSON.object _ => typeError v saved
  | JSON.literal item =>
    match literalKind item with
    | LiteralKind.null => ⟨v, saved, none⟩
    | LiteralKind.bool => typeError v saved
    | LiteralKind.string =>
      match unquoteBytes item with
      | none => outOfSync v saved
      | some _ => typeError v saved
    | LiteralKind.number =>
      match strconv.ParseInt item with
      | none => typeError v saved
      | some n => ⟨n, saved, none⟩
    | LiteralKind.invalid => outOfSync v saved

/-- The loop of `decodeState.object` for a struct target: each member in turn is decoded
into the field its key names, and skipped when its key names none.  An error that the
decoding of a member returns ends the loop. -/
def decodeMembers {α : Type} (field : GoString → Option (JSON → α → Option GoError → Out α)) :
    List (List Byte × JSON) → α → Option GoError → Out α
  | [], v, saved => ⟨v, saved, none⟩
  | (k, t) :: ms, v, saved =>
    match unquoteBytes k with
    | none => outOfSync v saved
    | some key =>
      match field key with
      | none => decodeMembers field ms v saved
      | some dec =>
        match (dec t v saved).err with
        | some e => ⟨(dec t v saved).val, (dec t v saved).saved, some e⟩
        | none => decodeMembers field ms (dec t v saved).val (dec t v saved).saved

/-- The method `decodeState.value` for a target of kind `struct` whose fields are decoded
by `field`.  An array or a literal other than `null` is a type error; `null` leaves the
struct as it is. -/
def storeStruct {α : Type} (field : GoString → Option (JSON → α → Option GoError → Out α))
    (t : JSON) (v : α) (saved : Option GoError) : Out α :=
  match t with
  | JSON.array _ => typeError v saved
  | JSON.object members => decodeMembers field members v saved
  | JSON.literal item =>
    match literalKind item with
    | LiteralKind.null => ⟨v, saved, none⟩
    | LiteralKind.bool => typeError v saved
    | LiteralKind.string =>
      match unquoteBytes item with
      | none => outOfSync v saved
      | some _ => typeError v saved
    | LiteralKind.number => typeError v saved
    | LiteralKind.invalid => outOfSync v saved

/-- A Go slice: its backing array from the first element of the slice on, its length, and
whether it is nil.  The elements of the array beyond the length are the ones that earlier
writes left there; beyond the array, memory is zero. -/
structure Slice (α : Type) where
  array : List α := []
  len : Nat := 0
  isNil : Bool := true
  deriving DecidableEq, Repr

/-- The elements of a slice. -/
def Slice.toList {α : Type} (s : Slice α) : List α := s.array.take s.len

/-- The loop of `decodeState.array` for a slice target, at the element with index `i`: the
slice is grown to hold the element, the element is decoded into the value that is there,
and at the end the length is set to the number of elements (an empty array gives a new
empty slice). -/
def decodeElems {α : Type} (dec : JSON → α → Option GoError → Out α) (zero : α) :
    List JSON → Nat → Slice α → Option GoError → Out (Slice α)
  | [], i, v, saved =>
    if i = 0 then ⟨⟨[], 0, false⟩, saved, none⟩
    else ⟨⟨v.array, i, false⟩, saved, none⟩
  | e :: es, i, v, saved =>
    let grown : List α := if i ≥ v.array.length then v.array ++ [zero] else v.array
    let o := dec e (grown.getD i zero) saved
    let v₁ : Slice α := ⟨grown.set i o.val, max v.len (i + 1), false⟩
    match o.err with
    | some err => ⟨v₁, o.saved, some err⟩
    | none => decodeElems dec zero es (i + 1) v₁ o.saved

/-- The method `decodeState.value` for a target that is a slice of structs.  An object or
a literal other than `null` is a type error; `null` makes the slice nil. -/
def storeSlice {α : Type} (dec : JSON → α → Option GoError → Out α) (zero : α)
    (t : JSON) (v : Slice α) (saved : Option GoError) : Out (Slice α) :=
  match t with
  | JSON.array elems => decodeElems dec zero elems 0 v saved
  | JSON.object _ => typeError v saved
  | JSON.literal item =>
    match literalKind item with
    | LiteralKind.null => ⟨⟨[], 0, true⟩, saved, none⟩
    | LiteralKind.bool => typeError v saved
    | LiteralKind.string =>
      match unquoteBytes item with
      | none => outOfSync v saved
      | some _ => typeError v saved
    | LiteralKind.number => typeError v saved
    | LiteralKind.invalid => outOfSync v saved

end json

/-! ## chat_completion_response.go: the response -/

/-- The method `decodeState.value` for a `chatCompletionFinishReason`, which is a
`json.Unmarshaler`: whatever the value is, `null` included, `UnmarshalJSON` is called with
its text, and the error it returns is returned.  (For a literal the text is the item
itself.  For an array or an object `UnmarshalJSON` fails whatever follows the opening
bracket, see `UnmarshalJSON_fails`, so the white space that `JSON.raw` leaves out does not
matter.) -/
def chatCompletionFinishReason.decode (t : JSON) (v : chatCompletionFinishReason)
    (saved : Option GoError) : json.Out chatCompletionFinishReason :=
  ⟨(v.UnmarshalJSON t.raw).1, saved, (v.UnmarshalJSON t.raw).2⟩

/-- The type `ChatCompletionMessage` is declared in a file of the package that is not part
of the sources at hand.  Its zero value and its decoding are parameters: `decode` gives the
message after the call, the error that the call saves, if any, and the error that it
returns, if any. -/
structure MessageCodec (Msg : Type) where
  zero : Msg
  decode : JSON → Msg → Msg × Option GoError × Option GoError

/-- The method `decodeState.value` for a `ChatCompletionMessage`. -/
def MessageCodec.store {Msg : Type} (codec : MessageCodec Msg) (t : JSON) (v : Msg)
    (saved : Option GoError) : json.Out Msg :=
  ⟨(codec.decode t v).1,
   (match saved with
    | some e => some e
    | none => (codec.decode t v).2.1),
   (codec.decode t v).2.2⟩

/-- A message type of which nothing is decoded. -/
def MessageCodec.unit : MessageCodec Unit := ⟨(), fun _ v => (v, none, none)⟩

/-- The struct `ChatCompletionResponseUsage`.  A Go `int` has 64 bits. -/
structure ChatCompletionResponseUsage where
  PromptTokens : Int := 0
  CompletionTokens : Int := 0
  TotalTokens : Int := 0
  deriving DecidableEq, Repr

/-- The struct `ChatCompletionResponseChoice`. -/
structure ChatCompletionResponseChoice (Msg : Type) where
  FinishReason : chatCompletionFinishReason
  Message : Msg
  deriving DecidableEq, Repr

/-- The struct `ChatCompletionResponse`. -/
structure ChatCompletionResponse (Msg : Type) where
  ID : GoString := []
  Choices : json.Slice (ChatCompletionResponseChoice Msg) := {}
  Usage : ChatCompletionResponseUsage := {}
  Created : Int := 0
  Model : GoString := []
  Object : GoString := []
  deriving DecidableEq, Repr

/-- The zero value of `ChatCompletionResponseChoice`. -/
def ChatCompletionResponseChoice.zero {Msg : Type} (codec : MessageCodec Msg) :
    ChatCompletionResponseChoice Msg := ⟨⟨[]⟩, codec.zero⟩

/-- The zero value of `ChatCompletionResponse`. -/
def ChatCompletionResponse.zero (Msg : Type) : ChatCompletionResponse Msg :=
  ⟨[], ⟨[], 0, true⟩, ⟨0, 0, 0⟩, 0, [], []⟩

/-- The JSON names of the fields of `ChatCompletionResponseUsage`, from the struct tags. -/
def usageFields : List GoString :=
  [str "prompt_tokens", str "completion_tokens", str "total_tokens"]

/-- The JSON names of the fields of `ChatCompletionResponseChoice`. -/
def choiceFields : List GoString := [str "finish_reason", str "message"]

/-- The JSON names of the fields of `ChatCompletionResponse`. -/
def responseFields : List GoString :=
  [str "id", str "choices", str "usage", str "created", str "model", str "object"]

/-- The decoding of the field of `ChatCompletionResponseUsage` that a key names. -/
def ChatCompletionResponseUsage.field (key : GoString) :
    Option (JSON → ChatCompletionResponseUsage → Option GoError →
      json.Out ChatCompletionResponseUsage) :=
  match json.fieldIndex usageFields key with
  | some 0 => some (fun t v saved =>
      ⟨{ v with PromptTokens := (json.storeInt t v.PromptTokens saved).val },
       (json.storeInt t v.PromptTokens saved).saved, (json.storeInt t v.PromptTokens saved).err⟩)
  | some 1 => some (fun t v saved =>
      ⟨{ v with CompletionTokens := (json.storeInt t v.CompletionTokens saved).val },
       (json.storeInt t v.CompletionTokens saved).saved,
       (json.storeInt t v.CompletionTokens saved).err⟩)
  | some 2 => some (fun t v saved =>
      ⟨{ v with TotalTokens := (json.storeInt t v.TotalTokens saved).val },
       (json.storeInt t v.TotalTokens saved).saved, (json.storeInt t v.TotalTokens saved).err⟩)
  | _ => none

/-- The method `decodeState.value` for a `ChatCompletionResponseUsage`. -/
def ChatCompletionResponseUsage.decode :
    JSON → ChatCompletionResponseUsage → Option GoError → json.Out ChatCompletionResponseUsage :=
  json.storeStruct ChatCompletionResponseUsage.field

/-- The decoding of the field of `ChatCompletionResponseChoice` that a key names. -/
def ChatCompletionResponseChoice.field {Msg : Type} (codec : MessageCodec Msg)
    (key : GoString) :
    Option (JSON → ChatCompletionResponseChoice Msg → Option GoError →
      json.Out (ChatCompletionResponseChoice Msg)) :=
  match json.fieldIndex choiceFields key with
  | some 0 => some (fun t v saved =>
      ⟨{ v with FinishReason := (chatCompletionFinishReason.decode t v.FinishReason saved).val },
       (chatCompletionFinishReason.decode t v.FinishReason saved).saved,
       (chatCompletionFinishReason.decode t v.FinishReason saved).err⟩)
  | some 1 => some (fun t v saved =>
      ⟨{ v with Message := (codec.store t v.Message saved).val },
       (codec.store t v.Message saved).saved, (codec.store t v.Message saved).err⟩)
  | _ => none

/-- The method `decodeState.value` for a `ChatCompletionResponseChoice`. -/
def ChatCompletionResponseChoice.decode {Msg : Type} (codec : MessageCodec Msg) :
    JSON → ChatCompletionResponseChoice Msg → Option GoError →
      json.Out (ChatCompletionResponseChoice Msg) :=
  json.storeStruct (ChatCompletionResponseChoice.field codec)

/-- The decoding of the field of `ChatCompletionResponse` that a key names. -/
def ChatCompletionResponse.field {Msg : Type} (codec : MessageCodec Msg) (key : GoString) :
    Option (JSON → ChatCompletionResponse Msg → Option GoError →
      json.Out (ChatCompletionResponse Msg)) :=
  match json.fieldIndex responseFields key with
  | some 0 => some (fun t v saved =>
      ⟨{ v with ID := (json.storeString t v.ID saved).val },
       (json.storeString t v.ID saved).saved, (json.storeString t v.ID saved).err⟩)
  | some 1 => some (fun t v saved =>
      ⟨{ v with Choices := (json.storeSlice (ChatCompletionResponseChoice.decode codec)
            (ChatCompletionResponseChoice.zero codec) t v.Choices saved).val },
       (json.storeSlice (ChatCompletionResponseChoice.decode codec)
            (ChatCompletionResponseChoice.zero codec) t v.Choices saved).saved,
       (json.storeSlice (ChatCompletionResponseChoice.decode codec)
            (ChatCompletionResponseChoice.zero codec) t v.Choices saved).err⟩)
  | some 2 => some (fun t v saved =>
      ⟨{ v with Usage := (ChatCompletionResponseUsage.decode t v.Usage saved).val },
       (ChatCompletionResponseUsage.decode t v.Usage saved).saved,
       (ChatCompletionResponseUsage.decode t v.Usage saved).err⟩)
  | some 3 => some (fun t v saved =>
      ⟨{ v with Created := (json.storeInt t v.Created saved).val },
       (json.storeInt t v.Created saved).saved, (json.storeInt t v.Created saved).err⟩)
  | some 4 => some (fun t v saved =>
      ⟨{ v with Model := (json.storeString t v.Model saved).val },
       (json.storeString t v.Model saved).saved, (json.storeString t v.Model saved).err⟩)
  | some 5 => some (fun t v saved =>
      ⟨{ v with Object := (json.storeString t v.Object saved).val },
       (json.storeString t v.Object saved).saved, (json.storeString t v.Object saved).err⟩)
  | _ => none

/-- The method `decodeState.value` for a `ChatCompletionResponse`. -/
def ChatCompletionResponse.decode {Msg : Type} (codec : MessageCodec Msg) :
    JSON → ChatCompletionResponse Msg → Option GoError → json.Out (ChatCompletionResponse Msg) :=
  json.storeStruct (ChatCompletionResponse.field codec)

/-- The call `json.Unmarshal(data, &resp)` for a `resp` of type `ChatCompletionResponse`:
the response after the call and the error returned. -/
def ChatCompletionResponse.Unmarshal {Msg : Type} (codec : MessageCodec Msg) (data : List Byte)
    (resp : ChatCompletionResponse Msg) : ChatCompletionResponse Msg × Option GoError :=
  json.Unmarshal (ChatCompletionResponse.decode codec) data resp

/-! ## Shapes of a response object, for the statements about decoding -/

namespace json

/-- Whether decoding reported an error: one returned or one saved. -/
def Out.failed {α : Type} (o : Out α) : Prop := o.err ≠ none ∨ o.saved ≠ none

/-- The keys of the members of the object that the input is, each as the string its token
stands for; `none` when the input is not an object. -/
def objectKeys (data : List Byte) : Option (List (Option GoString)) :=
  match scan data with
  | some (JSON.object members) => some (members.map (fun m => unquoteBytes m.1))
  | _ => none

/-- Whether some member of an object names the field with index `i` and has a value of
which `p` holds. -/
def hasMember (fields : List GoString) (i : Nat) (p : JSON → Bool)
    (members : List (List Byte × JSON)) : Bool :=
  members.any (fun m => names fields i m.1 && p m.2)

end json

/-- Whether the value is a JSON string. -/
def JSON.isString : JSON → Bool
  | JSON.literal item => json.literalKind item == json.LiteralKind.string
  | _ => false

/-- Whether the value is a JSON number. -/
def JSON.isNumber : JSON → Bool
  | JSON.literal item => json.literalKind item == json.LiteralKind.number
  | _ => false

/-- Whether the value is `true` or `false`. -/
def JSON.isBool : JSON → Bool
  | JSON.literal item => json.literalKind item == json.LiteralKind.bool
  | _ => false

/-- Whether the value is `null`. -/
def JSON.isNull : JSON → Bool
  | JSON.literal item => json.literalKind item == json.LiteralKind.null
  | _ => false

/-- Whether the value is an array. -/
def JSON.isArray : JSON → Bool
  | JSON.array _ => true
  | _ => false

/-- Whether the value is an object. -/
def JSON.isObject : JSON → Bool
  | JSON.object _ => true
  | _ => false

/-- Whether no `usage` member of a response object that is an object has a member that
names the count with index `j`. -/
def omitsCount (j : Nat) (members : List (List Byte × JSON)) : Bool :=
  members.all (fun m => !json.names responseFields 2 m.1 ||
    match m.2 with
    | JSON.object counts => json.omits usageFields j counts
    | _ => true)

/-- Whether a response object gives `created` as a JSON string. -/
def createdIsString (members : List (List Byte × JSON)) : Bool :=
  json.hasMember responseFields 3 JSON.isString members

/-- Whether a response object has a `usage` object that gives the count with index `j` as
a JSON string. -/
def countIsString (j : Nat) (members : List (List Byte × JSON)) : Bool :=
  json.hasMember responseFields 2
    (fun t =>
      match t with
      | JSON.object counts => json.hasMember usageFields j JSON.isString counts
      | _ => false) members

/-- Whether a response object has a `choices` member that is neither an array nor
`null`. -/
def choicesIsNoArray (members : List (List Byte × JSON)) : Bool :=
  json.hasMember responseFields 1 (fun t => !t.isArray && !t.isNull) members

/-- Whether a response object has a `choices` array with a choice whose `finish_reason`
is a number, a boolean, an array or an object. -/
def finishReasonIsNoString (members : List (List Byte × JSON)) : Bool :=
  json.hasMember responseFields 1
    (fun t =>
      match t with
      | JSON.array choices =>
        choices.any (fun c =>
          match c with
          | JSON.object fields =>
            json.hasMember choiceFields 0
              (fun f => f.isNumber || f.isBool || f.isArray || f.isObject) fields
          | _ => false)
      | _ => false) members

/-! ## Inputs of the examples -/

/-- The input `{"id":"x","usage":{"total_tokens":7}}`. -/
def exampleSparse : List Byte := str "\x7b\"id\":\"x\",\"usage\":\x7b\"total_tokens\":7\x7d\x7d"

/-- The input `{"usage":{"prompt_tokens":"not-a-number"}}`. -/
def exampleCountString : List Byte := str "\x7b\"usage\":\x7b\"prompt_tokens\":\"not-a-number\"\x7d\x7d"

/-- The input `{"created":"x"}`. -/
def exampleCreatedString : List Byte := str "\x7b\"created\":\"x\"\x7d"

/-- The input `{"Choices":[{}]}`. -/
def exampleUpperCaseKey : List Byte := str "\x7b\"Choices\":[\x7b\x7d]\x7d"

/-- The input `{"choices":[{"finish_reason":[1, 2]}]}`. -/
def exampleFinishReasonArray : List Byte := str "\x7b\"choices\":[\x7b\"finish_reason\":[1, 2]\x7d]\x7d"

/-- The input `{"choices":"none"}`. -/
def exampleChoicesString : List Byte := str "\x7b\"choices\":\"none\"\x7d"

/-- The input `{}`. -/
def exampleEmptyObject : List Byte := str "\x7b\x7d"

namespace rfc3629

/-- The length of the `UTF8-char` at the start of the bytes: 1 to 4, and 0 when the bytes
do not start with one. -/
def charLen (p : List Byte) : Nat :=
  match p with
  | [] => 0
  | b0 :: rest =>
    if b0.val < 0x80 then 1
    else
      match rest with
      | [] => 0
      | b1 :: r1 =>
        if char2 b0 b1 then 2
        else
          match r1 with
          | [] => 0
          | b2 :: r2 =>
            if char3 b0 b1 b2 then 3
            else
              match r2 with
              | [] => 0
              | b3 :: _ => if char4 b0 b1 b2 b3 then 4 else 0

/-- The loop of `repair`; `fuel` bounds the number of rounds. -/
def repairLoop : Nat → List Byte → List Byte
  | 0, _ => []
  | _ + 1, [] => []
  | fuel + 1, b :: rest =>
    if charLen (b :: rest) = 0 then 0xEF :: 0xBF :: 0xBD :: repairLoop fuel rest
    else (b :: rest).take (charLen (b :: rest)) ++
      repairLoop fuel ((b :: rest).drop (charLen (b :: rest)))

/-- The bytes with every byte that does not belong to a `UTF8-char` replaced by the three
bytes of U+FFFD, the replacement character. -/
def repair (s : List Byte) : List Byte := repairLoop s.length s

end rfc3629

/-- A heap in which the caller holds one transport, whose timeout is 5 nanoseconds. -/
def exampleCallerHeap : Heap := Heap.mk [http.Client.mk 0 0 0 5] [] []

namespace rfc8259

/-- The decimal digits of a natural number, the most significant first, without leading
zeros; `fuel` bounds the number of digits. -/
def digits : Nat → Nat → List Byte
  | 0, _ => []
  | fuel + 1, n =>
    if n < 10 then [byte (0x30 + n)] else digits fuel (n / 10) ++ [byte (0x30 + n % 10)]

/-- The JSON `number` without fraction and exponent that stands for the integer `n`: a
minus sign when `n` is negative, and the decimal digits of its absolute value. -/
def number (n : Int) : List Byte :=
  if n < 0 then 0x2D :: digits (n.natAbs + 1) n.natAbs else digits (n.natAbs + 1) n.natAbs

end rfc8259

/-! ## Shapes of a response object: values of the expected types -/

/-- A member of a `usage` object that gives the counts `p`, `c` and `t`: its key is a JSON
string, and when the key names a count, its value is the JSON number that stands for that
count.  A member whose key names no count may have any value. -/
def UsageMember (p c t : Int) (m : List Byte × JSON) : Prop :=
  ∃ key, rfc8259.StringToken m.1 key ∧
    (json.fieldIndex usageFields key = some 0 → m.2 = JSON.literal (rfc8259.number p)) ∧
    (json.fieldIndex usageFields key = some 1 → m.2 = JSON.literal (rfc8259.number c)) ∧
    (json.fieldIndex usageFields key = some 2 → m.2 = JSON.literal (rfc8259.number t))

/-- A `usage` object that gives the counts `p`, `c` and `t`: an object of such members in
which each of the three counts is named by some key. -/
def UsageObject (p c t : Int) (v : JSON) : Prop :=
  ∃ counts, v = JSON.object counts ∧ (∀ m ∈ counts, UsageMember p c t m) ∧
    json.omits usageFields 0 counts = false ∧ json.omits usageFields 1 counts = false ∧
    json.omits usageFields 2 counts = false

/-- A member of a choice object with the finish reason `reason`: its key is a JSON string;
when the key names `finish_reason`, its value is a JSON string that stands for `reason`;
when the key names `message`, its value is one that the decoding of the message accepts. -/
def ChoiceMember {Msg : Type} (codec : MessageCodec Msg) (reason : GoString)
    (m : List Byte × JSON) : Prop :=
  ∃ key, rfc8259.StringToken m.1 key ∧
    (json.fieldIndex choiceFields key = some 0 →
      ∃ tok, m.2 = JSON.literal tok ∧ rfc8259.StringToken tok reason) ∧
    (json.fieldIndex choiceFields key = some 1 → ∀ v, (codec.decode m.2 v).2 = (none, none))

/-- A choice object with the finish reason `reason`: an object of such members in which
some key names `finish_reason`. -/
def ChoiceObject {Msg : Type} (codec : MessageCodec Msg) (v : JSON) (reason : GoString) :
    Prop :=
  ∃ fields, v = JSON.object fields ∧ (∀ m ∈ fields, ChoiceMember codec reason m) ∧
    json.omits choiceFields 0 fields = false

/-- A member of a response object with the given identifier, object type, creation time,
model, finish reasons of the choices and counts of the usage: its key is a JSON string, and
when the key names a field, its value is of the type expected and stands for the value
given: a JSON string for `id`, `model` and `object`, a JSON number for `created`, an array
of choice objects for `choices`, a usage object for `usage`. -/
def ResponseMember {Msg : Type} (codec : MessageCodec Msg) (id object model : GoString)
    (created : Int) (reasons : List GoString) (p c t : Int) (m : List Byte × JSON) : Prop :=
  ∃ key, rfc8259.StringToken m.1 key ∧
    (json.fieldIndex responseFields key = some 0 →
      ∃ tok, m.2 = JSON.literal tok ∧ rfc8259.StringToken tok id) ∧
    (json.fieldIndex responseFields key = some 1 →
      ∃ elems, m.2 = JSON.array elems ∧ List.Forall₂ (ChoiceObject codec) elems reasons) ∧
    (json.fieldIndex responseFields key = some 2 → UsageObject p c t m.2) ∧
    (json.fieldIndex responseFields key = some 3 →
      m.2 = JSON.literal (rfc8259.number created)) ∧
    (json.fieldIndex responseFields key = some 4 →
      ∃ tok, m.2 = JSON.literal tok ∧ rfc8259.StringToken tok model) ∧
    (json.fieldIndex responseFields key = some 5 →
      ∃ tok, m.2 = JSON.literal tok ∧ rfc8259.StringToken tok object)

/-- Whether the value is a number written with a minus sign. -/
def JSON.isNegative : JSON → Bool
  | JSON.literal item => item.head? == some 0x2D
  | _ => false

/-- Whether the input is a response object with a `usage` object that gives the count with
index `j` as a number written with a minus sign. -/
def JSON.givesNegativeCount (j : Nat) : JSON → Bool
  | JSON.object members =>
    json.hasMember responseFields 2
      (fun t =>
        match t with
        | JSON.object counts => json.hasMember usageFields j JSON.isNegative counts
        | _ => false) members
  | _ => false

/-- The count with index `j` of a usage, in the order of the fields of the struct. -/
def ChatCompletionResponseUsage.count (u : ChatCompletionResponseUsage) : Nat → Int
  | 0 => u.PromptTokens
  | 1 => u.CompletionTokens
  | 2 => u.TotalTokens
  | _ => 0

/-- The input `{"usage":{"prompt_tokens":10,"completion_tokens":5,"total_tokens":99}}`, in
which the total is not the sum of the other two counts. -/
def exampleUsageMismatch : List Byte :=
  str "\x7b\"usage\":\x7b\"prompt_tokens\":10,\"completion_tokens\":5,\"total_tokens\":99\x7d\x7d"

/-- The input
`{"usage":{"prompt_tokens":9223372036854775808,"completion_tokens":5,"total_tokens":15}}`,
in which the first count is 2^63. -/
def exampleHugeCount : List Byte :=
  str ("\x7b\"usage\":\x7b\"prompt_tokens\":9223372036854775808," ++
    "\"completion_tokens\":5,\"total_tokens\":15\x7d\x7d")

/-- The input `{"usage":{"prompt_tokens":-1,"completion_tokens":5,"total_tokens":4}}`. -/
def exampleNegativeCount : List Byte :=
  str "\x7b\"usage\":\x7b\"prompt_tokens\":-1,\"completion_tokens\":5,\"total_tokens\":4\x7d\x7d"

/-- The input of the end-to-end example of the spec. -/
def exampleEndToEnd : List Byte :=
  str ("\x7b\"id\":\"abc\",\"object\":\"chat.completion\",\"created\":1700000000," ++
    "\"model\":\"gpt-x\",\"choices\":[\x7b\"finish_reason\":\"stop\",\"message\":\x7b\x7d\x7d]," ++
    "\"usage\":\x7b\"prompt_tokens\":10,\"completion_tokens\":5,\"total_tokens\":15\x7d\x7d")

/-- The members of the object that `exampleEndToEnd` is, as the scanner delimits them. -/
def exampleEndToEndMembers : List (List Byte × JSON) :=
  [(str "\"id\"", JSON.literal (str "\"abc\"")),
   (str "\"object\"", JSON.literal (str "\"chat.completion\"")),
   (str "\"created\"", JSON.literal (str "1700000000")),
   (str "\"model\"", JSON.literal (str "\"gpt-x\"")),
   (str "\"choices\"",
     JSON.array [JSON.object [(str "\"finish_reason\"", JSON.literal (str "\"stop\"")),
       (str "\"message\"", JSON.object [])]]),
   (str "\"usage\"",
     JSON.object [(str "\"prompt_tokens\"", JSON.literal (str "10")),
       (str "\"completion_tokens\"", JSON.literal (str "5")),
       (str "\"total_tokens\"", JSON.literal (str "15"))])]

namespace json

/-- The bytes between the quotes of the string literals that the scanner accepts: bytes
from `0x20` on other than the quote and the backslash, the eight escapes of one character,
and the escape `\u` with four hexadecimal digits.  (The scanner does not look at UTF-8 or
at surrogates.) -/
inductive Scanned : List Byte → Prop where
  | nil : Scanned []
  | plain (c : Byte) (l : List Byte) :
      c.val ≠ 0x22 → c.val ≠ 0x5C → 0x20 ≤ c.val → Scanned l → Scanned (c :: l)
  | escape (c e : Byte) (l : List Byte) :
      c.val = 0x5C →
      (e.val = 0x62 ∨ e.val = 0x66 ∨ e.val = 0x6E ∨ e.val = 0x72 ∨ e.val = 0x74 ∨
        e.val = 0x5C ∨ e.val = 0x2F ∨ e.val = 0x22) →
      Scanned l → Scanned (c :: e :: l)
  | escapeU (c e h1 h2 h3 h4 : Byte) (l : List Byte) :
      c.val = 0x5C → e.val = 0x75 →
      (isHex h1 = true ∧ isHex h2 = true ∧ isHex h3 = true ∧ isHex h4 = true) →
      Scanned l → Scanned (c :: e :: h1 :: h2 :: h3 :: h4 :: l)

end json

/-! ## What a JSON text is: RFC 8259, continued

These definitions follow the grammar of RFC 8259, not the code: white space, numbers, the
characters of a string read as bytes, and the values as trees of their tokens. -/

namespace rfc8259

/-- The rule `ws = *( %x20 / %x09 / %x0A / %x0D )`. -/
def Ws (l : List Byte) : Prop :=
  ∀ b ∈ l, b.val = 0x20 ∨ b.val = 0x09 ∨ b.val = 0x0A ∨ b.val = 0x0D

/-- The rule `DIGIT = %x30-39`. -/
def isDigit (b : Byte) : Bool := 0x30 ≤ b.val && b.val ≤ 0x39

/-- The rule `int = zero / ( digit1-9 *DIGIT )`. -/
def IntPart (l : List Byte) : Prop :=
  (∃ z, l = [z] ∧ z.val = 0x30) ∨
  ∃ d ds, l = d :: ds ∧ 0x31 ≤ d.val ∧ d.val ≤ 0x39 ∧ ∀ x ∈ ds, isDigit x = true

/-- The rule `[ frac ]`, with `frac = decimal-point 1*DIGIT`. -/
def Frac (l : List Byte) : Prop :=
  l = [] ∨ ∃ p ds, l = p :: ds ∧ p.val = 0x2E ∧ ds ≠ [] ∧ ∀ x ∈ ds, isDigit x = true

/-- The rule `[ exp ]`, with `exp = e [ minus / plus ] 1*DIGIT`. -/
def Exp (l : List Byte) : Prop :=
  l = [] ∨
  (∃ e ds, l = e :: ds ∧ (e.val = 0x65 ∨ e.val = 0x45) ∧ ds ≠ [] ∧
    ∀ x ∈ ds, isDigit x = true) ∨
  ∃ e s ds, l = e :: s :: ds ∧ (e.val = 0x65 ∨ e.val = 0x45) ∧ (s.val = 0x2B ∨ s.val = 0x2D) ∧
    ds ≠ [] ∧ ∀ x ∈ ds, isDigit x = true

/-- The rule `number = [ minus ] int [ frac ] [ exp ]`. -/
def Number (tok : List Byte) : Prop :=
  ∃ ip fp ep, IntPart ip ∧ Frac fp ∧ Exp ep ∧
    (tok = ip ++ (fp ++ ep) ∨ ∃ m, m.val = 0x2D ∧ tok = m :: (ip ++ (fp ++ ep)))

/-- The rule `*char` of a string, read on bytes: an unescaped byte is any byte from `0x20`
on other than the quote and the backslash, whether or not the bytes are UTF-8; an escape is
a backslash and one of `"`, `\`, `/`, `b`, `f`, `n`, `r`, `t`, or a backslash, `u` and four
hexadecimal digits, whether or not surrogates are paired.  Every `StringBody` is of this
form. -/
inductive Chars : List Byte → Prop where
  | nil : Chars []
  | unescaped (c : Byte) (l : List Byte) :
      c.val ≠ 0x22 → c.val ≠ 0x5C → 0x20 ≤ c.val → Chars l → Chars (c :: l)
  | escape (c e : Byte) (l : List Byte) :
      c.val = 0x5C →
      (e.val = 0x62 ∨ e.val = 0x66 ∨ e.val = 0x6E ∨ e.val = 0x72 ∨ e.val = 0x74 ∨
        e.val = 0x5C ∨ e.val = 0x2F ∨ e.val = 0x22) →
      Chars l → Chars (c :: e :: l)
  | escapeU (c e h1 h2 h3 h4 : Byte) (l : List Byte) :
      c.val = 0x5C → e.val = 0x75 →
      ((hexDigit h1).isSome = true ∧ (hexDigit h2).isSome = true ∧
        (hexDigit h3).isSome = true ∧ (hexDigit h4).isSome = true) →
      Chars l → Chars (c :: e :: h1 :: h2 :: h3 :: h4 :: l)

end rfc8259

/-- The well-formed JSON values, as trees of tokens, with at most `n` arrays and objects
inside one another: a literal is a string token, a number, `true`, `false` or `null`; the
elements of an array are well-formed values; the keys of an object are string tokens and
its values are well-formed values. -/
inductive JSON.WF : Nat → JSON → Prop where
  | string (n : Nat) (tok : List Byte) (s : GoString) :
      rfc8259.StringToken tok s → JSON.WF n (JSON.literal tok)
  | number (n : Nat) (tok : List Byte) : rfc8259.Number tok → JSON.WF n (JSON.literal tok)
  | true (n : Nat) : JSON.WF n (JSON.literal [0x74, 0x72, 0x75, 0x65])
  | false (n : Nat) : JSON.WF n (JSON.literal [0x66, 0x61, 0x6C, 0x73, 0x65])
  | null (n : Nat) : JSON.WF n (JSON.literal [0x6E, 0x75, 0x6C, 0x6C])
  | array (n : Nat) (elems : List JSON) :
      (∀ e ∈ elems, JSON.WF n e) → JSON.WF (n + 1) (JSON.array elems)
  | object (n : Nat) (members : List (List Byte × JSON)) :
      (∀ m ∈ members, ∃ s, rfc8259.StringToken m.1 s) →
      (∀ m ∈ members, JSON.WF n m.2) → JSON.WF (n + 1) (JSON.object members)

namespace rfc8259

/-- Bytes that cannot continue a number that stands before them: they are empty or start
with a byte that is not a digit, a decimal point or an `e`. -/
def EndsNumber (after : List Byte) : Prop :=
  ∀ c r, after = c :: r → isDigit c = false ∧ c.val ≠ 0x2E ∧ c.val ≠ 0x65 ∧ c.val ≠ 0x45

end rfc8259

namespace rfc8259

/-- What a text is the text of: a value, the elements of an array, or the members of an
object. -/
inductive Item where
  | value (t : JSON)
  | elems (es : List JSON)
  | members (ms : List (List Byte × JSON))

/-- The texts of a value (rules `value`, `array`, `object` and `member` of RFC 8259,
section 2 to 5): a literal is its token; an array is `[`, its elements with `,` between
them, and `]`; an object is `{`, its members with `,` between them, and `}`; a member is its
key, `:` and its value; and white space may stand before and after each of these six
structural characters.  The text of the elements and of the members is the text between
the brackets or braces, without the white space after the opening one. -/
inductive Text : Item → List Byte → Prop where
  | literal (tok : List Byte) : Text (Item.value (JSON.literal tok)) tok
  | emptyArray (w : List Byte) : Ws w → Text (Item.value (JSON.array [])) (0x5B :: (w ++ [0x5D]))
  | array (e : JSON) (es : List JSON) (w body : List Byte) :
      Ws w → Text (Item.elems (e :: es)) body →
      Text (Item.value (JSON.array (e :: es))) (0x5B :: (w ++ (body ++ [0x5D])))
  | emptyObject (w : List Byte) :
      Ws w → Text (Item.value (JSON.object [])) (0x7B :: (w ++ [0x7D]))
  | object (m : List Byte × JSON) (ms : List (List Byte × JSON)) (w body : List Byte) :
      Ws w → Text (Item.members (m :: ms)) body →
      Text (Item.value (JSON.object (m :: ms))) (0x7B :: (w ++ (body ++ [0x7D])))
  | lastElem (e : JSON) (d w : List Byte) :
      Text (Item.value e) d → Ws w → Text (Item.elems [e]) (d ++ w)
  | consElem (e e₁ : JSON) (es : List JSON) (d w₁ w₂ body : List Byte) :
      Text (Item.value e) d → Ws w₁ → Ws w₂ → Text (Item.elems (e₁ :: es)) body →
      Text (Item.elems (e :: e₁ :: es)) (d ++ (w₁ ++ 0x2C :: (w₂ ++ body)))
  | lastMember (k : List Byte) (v : JSON) (w₁ w₂ d w₃ : List Byte) :
      Ws w₁ → Ws w₂ → Text (Item.value v) d → Ws w₃ →
      Text (Item.members [(k, v)]) (k ++ (w₁ ++ 0x3A :: (w₂ ++ (d ++ w₃))))
  | consMember (k : List Byte) (v : JSON) (m : List Byte × JSON)
      (ms : List (List Byte × JSON)) (w₁ w₂ d w₃ w₄ body : List Byte) :
      Ws w₁ → Ws w₂ → Text (Item.value v) d → Ws w₃ → Ws w₄ →
      Text (Item.members (m :: ms)) body →
      Text (Item.members ((k, v) :: m :: ms))
        (k ++ (w₁ ++ 0x3A :: (w₂ ++ (d ++ (w₃ ++ 0x2C :: (w₄ ++ body))))))

/-- A JSON text of the value `t` (rule `JSON-text`): a text of a well-formed value, nested
no deeper than `n`, with white space before and after it or not. -/
def JSONText (n : Nat) (t : JSON) (data : List Byte) : Prop :=
  JSON.WF n t ∧ ∃ ws₁ d ws₂, Ws ws₁ ∧ Text (Item.value t) d ∧ Ws ws₂ ∧ data = ws₁ ++ (d ++ ws₂)

end rfc8259

/-! ## Inputs of the examples, continued -/

/-- The choice object of the examples for a finish reason given as its token:
`{"finish_reason":…,"message":{}}`. -/
def exampleChoice (reason : List Byte) : JSON :=
  JSON.object [(str "\"finish_reason\"", JSON.literal reason), (str "\"message\"", JSON.object [])]

/-- The members of the response object of the end-to-end example of the spec, for a
creation time given as its token and for some choices. -/
def exampleResponseMembers (created : List Byte) (choices : List JSON) :
    List (List Byte × JSON) :=
  [(str "\"id\"", JSON.literal (str "\"abc\"")),
   (str "\"object\"", JSON.literal (str "\"chat.completion\"")),
   (str "\"created\"", JSON.literal created),
   (str "\"model\"", JSON.literal (str "\"gpt-x\"")),
   (str "\"choices\"", JSON.array choices),
   (str "\"usage\"",
     JSON.object [(str "\"prompt_tokens\"", JSON.literal (str "10")),
       (str "\"completion_tokens\"", JSON.literal (str "5")),
       (str "\"total_tokens\"", JSON.literal (str "15"))])]

/-- The input of the end-to-end example of the spec with a second choice, whose finish
reason is `length`. -/
def exampleTwoChoices : List Byte :=
  str ("\x7b\"id\":\"abc\",\"object\":\"chat.completion\",\"created\":1700000000," ++
    "\"model\":\"gpt-x\",\"choices\":[\x7b\"finish_reason\":\"stop\",\"message\":\x7b\x7d\x7d," ++
    "\x7b\"finish_reason\":\"length\",\"message\":\x7b\x7d\x7d]," ++
    "\"usage\":\x7b\"prompt_tokens\":10,\"completion_tokens\":5,\"total_tokens\":15\x7d\x7d")

/-- The input of the end-to-end example of the spec with the creation time 2^63. -/
def exampleHugeCreated : List Byte :=
  str ("\x7b\"id\":\"abc\",\"object\":\"chat.completion\",\"created\":9223372036854775808," ++
    "\"model\":\"gpt-x\",\"choices\":[\x7b\"finish_reason\":\"stop\",\"message\":\x7b\x7d\x7d]," ++
    "\"usage\":\x7b\"prompt_tokens\":10,\"completion_tokens\":5,\"total_tokens\":15\x7d\x7d")

/-- The input of the end-to-end example of the spec with the creation time written with a
fraction and an exponent, `1.7e9`. -/
def exampleExponentCreated : List Byte :=
  str ("\x7b\"id\":\"abc\",\"object\":\"chat.completion\",\"created\":1.7e9," ++
    "\"model\":\"gpt-x\",\"choices\":[\x7b\"finish_reason\":\"stop\",\"message\":\x7b\x7d\x7d]," ++
    "\"usage\":\x7b\"prompt_tokens\":10,\"completion_tokens\":5,\"total_tokens\":15\x7d\x7d")

/-- Arrays in one another: `[]` nested in `k` arrays. -/
def exampleNested : Nat → JSON
  | 0 => JSON.array []
  | k + 1 => JSON.array [exampleNested k]

/-- The members of the response object of the end-to-end example of the spec after a first
member with the key `x`, whose value is 10000 arrays in one another. -/
def exampleDeepMembers : List (List Byte × JSON) :=
  (str "\"x\"", exampleNested 9999) ::
    exampleResponseMembers (str "1700000000") [exampleChoice (str "\"stop\"")]

/-- The input `{"x":[[…]],"id":"abc",…}`: the end-to-end example of the spec after a first
member `x` with 10000 arrays in one another. -/
def exampleDeep : List Byte := (JSON.object exampleDeepMembers).raw

/-! ## Shapes of a response object: present keys of the expected types -/

/-- A member of a `usage` object whose value is of the expected type: its key is a JSON
string, and when the key names a count, its value is the JSON number that stands for an
integer of the range of `int`. -/
def TypedUsageMember (m : List Byte × JSON) : Prop :=
  ∃ p c t : Int, (-2 ^ 63 ≤ p ∧ p < 2 ^ 63) ∧ (-2 ^ 63 ≤ c ∧ c < 2 ^ 63) ∧
    (-2 ^ 63 ≤ t ∧ t < 2 ^ 63) ∧ UsageMember p c t m

/-- A `usage` value of the expected type: an object of such members, with or without a
member for each count. -/
def TypedUsage (v : JSON) : Prop :=
  ∃ counts, v = JSON.object counts ∧ ∀ m ∈ counts, TypedUsageMember m

/-- A choice of the expected type: an object whose members have keys that are JSON strings,
a `finish_reason`, where there is one, that is a JSON string, and a `message`, where there
is one, that the decoding of the message accepts. -/
def TypedChoice {Msg : Type} (codec : MessageCodec Msg) (v : JSON) : Prop :=
  ∃ fields, v = JSON.object fields ∧ ∀ m ∈ fields, ∃ reason, ChoiceMember codec reason m

/-- A member of a response object whose value is of the expected type: its key is a JSON
string, and when the key names a field, its value is a JSON string for `id`, `model` and
`object`, the JSON number that stands for an integer of the range of `int` for `created`,
an array of choices of the expected type for `choices`, and a `usage` value of the
expected type for `usage`.  A member whose key names no field may have any value. -/
def TypedResponseMember {Msg : Type} (codec : MessageCodec Msg) (m : List Byte × JSON) :
    Prop :=
  ∃ key, rfc8259.StringToken m.1 key ∧
    (json.fieldIndex responseFields key = some 0 →
      ∃ tok s, m.2 = JSON.literal tok ∧ rfc8259.StringToken tok s) ∧
    (json.fieldIndex responseFields key = some 1 →
      ∃ elems, m.2 = JSON.array elems ∧ ∀ e ∈ elems, TypedChoice codec e) ∧
    (json.fieldIndex responseFields key = some 2 → TypedUsage m.2) ∧
    (json.fieldIndex responseFields key = some 3 →
      ∃ k : Int, (-2 ^ 63 ≤ k ∧ k < 2 ^ 63) ∧ m.2 = JSON.literal (rfc8259.number k)) ∧
    (json.fieldIndex responseFields key = some 4 →
      ∃ tok s, m.2 = JSON.literal tok ∧ rfc8259.StringToken tok s) ∧
    (json.fieldIndex responseFields key = some 5 →
      ∃ tok s, m.2 = JSON.literal tok ∧ rfc8259.StringToken tok s)

/-- The input `{"x":[[…]]}`: an object whose one member has the key `x` and 10000 arrays in
one another as its value. -/
def exampleDeepObject : List Byte := (JSON.object [(str "\"x\"", exampleNested 9999)]).raw

/-! # Theorems -/

/-! ## The builder -/

theorem Heap.clientOf_setClient {σ : Heap} {b c : Nat} {cl : Client}
    (h : σ.clientOf b = some (c, cl)) (cl' : Client) :
    (σ.setClient c cl').clientOf b = some (c, cl') := by
  unfold Heap.clientOf at h ⊢
  simp only [Heap.setClient]
  cases hb : σ.builders[b]? with
  | none => simp [hb] at h
  | some bld =>
    simp only [hb] at h ⊢
    cases hc : bld.client with
    | none => simp [hc] at h
    | some c' =>
      simp only [hc] at h ⊢
      cases hcl : σ.clients[c']? with
      | none => simp [hcl] at h
      | some cl₀ =>
        simp only [hcl, Option.some.injEq, Prod.mk.injEq] at h
        obtain ⟨rfl, rfl⟩ := h
        have hlt : c' < σ.clients.length := by
          rcases List.getElem?_eq_some.1 hcl with ⟨hlt, _⟩
          exact hlt
        simp [List.getElem?_set_self, hlt]

theorem Heap.clientOf_clients {σ : Heap} {b c : Nat} {cl : Client}
    (h : σ.clientOf b = some (c, cl)) : σ.clients[c]? = some cl := by
  unfold Heap.clientOf at h
  cases hb : σ.builders[b]? with
  | none => simp [hb] at h
  | some bld =>
    simp only [hb] at h
    cases hc : bld.client with
    | none => simp [hc] at h
    | some c' =>
      simp only [hc] at h
      cases hcl : σ.clients[c']? with
      | none => simp [hcl] at h
      | some cl₀ =>
        simp only [hcl, Option.some.injEq, Prod.mk.injEq] at h
        obtain ⟨rfl, rfl⟩ := h
        exact hcl

theorem NewClient_clientOf (σ : Heap) :
    (NewClient σ).1.clientOf (NewClient σ).2 =
      some (σ.clients.length,
        { httpClient := some σ.transports.length, baseURL := defaultBaseURL }) := by
  simp [NewClient, Heap.clientOf]

theorem Create_eq {σ : Heap} {b c : Nat} {cl : Client} (h : σ.clientOf b = some (c, cl)) :
    clientBuilder.Create σ b =
      if cl.baseURL = [] then some (σ, none, some GoError.ErrBaseURLRequired)
      else if cl.apiKey = [] then some (σ, none, some GoError.ErrAPIKeyRequired)
      else some (σ, some c, none) := by
  simp [clientBuilder.Create, h]

/-- C1: on every builder state, `Create` returns a non-nil `*Client` (the builder's own
client) and a nil error exactly when the stored `baseURL` and `apiKey` are both non-empty;
otherwise it returns a nil `*Client` with `ErrBaseURLRequired` or `ErrAPIKeyRequired`. -/
theorem Create_client_iff_both_nonempty (σ : Heap) (b c : Nat) (cl : Client)
    (h : σ.clientOf b = some (c, cl)) :
    ∃ p e, clientBuilder.Create σ b = some (σ, p, e) ∧
      ((p ≠ none ∧ e = none) ↔ (cl.baseURL ≠ [] ∧ cl.apiKey ≠ [])) ∧
      (cl.baseURL ≠ [] ∧ cl.apiKey ≠ [] → p = some c ∧ e = none) ∧
      (¬(cl.baseURL ≠ [] ∧ cl.apiKey ≠ []) →
        p = none ∧ (e = some GoError.ErrBaseURLRequired ∨ e = some GoError.ErrAPIKeyRequired)) := by
  rw [Create_eq h]
  by_cases hu : cl.baseURL = []
  · exact ⟨none, some GoError.ErrBaseURLRequired, by simp [hu]⟩
  · by_cases hk : cl.apiKey = []
    · exact ⟨none, some GoError.ErrAPIKeyRequired, by simp [hu, hk]⟩
    · exact ⟨some c, none, by simp [hu, hk]⟩

theorem Create_client_iff_both_nonempty_witness :
    (NewClient Heap.empty).1.clientOf (NewClient Heap.empty).2 =
        some (0, { httpClient := some 0, baseURL := defaultBaseURL }) ∧
    ∃ p e, clientBuilder.Create (NewClient Heap.empty).1 (NewClient Heap.empty).2 =
        some ((NewClient Heap.empty).1, p, e) ∧
      ((p ≠ none ∧ e = none) ↔ (defaultBaseURL ≠ [] ∧ ([] : GoString) ≠ [])) ∧
      (defaultBaseURL ≠ [] ∧ ([] : GoString) ≠ [] → p = some 0 ∧ e = none) ∧
      (¬(defaultBaseURL ≠ [] ∧ ([] : GoString) ≠ []) →
        p = none ∧ (e = some GoError.ErrBaseURLRequired ∨ e = some GoError.ErrAPIKeyRequired)) :=
  ⟨by decide,
   Create_client_iff_both_nonempty (NewClient Heap.empty).1 (NewClient Heap.empty).2 0
     { httpClient := some 0, baseURL := defaultBaseURL } (by decide)⟩

/-- C2: `Create` checks `baseURL` before `apiKey`: with an empty `baseURL` it fails with
`ErrBaseURLRequired` whatever the `apiKey` is, and with a non-empty `baseURL` and an empty
`apiKey` it fails with `ErrAPIKeyRequired`, not with `ErrBaseURLRequired`. -/
theorem Create_checks_baseURL_first (σ : Heap) (b c : Nat) (cl : Client)
    (h : σ.clientOf b = some (c, cl)) :
    (cl.baseURL = [] →
      clientBuilder.Create σ b = some (σ, none, some GoError.ErrBaseURLRequired)) ∧
    (cl.baseURL ≠ [] → cl.apiKey = [] →
      clientBuilder.Create σ b = some (σ, none, some GoError.ErrAPIKeyRequired) ∧
      clientBuilder.Create σ b ≠ some (σ, none, some GoError.ErrBaseURLRequired)) := by
  rw [Create_eq h]
  refine ⟨fun hu => by simp [hu], fun hu hk => by simp [hu, hk]⟩

theorem Create_checks_baseURL_first_witness :
    (thenCreate (some (NewClient Heap.empty)) =
        some ((NewClient Heap.empty).1, none, some GoError.ErrAPIKeyRequired)) ∧
    ((thenCreate (clientBuilder.WithBaseURL (NewClient Heap.empty).1 (NewClient Heap.empty).2
        (str ""))).map Prod.snd = some (none, some GoError.ErrBaseURLRequired)) ∧
    ((defaultBaseURL = [] →
      clientBuilder.Create (NewClient Heap.empty).1 (NewClient Heap.empty).2 =
        some ((NewClient Heap.empty).1, none, some GoError.ErrBaseURLRequired)) ∧
    (defaultBaseURL ≠ [] → ([] : GoString) = [] →
      clientBuilder.Create (NewClient Heap.empty).1 (NewClient Heap.empty).2 =
        some ((NewClient Heap.empty).1, none, some GoError.ErrAPIKeyRequired) ∧
      clientBuilder.Create (NewClient Heap.empty).1 (NewClient Heap.empty).2 ≠
        some ((NewClient Heap.empty).1, none, some GoError.ErrBaseURLRequired))) :=
  ⟨by decide, by decide,
   Create_checks_baseURL_first (NewClient Heap.empty).1 (NewClient Heap.empty).2 0
     { httpClient := some 0, baseURL := defaultBaseURL } (by decide)⟩

theorem Create_success {σ σ' : Heap} {b c : Nat}
    (h : clientBuilder.Create σ b = some (σ', some c, none)) :
    σ' = σ ∧ ∃ cl, σ.clientOf b = some (c, cl) ∧ cl.baseURL ≠ [] ∧ cl.apiKey ≠ [] := by
  cases hc : σ.clientOf b with
  | none => simp [clientBuilder.Create, hc] at h
  | some r =>
    obtain ⟨c', cl⟩ := r
    rw [Create_eq hc] at h
    by_cases hu : cl.baseURL = []
    · simp [hu] at h
    · by_cases hk : cl.apiKey = []
      · simp [hu, hk] at h
      · simp only [hu, hk, if_false, Option.some.injEq, Prod.mk.injEq] at h
        obtain ⟨rfl, rfl, -⟩ := h
        exact ⟨rfl, cl, rfl, hu, hk⟩

/-- C3: after any finite chain of mutator calls on `NewClient()`, a `Create` that succeeds
returns a pointer to a `Client` whose `baseURL` and `apiKey` are both non-empty. -/
theorem Create_after_chain_nonempty (σ₀ σ σ' : Heap) (ms : List Mutator) (b c : Nat)
    (hchain : Mutator.chain (NewClient σ₀).1 (NewClient σ₀).2 ms = some (σ, b))
    (hcreate : clientBuilder.Create σ b = some (σ', some c, none)) :
    ∃ cl, createdClient (thenCreate (Mutator.chain (NewClient σ₀).1 (NewClient σ₀).2 ms)) = some cl ∧
      cl.baseURL ≠ [] ∧ cl.apiKey ≠ [] := by
  obtain ⟨rfl, cl, hcl, hu, hk⟩ := Create_success hcreate
  refine ⟨cl, ?_, hu, hk⟩
  simp [hchain, thenCreate, hcreate, createdClient, Heap.clientOf_clients hcl]

theorem Create_after_chain_nonempty_witness :
    Mutator.chain (NewClient Heap.empty).1 (NewClient Heap.empty).2 exampleChain =
      some (exampleChainHeap, 0) ∧
    clientBuilder.Create exampleChainHeap 0 = some (exampleChainHeap, some 0, none) ∧
    ∃ cl, createdClient (thenCreate
        (Mutator.chain (NewClient Heap.empty).1 (NewClient Heap.empty).2 exampleChain)) = some cl ∧
      cl.baseURL ≠ [] ∧ cl.apiKey ≠ [] :=
  ⟨by decide, by decide,
   Create_after_chain_nonempty Heap.empty exampleChainHeap exampleChainHeap exampleChain 0 0
     (by decide) (by decide)⟩

theorem RemoveTrailingSlashes_append_slashes (u : GoString) :
    ∃ n, u = strutil.RemoveTrailingSlashes u ++ List.replicate n (0x2F : Byte) := by
  induction u using List.reverseRecOn with
  | nil => exact ⟨0, by simp [strutil.RemoveTrailingSlashes]⟩
  | append_singleton l x ih =>
    by_cases hx : x.val = 0x2F
    · obtain ⟨n, hn⟩ := ih
      refine ⟨n + 1, ?_⟩
      have hx' : x = (0x2F : Byte) := Fin.ext hx
      have hdrop : strutil.RemoveTrailingSlashes (l ++ [x]) = strutil.RemoveTrailingSlashes l := by
        unfold strutil.RemoveTrailingSlashes
        exact List.rdropWhile_concat_pos _ _ _ (by simpa using hx)
      rw [hdrop, List.replicate_succ', ← List.append_assoc, ← hn, hx']
    · refine ⟨0, ?_⟩
      have hdrop : strutil.RemoveTrailingSlashes (l ++ [x]) = l ++ [x] := by
        unfold strutil.RemoveTrailingSlashes
        exact List.rdropWhile_concat_neg _ _ _ (by simpa using hx)
      simp [hdrop]

theorem RemoveTrailingSlashes_getLast (u : GoString) :
    (strutil.RemoveTrailingSlashes u).getLast? ≠ some (0x2F : Byte) := by
  intro h
  have hne : strutil.RemoveTrailingSlashes u ≠ [] := by
    intro h0
    rw [h0] at h
    simp at h
  have hlast := List.rdropWhile_last_not (fun b : Byte => decide (b.val = 0x2F)) u hne
  rw [List.getLast?_eq_getLast _ hne] at h
  have heq : (strutil.RemoveTrailingSlashes u).getLast hne = (0x2F : Byte) := Option.some.inj h
  apply hlast
  have : List.getLast (List.rdropWhile (fun b : Byte => decide (b.val = 0x2F)) u) hne
      = (0x2F : Byte) := heq
  rw [this]
  decide

/-- C6: for every string `u`, after `WithBaseURL(u)` the stored `baseURL` is `u` without
its trailing `/` bytes: a prefix of `u` that does not end in `/` and that gives `u` back
when followed by `/` bytes only; the other fields of the client are as before.  And for
every non-empty key `k`, `NewClient().WithAPIKey(k).WithBaseURL("https://x/").Create()`
returns a client whose `baseURL` is `"https://x"`. -/
theorem WithBaseURL_stores_stripped (σ : Heap) (b c : Nat) (cl : Client) (u : GoString)
    (h : σ.clientOf b = some (c, cl)) :
    (∃ σ' r, clientBuilder.WithBaseURL σ b u = some (σ', b) ∧
      σ'.clientOf b = some (c, { cl with baseURL := r }) ∧
      r <+: u ∧ r.getLast? ≠ some (0x2F : Byte) ∧
      ∃ n, u = r ++ List.replicate n (0x2F : Byte)) ∧
    (∀ (σ₀ : Heap) (k : GoString), k ≠ [] →
      (createdClient (thenCreate
        ((clientBuilder.WithAPIKey (NewClient σ₀).1 (NewClient σ₀).2 k).bind
          (fun r => clientBuilder.WithBaseURL r.1 r.2 (str "https://x/"))))).map Client.baseURL =
        some (str "https://x")) := by
  refine ⟨⟨_, strutil.RemoveTrailingSlashes u, by simp only [clientBuilder.WithBaseURL, h],
    Heap.clientOf_setClient h _, List.rdropWhile_prefix _ _, RemoveTrailingSlashes_getLast u,
    RemoveTrailingSlashes_append_slashes u⟩, ?_⟩
  intro σ₀ k hk
  have h0 := NewClient_clientOf σ₀
  have h1 := Heap.clientOf_setClient h0
    { httpClient := some σ₀.transports.length, baseURL := defaultBaseURL, apiKey := k }
  have h2 := Heap.clientOf_setClient h1
    { httpClient := some σ₀.transports.length,
      baseURL := strutil.RemoveTrailingSlashes (str "https://x/"), apiKey := k }
  have hx : strutil.RemoveTrailingSlashes (str "https://x/") = str "https://x" := by decide
  have hne : str "https://x" ≠ [] := by decide
  rw [hx] at h2
  have hw : clientBuilder.WithAPIKey (NewClient σ₀).1 (NewClient σ₀).2 k =
      some ((NewClient σ₀).1.setClient σ₀.clients.length
        { httpClient := some σ₀.transports.length, baseURL := defaultBaseURL, apiKey := k },
        (NewClient σ₀).2) := by
    simp only [clientBuilder.WithAPIKey, h0]
  rw [hw, Option.bind]
  simp only
  have hb : clientBuilder.WithBaseURL ((NewClient σ₀).1.setClient σ₀.clients.length
        { httpClient := some σ₀.transports.length, baseURL := defaultBaseURL, apiKey := k })
        (NewClient σ₀).2 (str "https://x/") =
      some (((NewClient σ₀).1.setClient σ₀.clients.length
        { httpClient := some σ₀.transports.length, baseURL := defaultBaseURL,
          apiKey := k }).setClient σ₀.clients.length
        { httpClient := some σ₀.transports.length, baseURL := str "https://x", apiKey := k },
        (NewClient σ₀).2) := by
    simp only [clientBuilder.WithBaseURL, h1, hx]
  rw [hb, thenCreate, Create_eq h2]
  simp only [hne, hk, if_false, createdClient, Heap.clientOf_clients h2, Option.map_some']

theorem WithBaseURL_stores_stripped_witness :
    exampleNoBaseURLHeap.clientOf 0 = some (0, Client.mk (some 0) [] (str "k") [] []) ∧
    (∃ σ' r, clientBuilder.WithBaseURL exampleNoBaseURLHeap 0 (str "https://x//") = some (σ', 0) ∧
      σ'.clientOf 0 = some (0, Client.mk (some 0) r (str "k") [] []) ∧
      r <+: str "https://x//" ∧ r.getLast? ≠ some (0x2F : Byte) ∧
      ∃ n, str "https://x//" = r ++ List.replicate n (0x2F : Byte)) ∧
    (∀ (σ₀ : Heap) (k : GoString), k ≠ [] →
      (createdClient (thenCreate
        ((clientBuilder.WithAPIKey (NewClient σ₀).1 (NewClient σ₀).2 k).bind
          (fun r => clientBuilder.WithBaseURL r.1 r.2 (str "https://x/"))))).map Client.baseURL =
        some (str "https://x")) :=
  ⟨by decide,
   WithBaseURL_stores_stripped exampleNoBaseURLHeap 0 0 (Client.mk (some 0) [] (str "k") [] [])
     (str "https://x//") (by decide)⟩

theorem WithAPIKey_eq {σ : Heap} {b c : Nat} {cl : Client} (h : σ.clientOf b = some (c, cl))
    (k : GoString) :
    clientBuilder.WithAPIKey σ b k = some (σ.setClient c { cl with apiKey := k }, b) := by
  simp only [clientBuilder.WithAPIKey, h]

theorem WithBaseURL_eq {σ : Heap} {b c : Nat} {cl : Client} (h : σ.clientOf b = some (c, cl))
    (u : GoString) :
    clientBuilder.WithBaseURL σ b u =
      some (σ.setClient c { cl with baseURL := strutil.RemoveTrailingSlashes u }, b) := by
  simp only [clientBuilder.WithBaseURL, h]

/-- C7, as amended: a failed `Create` returns a nil client and leaves the whole heap, and
so every field of the builder's configuration, as it was; and when the caller then supplies
each missing field with a value that is non-empty as stored (for the base URL: non-empty
once its trailing slashes are removed), a second `Create` on the same builder succeeds. -/
theorem failed_Create_is_retryable (σ σ' : Heap) (b c : Nat) (cl : Client) (p : Option Nat)
    (e : GoError) (u k : GoString)
    (h : σ.clientOf b = some (c, cl))
    (hfail : clientBuilder.Create σ b = some (σ', p, some e))
    (hu : strutil.RemoveTrailingSlashes u ≠ []) (hk : k ≠ []) :
    σ' = σ ∧ p = none ∧ σ'.clientOf b = some (c, cl) ∧
    (cl.baseURL = [] → cl.apiKey ≠ [] →
      (thenCreate (clientBuilder.WithBaseURL σ' b u)).map Prod.snd = some (some c, none)) ∧
    (cl.baseURL ≠ [] →
      (thenCreate (clientBuilder.WithAPIKey σ' b k)).map Prod.snd = some (some c, none)) ∧
    (cl.baseURL = [] → cl.apiKey = [] →
      (thenCreate ((clientBuilder.WithBaseURL σ' b u).bind
        (fun r => clientBuilder.WithAPIKey r.1 r.2 k))).map Prod.snd = some (some c, none)) := by
  rw [Create_eq h] at hfail
  have hσ : σ' = σ ∧ p = none := by
    by_cases h1 : cl.baseURL = []
    · simp only [h1, if_true, Option.some.injEq, Prod.mk.injEq] at hfail
      exact ⟨hfail.1.symm, hfail.2.1.symm⟩
    · by_cases h2 : cl.apiKey = []
      · simp only [h1, h2, if_true, if_false, Option.some.injEq, Prod.mk.injEq] at hfail
        exact ⟨hfail.1.symm, hfail.2.1.symm⟩
      · simp [h1, h2] at hfail
  obtain ⟨rfl, rfl⟩ := hσ
  refine ⟨rfl, rfl, h, ?_, ?_, ?_⟩
  · intro _ h2
    rw [WithBaseURL_eq h, thenCreate, Create_eq (Heap.clientOf_setClient h _)]
    simp [hu, h2]
  · intro h1
    rw [WithAPIKey_eq h, thenCreate, Create_eq (Heap.clientOf_setClient h _)]
    simp [hk, h1]
  · intro _ _
    rw [WithBaseURL_eq h, Option.bind]
    simp only
    rw [WithAPIKey_eq (Heap.clientOf_setClient h _), thenCreate,
      Create_eq (Heap.clientOf_setClient (Heap.clientOf_setClient h _) _)]
    simp [hu, hk]

theorem failed_Create_is_retryable_witness :
    exampleNoBaseURLHeap.clientOf 0 = some (0, Client.mk (some 0) [] (str "k") [] []) ∧
    exampleNoBaseURLHeap = exampleNoBaseURLHeap ∧ (none : Option Nat) = none ∧
    exampleNoBaseURLHeap.clientOf 0 = some (0, Client.mk (some 0) [] (str "k") [] []) ∧
    (([] : GoString) = [] → str "k" ≠ [] →
      (thenCreate (clientBuilder.WithBaseURL exampleNoBaseURLHeap 0 (str "https://x/"))).map
        Prod.snd = some (some 0, none)) ∧
    (([] : GoString) ≠ [] →
      (thenCreate (clientBuilder.WithAPIKey exampleNoBaseURLHeap 0 (str "k2"))).map Prod.snd =
        some (some 0, none)) ∧
    (([] : GoString) = [] → str "k" = [] →
      (thenCreate ((clientBuilder.WithBaseURL exampleNoBaseURLHeap 0 (str "https://x/")).bind
        (fun r => clientBuilder.WithAPIKey r.1 r.2 (str "k2")))).map Prod.snd =
        some (some 0, none)) :=
  ⟨by decide,
   failed_Create_is_retryable exampleNoBaseURLHeap exampleNoBaseURLHeap 0 0
     (Client.mk (some 0) [] (str "k") [] []) none GoError.ErrBaseURLRequired
     (str "https://x/") (str "k2") (by decide) (by decide) (by decide) (by decide)⟩

/-- C7, the claim as stated fails: the builder reached by
`NewClient().WithAPIKey("k").WithBaseURL("")` fails in `Create` for want of a base URL; the
caller then supplies the non-empty value `"/"` through `WithBaseURL`, and the second
`Create` fails again with `ErrBaseURLRequired`. -/
theorem retry_with_slash_still_fails :
    (clientBuilder.WithAPIKey (NewClient Heap.empty).1 (NewClient Heap.empty).2 (str "k")).bind
        (fun r => clientBuilder.WithBaseURL r.1 r.2 (str "")) = some (exampleNoBaseURLHeap, 0) ∧
    clientBuilder.Create exampleNoBaseURLHeap 0 =
      some (exampleNoBaseURLHeap, none, some GoError.ErrBaseURLRequired) ∧
    str "/" ≠ [] ∧
    (thenCreate (clientBuilder.WithBaseURL exampleNoBaseURLHeap 0 (str "/"))).map Prod.snd =
      some (none, some GoError.ErrBaseURLRequired) := by
  decide

/-- C8: for every non-empty key `k`, `NewClient().WithAPIKey(k).Create()` succeeds and
returns a client with the base URL `https://openrouter.ai/api/v1`, the key `k`, a non-nil
transport whose timeout is 3 minutes, and empty referer URL and title. -/
theorem NewClient_defaults (σ₀ : Heap) (k : GoString) (hk : k ≠ []) :
    ∃ σ c cl t tr,
      thenCreate (clientBuilder.WithAPIKey (NewClient σ₀).1 (NewClient σ₀).2 k) =
        some (σ, some c, none) ∧
      σ.clients[c]? = some cl ∧
      cl.baseURL = str "https://openrouter.ai/api/v1" ∧ cl.apiKey = k ∧
      cl.httpClient = some t ∧ σ.transports[t]? = some tr ∧
      tr.Timeout = 3 * time.Minute ∧ tr.Timeout = 180000000000 ∧
      cl.refererURL = [] ∧ cl.refererTitle = [] := by
  have h0 := NewClient_clientOf σ₀
  have h1 := Heap.clientOf_setClient h0
    { httpClient := some σ₀.transports.length, baseURL := defaultBaseURL, apiKey := k }
  have hne : defaultBaseURL ≠ [] := by decide
  refine ⟨_, σ₀.clients.length, _, σ₀.transports.length, ⟨0, 0, 0, defaultTimeout⟩, ?_,
    Heap.clientOf_clients h1, rfl, rfl, rfl, ?_, rfl, by decide, rfl, rfl⟩
  · rw [WithAPIKey_eq h0, thenCreate, Create_eq h1]
    simp [hne, hk]
  · simp [Heap.setClient, NewClient]

theorem NewClient_defaults_witness :
    str "sk-or-1" ≠ [] ∧
    ∃ σ c cl t tr,
      thenCreate (clientBuilder.WithAPIKey (NewClient Heap.empty).1 (NewClient Heap.empty).2
        (str "sk-or-1")) = some (σ, some c, none) ∧
      σ.clients[c]? = some cl ∧
      cl.baseURL = str "https://openrouter.ai/api/v1" ∧ cl.apiKey = str "sk-or-1" ∧
      cl.httpClient = some t ∧ σ.transports[t]? = some tr ∧
      tr.Timeout = 3 * time.Minute ∧ tr.Timeout = 180000000000 ∧
      cl.refererURL = [] ∧ cl.refererTitle = [] :=
  ⟨by decide, NewClient_defaults Heap.empty (str "sk-or-1") (by decide)⟩

/-! ## UTF-8 -/

theorem and_0x3F (x : Nat) : x &&& 0x3F = x % 64 := Nat.and_pow_two_sub_one_eq_mod x 6

theorem and_0x1F (x : Nat) : x &&& 0x1F = x % 32 := Nat.and_pow_two_sub_one_eq_mod x 5

theorem and_0x0F (x : Nat) : x &&& 0x0F = x % 16 := Nat.and_pow_two_sub_one_eq_mod x 4

theorem and_0x07 (x : Nat) : x &&& 0x07 = x % 8 := Nat.and_pow_two_sub_one_eq_mod x 3

theorem and_0x01 (x : Nat) : x &&& 1 = x % 2 := Nat.and_pow_two_sub_one_eq_mod x 1

theorem shl_or (a b i : Nat) (hb : b < 2 ^ i) : (a <<< i) ||| b = a * 2 ^ i + b := by
  rw [Nat.shiftLeft_eq, Nat.mul_comm a, ← Nat.mul_add_lt_is_or hb]

theorem add_or (k a i : Nat) (ha : a < 2 ^ i) (hk : k = 2 ^ i * (k / 2 ^ i)) : k ||| a = k + a := by
  rw [hk, ← Nat.mul_add_lt_is_or ha]

theorem or_0xC0 (x : Nat) (h : x < 64) : 0xC0 ||| x = 0xC0 + x :=
  add_or 0xC0 x 6 h (by decide)

theorem or_0x80 (x : Nat) (h : x < 64) : 0x80 ||| x = 0x80 + x :=
  add_or 0x80 x 6 h (by decide)

theorem or_0xE0 (x : Nat) (h : x < 32) : 0xE0 ||| x = 0xE0 + x :=
  add_or 0xE0 x 5 h (by decide)

theorem or_0xF0 (x : Nat) (h : x < 16) : 0xF0 ||| x = 0xF0 + x :=
  add_or 0xF0 x 4 h (by decide)

theorem byte_val (n : Nat) : (byte n).val = n % 256 := rfl

theorem byte_eq (n : Nat) (b : Byte) (h : n = b.val) : byte n = b := by
  apply Fin.ext
  rw [byte_val, h]
  exact Nat.mod_eq_of_lt b.isLt

/-- The rune that `utf8.DecodeRune` computes from two bytes. -/
theorem rune2_eq (b0 b1 : Nat) :
    ((b0 &&& 0x1F) <<< 6) ||| (b1 &&& 0x3F) = b0 % 32 * 64 + b1 % 64 := by
  rw [and_0x1F, and_0x3F, shl_or _ (b1 % 64) 6 (by omega)]
  omega

theorem rune3_eq (b0 b1 b2 : Nat) :
    (((b0 &&& 0x0F) <<< 12) ||| ((b1 &&& 0x3F) <<< 6)) ||| (b2 &&& 0x3F) =
      b0 % 16 * 4096 + b1 % 64 * 64 + b2 % 64 := by
  rw [and_0x0F, and_0x3F, and_0x3F, Nat.shiftLeft_eq (b1 % 64),
    shl_or _ (b1 % 64 * 2 ^ 6) 12 (by omega)]
  have h : b0 % 16 * 2 ^ 12 + b1 % 64 * 2 ^ 6 = (b0 % 16 * 64 + b1 % 64) <<< 6 := by
    rw [Nat.shiftLeft_eq]; omega
  rw [h, shl_or _ (b2 % 64) 6 (by omega)]
  omega

theorem rune4_eq (b0 b1 b2 b3 : Nat) :
    ((((b0 &&& 0x07) <<< 18) ||| ((b1 &&& 0x3F) <<< 12)) ||| ((b2 &&& 0x3F) <<< 6)) |||
        (b3 &&& 0x3F) =
      b0 % 8 * 262144 + b1 % 64 * 4096 + b2 % 64 * 64 + b3 % 64 := by
  rw [and_0x07, and_0x3F, and_0x3F, and_0x3F, Nat.shiftLeft_eq (b1 % 64),
    Nat.shiftLeft_eq (b2 % 64),
    shl_or _ (b1 % 64 * 2 ^ 12) 18 (by omega)]
  have h : b0 % 8 * 2 ^ 18 + b1 % 64 * 2 ^ 12 = (b0 % 8 * 64 + b1 % 64) <<< 12 := by
    rw [Nat.shiftLeft_eq]; omega
  rw [h, shl_or _ (b2 % 64 * 2 ^ 6) 12 (by omega)]
  have h2 : (b0 % 8 * 64 + b1 % 64) * 2 ^ 12 + b2 % 64 * 2 ^ 6 =
      ((b0 % 8 * 64 + b1 % 64) * 64 + b2 % 64) <<< 6 := by
    rw [Nat.shiftLeft_eq]; omega
  rw [h2, shl_or _ (b3 % 64) 6 (by omega)]
  omega

theorem char2_bounds {b0 b1 : Byte} (h : rfc3629.char2 b0 b1 = true) :
    0xC2 ≤ b0.val ∧ b0.val ≤ 0xDF ∧ 0x80 ≤ b1.val ∧ b1.val ≤ 0xBF := by
  simpa [rfc3629.char2, rfc3629.tail, and_assoc] using h

theorem first_2 (n : Nat) (h1 : 0xC2 ≤ n) (h2 : n ≤ 0xDF) : utf8.first n = 0x02 := by
  unfold utf8.first
  rw [if_neg (by omega), if_neg (by omega), if_pos (by omega)]

theorem first_E1_EC (n : Nat) (h1 : 0xE1 ≤ n) (h2 : n ≤ 0xEC) : utf8.first n = 0x03 := by
  unfold utf8.first
  rw [if_neg (by omega), if_neg (by omega), if_neg (by omega), if_neg (by omega),
    if_pos (by omega)]

theorem first_EE_EF (n : Nat) (h1 : 0xEE ≤ n) (h2 : n ≤ 0xEF) : utf8.first n = 0x03 := by
  unfold utf8.first
  rw [if_neg (by omega), if_neg (by omega), if_neg (by omega), if_neg (by omega),
    if_neg (by omega), if_neg (by omega), if_pos (by omega)]

theorem first_F1_F3 (n : Nat) (h1 : 0xF1 ≤ n) (h2 : n ≤ 0xF3) : utf8.first n = 0x04 := by
  unfold utf8.first
  rw [if_neg (by omega), if_neg (by omega), if_neg (by omega), if_neg (by omega),
    if_neg (by omega), if_neg (by omega), if_neg (by omega), if_neg (by omega),
    if_pos (by omega)]

theorem DecodeRune_char2 (b0 b1 : Byte) (t : List Byte) (h : rfc3629.char2 b0 b1 = true) :
    utf8.DecodeRune (b0 :: b1 :: t) = (b0.val % 32 * 64 + b1.val % 64, 2) := by
  obtain ⟨h1, h2, h3, h4⟩ := char2_bounds h
  have hf : utf8.first b0.val = 0x02 := first_2 _ h1 h2
  unfold utf8.DecodeRune
  simp only [hf]
  have e1 : (2 : Nat) &&& 7 = 2 := by decide
  have e2 : (2 : Nat) >>> 4 = 0 := by decide
  rw [e1, e2, rune2_eq]
  simp only [utf8.acceptRanges, List.length_cons]
  rw [if_neg (by decide), if_neg (by omega), if_neg (by omega), if_pos (by decide)]

theorem EncodeRune_char2 (b0 b1 : Byte) (h : rfc3629.char2 b0 b1 = true) :
    utf8.EncodeRune (b0.val % 32 * 64 + b1.val % 64) = [b0, b1] := by
  obtain ⟨h1, h2, h3, h4⟩ := char2_bounds h
  unfold utf8.EncodeRune
  rw [if_neg (by omega), if_pos (by omega), Nat.shiftRight_eq_div_pow, and_0x3F,
    or_0xC0 _ (by omega), or_0x80 _ (by omega),
    byte_eq _ b0 (by omega), byte_eq _ b1 (by omega)]

theorem char3_bounds {b0 b1 b2 : Byte} (h : rfc3629.char3 b0 b1 b2 = true) :
    ((b0.val = 0xE0 ∧ 0xA0 ≤ b1.val ∧ b1.val ≤ 0xBF) ∨
     (0xE1 ≤ b0.val ∧ b0.val ≤ 0xEC ∧ 0x80 ≤ b1.val ∧ b1.val ≤ 0xBF) ∨
     (b0.val = 0xED ∧ 0x80 ≤ b1.val ∧ b1.val ≤ 0x9F) ∨
     (0xEE ≤ b0.val ∧ b0.val ≤ 0xEF ∧ 0x80 ≤ b1.val ∧ b1.val ≤ 0xBF)) ∧
    0x80 ≤ b2.val ∧ b2.val ≤ 0xBF := by
  simpa [rfc3629.char3, rfc3629.tail, and_assoc, or_assoc] using h

theorem char4_bounds {b0 b1 b2 b3 : Byte} (h : rfc3629.char4 b0 b1 b2 b3 = true) :
    ((b0.val = 0xF0 ∧ 0x90 ≤ b1.val ∧ b1.val ≤ 0xBF) ∨
     (0xF1 ≤ b0.val ∧ b0.val ≤ 0xF3 ∧ 0x80 ≤ b1.val ∧ b1.val ≤ 0xBF) ∨
     (b0.val = 0xF4 ∧ 0x80 ≤ b1.val ∧ b1.val ≤ 0x8F)) ∧
    (0x80 ≤ b2.val ∧ b2.val ≤ 0xBF) ∧ 0x80 ≤ b3.val ∧ b3.val ≤ 0xBF := by
  simpa [rfc3629.char4, rfc3629.tail, and_assoc, or_assoc] using h

theorem DecodeRune_of_first3 (b0 b1 b2 : Byte) (t : List Byte) (x : Nat)
    (hx : utf8.first b0.val = x) (hlt : x < 0xF0) (hsz : x &&& 7 = 3)
    (h1 : (utf8.acceptRanges (x >>> 4)).1 ≤ b1.val ∧ b1.val ≤ (utf8.acceptRanges (x >>> 4)).2)
    (h2 : 0x80 ≤ b2.val ∧ b2.val ≤ 0xBF) :
    utf8.DecodeRune (b0 :: b1 :: b2 :: t) =
      (b0.val % 16 * 4096 + b1.val % 64 * 64 + b2.val % 64, 3) := by
  unfold utf8.DecodeRune
  simp only [hx, hsz, List.length_cons]
  rw [if_neg (by omega), if_neg (by omega), if_neg (by omega), if_neg (by decide),
    if_neg (by omega), if_pos (by decide), rune3_eq]

theorem DecodeRune_of_first4 (b0 b1 b2 b3 : Byte) (t : List Byte) (x : Nat)
    (hx : utf8.first b0.val = x) (hlt : x < 0xF0) (hsz : x &&& 7 = 4)
    (h1 : (utf8.acceptRanges (x >>> 4)).1 ≤ b1.val ∧ b1.val ≤ (utf8.acceptRanges (x >>> 4)).2)
    (h2 : 0x80 ≤ b2.val ∧ b2.val ≤ 0xBF) (h3 : 0x80 ≤ b3.val ∧ b3.val ≤ 0xBF) :
    utf8.DecodeRune (b0 :: b1 :: b2 :: b3 :: t) =
      (b0.val % 8 * 262144 + b1.val % 64 * 4096 + b2.val % 64 * 64 + b3.val % 64, 4) := by
  unfold utf8.DecodeRune
  simp only [hx, hsz, List.length_cons]
  rw [if_neg (by omega), if_neg (by omega), if_neg (by omega), if_neg (by decide),
    if_neg (by omega), if_neg (by decide), if_neg (by omega), rune4_eq]

theorem DecodeRune_char3 (b0 b1 b2 : Byte) (t : List Byte) (h : rfc3629.char3 b0 b1 b2 = true) :
    utf8.DecodeRune (b0 :: b1 :: b2 :: t) =
      (b0.val % 16 * 4096 + b1.val % 64 * 64 + b2.val % 64, 3) := by
  obtain ⟨h1, h2⟩ := char3_bounds h
  rcases h1 with ⟨e, h1⟩ | ⟨l, u, h1⟩ | ⟨e, h1⟩ | ⟨l, u, h1⟩
  · exact DecodeRune_of_first3 b0 b1 b2 t 0x13 (by rw [e]; rfl) (by decide) (by decide)
      (by simpa [utf8.acceptRanges] using h1) h2
  · exact DecodeRune_of_first3 b0 b1 b2 t 0x03 (first_E1_EC _ l u)
      (by decide) (by decide) (by simpa [utf8.acceptRanges] using h1) h2
  · exact DecodeRune_of_first3 b0 b1 b2 t 0x23 (by rw [e]; rfl) (by decide) (by decide)
      (by simpa [utf8.acceptRanges] using h1) h2
  · exact DecodeRune_of_first3 b0 b1 b2 t 0x03 (first_EE_EF _ l u)
      (by decide) (by decide) (by simpa [utf8.acceptRanges] using h1) h2

theorem DecodeRune_char4 (b0 b1 b2 b3 : Byte) (t : List Byte)
    (h : rfc3629.char4 b0 b1 b2 b3 = true) :
    utf8.DecodeRune (b0 :: b1 :: b2 :: b3 :: t) =
      (b0.val % 8 * 262144 + b1.val % 64 * 4096 + b2.val % 64 * 64 + b3.val % 64, 4) := by
  obtain ⟨h1, h2, h3⟩ := char4_bounds h
  rcases h1 with ⟨e, h1⟩ | ⟨l, u, h1⟩ | ⟨e, h1⟩
  · exact DecodeRune_of_first4 b0 b1 b2 b3 t 0x34 (by rw [e]; rfl) (by decide) (by decide)
      (by simpa [utf8.acceptRanges] using h1) h2 h3
  · exact DecodeRune_of_first4 b0 b1 b2 b3 t 0x04 (first_F1_F3 _ l u)
      (by decide) (by decide) (by simpa [utf8.acceptRanges] using h1) h2 h3
  · exact DecodeRune_of_first4 b0 b1 b2 b3 t 0x44 (by rw [e]; rfl) (by decide) (by decide)
      (by simpa [utf8.acceptRanges] using h1) h2 h3

theorem EncodeRune_char3 (b0 b1 b2 : Byte) (h : rfc3629.char3 b0 b1 b2 = true) :
    utf8.EncodeRune (b0.val % 16 * 4096 + b1.val % 64 * 64 + b2.val % 64) = [b0, b1, b2] := by
  obtain ⟨h1, h2⟩ := char3_bounds h
  unfold utf8.EncodeRune utf8.MaxRune
  rw [if_neg (by omega), if_neg (by omega), if_neg (by omega), if_pos (by omega),
    Nat.shiftRight_eq_div_pow, Nat.shiftRight_eq_div_pow, and_0x3F, and_0x3F,
    or_0xE0 _ (by omega), or_0x80 _ (by omega), or_0x80 _ (by omega),
    byte_eq _ b0 (by omega), byte_eq _ b1 (by omega), byte_eq _ b2 (by omega)]

theorem EncodeRune_char4 (b0 b1 b2 b3 : Byte) (h : rfc3629.char4 b0 b1 b2 b3 = true) :
    utf8.EncodeRune (b0.val % 8 * 262144 + b1.val % 64 * 4096 + b2.val % 64 * 64 + b3.val % 64) =
      [b0, b1, b2, b3] := by
  obtain ⟨h1, h2, h3⟩ := char4_bounds h
  unfold utf8.EncodeRune utf8.MaxRune
  rw [if_neg (by omega), if_neg (by omega), if_neg (by omega), if_neg (by omega),
    Nat.shiftRight_eq_div_pow, Nat.shiftRight_eq_div_pow, Nat.shiftRight_eq_div_pow,
    and_0x3F, and_0x3F, and_0x3F,
    or_0xF0 _ (by omega), or_0x80 _ (by omega), or_0x80 _ (by omega), or_0x80 _ (by omega),
    byte_eq _ b0 (by omega), byte_eq _ b1 (by omega), byte_eq _ b2 (by omega),
    byte_eq _ b3 (by omega)]

theorem EncodeRune_eq_encode (c : Nat) (h : c < 0xD800 ∨ (0xE000 ≤ c ∧ c ≤ 0x10FFFF)) :
    utf8.EncodeRune c = rfc3629.encode c := by
  unfold utf8.EncodeRune rfc3629.encode utf8.MaxRune
  by_cases h1 : c ≤ 0x7F
  · rw [if_pos h1, if_pos (by omega)]
  · by_cases h2 : c ≤ 0x7FF
    · rw [if_neg h1, if_pos h2, if_neg (by omega), if_pos (by omega),
        Nat.shiftRight_eq_div_pow, and_0x3F, or_0xC0 _ (by omega), or_0x80 _ (by omega)]
    · by_cases h3 : c ≤ 0xFFFF
      · rw [if_neg h1, if_neg h2, if_neg (by omega), if_pos h3, if_neg (by omega),
          if_neg (by omega), if_pos (by omega),
          Nat.shiftRight_eq_div_pow, Nat.shiftRight_eq_div_pow, and_0x3F, and_0x3F,
          or_0xE0 _ (by omega), or_0x80 _ (by omega), or_0x80 _ (by omega)]
      · rw [if_neg h1, if_neg h2, if_neg (by omega), if_neg h3, if_neg (by omega),
          if_neg (by omega), if_neg (by omega),
          Nat.shiftRight_eq_div_pow, Nat.shiftRight_eq_div_pow, Nat.shiftRight_eq_div_pow,
          and_0x3F, and_0x3F, and_0x3F,
          or_0xF0 _ (by omega), or_0x80 _ (by omega), or_0x80 _ (by omega),
          or_0x80 _ (by omega)]

theorem hexVal_eq_hexDigit (c : Byte) : json.hexVal c = rfc8259.hexDigit c := by
  unfold json.hexVal rfc8259.hexDigit
  by_cases h1 : 0x30 ≤ c.val ∧ c.val ≤ 0x39
  · rw [if_pos h1, if_pos h1]
  · rw [if_neg h1, if_neg h1]
    by_cases h2 : 0x61 ≤ c.val ∧ c.val ≤ 0x66
    · rw [if_pos h2, if_neg (by omega), if_pos h2]
    · rw [if_neg h2]
      by_cases h3 : 0x41 ≤ c.val ∧ c.val ≤ 0x46
      · rw [if_pos h3, if_pos h3]
      · rw [if_neg h3, if_neg h3, if_neg h2]

theorem hexDigit_lt {c : Byte} {v : Nat} (h : rfc8259.hexDigit c = some v) : v < 16 := by
  unfold rfc8259.hexDigit at h
  split_ifs at h <;> simp at h <;> omega

theorem hexDigit_isHex {c : Byte} {v : Nat} (h : rfc8259.hexDigit c = some v) :
    json.isHex c = true := by
  unfold rfc8259.hexDigit at h
  unfold json.isHex
  split_ifs at h with h1 h2 h3
  · simp [h1.1, h1.2]
  · simp [h2.1, h2.2]
  · simp [h3.1, h3.2]

theorem hex4_parts {h1 h2 h3 h4 : Byte} {c : Nat} (h : rfc8259.hex4 h1 h2 h3 h4 = some c) :
    ∃ v1 v2 v3 v4, rfc8259.hexDigit h1 = some v1 ∧ rfc8259.hexDigit h2 = some v2 ∧
      rfc8259.hexDigit h3 = some v3 ∧ rfc8259.hexDigit h4 = some v4 ∧
      c = v1 * 0x1000 + v2 * 0x100 + v3 * 0x10 + v4 := by
  unfold rfc8259.hex4 at h
  cases e1 : rfc8259.hexDigit h1 with
  | none => simp [e1] at h
  | some v1 =>
    cases e2 : rfc8259.hexDigit h2 with
    | none => simp [e1, e2] at h
    | some v2 =>
      cases e3 : rfc8259.hexDigit h3 with
      | none => simp [e1, e2, e3] at h
      | some v3 =>
        cases e4 : rfc8259.hexDigit h4 with
        | none => simp [e1, e2, e3, e4] at h
        | some v4 =>
          simp only [e1, e2, e3, e4, Option.some.injEq] at h
          exact ⟨v1, v2, v3, v4, rfl, rfl, rfl, rfl, h.symm⟩

theorem getu4_of_hex4 {h1 h2 h3 h4 : Byte} {c : Nat} (t : List Byte)
    (h : rfc8259.hex4 h1 h2 h3 h4 = some c) :
    json.getu4 (0x5C :: 0x75 :: h1 :: h2 :: h3 :: h4 :: t) = some c := by
  obtain ⟨v1, v2, v3, v4, e1, e2, e3, e4, rfl⟩ := hex4_parts h
  unfold json.getu4
  simp only [hexVal_eq_hexDigit, e1, e2, e3, e4]
  rw [if_neg (by decide)]
  congr 1
  omega

theorem hex4_lt {h1 h2 h3 h4 : Byte} {c : Nat} (h : rfc8259.hex4 h1 h2 h3 h4 = some c) :
    c < 0x10000 := by
  obtain ⟨v1, v2, v3, v4, e1, e2, e3, e4, rfl⟩ := hex4_parts h
  have := hexDigit_lt e1
  have := hexDigit_lt e2
  have := hexDigit_lt e3
  have := hexDigit_lt e4
  omega

/-! ## String tokens: the scanner -/

theorem scanString_quote (fuel : Nat) (rest : List Byte) :
    json.scanString (fuel + 1) (0x22 :: rest) = some ([], rest) := by
  rw [json.scanString.eq_def]
  simp only
  rw [if_pos (by decide)]

theorem scanString_plain (fuel : Nat) (c : Byte) (l body after : List Byte)
    (hc : c.val ≠ 0x22 ∧ c.val ≠ 0x5C ∧ 0x20 ≤ c.val)
    (hl : json.scanString fuel l = some (body, after)) :
    json.scanString (fuel + 1) (c :: l) = some (c :: body, after) := by
  rw [json.scanString.eq_def]
  simp only
  rw [if_neg hc.1, if_neg hc.2.1, if_neg (by omega), hl]

theorem simpleEscape_cases {e v : Byte} (h : rfc8259.simpleEscape e = some v) :
    (e.val = 0x22 ∧ v = 0x22) ∨ (e.val = 0x5C ∧ v = 0x5C) ∨ (e.val = 0x2F ∧ v = 0x2F) ∨
    (e.val = 0x62 ∧ v = 0x08) ∨ (e.val = 0x66 ∧ v = 0x0C) ∨ (e.val = 0x6E ∧ v = 0x0A) ∨
    (e.val = 0x72 ∧ v = 0x0D) ∨ (e.val = 0x74 ∧ v = 0x09) := by
  unfold rfc8259.simpleEscape at h
  split_ifs at h with h1 h2 h3 h4 h5 h6 h7 h8 <;> simp at h <;> subst h <;> simp [*]

theorem scanString_escape (fuel : Nat) (e : Byte) (l body after : List Byte)
    (he : e.val = 0x62 ∨ e.val = 0x66 ∨ e.val = 0x6E ∨ e.val = 0x72 ∨ e.val = 0x74 ∨
      e.val = 0x5C ∨ e.val = 0x2F ∨ e.val = 0x22)
    (hl : json.scanString fuel l = some (body, after)) :
    json.scanString (fuel + 1) (0x5C :: e :: l) = some (0x5C :: e :: body, after) := by
  rw [json.scanString.eq_def]
  simp only
  rw [if_neg (by decide), if_pos (by decide), if_pos he, hl]

theorem scanString_escapeU (fuel : Nat) (h1 h2 h3 h4 : Byte) (l body after : List Byte)
    (hh : json.isHex h1 = true ∧ json.isHex h2 = true ∧ json.isHex h3 = true ∧
      json.isHex h4 = true)
    (hl : json.scanString fuel l = some (body, after)) :
    json.scanString (fuel + 1) (0x5C :: 0x75 :: h1 :: h2 :: h3 :: h4 :: l) =
      some (0x5C :: 0x75 :: h1 :: h2 :: h3 :: h4 :: body, after) := by
  rw [json.scanString.eq_def]
  simp only
  rw [if_neg (by decide), if_pos (by decide), if_neg (by decide), if_pos (by decide),
    if_pos (by simp [hh])]
  simp only [List.drop_succ_cons, List.drop_zero, List.take_succ_cons, List.take_zero, hl,
    List.cons_append, List.nil_append]

theorem scanString_mono (fuel : Nat) : ∀ (l body after : List Byte),
    json.scanString fuel l = some (body, after) →
    json.scanString (fuel + 1) l = some (body, after) := by
  induction fuel with
  | zero => intro l body after h; simp [json.scanString] at h
  | succ n ih =>
    intro l body after h
    cases l with
    | nil => simp [json.scanString] at h
    | cons c rest =>
      rw [json.scanString.eq_def] at h ⊢
      simp only at h ⊢
      by_cases h1 : c.val = 0x22
      · rw [if_pos h1] at h ⊢; exact h
      · rw [if_neg h1] at h ⊢
        by_cases h2 : c.val = 0x5C
        · rw [if_pos h2] at h ⊢
          cases rest with
          | nil => simp at h
          | cons e rest₁ =>
            simp only at h ⊢
            by_cases h3 : e.val = 0x62 ∨ e.val = 0x66 ∨ e.val = 0x6E ∨ e.val = 0x72 ∨
                e.val = 0x74 ∨ e.val = 0x5C ∨ e.val = 0x2F ∨ e.val = 0x22
            · rw [if_pos h3] at h ⊢
              cases hs : json.scanString n rest₁ with
              | none => simp [hs] at h
              | some r => rw [ih _ _ _ hs]; rw [hs] at h; exact h
            · rw [if_neg h3] at h ⊢
              by_cases h4 : e.val = 0x75
              · rw [if_pos h4] at h ⊢
                by_cases h5 : 4 ≤ rest₁.length ∧ (rest₁.take 4).all json.isHex = true
                · rw [if_pos h5] at h ⊢
                  cases hs : json.scanString n (rest₁.drop 4) with
                  | none => simp [hs] at h
                  | some r => rw [ih _ _ _ hs]; rw [hs] at h; exact h
                · rw [if_neg h5] at h; simp at h
              · rw [if_neg h4] at h; simp at h
        · rw [if_neg h2] at h ⊢
          by_cases h3 : c.val < 0x20
          · rw [if_pos h3] at h; simp at h
          · rw [if_neg h3] at h ⊢
            cases hs : json.scanString n rest with
            | none => simp [hs] at h
            | some r => rw [ih _ _ _ hs]; rw [hs] at h; exact h

theorem scanString_mono_le {fuel fuel' : Nat} (hle : fuel ≤ fuel') {l body after : List Byte}
    (h : json.scanString fuel l = some (body, after)) :
    json.scanString fuel' l = some (body, after) := by
  induction hle with
  | refl => exact h
  | step _ ih => exact scanString_mono _ _ _ _ ih

theorem scanString_body {body : List Byte} {s : GoString} (h : rfc8259.StringBody body s)
    (rest : List Byte) :
    json.scanString (body.length + 1) (body ++ 0x22 :: rest) = some (body, rest) := by
  induction h with
  | nil => exact scanString_quote _ rest
  | ascii b t s hb _ ih => exact scanString_plain _ b _ _ _ ⟨hb.2.2.1, hb.2.2.2, hb.1⟩ ih
  | utf8_2 b0 b1 t s hc _ ih =>
    obtain ⟨h1, h2, h3, h4⟩ := char2_bounds hc
    exact scanString_plain _ b0 _ _ _ (by omega) (scanString_plain _ b1 _ _ _ (by omega) ih)
  | utf8_3 b0 b1 b2 t s hc _ ih =>
    obtain ⟨h1, h2, h3⟩ := char3_bounds hc
    exact scanString_plain _ b0 _ _ _ (by omega) (scanString_plain _ b1 _ _ _ (by omega)
      (scanString_plain _ b2 _ _ _ (by omega) ih))
  | utf8_4 b0 b1 b2 b3 t s hc _ ih =>
    obtain ⟨h1, h2, h3, h4⟩ := char4_bounds hc
    exact scanString_plain _ b0 _ _ _ (by omega) (scanString_plain _ b1 _ _ _ (by omega)
      (scanString_plain _ b2 _ _ _ (by omega) (scanString_plain _ b3 _ _ _ (by omega) ih)))
  | escape e v t s he _ ih =>
    refine scanString_escape _ e _ _ _ ?_ (scanString_mono _ _ _ _ ih)
    rcases simpleEscape_cases he with h | h | h | h | h | h | h | h <;> simp [h.1]
  | escapeU h1 h2 h3 h4 c t s hh _ _ ih =>
    obtain ⟨v1, v2, v3, v4, e1, e2, e3, e4, -⟩ := hex4_parts hh
    exact scanString_escapeU _ h1 h2 h3 h4 _ _ _
      ⟨hexDigit_isHex e1, hexDigit_isHex e2, hexDigit_isHex e3, hexDigit_isHex e4⟩
      (scanString_mono_le (by simp) ih)
  | escapePair h1 h2 h3 h4 l1 l2 l3 l4 hi lo t s hhi hlo _ _ ih =>
    obtain ⟨v1, v2, v3, v4, e1, e2, e3, e4, -⟩ := hex4_parts hhi
    obtain ⟨w1, w2, w3, w4, f1, f2, f3, f4, -⟩ := hex4_parts hlo
    exact scanString_escapeU _ h1 h2 h3 h4 _ _ _
      ⟨hexDigit_isHex e1, hexDigit_isHex e2, hexDigit_isHex e3, hexDigit_isHex e4⟩
      (scanString_escapeU _ l1 l2 l3 l4 _ _ _
        ⟨hexDigit_isHex f1, hexDigit_isHex f2, hexDigit_isHex f3, hexDigit_isHex f4⟩
        (scanString_mono_le (by simp) ih))

/-! ## String tokens: `unquoteBytes` -/

theorem unquoteLoop_nil (n : Nat) : json.unquoteLoop (n + 1) [] = some [] := by
  rw [json.unquoteLoop.eq_def]

theorem unquoteLoop_ascii (n : Nat) (c : Byte) (l : List Byte)
    (hc : 0x20 ≤ c.val ∧ c.val < 0x80 ∧ c.val ≠ 0x22 ∧ c.val ≠ 0x5C) :
    json.unquoteLoop (n + 1) (c :: l) = (json.unquoteLoop n l).map (fun t => c :: t) := by
  rw [json.unquoteLoop.eq_def]
  simp only
  rw [if_neg hc.2.2.2, if_neg (by omega), if_pos hc.2.1]

theorem unquoteLoop_high (n : Nat) (c : Byte) (l : List Byte) (hc : 0x80 ≤ c.val) :
    json.unquoteLoop (n + 1) (c :: l) =
      (json.unquoteLoop n ((c :: l).drop (utf8.DecodeRune (c :: l)).2)).map
        (fun t => utf8.EncodeRune (utf8.DecodeRune (c :: l)).1 ++ t) := by
  rw [json.unquoteLoop.eq_def]
  simp only
  rw [if_neg (by omega), if_neg (by omega), if_neg (by omega)]

theorem unquoteLoop_escape (n : Nat) (e v : Byte) (l : List Byte)
    (h : rfc8259.simpleEscape e = some v) :
    json.unquoteLoop (n + 1) (0x5C :: e :: l) = (json.unquoteLoop n l).map (fun t => v :: t) := by
  rw [json.unquoteLoop.eq_def]
  simp only
  rw [if_pos (by decide)]
  rcases simpleEscape_cases h with h | h | h | h | h | h | h | h
  · obtain ⟨h1, rfl⟩ := h
    rw [if_pos (by omega), Fin.ext (show e.val = (0x22 : Byte).val from h1)]
  · obtain ⟨h1, rfl⟩ := h
    rw [if_pos (by omega), Fin.ext (show e.val = (0x5C : Byte).val from h1)]
  · obtain ⟨h1, rfl⟩ := h
    rw [if_pos (by omega), Fin.ext (show e.val = (0x2F : Byte).val from h1)]
  · obtain ⟨h1, rfl⟩ := h
    rw [if_neg (by omega), if_pos h1]
  · obtain ⟨h1, rfl⟩ := h
    rw [if_neg (by omega), if_neg (by omega), if_pos h1]
  · obtain ⟨h1, rfl⟩ := h
    rw [if_neg (by omega), if_neg (by omega), if_neg (by omega), if_pos h1]
  · obtain ⟨h1, rfl⟩ := h
    rw [if_neg (by omega), if_neg (by omega), if_neg (by omega), if_neg (by omega), if_pos h1]
  · obtain ⟨h1, rfl⟩ := h
    rw [if_neg (by omega), if_neg (by omega), if_neg (by omega), if_neg (by omega),
      if_neg (by omega), if_pos h1]

theorem unquoteLoop_u_head (n : Nat) (l : List Byte) :
    json.unquoteLoop (n + 1) (0x5C :: 0x75 :: l) =
      match json.getu4 (0x5C :: 0x75 :: l) with
      | none => none
      | some rr =>
        if utf16.IsSurrogate rr then
          if utf16.DecodeRune rr (json.getu4 ((0x5C :: 0x75 :: l).drop 6)) ≠ 0xFFFD then
            (json.unquoteLoop n ((0x5C :: 0x75 :: l).drop 12)).map (fun t =>
              utf8.EncodeRune (utf16.DecodeRune rr (json.getu4 ((0x5C :: 0x75 :: l).drop 6))) ++ t)
          else
            (json.unquoteLoop n ((0x5C :: 0x75 :: l).drop 6)).map
              (fun t => utf8.EncodeRune 0xFFFD ++ t)
        else
          (json.unquoteLoop n ((0x5C :: 0x75 :: l).drop 6)).map
            (fun t => utf8.EncodeRune rr ++ t) := by
  rw [json.unquoteLoop.eq_def]
  simp only
  rw [if_pos (by decide), if_neg (by decide), if_neg (by decide), if_neg (by decide),
    if_neg (by decide), if_neg (by decide), if_neg (by decide), if_pos (by decide)]

theorem unquoteLoop_escapeU (n : Nat) (h1 h2 h3 h4 : Byte) (c : Nat) (l : List Byte)
    (hh : rfc8259.hex4 h1 h2 h3 h4 = some c) (hc : c < 0xD800 ∨ 0xE000 ≤ c) :
    json.unquoteLoop (n + 1) (0x5C :: 0x75 :: h1 :: h2 :: h3 :: h4 :: l) =
      (json.unquoteLoop n l).map (fun t => rfc3629.encode c ++ t) := by
  have hlt := hex4_lt hh
  rw [unquoteLoop_u_head, getu4_of_hex4 l hh]
  simp only
  have hs : utf16.IsSurrogate c = false := by
    unfold utf16.IsSurrogate
    rcases hc with hc | hc
    · simp; omega
    · simp; omega
  rw [hs, EncodeRune_eq_encode c (by omega)]
  simp

theorem pair_rune (hi lo : Nat) (hr : 0xD800 ≤ hi ∧ hi < 0xDC00 ∧ 0xDC00 ≤ lo ∧ lo < 0xE000) :
    utf16.DecodeRune hi (some lo) = 0x10000 + (hi - 0xD800) * 0x400 + (lo - 0xDC00) := by
  unfold utf16.DecodeRune
  simp only
  rw [if_pos hr, shl_or _ (lo - 0xDC00) 10 (by omega)]
  omega

theorem unquoteLoop_escapePair (n : Nat) (h1 h2 h3 h4 l1 l2 l3 l4 : Byte) (hi lo : Nat)
    (l : List Byte)
    (hhi : rfc8259.hex4 h1 h2 h3 h4 = some hi) (hlo : rfc8259.hex4 l1 l2 l3 l4 = some lo)
    (hr : 0xD800 ≤ hi ∧ hi < 0xDC00 ∧ 0xDC00 ≤ lo ∧ lo < 0xE000) :
    json.unquoteLoop (n + 1)
        (0x5C :: 0x75 :: h1 :: h2 :: h3 :: h4 :: 0x5C :: 0x75 :: l1 :: l2 :: l3 :: l4 :: l) =
      (json.unquoteLoop n l).map
        (fun t => rfc3629.encode (0x10000 + (hi - 0xD800) * 0x400 + (lo - 0xDC00)) ++ t) := by
  rw [unquoteLoop_u_head, getu4_of_hex4 _ hhi]
  simp only [List.drop_succ_cons, List.drop_zero]
  have hs : utf16.IsSurrogate hi = true := by
    unfold utf16.IsSurrogate
    simp; omega
  rw [hs, getu4_of_hex4 _ hlo, pair_rune hi lo hr,
    EncodeRune_eq_encode _ (by omega)]
  simp only [if_true]
  rw [if_pos (by omega)]

theorem unquoteLoop_body {body : List Byte} {s : GoString} (h : rfc8259.StringBody body s) :
    ∀ fuel, body.length < fuel → json.unquoteLoop fuel body = some s := by
  induction h with
  | nil =>
    intro fuel hf
    obtain ⟨n, rfl⟩ := Nat.exists_eq_succ_of_ne_zero (by omega : fuel ≠ 0)
    exact unquoteLoop_nil n
  | ascii b t s hb _ ih =>
    intro fuel hf
    obtain ⟨n, rfl⟩ := Nat.exists_eq_succ_of_ne_zero (by omega : fuel ≠ 0)
    rw [unquoteLoop_ascii n b t hb, ih n (by simpa using hf)]
    rfl
  | utf8_2 b0 b1 t s hc _ ih =>
    intro fuel hf
    obtain ⟨n, rfl⟩ := Nat.exists_eq_succ_of_ne_zero (by omega : fuel ≠ 0)
    have hb := char2_bounds hc
    rw [unquoteLoop_high n b0 _ (by omega), DecodeRune_char2 b0 b1 t hc]
    simp only [List.drop_succ_cons, List.drop_zero]
    rw [EncodeRune_char2 b0 b1 hc, ih n (by simp at hf; omega)]
    rfl
  | utf8_3 b0 b1 b2 t s hc _ ih =>
    intro fuel hf
    obtain ⟨n, rfl⟩ := Nat.exists_eq_succ_of_ne_zero (by omega : fuel ≠ 0)
    have hb := char3_bounds hc
    rw [unquoteLoop_high n b0 _ (by omega), DecodeRune_char3 b0 b1 b2 t hc]
    simp only [List.drop_succ_cons, List.drop_zero]
    rw [EncodeRune_char3 b0 b1 b2 hc, ih n (by simp at hf; omega)]
    rfl
  | utf8_4 b0 b1 b2 b3 t s hc _ ih =>
    intro fuel hf
    obtain ⟨n, rfl⟩ := Nat.exists_eq_succ_of_ne_zero (by omega : fuel ≠ 0)
    have hb := char4_bounds hc
    rw [unquoteLoop_high n b0 _ (by omega), DecodeRune_char4 b0 b1 b2 b3 t hc]
    simp only [List.drop_succ_cons, List.drop_zero]
    rw [EncodeRune_char4 b0 b1 b2 b3 hc, ih n (by simp at hf; omega)]
    rfl
  | escape e v t s he _ ih =>
    intro fuel hf
    obtain ⟨n, rfl⟩ := Nat.exists_eq_succ_of_ne_zero (by omega : fuel ≠ 0)
    rw [unquoteLoop_escape n e v t he, ih n (by simp at hf; omega)]
    rfl
  | escapeU h1 h2 h3 h4 c t s hh hc _ ih =>
    intro fuel hf
    obtain ⟨n, rfl⟩ := Nat.exists_eq_succ_of_ne_zero (by omega : fuel ≠ 0)
    rw [unquoteLoop_escapeU n h1 h2 h3 h4 c t hh hc, ih n (by simp at hf; omega)]
    rfl
  | escapePair h1 h2 h3 h4 l1 l2 l3 l4 hi lo t s hhi hlo hr _ ih =>
    intro fuel hf
    obtain ⟨n, rfl⟩ := Nat.exists_eq_succ_of_ne_zero (by omega : fuel ≠ 0)
    rw [unquoteLoop_escapePair n h1 h2 h3 h4 l1 l2 l3 l4 hi lo t hhi hlo hr,
      ih n (by simp at hf; omega)]
    rfl

theorem unquoteSkip_nil (fuel : Nat) : json.unquoteSkip fuel [] = [] := by
  cases fuel <;> rw [json.unquoteSkip.eq_def]

theorem unquoteSkip_ascii (n : Nat) (c : Byte) (l : List Byte)
    (hc : 0x20 ≤ c.val ∧ c.val < 0x80 ∧ c.val ≠ 0x22 ∧ c.val ≠ 0x5C) :
    json.unquoteSkip (n + 1) (c :: l) = json.unquoteSkip n l := by
  rw [json.unquoteSkip.eq_def]
  simp only
  rw [if_neg (by omega), if_pos hc.2.1]

theorem unquoteSkip_high (n : Nat) (c : Byte) (l : List Byte) (r k : Nat) (hc : 0x80 ≤ c.val)
    (hd : utf8.DecodeRune (c :: l) = (r, k)) (hk : k ≠ 1) :
    json.unquoteSkip (n + 1) (c :: l) = json.unquoteSkip n ((c :: l).drop k) := by
  rw [json.unquoteSkip.eq_def]
  simp only
  rw [if_neg (by omega), if_neg (by omega), hd]
  simp only
  rw [if_neg (by omega)]

theorem unquoteSkip_backslash (fuel : Nat) (l : List Byte) :
    json.unquoteSkip fuel (0x5C :: l) = 0x5C :: l := by
  cases fuel with
  | zero => rw [json.unquoteSkip.eq_def]
  | succ n =>
    rw [json.unquoteSkip.eq_def]
    simp only
    rw [if_pos (by decide)]

theorem unquoteSkip_body {body : List Byte} {s : GoString} (h : rfc8259.StringBody body s) :
    ∀ fuel, body.length ≤ fuel → ∃ pre s', body = pre ++ json.unquoteSkip fuel body ∧
      s = pre ++ s' ∧ rfc8259.StringBody (json.unquoteSkip fuel body) s' := by
  induction h with
  | nil =>
    intro fuel _
    exact ⟨[], [], by rw [unquoteSkip_nil]; rfl, rfl, by rw [unquoteSkip_nil]; exact .nil⟩
  | ascii b t s hb _ ih =>
    intro fuel hf
    obtain ⟨n, rfl⟩ := Nat.exists_eq_succ_of_ne_zero (by simp at hf; omega : fuel ≠ 0)
    obtain ⟨pre, s', h1, h2, h3⟩ := ih n (by simpa using hf)
    rw [unquoteSkip_ascii n b t hb]
    exact ⟨b :: pre, s', by rw [List.cons_append, ← h1], by rw [List.cons_append, ← h2], h3⟩
  | utf8_2 b0 b1 t s hc _ ih =>
    intro fuel hf
    obtain ⟨n, rfl⟩ := Nat.exists_eq_succ_of_ne_zero (by simp at hf; omega : fuel ≠ 0)
    obtain ⟨pre, s', h1, h2, h3⟩ := ih n (by simp at hf; omega)
    have hb := char2_bounds hc
    rw [unquoteSkip_high n b0 _ _ 2 (by omega) (DecodeRune_char2 b0 b1 t hc) (by decide)]
    simp only [List.drop_succ_cons, List.drop_zero]
    exact ⟨b0 :: b1 :: pre, s', by simp only [List.cons_append, ← h1],
      by simp only [List.cons_append, ← h2], h3⟩
  | utf8_3 b0 b1 b2 t s hc _ ih =>
    intro fuel hf
    obtain ⟨n, rfl⟩ := Nat.exists_eq_succ_of_ne_zero (by simp at hf; omega : fuel ≠ 0)
    obtain ⟨pre, s', h1, h2, h3⟩ := ih n (by simp at hf; omega)
    have hb := char3_bounds hc
    rw [unquoteSkip_high n b0 _ _ 3 (by omega) (DecodeRune_char3 b0 b1 b2 t hc) (by decide)]
    simp only [List.drop_succ_cons, List.drop_zero]
    exact ⟨b0 :: b1 :: b2 :: pre, s', by simp only [List.cons_append, ← h1],
      by simp only [List.cons_append, ← h2], h3⟩
  | utf8_4 b0 b1 b2 b3 t s hc _ ih =>
    intro fuel hf
    obtain ⟨n, rfl⟩ := Nat.exists_eq_succ_of_ne_zero (by simp at hf; omega : fuel ≠ 0)
    obtain ⟨pre, s', h1, h2, h3⟩ := ih n (by simp at hf; omega)
    have hb := char4_bounds hc
    rw [unquoteSkip_high n b0 _ _ 4 (by omega) (DecodeRune_char4 b0 b1 b2 b3 t hc) (by decide)]
    simp only [List.drop_succ_cons, List.drop_zero]
    exact ⟨b0 :: b1 :: b2 :: b3 :: pre, s', by simp only [List.cons_append, ← h1],
      by simp only [List.cons_append, ← h2], h3⟩
  | escape e v t s he hts _ =>
    intro fuel _
    rw [unquoteSkip_backslash]
    exact ⟨[], _, (List.nil_append _).symm, (List.nil_append _).symm, .escape e v t s he hts⟩
  | escapeU h1 h2 h3 h4 c t s hh hc hts _ =>
    intro fuel _
    rw [unquoteSkip_backslash]
    exact ⟨[], _, (List.nil_append _).symm, (List.nil_append _).symm, .escapeU h1 h2 h3 h4 c t s hh hc hts⟩
  | escapePair h1 h2 h3 h4 l1 l2 l3 l4 hi lo t s hhi hlo hr hts _ =>
    intro fuel _
    rw [unquoteSkip_backslash]
    exact ⟨[], _, (List.nil_append _).symm, (List.nil_append _).symm, .escapePair h1 h2 h3 h4 l1 l2 l3 l4 hi lo t s hhi hlo hr hts⟩

theorem StringBody_nil_of_eq {body : List Byte} {s : GoString} (h : rfc8259.StringBody body s)
    (hb : body = []) : s = [] := by
  cases h with
  | nil => rfl
  | ascii => exact absurd hb (List.cons_ne_nil _ _)
  | utf8_2 => exact absurd hb (List.cons_ne_nil _ _)
  | utf8_3 => exact absurd hb (List.cons_ne_nil _ _)
  | utf8_4 => exact absurd hb (List.cons_ne_nil _ _)
  | escape => exact absurd hb (List.cons_ne_nil _ _)
  | escapeU => exact absurd hb (List.cons_ne_nil _ _)
  | escapePair => exact absurd hb (List.cons_ne_nil _ _)

/-- On a string token, `unquoteBytes` returns the string the token stands for. -/
theorem unquoteBytes_token {body : List Byte} {s : GoString} (h : rfc8259.StringBody body s) :
    json.unquoteBytes (0x22 :: (body ++ [0x22])) = some s := by
  unfold json.unquoteBytes
  have hlast : (0x22 :: (body ++ [0x22]) : List Byte).getLast? = some 0x22 := by
    have e : (0x22 :: (body ++ [0x22]) : List Byte) = (0x22 :: body) ++ [0x22] := rfl
    rw [e, List.getLast?_concat]
  rw [if_neg (by
    intro hor
    rcases hor with h1 | h1 | h1
    · simp only [List.length_cons, List.length_append, List.length_singleton] at h1
      omega
    · exact h1 rfl
    · exact h1 hlast)]
  have hbody : (List.drop 1 (0x22 :: (body ++ [0x22]) : List Byte)).dropLast = body := by
    simp
  simp only [hbody]
  obtain ⟨pre, s', h1, h2, h3⟩ := unquoteSkip_body h body.length (Nat.le_refl _)
  by_cases ht : json.unquoteSkip body.length body = []
  · rw [if_pos ht]
    have := StringBody_nil_of_eq h3 ht
    subst this
    rw [ht] at h1
    simp at h1 h2
    rw [h1, h2]
  · rw [if_neg ht, unquoteLoop_body h3 _ (Nat.lt_succ_self _)]
    simp only
    have hlen : body.length - (json.unquoteSkip body.length body).length = pre.length := by
      have := congrArg List.length h1
      simp at this
      omega
    rw [hlen]
    conv_lhs => rw [h1]
    simp [h2]

/-! ## String tokens: `Unmarshal` and `UnmarshalJSON` -/

theorem parseValue_quote (fuel depth : Nat) (rest body after : List Byte)
    (hs : json.scanString rest.length rest = some (body, after)) :
    json.parseValue (fuel + 1) depth (0x22 :: rest) =
      some (JSON.literal (0x22 :: (body ++ [0x22])), after) := by
  rw [json.parseValue]
  rw [if_neg (by decide), if_neg (by decide), if_pos (by decide), hs]

theorem scan_token {body : List Byte} {s : GoString} (h : rfc8259.StringBody body s) :
    json.scan (0x22 :: (body ++ [0x22])) = some (JSON.literal (0x22 :: (body ++ [0x22]))) := by
  unfold json.scan
  have hsp : json.skipSpace (0x22 :: (body ++ [0x22])) = 0x22 :: (body ++ [0x22]) := by
    rw [json.skipSpace.eq_def]
    simp only
    rw [if_neg (by decide)]
  have hscan : json.scanString (body ++ [0x22]).length (body ++ [0x22]) = some (body, []) := by
    rw [List.length_append, List.length_singleton]
    exact scanString_body h []
  rw [hsp, show 2 * (0x22 :: (body ++ [0x22]) : List Byte).length + 2 =
      (2 * (0x22 :: (body ++ [0x22]) : List Byte).length + 1) + 1 from rfl,
    parseValue_quote _ _ _ _ _ hscan]
  simp [json.skipSpace]

theorem literalKind_quote (l : List Byte) :
    json.literalKind (0x22 :: l) = json.LiteralKind.string := by
  unfold json.literalKind
  simp only
  rw [if_neg (by decide), if_neg (by decide), if_pos (by decide)]

theorem storeString_token {body : List Byte} {s : GoString} (h : rfc8259.StringBody body s)
    (v : GoString) (saved : Option GoError) :
    json.storeString (JSON.literal (0x22 :: (body ++ [0x22]))) v saved = ⟨s, saved, none⟩ := by
  unfold json.storeString
  simp only [literalKind_quote, unquoteBytes_token h]

theorem Unmarshal_token {tok : List Byte} {s : GoString} (h : rfc8259.StringToken tok s)
    (v : GoString) : json.Unmarshal json.storeString tok v = (s, none) := by
  cases h with
  | mk body s hb =>
    unfold json.Unmarshal
    rw [scan_token hb]
    simp only [storeString_token hb]

theorem UnmarshalJSON_token {tok : List Byte} {s : GoString} (h : rfc8259.StringToken tok s)
    (cfr : chatCompletionFinishReason) : cfr.UnmarshalJSON tok = ({ Value := s }, none) := by
  unfold chatCompletionFinishReason.UnmarshalJSON
  rw [Unmarshal_token h]

theorem StringBody_of_plain (s : GoString)
    (hs : ∀ b ∈ s, 0x20 ≤ b.val ∧ b.val < 0x80 ∧ b.val ≠ 0x22 ∧ b.val ≠ 0x5C) :
    rfc8259.StringBody s s := by
  induction s with
  | nil => exact .nil
  | cons b t ih =>
    exact .ascii b t t (hs b (List.mem_cons_self _ _))
      (ih (fun c hc => hs c (List.mem_cons_of_mem _ hc)))

set_option maxRecDepth 100000 in
theorem StringBody_stop : rfc8259.StringBody (str "stop") (str "stop") :=
  StringBody_of_plain (str "stop") (by decide)

set_option maxRecDepth 100000 in
theorem StringBody_unknown_future_value :
    rfc8259.StringBody (str "unknown_future_value") (str "unknown_future_value") :=
  StringBody_of_plain (str "unknown_future_value") (by decide)

/-- C5: for every well-formed JSON string token, standing for the string `s`,
`UnmarshalJSON` returns no error and sets the receiver to `{Value: s}`, whatever the
receiver was and whether or not `s` is one of the five constants; in particular the token
`"stop"` gives `FinishReasonStop` and the token `"unknown_future_value"` gives a value
whose `Value` is `unknown_future_value`. -/
theorem UnmarshalJSON_accepts_any_string (cfr : chatCompletionFinishReason) (tok : List Byte)
    (s : GoString) (h : rfc8259.StringToken tok s) :
    cfr.UnmarshalJSON tok = ({ Value := s }, none) ∧
    cfr.UnmarshalJSON (0x22 :: (str "stop" ++ [0x22])) = (FinishReasonStop, none) ∧
    cfr.UnmarshalJSON (0x22 :: (str "unknown_future_value" ++ [0x22])) =
      ({ Value := str "unknown_future_value" }, none) :=
  ⟨UnmarshalJSON_token h cfr,
   UnmarshalJSON_token (.mk _ _ StringBody_stop) cfr,
   UnmarshalJSON_token (.mk _ _ StringBody_unknown_future_value) cfr⟩

theorem UnmarshalJSON_accepts_any_string_witness :
    rfc8259.StringToken (0x22 :: ([0x5C, 0x75, 0x30, 0x30, 0x45, 0x39, 0x5C, 0x6E, 0x78] ++ [0x22]))
      (rfc3629.encode 0xE9 ++ [0x0A, 0x78]) ∧
    (FinishReasonStop.UnmarshalJSON
        (0x22 :: ([0x5C, 0x75, 0x30, 0x30, 0x45, 0x39, 0x5C, 0x6E, 0x78] ++ [0x22])) =
      ({ Value := rfc3629.encode 0xE9 ++ [0x0A, 0x78] }, none) ∧
    FinishReasonStop.UnmarshalJSON (0x22 :: (str "stop" ++ [0x22])) = (FinishReasonStop, none) ∧
    FinishReasonStop.UnmarshalJSON (0x22 :: (str "unknown_future_value" ++ [0x22])) =
      ({ Value := str "unknown_future_value" }, none)) :=
  ⟨.mk _ _ (.escapeU 0x30 0x30 0x45 0x39 0xE9 _ _ (by decide) (by decide)
      (.escape 0x6E 0x0A _ _ (by decide) (.ascii 0x78 _ _ (by decide) .nil))),
   UnmarshalJSON_accepts_any_string FinishReasonStop _ _
    (.mk _ _ (.escapeU 0x30 0x30 0x45 0x39 0xE9 _ _ (by decide) (by decide)
      (.escape 0x6E 0x0A _ _ (by decide) (.ascii 0x78 _ _ (by decide) .nil))))⟩

/-! ## The string that `Marshal` writes -/

set_option maxRecDepth 100000 in
theorem hex4_of_byte : ∀ b : Byte, b.val < 0x80 →
    rfc8259.hex4 0x30 0x30 (json.hex (b.val >>> 4)) (json.hex (b.val &&& 0xF)) = some b.val := by
  decide

theorem encode_byte (b : Byte) (h : b.val < 0x80) : rfc3629.encode b.val = [b] := by
  unfold rfc3629.encode
  rw [if_pos h, byte_eq _ b rfl]

theorem htmlSafeSet_plain {b : Nat} (h : json.htmlSafeSet b = true) :
    0x20 ≤ b ∧ b < 0x80 ∧ b ≠ 0x22 ∧ b ≠ 0x5C := by
  unfold json.htmlSafeSet at h
  simp only [Bool.and_eq_true, decide_eq_true_eq, bne_iff_ne, ne_eq] at h
  omega

theorem appendStringLoop_ascii (n : Nat) (b : Byte) (l : List Byte) (s : GoString)
    (hb : b.val < 0x80) (ih : rfc8259.StringBody (json.appendStringLoop n l) s) :
    rfc8259.StringBody (json.appendStringLoop (n + 1) (b :: l)) (b :: s) := by
  rw [json.appendStringLoop.eq_def]
  simp only
  rw [if_pos hb]
  by_cases h0 : json.htmlSafeSet b.val = true
  · rw [if_pos h0]
    exact .ascii b _ _ (htmlSafeSet_plain h0) ih
  · rw [if_neg h0]
    by_cases h1 : b.val = 0x5C ∨ b.val = 0x22
    · rw [if_pos h1]
      refine .escape b b _ _ ?_ ih
      unfold rfc8259.simpleEscape
      rcases h1 with h1 | h1
      · rw [if_neg (by omega), if_pos h1, Fin.ext (show b.val = (0x5C : Byte).val from h1)]
      · rw [if_pos h1, Fin.ext (show b.val = (0x22 : Byte).val from h1)]
    · rw [if_neg h1]
      by_cases h2 : b.val = 0x08
      · rw [if_pos h2, Fin.ext (show b.val = (0x08 : Byte).val from h2)]
        exact .escape 0x62 0x08 _ _ (by decide) ih
      · rw [if_neg h2]
        by_cases h3 : b.val = 0x0C
        · rw [if_pos h3, Fin.ext (show b.val = (0x0C : Byte).val from h3)]
          exact .escape 0x66 0x0C _ _ (by decide) ih
        · rw [if_neg h3]
          by_cases h4 : b.val = 0x0A
          · rw [if_pos h4, Fin.ext (show b.val = (0x0A : Byte).val from h4)]
            exact .escape 0x6E 0x0A _ _ (by decide) ih
          · rw [if_neg h4]
            by_cases h5 : b.val = 0x0D
            · rw [if_pos h5, Fin.ext (show b.val = (0x0D : Byte).val from h5)]
              exact .escape 0x72 0x0D _ _ (by decide) ih
            · rw [if_neg h5]
              by_cases h6 : b.val = 0x09
              · rw [if_pos h6, Fin.ext (show b.val = (0x09 : Byte).val from h6)]
                exact .escape 0x74 0x09 _ _ (by decide) ih
              · rw [if_neg h6]
                have := rfc8259.StringBody.escapeU 0x30 0x30 (json.hex (b.val >>> 4))
                  (json.hex (b.val &&& 0xF)) b.val _ s (hex4_of_byte b hb) (by omega) ih
                rw [encode_byte b hb] at this
                exact this

theorem appendStringLoop_high (n : Nat) (b : Byte) (l : List Byte) (r k : Nat)
    (hb : 0x80 ≤ b.val) (hd : utf8.DecodeRune ((b :: l).take 4) = (r, k)) :
    json.appendStringLoop (n + 1) (b :: l) =
      if r = utf8.RuneError ∧ k = 1 then
        0x5C :: 0x75 :: 0x66 :: 0x66 :: 0x66 :: 0x64 :: json.appendStringLoop n ((b :: l).drop k)
      else if r = 0x2028 ∨ r = 0x2029 then
        0x5C :: 0x75 :: 0x32 :: 0x30 :: 0x32 :: json.hex (r &&& 0xF) ::
          json.appendStringLoop n ((b :: l).drop k)
      else (b :: l).take k ++ json.appendStringLoop n ((b :: l).drop k) := by
  rw [json.appendStringLoop.eq_def]
  simp only
  rw [if_neg (by omega), hd]

theorem hex4_2028 (r : Nat) (h : r = 0x2028 ∨ r = 0x2029) :
    rfc8259.hex4 0x32 0x30 0x32 (json.hex (r &&& 0xF)) = some r := by
  rcases h with rfl | rfl <;> decide

theorem first_xx (n : Nat) (h : (0x80 ≤ n ∧ n < 0xC2) ∨ 0xF4 < n) : utf8.first n = 0xF1 := by
  unfold utf8.first
  rcases h with h | h
  · rw [if_neg (by omega), if_pos (by omega)]
  · rw [if_neg (by omega), if_neg (by omega), if_neg (by omega), if_neg (by omega),
      if_neg (by omega), if_neg (by omega), if_neg (by omega), if_neg (by omega),
      if_neg (by omega), if_neg (by omega)]

theorem char2_false {b0 b1 : Byte} (h : rfc3629.char2 b0 b1 = false)
    (h0 : 0xC2 ≤ b0.val ∧ b0.val ≤ 0xDF) : b1.val < 0x80 ∨ 0xBF < b1.val := by
  unfold rfc3629.char2 rfc3629.tail at h
  simp only [Bool.and_eq_false_imp, Bool.and_eq_true, decide_eq_true_eq, decide_eq_false_iff_not,
    and_imp] at h
  by_contra hc
  exact h h0.1 h0.2 (by omega) (by omega)

theorem DecodeRune_xx (b0 : Byte) (l : List Byte) (hx : utf8.first b0.val = 0xF1) :
    utf8.DecodeRune (b0 :: l) = (utf8.RuneError, 1) := by
  unfold utf8.DecodeRune
  simp only [hx]
  rw [if_pos (by decide), if_pos (by decide)]

theorem DecodeRune_sz2_invalid (b0 : Byte) (l : List Byte) (hx : utf8.first b0.val = 0x02)
    (h2 : ∀ b1 t, l = b1 :: t → b1.val < 0x80 ∨ 0xBF < b1.val) :
    utf8.DecodeRune (b0 :: l) = (utf8.RuneError, 1) := by
  unfold utf8.DecodeRune
  simp only [hx]
  have e1 : (2 : Nat) &&& 7 = 2 := by decide
  have e2 : (2 : Nat) >>> 4 = 0 := by decide
  rw [if_neg (by decide), e1, e2]
  cases l with
  | nil => rw [if_pos (by simp)]
  | cons b1 t =>
    rw [if_neg (by simp)]
    simp only [utf8.acceptRanges]
    rw [if_pos (h2 b1 t rfl)]

theorem DecodeRune_sz3_invalid (b0 : Byte) (l : List Byte) (x : Nat)
    (hx : utf8.first b0.val = x) (hlt : x < 0xF0) (hsz : x &&& 7 = 3)
    (h3 : ∀ b1 b2 t, l = b1 :: b2 :: t →
      (b1.val < (utf8.acceptRanges (x >>> 4)).1 ∨ (utf8.acceptRanges (x >>> 4)).2 < b1.val) ∨
      (b2.val < 0x80 ∨ 0xBF < b2.val)) :
    utf8.DecodeRune (b0 :: l) = (utf8.RuneError, 1) := by
  unfold utf8.DecodeRune
  simp only [hx, hsz]
  rw [if_neg (by omega)]
  cases l with
  | nil => rw [if_pos (by simp)]
  | cons b1 t =>
    cases t with
    | nil => rw [if_pos (by simp)]
    | cons b2 t2 =>
      rw [if_neg (by simp)]
      simp only
      by_cases hb1 : b1.val < (utf8.acceptRanges (x >>> 4)).1 ∨
          (utf8.acceptRanges (x >>> 4)).2 < b1.val
      · rw [if_pos hb1]
      · rw [if_neg hb1, if_neg (by decide)]
        rcases h3 b1 b2 t2 rfl with h | h
        · exact absurd h hb1
        · rw [if_pos h]

theorem DecodeRune_sz4_invalid (b0 : Byte) (l : List Byte) (x : Nat)
    (hx : utf8.first b0.val = x) (hlt : x < 0xF0) (hsz : x &&& 7 = 4)
    (h4 : ∀ b1 b2 b3 t, l = b1 :: b2 :: b3 :: t →
      (b1.val < (utf8.acceptRanges (x >>> 4)).1 ∨ (utf8.acceptRanges (x >>> 4)).2 < b1.val) ∨
      (b2.val < 0x80 ∨ 0xBF < b2.val) ∨ (b3.val < 0x80 ∨ 0xBF < b3.val)) :
    utf8.DecodeRune (b0 :: l) = (utf8.RuneError, 1) := by
  unfold utf8.DecodeRune
  simp only [hx, hsz]
  rw [if_neg (by omega)]
  cases l with
  | nil => rw [if_pos (by simp)]
  | cons b1 t =>
    cases t with
    | nil => rw [if_pos (by simp)]
    | cons b2 t2 =>
      cases t2 with
      | nil => rw [if_pos (by simp)]
      | cons b3 t3 =>
        rw [if_neg (by simp)]
        simp only
        by_cases hb1 : b1.val < (utf8.acceptRanges (x >>> 4)).1 ∨
            (utf8.acceptRanges (x >>> 4)).2 < b1.val
        · rw [if_pos hb1]
        · rw [if_neg hb1, if_neg (by decide)]
          by_cases hb2 : b2.val < 0x80 ∨ 0xBF < b2.val
          · rw [if_pos hb2]
          · rw [if_neg hb2, if_neg (by decide)]
            rcases h4 b1 b2 b3 t3 rfl with h | h | h
            · exact absurd h hb1
            · exact absurd h hb2
            · rw [if_pos h]

theorem char3_false {b0 b1 b2 : Byte} (h : rfc3629.char3 b0 b1 b2 = false) :
    ¬(((b0.val = 0xE0 ∧ 0xA0 ≤ b1.val ∧ b1.val ≤ 0xBF) ∨
       (0xE1 ≤ b0.val ∧ b0.val ≤ 0xEC ∧ 0x80 ≤ b1.val ∧ b1.val ≤ 0xBF) ∨
       (b0.val = 0xED ∧ 0x80 ≤ b1.val ∧ b1.val ≤ 0x9F) ∨
       (0xEE ≤ b0.val ∧ b0.val ≤ 0xEF ∧ 0x80 ≤ b1.val ∧ b1.val ≤ 0xBF)) ∧
      0x80 ≤ b2.val ∧ b2.val ≤ 0xBF) := by
  intro hc
  have : rfc3629.char3 b0 b1 b2 = true := by
    simpa [rfc3629.char3, rfc3629.tail, and_assoc, or_assoc] using hc
  rw [h] at this
  exact Bool.false_ne_true this

theorem char4_false {b0 b1 b2 b3 : Byte} (h : rfc3629.char4 b0 b1 b2 b3 = false) :
    ¬(((b0.val = 0xF0 ∧ 0x90 ≤ b1.val ∧ b1.val ≤ 0xBF) ∨
       (0xF1 ≤ b0.val ∧ b0.val ≤ 0xF3 ∧ 0x80 ≤ b1.val ∧ b1.val ≤ 0xBF) ∨
       (b0.val = 0xF4 ∧ 0x80 ≤ b1.val ∧ b1.val ≤ 0x8F)) ∧
      (0x80 ≤ b2.val ∧ b2.val ≤ 0xBF) ∧ 0x80 ≤ b3.val ∧ b3.val ≤ 0xBF) := by
  intro hc
  have : rfc3629.char4 b0 b1 b2 b3 = true := by
    simpa [rfc3629.char4, rfc3629.tail, and_assoc, or_assoc] using hc
  rw [h] at this
  exact Bool.false_ne_true this

/-- A byte beyond ASCII that does not start a well-formed UTF-8 sequence decodes to
`(RuneError, 1)`. -/
theorem DecodeRune_invalid (b0 : Byte) (l : List Byte) (hb : 0x80 ≤ b0.val)
    (h2 : ∀ b1 t, l = b1 :: t → rfc3629.char2 b0 b1 = false)
    (h3 : ∀ b1 b2 t, l = b1 :: b2 :: t → rfc3629.char3 b0 b1 b2 = false)
    (h4 : ∀ b1 b2 b3 t, l = b1 :: b2 :: b3 :: t → rfc3629.char4 b0 b1 b2 b3 = false) :
    utf8.DecodeRune (b0 :: l) = (utf8.RuneError, 1) := by
  have hlt := b0.isLt
  by_cases c1 : b0.val < 0xC2 ∨ 0xF4 < b0.val
  · exact DecodeRune_xx b0 l (first_xx _ (by omega))
  · by_cases c2 : b0.val ≤ 0xDF
    · exact DecodeRune_sz2_invalid b0 l (first_2 _ (by omega) c2)
        (fun b1 t hl => char2_false (h2 b1 t hl) ⟨by omega, c2⟩)
    · by_cases c3 : b0.val ≤ 0xEF
      · have key : ∀ x, utf8.first b0.val = x → x < 0xF0 → x &&& 7 = 3 →
            ((utf8.acceptRanges (x >>> 4)) = (0xA0, 0xBF) ∧ b0.val = 0xE0 ∨
             (utf8.acceptRanges (x >>> 4)) = (0x80, 0xBF) ∧
               (0xE1 ≤ b0.val ∧ b0.val ≤ 0xEC ∨ 0xEE ≤ b0.val ∧ b0.val ≤ 0xEF) ∨
             (utf8.acceptRanges (x >>> 4)) = (0x80, 0x9F) ∧ b0.val = 0xED) →
            utf8.DecodeRune (b0 :: l) = (utf8.RuneError, 1) := by
          intro x hx hxl hsz hacc
          refine DecodeRune_sz3_invalid b0 l x hx hxl hsz ?_
          intro b1 b2 t hl
          have hf := char3_false (h3 b1 b2 t hl)
          rcases hacc with ⟨ha, hv⟩ | ⟨ha, hv⟩ | ⟨ha, hv⟩ <;> rw [ha] <;> simp only <;> omega
        by_cases d0 : b0.val = 0xE0
        · exact key 0x13 (by rw [d0]; rfl) (by decide) (by decide) (Or.inl ⟨rfl, d0⟩)
        · by_cases d1 : b0.val ≤ 0xEC
          · exact key 0x03 (first_E1_EC _ (by omega) d1) (by decide) (by decide)
              (Or.inr (Or.inl ⟨rfl, Or.inl ⟨by omega, d1⟩⟩))
          · by_cases d2 : b0.val = 0xED
            · exact key 0x23 (by rw [d2]; rfl) (by decide) (by decide)
                (Or.inr (Or.inr ⟨rfl, d2⟩))
            · exact key 0x03 (first_EE_EF _ (by omega) c3) (by decide) (by decide)
                (Or.inr (Or.inl ⟨rfl, Or.inr ⟨by omega, c3⟩⟩))
      · have key : ∀ x, utf8.first b0.val = x → x < 0xF0 → x &&& 7 = 4 →
            ((utf8.acceptRanges (x >>> 4)) = (0x90, 0xBF) ∧ b0.val = 0xF0 ∨
             (utf8.acceptRanges (x >>> 4)) = (0x80, 0xBF) ∧ (0xF1 ≤ b0.val ∧ b0.val ≤ 0xF3) ∨
             (utf8.acceptRanges (x >>> 4)) = (0x80, 0x8F) ∧ b0.val = 0xF4) →
            utf8.DecodeRune (b0 :: l) = (utf8.RuneError, 1) := by
          intro x hx hxl hsz hacc
          refine DecodeRune_sz4_invalid b0 l x hx hxl hsz ?_
          intro b1 b2 b3 t hl
          have hf := char4_false (h4 b1 b2 b3 t hl)
          rcases hacc with ⟨ha, hv⟩ | ⟨ha, hv⟩ | ⟨ha, hv⟩ <;> rw [ha] <;> simp only <;> omega
        by_cases d0 : b0.val = 0xF0
        · exact key 0x34 (by rw [d0]; rfl) (by decide) (by decide) (Or.inl ⟨rfl, d0⟩)
        · by_cases d1 : b0.val ≤ 0xF3
          · exact key 0x04 (first_F1_F3 _ (by omega) d1) (by decide) (by decide)
              (Or.inr (Or.inl ⟨rfl, ⟨by omega, d1⟩⟩))
          · exact key 0x44 (by rw [show b0.val = 0xF4 by omega]; rfl) (by decide) (by decide)
              (Or.inr (Or.inr ⟨rfl, by omega⟩))

set_option maxRecDepth 100000 in
theorem StringBody_replacement (t : List Byte) (s : GoString) (h : rfc8259.StringBody t s) :
    rfc8259.StringBody (0x5C :: 0x75 :: 0x66 :: 0x66 :: 0x66 :: 0x64 :: t)
      (0xEF :: 0xBF :: 0xBD :: s) :=
  rfc8259.StringBody.escapeU 0x66 0x66 0x66 0x64 0xFFFD t s (by decide) (by decide) h

theorem appendStringLoop_invalid (n : Nat) (b : Byte) (rest : List Byte) (s : GoString)
    (hb : 0x80 ≤ b.val)
    (hd : utf8.DecodeRune ((b :: rest).take 4) = (utf8.RuneError, 1))
    (ih : rfc8259.StringBody (json.appendStringLoop n rest) s) :
    rfc8259.StringBody (json.appendStringLoop (n + 1) (b :: rest))
      (0xEF :: 0xBF :: 0xBD :: s) := by
  rw [appendStringLoop_high n b rest _ 1 hb hd, if_pos ⟨rfl, rfl⟩]
  exact StringBody_replacement _ _ ih

/-- What `appendString` writes between the quotes stands for the repaired string. -/
theorem appendStringLoop_repair : ∀ (fuel : Nat) (s : GoString), s.length ≤ fuel →
    rfc8259.StringBody (json.appendStringLoop fuel s) (rfc3629.repairLoop fuel s) := by
  intro fuel
  induction fuel with
  | zero =>
    intro s hs
    have : s = [] := List.eq_nil_of_length_eq_zero (by omega)
    subst this
    rw [json.appendStringLoop.eq_def, rfc3629.repairLoop.eq_def]
    exact .nil
  | succ n ih =>
    intro s hs
    cases s with
    | nil =>
      rw [json.appendStringLoop.eq_def, rfc3629.repairLoop.eq_def]
      exact .nil
    | cons b rest =>
      simp only [List.length_cons] at hs
      rw [rfc3629.repairLoop.eq_def]
      simp only
      by_cases hb : b.val < 0x80
      · have hl : rfc3629.charLen (b :: rest) = 1 := by
          unfold rfc3629.charLen
          simp only
          rw [if_pos hb]
        rw [hl, if_neg (by decide)]
        exact appendStringLoop_ascii n b rest _ hb (ih rest (by omega))
      · cases rest with
        | nil =>
          have hl : rfc3629.charLen [b] = 0 := by
            unfold rfc3629.charLen
            simp only
            rw [if_neg hb]
          rw [hl, if_pos rfl]
          exact appendStringLoop_invalid n b [] _ (by omega)
            (DecodeRune_invalid b [] (by omega) (by simp) (by simp) (by simp))
            (ih [] (by simp))
        | cons b1 r1 =>
          simp only [List.length_cons] at hs
          by_cases h2 : rfc3629.char2 b b1 = true
          · have hl : rfc3629.charLen (b :: b1 :: r1) = 2 := by
              unfold rfc3629.charLen
              simp only
              rw [if_neg hb, if_pos h2]
            rw [hl, if_neg (by decide)]
            simp only [List.take_succ_cons, List.take_zero, List.drop_succ_cons, List.drop_zero,
              List.cons_append, List.nil_append]
            rw [appendStringLoop_high n b _ _ 2 (by omega)
              (by simpa using DecodeRune_char2 b b1 (r1.take 2) h2)]
            have hbd := char2_bounds h2
            rw [if_neg (by omega), if_neg (by omega)]
            exact .utf8_2 b b1 _ _ h2 (ih r1 (by omega))
          · have h2' : rfc3629.char2 b b1 = false := by simpa using h2
            cases r1 with
            | nil =>
              have hl : rfc3629.charLen [b, b1] = 0 := by
                unfold rfc3629.charLen
                simp only
                rw [if_neg hb, if_neg h2]
              rw [hl, if_pos rfl]
              exact appendStringLoop_invalid n b [b1] _ (by omega)
                (DecodeRune_invalid b [b1] (by omega)
                  (by intro x t hx; simp at hx; rw [← hx.1]; exact h2')
                  (by simp) (by simp))
                (ih [b1] (by simp; omega))
            | cons b2 r2 =>
              simp only [List.length_cons] at hs
              by_cases h3 : rfc3629.char3 b b1 b2 = true
              · have hl : rfc3629.charLen (b :: b1 :: b2 :: r2) = 3 := by
                  unfold rfc3629.charLen
                  simp only
                  rw [if_neg hb, if_neg h2, if_pos h3]
                rw [hl, if_neg (by decide)]
                simp only [List.take_succ_cons, List.take_zero, List.drop_succ_cons,
                  List.drop_zero, List.cons_append, List.nil_append]
                rw [appendStringLoop_high n b _ _ 3 (by omega)
                  (by simpa using DecodeRune_char3 b b1 b2 (r2.take 1) h3)]
                rw [if_neg (by omega)]
                by_cases hls : b.val % 16 * 4096 + b1.val % 64 * 64 + b2.val % 64 = 0x2028 ∨
                    b.val % 16 * 4096 + b1.val % 64 * 64 + b2.val % 64 = 0x2029
                · rw [if_pos hls]
                  have := rfc8259.StringBody.escapeU 0x32 0x30 0x32 _ _ _ _ (hex4_2028 _ hls)
                    (by omega) (ih r2 (by omega))
                  rw [← EncodeRune_eq_encode _ (by omega), EncodeRune_char3 b b1 b2 h3] at this
                  exact this
                · rw [if_neg hls]
                  exact .utf8_3 b b1 b2 _ _ h3 (ih r2 (by omega))
              · have h3' : rfc3629.char3 b b1 b2 = false := by simpa using h3
                cases r2 with
                | nil =>
                  have hl : rfc3629.charLen [b, b1, b2] = 0 := by
                    unfold rfc3629.charLen
                    simp only
                    rw [if_neg hb, if_neg h2, if_neg h3]
                  rw [hl, if_pos rfl]
                  exact appendStringLoop_invalid n b [b1, b2] _ (by omega)
                    (DecodeRune_invalid b [b1, b2] (by omega)
                      (by intro x t hx; simp at hx; rw [← hx.1]; exact h2')
                      (by intro x y t hx; simp at hx; rw [← hx.1, ← hx.2.1]; exact h3')
                      (by simp))
                    (ih [b1, b2] (by simp; omega))
                | cons b3 r3 =>
                  simp only [List.length_cons] at hs
                  by_cases h4 : rfc3629.char4 b b1 b2 b3 = true
                  · have hl : rfc3629.charLen (b :: b1 :: b2 :: b3 :: r3) = 4 := by
                      unfold rfc3629.charLen
                      simp only
                      rw [if_neg hb, if_neg h2, if_neg h3, if_pos h4]
                    rw [hl, if_neg (by decide)]
                    simp only [List.take_succ_cons, List.take_zero, List.drop_succ_cons,
                      List.drop_zero, List.cons_append, List.nil_append]
                    rw [appendStringLoop_high n b _ _ 4 (by omega)
                      (by simpa using DecodeRune_char4 b b1 b2 b3 [] h4)]
                    have hbd := char4_bounds h4
                    rw [if_neg (by omega), if_neg (by omega)]
                    exact .utf8_4 b b1 b2 b3 _ _ h4 (ih r3 (by omega))
                  · have h4' : rfc3629.char4 b b1 b2 b3 = false := by simpa using h4
                    have hl : rfc3629.charLen (b :: b1 :: b2 :: b3 :: r3) = 0 := by
                      unfold rfc3629.charLen
                      simp only
                      rw [if_neg hb, if_neg h2, if_neg h3, if_neg h4]
                    rw [hl, if_pos rfl]
                    exact appendStringLoop_invalid n b (b1 :: b2 :: b3 :: r3) _ (by omega)
                      (by
                        simp only [List.take_succ_cons, List.take_zero]
                        exact DecodeRune_invalid b [b1, b2, b3] (by omega)
                          (by intro x t hx; simp at hx; rw [← hx.1]; exact h2')
                          (by intro x y t hx; simp at hx; rw [← hx.1, ← hx.2.1]; exact h3')
                          (by
                            intro x y z t hx
                            simp at hx
                            rw [← hx.1, ← hx.2.1, ← hx.2.2.1]
                            exact h4'))
                      (ih _ (by simp; omega))

theorem repairLoop_valid : ∀ (fuel : Nat) (s : GoString), s.length ≤ fuel →
    rfc3629.valid s = true → rfc3629.repairLoop fuel s = s := by
  intro fuel
  induction fuel with
  | zero =>
    intro s hs _
    have : s = [] := List.eq_nil_of_length_eq_zero (by omega)
    subst this
    rw [rfc3629.repairLoop.eq_def]
  | succ n ih =>
    intro s hs hv
    cases s with
    | nil => rw [rfc3629.repairLoop.eq_def]
    | cons b rest =>
      rw [rfc3629.valid.eq_def] at hv
      simp only at hv
      simp only [List.length_cons] at hs
      rw [rfc3629.repairLoop.eq_def]
      simp only
      unfold rfc3629.charLen
      simp only
      by_cases hb : b.val < 0x80
      · rw [if_pos hb] at hv
        rw [if_pos hb, if_neg (by decide)]
        simp only [List.take_succ_cons, List.take_zero, List.drop_succ_cons, List.drop_zero,
          List.cons_append, List.nil_append]
        rw [ih rest (by omega) hv]
      · rw [if_neg hb] at hv
        rw [if_neg hb]
        cases rest with
        | nil => simp at hv
        | cons b1 r1 =>
          simp only [List.length_cons] at hs
          simp only at hv ⊢
          by_cases h2 : rfc3629.char2 b b1 = true
          · rw [if_pos h2] at hv
            rw [if_pos h2, if_neg (by decide)]
            simp only [List.take_succ_cons, List.take_zero, List.drop_succ_cons, List.drop_zero,
              List.cons_append, List.nil_append]
            rw [ih r1 (by omega) hv]
          · rw [if_neg h2] at hv
            rw [if_neg h2]
            cases r1 with
            | nil => simp at hv
            | cons b2 r2 =>
              simp only [List.length_cons] at hs
              simp only at hv ⊢
              by_cases h3 : rfc3629.char3 b b1 b2 = true
              · rw [if_pos h3] at hv
                rw [if_pos h3, if_neg (by decide)]
                simp only [List.take_succ_cons, List.take_zero, List.drop_succ_cons,
                  List.drop_zero, List.cons_append, List.nil_append]
                rw [ih r2 (by omega) hv]
              · rw [if_neg h3] at hv
                rw [if_neg h3]
                cases r2 with
                | nil => simp at hv
                | cons b3 r3 =>
                  simp only [List.length_cons] at hs
                  simp only at hv ⊢
                  by_cases h4 : rfc3629.char4 b b1 b2 b3 = true
                  · rw [if_pos h4] at hv
                    rw [if_pos h4, if_neg (by decide)]
                    simp only [List.take_succ_cons, List.take_zero, List.drop_succ_cons,
                      List.drop_zero, List.cons_append, List.nil_append]
                    rw [ih r3 (by omega) hv]
                  · rw [if_neg h4] at hv
                    simp at hv

theorem repair_valid (s : GoString) (hv : rfc3629.valid s = true) : rfc3629.repair s = s :=
  repairLoop_valid s.length s (Nat.le_refl _) hv

theorem appendString_token (s : GoString) :
    rfc8259.StringToken (json.appendString s) (rfc3629.repair s) :=
  .mk _ _ (appendStringLoop_repair s.length s (Nat.le_refl _))

/-- C4, as amended: for every string `s` (the empty string, strings outside the five
constants, strings with quotes, backslashes, control characters or non-ASCII characters
among them), `MarshalJSON` on `{Value: s}` succeeds, and `UnmarshalJSON` on the bytes it
produced succeeds, whatever the receiver held before. It yields `s` with every byte that
belongs to no UTF-8 character replaced by U+FFFD, and so `{Value: s}` itself when `s` is
valid UTF-8. -/
theorem MarshalJSON_UnmarshalJSON_roundtrip (s : GoString) (cfr : chatCompletionFinishReason) :
    (chatCompletionFinishReason.MarshalJSON { Value := s }).2 = none ∧
    cfr.UnmarshalJSON (chatCompletionFinishReason.MarshalJSON { Value := s }).1 =
      ({ Value := rfc3629.repair s }, none) ∧
    (rfc3629.valid s = true →
      cfr.UnmarshalJSON (chatCompletionFinishReason.MarshalJSON { Value := s }).1 =
        ({ Value := s }, none)) :=
  ⟨rfl, UnmarshalJSON_token (appendString_token s) cfr, fun hv => by
    have h := UnmarshalJSON_token (appendString_token s) cfr
    rw [repair_valid s hv] at h
    exact h⟩

set_option maxRecDepth 100000 in
theorem MarshalJSON_UnmarshalJSON_roundtrip_witness :
    rfc3629.valid (str "a\"b\\c\n<é\u2028😀") = true ∧
    (chatCompletionFinishReason.MarshalJSON { Value := str "a\"b\\c\n<é\u2028😀" }).1 =
      str "\"a\\\"b\\\\c\\n\\u003cé\\u2028😀\"" ∧
    (chatCompletionFinishReason.MarshalJSON { Value := str "a\"b\\c\n<é\u2028😀" }).2 = none ∧
    FinishReasonError.UnmarshalJSON
        (chatCompletionFinishReason.MarshalJSON { Value := str "a\"b\\c\n<é\u2028😀" }).1 =
      ({ Value := str "a\"b\\c\n<é\u2028😀" }, none) :=
  ⟨by decide, by decide,
   (MarshalJSON_UnmarshalJSON_roundtrip (str "a\"b\\c\n<é\u2028😀") FinishReasonError).1,
   (MarshalJSON_UnmarshalJSON_roundtrip (str "a\"b\\c\n<é\u2028😀") FinishReasonError).2.2
     (by decide)⟩

set_option maxRecDepth 100000 in
/-- C4, the claim as stated fails: the Go string of the single byte `0xFF` is not valid
UTF-8; `MarshalJSON` writes it as `"\ufffd"`, and `UnmarshalJSON` reads that back as the
three bytes of U+FFFD, not as the byte `0xFF`. -/
theorem roundtrip_fails_on_invalid_utf8 :
    chatCompletionFinishReason.MarshalJSON { Value := [0xFF] } = (str "\"\\ufffd\"", none) ∧
    FinishReasonStop.UnmarshalJSON
        (chatCompletionFinishReason.MarshalJSON { Value := [0xFF] }).1 =
      ({ Value := [0xEF, 0xBF, 0xBD] }, none) ∧
    FinishReasonStop.UnmarshalJSON
        (chatCompletionFinishReason.MarshalJSON { Value := [0xFF] }).1 ≠
      ({ Value := [0xFF] }, none) := by
  decide

/-! ## Decoding a response: fields that no key names -/

theorem decodeMembers_preserves {α β : Type} (proj : α → β)
    (field : GoString → Option (JSON → α → Option GoError → json.Out α)) :
    ∀ (ms : List (List Byte × JSON)) (v : α) (saved : Option GoError),
      (∀ m ∈ ms, ∀ key dec, json.unquoteBytes m.1 = some key → field key = some dec →
        ∀ v s, proj (dec m.2 v s).val = proj v) →
      proj (json.decodeMembers field ms v saved).val = proj v := by
  intro ms
  induction ms with
  | nil => intro v saved _; rfl
  | cons m ms ih =>
    intro v saved h
    obtain ⟨k, t⟩ := m
    rw [json.decodeMembers]
    cases hk : json.unquoteBytes k with
    | none => rfl
    | some key =>
      simp only
      cases hf : field key with
      | none =>
        simp only
        exact ih v saved (fun m hm => h m (List.mem_cons_of_mem _ hm))
      | some dec =>
        simp only
        have hd := h (k, t) (List.mem_cons_self _ _) key dec hk hf
        cases he : (dec t v saved).err with
        | some e => simp only; exact hd v saved
        | none =>
          simp only
          rw [ih _ _ (fun m hm => h m (List.mem_cons_of_mem _ hm))]
          exact hd v saved
theorem fieldIndex_ne_of_omits {fields : List GoString} {i : Nat}
    {ms : List (List Byte × JSON)} (h : json.omits fields i ms = true)
    {m : List Byte × JSON} (hm : m ∈ ms) {key : GoString}
    (hk : json.unquoteBytes m.1 = some key) : json.fieldIndex fields key ≠ some i := by
  unfold json.omits at h
  rw [List.all_eq_true] at h
  have := h m hm
  unfold json.names at this
  rw [hk] at this
  simpa using this

theorem response_field_ID {Msg : Type} (codec : MessageCodec Msg) (key : GoString)
    (dec : JSON → ChatCompletionResponse Msg → Option GoError →
      json.Out (ChatCompletionResponse Msg))
    (hf : ChatCompletionResponse.field codec key = some dec)
    (hk : json.fieldIndex responseFields key ≠ some 0) :
    ∀ t v s, (dec t v s).val.ID = v.ID := by
  unfold ChatCompletionResponse.field at hf
  split at hf <;>
    first
    | (cases hf; intro t v s; rfl)
    | (exact absurd ‹_› hk)
    | (cases hf)

theorem response_field_Choices {Msg : Type} (codec : MessageCodec Msg) (key : GoString)
    (dec : JSON → ChatCompletionResponse Msg → Option GoError →
      json.Out (ChatCompletionResponse Msg))
    (hf : ChatCompletionResponse.field codec key = some dec)
    (hk : json.fieldIndex responseFields key ≠ some 1) :
    ∀ t v s, (dec t v s).val.Choices = v.Choices := by
  unfold ChatCompletionResponse.field at hf
  split at hf <;>
    first
    | (cases hf; intro t v s; rfl)
    | (exact absurd ‹_› hk)
    | (cases hf)

theorem response_field_Usage {Msg : Type} (codec : MessageCodec Msg) (key : GoString)
    (dec : JSON → ChatCompletionResponse Msg → Option GoError →
      json.Out (ChatCompletionResponse Msg))
    (hf : ChatCompletionResponse.field codec key = some dec)
    (hk : json.fieldIndex responseFields key ≠ some 2) :
    ∀ t v s, (dec t v s).val.Usage = v.Usage := by
  unfold ChatCompletionResponse.field at hf
  split at hf <;>
    first
    | (cases hf; intro t v s; rfl)
    | (exact absurd ‹_› hk)
    | (cases hf)

theorem response_field_Created {Msg : Type} (codec : MessageCodec Msg) (key : GoString)
    (dec : JSON → ChatCompletionResponse Msg → Option GoError →
      json.Out (ChatCompletionResponse Msg))
    (hf : ChatCompletionResponse.field codec key = some dec)
    (hk : json.fieldIndex responseFields key ≠ some 3) :
    ∀ t v s, (dec t v s).val.Created = v.Created := by
  unfold ChatCompletionResponse.field at hf
  split at hf <;>
    first
    | (cases hf; intro t v s; rfl)
    | (exact absurd ‹_› hk)
    | (cases hf)

theorem response_field_Model {Msg : Type} (codec : MessageCodec Msg) (key : GoString)
    (dec : JSON → ChatCompletionResponse Msg → Option GoError →
      json.Out (ChatCompletionResponse Msg))
    (hf : ChatCompletionResponse.field codec key = some dec)
    (hk : json.fieldIndex responseFields key ≠ some 4) :
    ∀ t v s, (dec t v s).val.Model = v.Model := by
  unfold ChatCompletionResponse.field at hf
  split at hf <;>
    first
    | (cases hf; intro t v s; rfl)
    | (exact absurd ‹_› hk)
    | (cases hf)

theorem response_field_Object {Msg : Type} (codec : MessageCodec Msg) (key : GoString)
    (dec : JSON → ChatCompletionResponse Msg → Option GoError →
      json.Out (ChatCompletionResponse Msg))
    (hf : ChatCompletionResponse.field codec key = some dec)
    (hk : json.fieldIndex responseFields key ≠ some 5) :
    ∀ t v s, (dec t v s).val.Object = v.Object := by
  unfold ChatCompletionResponse.field at hf
  split at hf <;>
    first
    | (cases hf; intro t v s; rfl)
    | (exact absurd ‹_› hk)
    | (cases hf)
theorem usage_field_PromptTokens (key : GoString)
    (dec : JSON → ChatCompletionResponseUsage → Option GoError →
      json.Out ChatCompletionResponseUsage)
    (hf : ChatCompletionResponseUsage.field key = some dec)
    (hk : json.fieldIndex usageFields key ≠ some 0) :
    ∀ t v s, (dec t v s).val.PromptTokens = v.PromptTokens := by
  unfold ChatCompletionResponseUsage.field at hf
  split at hf <;>
    first
    | (cases hf; intro t v s; rfl)
    | (exact absurd ‹_› hk)
    | (cases hf)

theorem usage_field_CompletionTokens (key : GoString)
    (dec : JSON → ChatCompletionResponseUsage → Option GoError →
      json.Out ChatCompletionResponseUsage)
    (hf : ChatCompletionResponseUsage.field key = some dec)
    (hk : json.fieldIndex usageFields key ≠ some 1) :
    ∀ t v s, (dec t v s).val.CompletionTokens = v.CompletionTokens := by
  unfold ChatCompletionResponseUsage.field at hf
  split at hf <;>
    first
    | (cases hf; intro t v s; rfl)
    | (exact absurd ‹_› hk)
    | (cases hf)

theorem usage_field_TotalTokens (key : GoString)
    (dec : JSON → ChatCompletionResponseUsage → Option GoError →
      json.Out ChatCompletionResponseUsage)
    (hf : ChatCompletionResponseUsage.field key = some dec)
    (hk : json.fieldIndex usageFields key ≠ some 2) :
    ∀ t v s, (dec t v s).val.TotalTokens = v.TotalTokens := by
  unfold ChatCompletionResponseUsage.field at hf
  split at hf <;>
    first
    | (cases hf; intro t v s; rfl)
    | (exact absurd ‹_› hk)
    | (cases hf)

theorem storeStruct_literal_val {α : Type}
    (field : GoString → Option (JSON → α → Option GoError → json.Out α)) (item : List Byte)
    (v : α) (s : Option GoError) : (json.storeStruct field (JSON.literal item) v s).val = v := by
  unfold json.storeStruct
  simp only
  cases json.literalKind item <;> simp only [json.typeError, json.outOfSync]
  cases json.unquoteBytes item <;> rfl

/-- Decoding a `usage` value keeps a count that none of the keys of the value names. -/
theorem usage_decode_preserves {β : Type} (proj : ChatCompletionResponseUsage → β) (j : Nat)
    (hproj : ∀ key dec, ChatCompletionResponseUsage.field key = some dec →
      json.fieldIndex usageFields key ≠ some j → ∀ t v s, proj (dec t v s).val = proj v)
    (t : JSON)
    (ht : (match t with
      | JSON.object counts => json.omits usageFields j counts
      | _ => true) = true)
    (v : ChatCompletionResponseUsage) (s : Option GoError) :
    proj (ChatCompletionResponseUsage.decode t v s).val = proj v := by
  unfold ChatCompletionResponseUsage.decode
  cases t with
  | literal item => rw [storeStruct_literal_val]
  | array es => rfl
  | object counts =>
    simp only at ht
    unfold json.storeStruct
    exact decodeMembers_preserves proj _ counts v s
      (fun m hm key dec hk hf => hproj key dec hf (fieldIndex_ne_of_omits ht hm hk) m.2)

theorem response_field_usage_eq {Msg : Type} (codec : MessageCodec Msg) (key : GoString)
    (dec : JSON → ChatCompletionResponse Msg → Option GoError →
      json.Out (ChatCompletionResponse Msg))
    (hf : ChatCompletionResponse.field codec key = some dec)
    (hk : json.fieldIndex responseFields key = some 2) :
    ∀ t v s, (dec t v s).val.Usage = (ChatCompletionResponseUsage.decode t v.Usage s).val := by
  unfold ChatCompletionResponse.field at hf
  rw [hk] at hf
  simp only [Option.some.injEq] at hf
  subst hf
  intro t v s
  rfl

/-- Decoding a response object keeps a count of the usage that no `usage` member of the
object names. -/
theorem response_count_preserved {Msg : Type} {β : Type} (codec : MessageCodec Msg)
    (proj : ChatCompletionResponseUsage → β) (j : Nat)
    (hproj : ∀ key dec, ChatCompletionResponseUsage.field key = some dec →
      json.fieldIndex usageFields key ≠ some j → ∀ t v s, proj (dec t v s).val = proj v)
    (ms : List (List Byte × JSON)) (h : omitsCount j ms = true)
    (v : ChatCompletionResponse Msg) (s : Option GoError) :
    proj (json.decodeMembers (ChatCompletionResponse.field codec) ms v s).val.Usage =
      proj v.Usage := by
  refine decodeMembers_preserves (fun r => proj r.Usage) _ ms v s ?_
  intro m hm key dec hk hf v' s'
  unfold omitsCount at h
  rw [List.all_eq_true] at h
  have hm' := h m hm
  show proj (dec m.2 v' s').val.Usage = proj v'.Usage
  by_cases hn : json.fieldIndex responseFields key = some 2
  · have hnames : json.names responseFields 2 m.1 = true := by
      unfold json.names
      rw [hk]
      simp [hn]
    rw [hnames] at hm'
    simp only [Bool.not_true, Bool.false_or] at hm'
    rw [response_field_usage_eq codec key dec hf hn]
    exact usage_decode_preserves proj j hproj m.2 hm' v'.Usage s'
  · rw [response_field_Usage codec key dec hf hn]

theorem Unmarshal_fst_of_scan {α : Type} (dec : JSON → α → Option GoError → json.Out α)
    (data : List Byte) (v : α) (t : JSON) (h : json.scan data = some t) :
    (json.Unmarshal dec data v).1 = (dec t v none).val := by
  unfold json.Unmarshal
  rw [h]
  simp only
  cases (dec t v none).err <;> rfl

theorem response_val_of_scan {Msg : Type} (codec : MessageCodec Msg) (data : List Byte)
    (members : List (List Byte × JSON)) (v : ChatCompletionResponse Msg)
    (h : json.scan data = some (JSON.object members)) :
    (ChatCompletionResponse.Unmarshal codec data v).1 =
      (json.decodeMembers (ChatCompletionResponse.field codec) members v none).val := by
  unfold ChatCompletionResponse.Unmarshal
  rw [Unmarshal_fst_of_scan _ data v _ h]
  rfl

theorem scan_empty_object : json.scan exampleEmptyObject = some (JSON.object []) := by
  rfl

/-- When an input that the scanner reads as an object is decoded into a zero-valued
`ChatCompletionResponse`, every field that no key of the object names (by its exact name
or, as `encoding/json` matches keys, up to case) has its zero value afterwards, whether or
not the other keys decode without error.  And decoding `{}` succeeds, with every field
zero. -/
theorem absent_fields_of_scan {Msg : Type} (codec : MessageCodec Msg) (data : List Byte)
    (members : List (List Byte × JSON)) (h : json.scan data = some (JSON.object members)) :
    (json.omits responseFields 0 members = true →
      (ChatCompletionResponse.Unmarshal codec data (ChatCompletionResponse.zero Msg)).1.ID = []) ∧
    (json.omits responseFields 1 members = true →
      (ChatCompletionResponse.Unmarshal codec data (ChatCompletionResponse.zero Msg)).1.Choices =
        ⟨[], 0, true⟩ ∧
      (ChatCompletionResponse.Unmarshal codec data
        (ChatCompletionResponse.zero Msg)).1.Choices.toList.length = 0) ∧
    (json.omits responseFields 2 members = true →
      (ChatCompletionResponse.Unmarshal codec data (ChatCompletionResponse.zero Msg)).1.Usage =
        ⟨0, 0, 0⟩) ∧
    (json.omits responseFields 3 members = true →
      (ChatCompletionResponse.Unmarshal codec data
        (ChatCompletionResponse.zero Msg)).1.Created = 0) ∧
    (json.omits responseFields 4 members = true →
      (ChatCompletionResponse.Unmarshal codec data
        (ChatCompletionResponse.zero Msg)).1.Model = []) ∧
    (json.omits responseFields 5 members = true →
      (ChatCompletionResponse.Unmarshal codec data
        (ChatCompletionResponse.zero Msg)).1.Object = []) ∧
    (omitsCount 0 members = true →
      (ChatCompletionResponse.Unmarshal codec data
        (ChatCompletionResponse.zero Msg)).1.Usage.PromptTokens = 0) ∧
    (omitsCount 1 members = true →
      (ChatCompletionResponse.Unmarshal codec data
        (ChatCompletionResponse.zero Msg)).1.Usage.CompletionTokens = 0) ∧
    (omitsCount 2 members = true →
      (ChatCompletionResponse.Unmarshal codec data
        (ChatCompletionResponse.zero Msg)).1.Usage.TotalTokens = 0) ∧
    ChatCompletionResponse.Unmarshal codec exampleEmptyObject (ChatCompletionResponse.zero Msg) =
      (ChatCompletionResponse.zero Msg, none) := by
  rw [response_val_of_scan codec data members _ h]
  refine ⟨?_, ?_, ?_, ?_, ?_, ?_, ?_, ?_, ?_, ?_⟩
  · intro ho
    exact decodeMembers_preserves (fun r => r.ID) _ members _ none
      (fun m hm key dec hk hf =>
        response_field_ID codec key dec hf (fieldIndex_ne_of_omits ho hm hk) m.2)
  · intro ho
    have hc := decodeMembers_preserves (fun r => r.Choices) _ members
      (ChatCompletionResponse.zero Msg) none
      (fun m hm key dec hk hf =>
        response_field_Choices codec key dec hf (fieldIndex_ne_of_omits ho hm hk) m.2)
    simp only at hc
    rw [hc]
    exact ⟨rfl, rfl⟩
  · intro ho
    exact decodeMembers_preserves (fun r => r.Usage) _ members _ none
      (fun m hm key dec hk hf =>
        response_field_Usage codec key dec hf (fieldIndex_ne_of_omits ho hm hk) m.2)
  · intro ho
    exact decodeMembers_preserves (fun r => r.Created) _ members _ none
      (fun m hm key dec hk hf =>
        response_field_Created codec key dec hf (fieldIndex_ne_of_omits ho hm hk) m.2)
  · intro ho
    exact decodeMembers_preserves (fun r => r.Model) _ members _ none
      (fun m hm key dec hk hf =>
        response_field_Model codec key dec hf (fieldIndex_ne_of_omits ho hm hk) m.2)
  · intro ho
    exact decodeMembers_preserves (fun r => r.Object) _ members _ none
      (fun m hm key dec hk hf =>
        response_field_Object codec key dec hf (fieldIndex_ne_of_omits ho hm hk) m.2)
  · intro ho
    exact response_count_preserved codec (fun u => u.PromptTokens) 0
      usage_field_PromptTokens members ho _ none
  · intro ho
    exact response_count_preserved codec (fun u => u.CompletionTokens) 1
      usage_field_CompletionTokens members ho _ none
  · intro ho
    exact response_count_preserved codec (fun u => u.TotalTokens) 2
      usage_field_TotalTokens members ho _ none
  · unfold ChatCompletionResponse.Unmarshal json.Unmarshal
    rw [scan_empty_object]
    rfl

/-! ## Decoding a response: values of the wrong shape -/

theorem saveError_ne_none (saved : Option GoError) (e : GoError) :
    json.saveError saved e ≠ none := by
  cases saved <;> simp [json.saveError]

theorem typeError_failed {α : Type} (v : α) (saved : Option GoError) :
    (json.typeError v saved).failed :=
  Or.inr (saveError_ne_none saved _)

theorem outOfSync_failed {α : Type} (v : α) (saved : Option GoError) :
    (json.outOfSync v saved).failed :=
  Or.inl (by simp [json.outOfSync])

theorem storeString_keeps (t : JSON) (v : GoString) (e : GoError) :
    (json.storeString t v (some e)).failed := by
  unfold json.storeString
  cases t with
  | array _ => exact typeError_failed _ _
  | object _ => exact typeError_failed _ _
  | literal item =>
    simp only
    cases json.literalKind item with
    | null => exact Or.inr (by simp)
    | bool => exact typeError_failed _ _
    | string =>
      simp only
      cases json.unquoteBytes item with
      | none => exact outOfSync_failed _ _
      | some s => exact Or.inr (by simp)
    | number => exact typeError_failed _ _
    | invalid => exact outOfSync_failed _ _

theorem storeInt_keeps (t : JSON) (v : Int) (e : GoError) :
    (json.storeInt t v (some e)).failed := by
  unfold json.storeInt
  cases t with
  | array _ => exact typeError_failed _ _
  | object _ => exact typeError_failed _ _
  | literal item =>
    simp only
    cases json.literalKind item with
    | null => exact Or.inr (by simp)
    | bool => exact typeError_failed _ _
    | string =>
      simp only
      cases json.unquoteBytes item with
      | none => exact outOfSync_failed _ _
      | some s => exact typeError_failed _ _
    | number =>
      simp only
      cases strconv.ParseInt item with
      | none => exact typeError_failed _ _
      | some n => exact Or.inr (by simp)
    | invalid => exact outOfSync_failed _ _

theorem decodeMembers_keeps {α : Type}
    (field : GoString → Option (JSON → α → Option GoError → json.Out α))
    (hfield : ∀ key dec, field key = some dec → ∀ t v e, (dec t v (some e)).failed) :
    ∀ (ms : List (List Byte × JSON)) (v : α) (e : GoError),
      (json.decodeMembers field ms v (some e)).failed := by
  intro ms
  induction ms with
  | nil => intro v e; exact Or.inr (by simp [json.decodeMembers])
  | cons m ms ih =>
    intro v e
    obtain ⟨k, t⟩ := m
    rw [json.decodeMembers]
    cases hk : json.unquoteBytes k with
    | none => exact outOfSync_failed _ _
    | some key =>
      simp only
      cases hf : field key with
      | none => simp only; exact ih v e
      | some dec =>
        simp only
        have hd := hfield key dec hf t v e
        cases he : (dec t v (some e)).err with
        | some e' => exact Or.inl (by simp)
        | none =>
          simp only
          rcases hd with hd | hd
          · exact absurd he hd
          · obtain ⟨e', he'⟩ := Option.ne_none_iff_exists'.1 hd
            rw [he']
            exact ih _ e'

theorem decodeMembers_failed_of_mem {α : Type}
    (field : GoString → Option (JSON → α → Option GoError → json.Out α))
    (hfield : ∀ key dec, field key = some dec → ∀ t v e, (dec t v (some e)).failed) :
    ∀ (ms : List (List Byte × JSON)) (m : List Byte × JSON), m ∈ ms →
      ∀ key dec, json.unquoteBytes m.1 = some key → field key = some dec →
      (∀ v s, (dec m.2 v s).failed) →
      ∀ v s, (json.decodeMembers field ms v s).failed := by
  intro ms
  induction ms with
  | nil => intro m hm; simp at hm
  | cons m₀ ms ih =>
    intro m hm key dec hk hf hbad v s
    obtain ⟨k₀, t₀⟩ := m₀
    rw [json.decodeMembers]
    cases hk₀ : json.unquoteBytes k₀ with
    | none => exact outOfSync_failed _ _
    | some key₀ =>
      simp only
      rcases List.mem_cons.1 hm with rfl | hm'
      · simp only at hk hbad
        rw [hk₀] at hk
        cases hk
        rw [hf]
        simp only
        cases he : (dec t₀ v s).err with
        | some e' => exact Or.inl (by simp)
        | none =>
          simp only
          rcases hbad v s with hd | hd
          · exact absurd he hd
          · obtain ⟨e', he'⟩ := Option.ne_none_iff_exists'.1 hd
            rw [he']
            exact decodeMembers_keeps field hfield ms _ e'
      · cases hf₀ : field key₀ with
        | none => simp only; exact ih m hm' key dec hk hf hbad v s
        | some dec₀ =>
          simp only
          cases he : (dec₀ t₀ v s).err with
          | some e' => exact Or.inl (by simp)
          | none => simp only; exact ih m hm' key dec hk hf hbad _ _

theorem storeStruct_keeps {α : Type}
    (field : GoString → Option (JSON → α → Option GoError → json.Out α))
    (hfield : ∀ key dec, field key = some dec → ∀ t v e, (dec t v (some e)).failed)
    (t : JSON) (v : α) (e : GoError) : (json.storeStruct field t v (some e)).failed := by
  unfold json.storeStruct
  cases t with
  | array _ => exact typeError_failed _ _
  | object ms => exact decodeMembers_keeps field hfield ms v e
  | literal item =>
    simp only
    cases json.literalKind item with
    | null => exact Or.inr (by simp)
    | bool => exact typeError_failed _ _
    | string =>
      simp only
      cases json.unquoteBytes item with
      | none => exact outOfSync_failed _ _
      | some s => exact typeError_failed _ _
    | number => exact typeError_failed _ _
    | invalid => exact outOfSync_failed _ _

theorem decodeElems_keeps {α : Type} (dec : JSON → α → Option GoError → json.Out α) (zero : α)
    (hdec : ∀ t v e, (dec t v (some e)).failed) :
    ∀ (es : List JSON) (i : Nat) (v : json.Slice α) (e : GoError),
      (json.decodeElems dec zero es i v (some e)).failed := by
  intro es
  induction es with
  | nil =>
    intro i v e
    rw [json.decodeElems]
    by_cases hi : i = 0
    · rw [if_pos hi]; exact Or.inr (by simp)
    · rw [if_neg hi]; exact Or.inr (by simp)
  | cons t es ih =>
    intro i v e
    rw [json.decodeElems]
    generalize hg : (if i ≥ v.array.length then v.array ++ [zero] else v.array) = grown
    have hd := hdec t (grown.getD i zero) e
    cases he : (dec t (grown.getD i zero) (some e)).err with
    | some e' => exact Or.inl (by simp)
    | none =>
      simp only
      rcases hd with hd | hd
      · exact absurd he hd
      · obtain ⟨e', he'⟩ := Option.ne_none_iff_exists'.1 hd
        rw [he']
        exact ih _ _ e'

theorem decodeElems_failed_of_mem {α : Type} (dec : JSON → α → Option GoError → json.Out α)
    (zero : α) (hdec : ∀ t v e, (dec t v (some e)).failed) :
    ∀ (es : List JSON) (t : JSON), t ∈ es → (∀ v s, (dec t v s).failed) →
      ∀ (i : Nat) (v : json.Slice α) (s : Option GoError),
        (json.decodeElems dec zero es i v s).failed := by
  intro es
  induction es with
  | nil => intro t ht; simp at ht
  | cons t₀ es ih =>
    intro t ht hbad i v s
    rw [json.decodeElems]
    generalize hg : (if i ≥ v.array.length then v.array ++ [zero] else v.array) = grown
    cases he : (dec t₀ (grown.getD i zero) s).err with
    | some e' => exact Or.inl (by simp)
    | none =>
      simp only
      rcases List.mem_cons.1 ht with rfl | ht'
      · rcases hbad (grown.getD i zero) s with hd | hd
        · exact absurd he hd
        · obtain ⟨e', he'⟩ := Option.ne_none_iff_exists'.1 hd
          rw [he']
          exact decodeElems_keeps dec zero hdec es _ _ e'
      · exact ih t ht' hbad _ _ _

theorem storeSlice_keeps {α : Type} (dec : JSON → α → Option GoError → json.Out α) (zero : α)
    (hdec : ∀ t v e, (dec t v (some e)).failed) (t : JSON) (v : json.Slice α) (e : GoError) :
    (json.storeSlice dec zero t v (some e)).failed := by
  unfold json.storeSlice
  cases t with
  | array es => exact decodeElems_keeps dec zero hdec es 0 v e
  | object _ => exact typeError_failed _ _
  | literal item =>
    simp only
    cases json.literalKind item with
    | null => exact Or.inr (by simp)
    | bool => exact typeError_failed _ _
    | string =>
      simp only
      cases json.unquoteBytes item with
      | none => exact outOfSync_failed _ _
      | some s => exact typeError_failed _ _
    | number => exact typeError_failed _ _
    | invalid => exact outOfSync_failed _ _
theorem finishReason_decode_keeps (t : JSON) (v : chatCompletionFinishReason) (e : GoError) :
    (chatCompletionFinishReason.decode t v (some e)).failed :=
  Or.inr (by simp [chatCompletionFinishReason.decode])

theorem codec_store_keeps {Msg : Type} (codec : MessageCodec Msg) (t : JSON) (v : Msg)
    (e : GoError) : (codec.store t v (some e)).failed :=
  Or.inr (by simp [MessageCodec.store])

theorem usage_field_keeps (key : GoString)
    (dec : JSON → ChatCompletionResponseUsage → Option GoError →
      json.Out ChatCompletionResponseUsage)
    (hf : ChatCompletionResponseUsage.field key = some dec) :
    ∀ t v e, (dec t v (some e)).failed := by
  unfold ChatCompletionResponseUsage.field at hf
  split at hf <;>
    first
    | (cases hf; intro t v e; exact storeInt_keeps _ _ _)
    | (cases hf)

theorem usage_decode_keeps (t : JSON) (v : ChatCompletionResponseUsage) (e : GoError) :
    (ChatCompletionResponseUsage.decode t v (some e)).failed :=
  storeStruct_keeps _ usage_field_keeps t v e

theorem choice_field_keeps {Msg : Type} (codec : MessageCodec Msg) (key : GoString)
    (dec : JSON → ChatCompletionResponseChoice Msg → Option GoError →
      json.Out (ChatCompletionResponseChoice Msg))
    (hf : ChatCompletionResponseChoice.field codec key = some dec) :
    ∀ t v e, (dec t v (some e)).failed := by
  unfold ChatCompletionResponseChoice.field at hf
  split at hf <;>
    first
    | (cases hf; intro t v e; exact finishReason_decode_keeps _ _ _)
    | (cases hf; intro t v e; exact codec_store_keeps codec _ _ _)
    | (cases hf)

theorem choice_decode_keeps {Msg : Type} (codec : MessageCodec Msg) (t : JSON)
    (v : ChatCompletionResponseChoice Msg) (e : GoError) :
    (ChatCompletionResponseChoice.decode codec t v (some e)).failed :=
  storeStruct_keeps _ (choice_field_keeps codec) t v e

theorem response_field_keeps {Msg : Type} (codec : MessageCodec Msg) (key : GoString)
    (dec : JSON → ChatCompletionResponse Msg → Option GoError →
      json.Out (ChatCompletionResponse Msg))
    (hf : ChatCompletionResponse.field codec key = some dec) :
    ∀ t v e, (dec t v (some e)).failed := by
  unfold ChatCompletionResponse.field at hf
  split at hf <;>
    first
    | (cases hf; intro t v e; exact storeString_keeps _ _ _)
    | (cases hf; intro t v e; exact storeInt_keeps _ _ _)
    | (cases hf; intro t v e; exact usage_decode_keeps _ _ _)
    | (cases hf; intro t v e
       exact storeSlice_keeps _ _ (choice_decode_keeps codec) _ _ _)
    | (cases hf)

theorem names_true {fields : List GoString} {i : Nat} {k : List Byte}
    (h : json.names fields i k = true) :
    ∃ key, json.unquoteBytes k = some key ∧ json.fieldIndex fields key = some i := by
  unfold json.names at h
  cases hk : json.unquoteBytes k with
  | none => rw [hk] at h; simp at h
  | some key =>
    rw [hk] at h
    exact ⟨key, rfl, by simpa using h⟩

theorem hasMember_true {fields : List GoString} {i : Nat} {p : JSON → Bool}
    {ms : List (List Byte × JSON)} (h : json.hasMember fields i p ms = true) :
    ∃ m ∈ ms, ∃ key, json.unquoteBytes m.1 = some key ∧
      json.fieldIndex fields key = some i ∧ p m.2 = true := by
  unfold json.hasMember at h
  rw [List.any_eq_true] at h
  obtain ⟨m, hm, hp⟩ := h
  rw [Bool.and_eq_true] at hp
  obtain ⟨key, hk, hi⟩ := names_true hp.1
  exact ⟨m, hm, key, hk, hi, hp.2⟩

/-- A JSON string where an integer is expected is an error. -/
theorem storeInt_string_failed (t : JSON) (ht : t.isString = true) (v : Int)
    (s : Option GoError) : (json.storeInt t v s).failed := by
  cases t with
  | array _ => simp [JSON.isString] at ht
  | object _ => simp [JSON.isString] at ht
  | literal item =>
    have hk : json.literalKind item = json.LiteralKind.string := by
      simpa [JSON.isString] using ht
    unfold json.storeInt
    simp only [hk]
    cases json.unquoteBytes item with
    | none => exact outOfSync_failed _ _
    | some _ => exact typeError_failed _ _

/-- A value that is neither an array nor `null` where a slice is expected is an error. -/
theorem storeSlice_no_array_failed {α : Type} (dec : JSON → α → Option GoError → json.Out α)
    (zero : α) (t : JSON) (ht : (!t.isArray && !t.isNull) = true) (v : json.Slice α)
    (s : Option GoError) : (json.storeSlice dec zero t v s).failed := by
  cases t with
  | array _ => simp [JSON.isArray] at ht
  | object _ => exact typeError_failed _ _
  | literal item =>
    have hk : json.literalKind item ≠ json.LiteralKind.null := by
      simpa [JSON.isArray, JSON.isNull] using ht
    unfold json.storeSlice
    simp only
    cases hl : json.literalKind item with
    | null => exact absurd hl hk
    | bool => exact typeError_failed _ _
    | string =>
      simp only
      cases json.unquoteBytes item with
      | none => exact outOfSync_failed _ _
      | some _ => exact typeError_failed _ _
    | number => exact typeError_failed _ _
    | invalid => exact outOfSync_failed _ _

theorem scanUnsigned_head (c : Byte) (rest item after : List Byte)
    (h : json.scanUnsigned (c :: rest) = some (item, after)) : ∃ l, item = c :: l := by
  unfold json.scanUnsigned at h
  simp only at h
  split at h
  · simp at h
  · rename_i ip r₁ hip
    split at h
    · simp at h
    · rename_i fp r₂ _
      split at h
      · simp at h
      · rename_i ep r₃ _
        simp only [Option.some.injEq, Prod.mk.injEq] at h
        obtain ⟨rfl, -⟩ := h
        by_cases h0 : c.val = 0x30
        · rw [if_pos h0] at hip
          simp only [Option.some.injEq, Prod.mk.injEq] at hip
          obtain ⟨rfl, -⟩ := hip
          exact ⟨_, rfl⟩
        · rw [if_neg h0] at hip
          by_cases h1 : 0x31 ≤ c.val ∧ c.val ≤ 0x39
          · rw [if_pos h1] at hip
            simp only [Option.some.injEq, Prod.mk.injEq] at hip
            obtain ⟨rfl, -⟩ := hip
            exact ⟨_, rfl⟩
          · rw [if_neg h1] at hip
            simp at hip

theorem scanNumber_head (c : Byte) (rest item after : List Byte)
    (h : json.scanNumber (c :: rest) = some (item, after)) : ∃ l, item = c :: l := by
  unfold json.scanNumber at h
  simp only at h
  by_cases hc : c.val = 0x2D
  · rw [if_pos hc] at h
    split at h
    · simp at h
    · simp only [Option.some.injEq, Prod.mk.injEq] at h
      obtain ⟨rfl, -⟩ := h
      exact ⟨_, rfl⟩
  · rw [if_neg hc] at h
    exact scanUnsigned_head c rest item after h

theorem scanWord_item (word input item after : List Byte)
    (h : json.scanWord word input = some (item, after)) : item = word := by
  unfold json.scanWord at h
  split at h
  · simp only [Option.some.injEq, Prod.mk.injEq] at h
    exact h.1.symm
  · simp at h

/-- A value whose first byte is neither a quote nor `n` is not a string and not `null`. -/
theorem parseValue_no_string (n d : Nat) (c : Byte) (rest r : List Byte) (t : JSON)
    (h : json.parseValue (n + 1) d (c :: rest) = some (t, r))
    (h1 : c.val ≠ 0x22) (h2 : c.val ≠ 0x6E) :
    t.isArray = true ∨ t.isObject = true ∨
      ∃ c' l, t = JSON.literal (c' :: l) ∧ c'.val ≠ 0x22 ∧ c'.val ≠ 0x6E := by
  rw [json.parseValue] at h
  by_cases hb : c.val = 0x7B
  · rw [if_pos hb] at h
    right; left
    split at h
    · simp at h
    · split at h
      · simp at h
      · split at h
        · simp only [Option.some.injEq, Prod.mk.injEq] at h
          rw [← h.1]; rfl
        · split at h
          · simp at h
          · simp only [Option.some.injEq, Prod.mk.injEq] at h
            rw [← h.1]; rfl
  · rw [if_neg hb] at h
    by_cases ha : c.val = 0x5B
    · rw [if_pos ha] at h
      left
      split at h
      · simp at h
      · split at h
        · simp at h
        · split at h
          · simp only [Option.some.injEq, Prod.mk.injEq] at h
            rw [← h.1]; rfl
          · split at h
            · simp at h
            · simp only [Option.some.injEq, Prod.mk.injEq] at h
              rw [← h.1]; rfl
    · rw [if_neg ha, if_neg h1] at h
      right; right
      by_cases ht : c.val = 0x74
      · rw [if_pos ht] at h
        split at h
        · simp at h
        · rename_i item after hw
          simp only [Option.some.injEq, Prod.mk.injEq] at h
          rw [← h.1, scanWord_item _ _ _ _ hw]
          exact ⟨_, _, rfl, by decide, by decide⟩
      · rw [if_neg ht] at h
        by_cases hf : c.val = 0x66
        · rw [if_pos hf] at h
          split at h
          · simp at h
          · rename_i item after hw
            simp only [Option.some.injEq, Prod.mk.injEq] at h
            rw [← h.1, scanWord_item _ _ _ _ hw]
            exact ⟨_, _, rfl, by decide, by decide⟩
        · rw [if_neg hf, if_neg h2] at h
          split at h
          · simp at h
          · rename_i item after hw
            simp only [Option.some.injEq, Prod.mk.injEq] at h
            obtain ⟨l, rfl⟩ := scanNumber_head c rest item after hw
            rw [← h.1]
            exact ⟨c, l, rfl, h1, h2⟩

theorem storeString_no_string_failed (t : JSON)
    (ht : t.isArray = true ∨ t.isObject = true ∨
      ∃ c' l, t = JSON.literal (c' :: l) ∧ c'.val ≠ 0x22 ∧ c'.val ≠ 0x6E)
    (v : GoString) (s : Option GoError) : (json.storeString t v s).failed := by
  rcases ht with ht | ht | ⟨c', l, rfl, h1, h2⟩
  · cases t with
    | array _ => exact typeError_failed _ _
    | object _ => simp [JSON.isArray] at ht
    | literal _ => simp [JSON.isArray] at ht
  · cases t with
    | array _ => simp [JSON.isObject] at ht
    | object _ => exact typeError_failed _ _
    | literal _ => simp [JSON.isObject] at ht
  · unfold json.storeString
    simp only
    have hk : json.literalKind (c' :: l) ≠ json.LiteralKind.null ∧
        json.literalKind (c' :: l) ≠ json.LiteralKind.string := by
      unfold json.literalKind
      simp only
      rw [if_neg h2]
      split_ifs <;> simp
    cases hl : json.literalKind (c' :: l) with
    | null => exact absurd hl hk.1
    | bool => exact typeError_failed _ _
    | string => exact absurd hl hk.2
    | number => exact typeError_failed _ _
    | invalid => exact outOfSync_failed _ _

theorem Unmarshal_failed {α : Type} (dec : JSON → α → Option GoError → json.Out α)
    (data : List Byte) (v : α)
    (h : ∀ t, json.scan data = some t → (dec t v none).failed) :
    (json.Unmarshal dec data v).2 ≠ none := by
  unfold json.Unmarshal
  cases hs : json.scan data with
  | none => simp
  | some t =>
    simp only
    rcases h t hs with hf | hf
    · obtain ⟨e, he⟩ := Option.ne_none_iff_exists'.1 hf
      rw [he]
      simp
    · cases he : (dec t v none).err with
      | some e => simp
      | none => simpa using hf

/-- The `Unmarshal` of `UnmarshalJSON` fails on every input whose first byte is neither
white space, nor a quote, nor `n`. -/
theorem UnmarshalJSON_fails (cfr : chatCompletionFinishReason) (c : Byte) (rest : List Byte)
    (h0 : json.isSpace c = false) (h1 : c.val ≠ 0x22) (h2 : c.val ≠ 0x6E) :
    (cfr.UnmarshalJSON (c :: rest)).1 = cfr ∧ (cfr.UnmarshalJSON (c :: rest)).2 ≠ none := by
  have hU : (json.Unmarshal json.storeString (c :: rest) []).2 ≠ none := by
    apply Unmarshal_failed
    intro t hs
    unfold json.scan at hs
    have hsp : json.skipSpace (c :: rest) = c :: rest := by
      rw [json.skipSpace.eq_def]
      simp only
      rw [h0]
      simp
    rw [hsp] at hs
    split at hs
    · simp at hs
    · rename_i t' r hp
      split at hs
      · simp only [Option.some.injEq] at hs
        subst hs
        exact storeString_no_string_failed _
          (parseValue_no_string _ _ c rest r _ hp h1 h2) _ _
      · simp at hs
  unfold chatCompletionFinishReason.UnmarshalJSON
  cases hr : json.Unmarshal json.storeString (c :: rest) [] with
  | mk value err =>
    rw [hr] at hU
    cases err with
    | none => exact absurd rfl hU
    | some e => exact ⟨rfl, by simp⟩

theorem literalKind_head {item : List Byte}
    (h : json.literalKind item = json.LiteralKind.number ∨
      json.literalKind item = json.LiteralKind.bool) :
    ∃ c l, item = c :: l ∧ json.isSpace c = false ∧ c.val ≠ 0x22 ∧ c.val ≠ 0x6E := by
  cases item with
  | nil => rcases h with h | h <;> simp [json.literalKind] at h
  | cons c l =>
    refine ⟨c, l, rfl, ?_⟩
    unfold json.literalKind at h
    simp only at h
    by_cases hn : c.val = 0x6E
    · rw [if_pos hn] at h
      rcases h with h | h <;> simp at h
    · rw [if_neg hn] at h
      by_cases hb : c.val = 0x74 ∨ c.val = 0x66
      · refine ⟨?_, by omega, hn⟩
        unfold json.isSpace
        rcases hb with hb | hb <;> simp [hb]
      · rw [if_neg hb] at h
        by_cases hq : c.val = 0x22
        · rw [if_pos hq] at h
          rcases h with h | h <;> simp at h
        · rw [if_neg hq] at h
          by_cases hd : c.val = 0x2D ∨ (0x30 ≤ c.val ∧ c.val ≤ 0x39)
          · refine ⟨?_, hq, hn⟩
            unfold json.isSpace
            simp only [Bool.or_eq_false_iff, decide_eq_false_iff_not]
            omega
          · rw [if_neg hd] at h
            rcases h with h | h <;> simp at h

/-- A `finish_reason` that is a number, a boolean, an array or an object is an error that
`UnmarshalJSON` returns. -/
theorem finishReason_decode_failed (t : JSON)
    (ht : (t.isNumber || t.isBool || t.isArray || t.isObject) = true)
    (v : chatCompletionFinishReason) (s : Option GoError) :
    (chatCompletionFinishReason.decode t v s).failed := by
  left
  show (v.UnmarshalJSON t.raw).2 ≠ none
  cases t with
  | array es =>
    rw [JSON.raw]
    exact (UnmarshalJSON_fails v 0x5B _ (by decide) (by decide) (by decide)).2
  | object ms =>
    rw [JSON.raw]
    exact (UnmarshalJSON_fails v 0x7B _ (by decide) (by decide) (by decide)).2
  | literal item =>
    rw [JSON.raw]
    have hk : json.literalKind item = json.LiteralKind.number ∨
        json.literalKind item = json.LiteralKind.bool := by
      simpa [JSON.isNumber, JSON.isBool, JSON.isArray, JSON.isObject] using ht
    obtain ⟨c, l, rfl, h0, h1, h2⟩ := literalKind_head hk
    exact (UnmarshalJSON_fails v c l h0 h1 h2).2

theorem response_field_of_index {Msg : Type} (codec : MessageCodec Msg) (key : GoString)
    (i : Nat) (hi : json.fieldIndex responseFields key = some i) (hlt : i < 6) :
    ∃ dec, ChatCompletionResponse.field codec key = some dec := by
  unfold ChatCompletionResponse.field
  rw [hi]
  match i, hlt with
  | 0, _ => exact ⟨_, rfl⟩
  | 1, _ => exact ⟨_, rfl⟩
  | 2, _ => exact ⟨_, rfl⟩
  | 3, _ => exact ⟨_, rfl⟩
  | 4, _ => exact ⟨_, rfl⟩
  | 5, _ => exact ⟨_, rfl⟩

/-- Decoding a response object fails when a member that names a field has a value on
which the decoding of that field fails. -/
theorem response_failed_of_member {Msg : Type} (codec : MessageCodec Msg)
    (ms : List (List Byte × JSON)) (m : List Byte × JSON) (hm : m ∈ ms) (key : GoString)
    (hk : json.unquoteBytes m.1 = some key)
    (dec : JSON → ChatCompletionResponse Msg → Option GoError →
      json.Out (ChatCompletionResponse Msg))
    (hf : ChatCompletionResponse.field codec key = some dec)
    (hbad : ∀ v s, (dec m.2 v s).failed) (v : ChatCompletionResponse Msg)
    (s : Option GoError) :
    (ChatCompletionResponse.decode codec (JSON.object ms) v s).failed :=
  decodeMembers_failed_of_mem _ (response_field_keeps codec) ms m hm key dec hk hf hbad v s

theorem created_string_failed {Msg : Type} (codec : MessageCodec Msg)
    (ms : List (List Byte × JSON)) (h : createdIsString ms = true)
    (v : ChatCompletionResponse Msg) (s : Option GoError) :
    (ChatCompletionResponse.decode codec (JSON.object ms) v s).failed := by
  obtain ⟨m, hm, key, hk, hi, hp⟩ := hasMember_true h
  refine response_failed_of_member codec ms m hm key hk _
    (by unfold ChatCompletionResponse.field; rw [hi]) ?_ v s
  intro v' s'
  exact storeInt_string_failed m.2 hp v'.Created s'

theorem usage_count_string_failed (j : Nat) (hj : j < 3) (t : JSON)
    (ht : (match t with
      | JSON.object counts => json.hasMember usageFields j JSON.isString counts
      | _ => false) = true)
    (v : ChatCompletionResponseUsage) (s : Option GoError) :
    (ChatCompletionResponseUsage.decode t v s).failed := by
  cases t with
  | array _ => simp at ht
  | literal _ => simp at ht
  | object counts =>
    simp only at ht
    obtain ⟨m, hm, key, hk, hi, hp⟩ := hasMember_true ht
    match j, hj with
    | 0, _ =>
      refine decodeMembers_failed_of_mem _ usage_field_keeps counts m hm key _ hk
        (by unfold ChatCompletionResponseUsage.field; rw [hi]) ?_ v s
      intro v' s'
      exact storeInt_string_failed m.2 hp v'.PromptTokens s'
    | 1, _ =>
      refine decodeMembers_failed_of_mem _ usage_field_keeps counts m hm key _ hk
        (by unfold ChatCompletionResponseUsage.field; rw [hi]) ?_ v s
      intro v' s'
      exact storeInt_string_failed m.2 hp v'.CompletionTokens s'
    | 2, _ =>
      refine decodeMembers_failed_of_mem _ usage_field_keeps counts m hm key _ hk
        (by unfold ChatCompletionResponseUsage.field; rw [hi]) ?_ v s
      intro v' s'
      exact storeInt_string_failed m.2 hp v'.TotalTokens s'

theorem count_string_failed {Msg : Type} (codec : MessageCodec Msg) (j : Nat) (hj : j < 3)
    (ms : List (List Byte × JSON)) (h : countIsString j ms = true)
    (v : ChatCompletionResponse Msg) (s : Option GoError) :
    (ChatCompletionResponse.decode codec (JSON.object ms) v s).failed := by
  obtain ⟨m, hm, key, hk, hi, hp⟩ := hasMember_true h
  refine response_failed_of_member codec ms m hm key hk _
    (by unfold ChatCompletionResponse.field; rw [hi]) ?_ v s
  intro v' s'
  exact usage_count_string_failed j hj m.2 hp v'.Usage s'

theorem choices_no_array_failed {Msg : Type} (codec : MessageCodec Msg)
    (ms : List (List Byte × JSON)) (h : choicesIsNoArray ms = true)
    (v : ChatCompletionResponse Msg) (s : Option GoError) :
    (ChatCompletionResponse.decode codec (JSON.object ms) v s).failed := by
  obtain ⟨m, hm, key, hk, hi, hp⟩ := hasMember_true h
  refine response_failed_of_member codec ms m hm key hk _
    (by unfold ChatCompletionResponse.field; rw [hi]) ?_ v s
  intro v' s'
  exact storeSlice_no_array_failed _ _ m.2 hp v'.Choices s'

theorem choice_finish_reason_failed {Msg : Type} (codec : MessageCodec Msg) (c : JSON)
    (hc : (match c with
      | JSON.object fields =>
        json.hasMember choiceFields 0
          (fun f => f.isNumber || f.isBool || f.isArray || f.isObject) fields
      | _ => false) = true)
    (v : ChatCompletionResponseChoice Msg) (s : Option GoError) :
    (ChatCompletionResponseChoice.decode codec c v s).failed := by
  cases c with
  | array _ => simp at hc
  | literal _ => simp at hc
  | object fields =>
    simp only at hc
    obtain ⟨m, hm, key, hk, hi, hp⟩ := hasMember_true hc
    refine decodeMembers_failed_of_mem _ (choice_field_keeps codec) fields m hm key _ hk
      (by unfold ChatCompletionResponseChoice.field; rw [hi]) ?_ v s
    intro v' s'
    exact finishReason_decode_failed m.2 hp v'.FinishReason s'

theorem finish_reason_failed {Msg : Type} (codec : MessageCodec Msg)
    (ms : List (List Byte × JSON)) (h : finishReasonIsNoString ms = true)
    (v : ChatCompletionResponse Msg) (s : Option GoError) :
    (ChatCompletionResponse.decode codec (JSON.object ms) v s).failed := by
  obtain ⟨m, hm, key, hk, hi, hp⟩ := hasMember_true h
  refine response_failed_of_member codec ms m hm key hk _
    (by unfold ChatCompletionResponse.field; rw [hi]) ?_ v s
  intro v' s'
  show (json.storeSlice _ _ m.2 v'.Choices s').failed
  cases hm2 : m.2 with
  | object _ => rw [hm2] at hp; simp at hp
  | literal _ => rw [hm2] at hp; simp at hp
  | array choices =>
    rw [hm2] at hp
    simp only at hp
    rw [List.any_eq_true] at hp
    obtain ⟨c, hcm, hc⟩ := hp
    unfold json.storeSlice
    exact decodeElems_failed_of_mem _ _ (choice_decode_keeps codec) choices c hcm
      (choice_finish_reason_failed codec c hc) 0 _ _

/-- C10: decoding into `ChatCompletionResponse` returns an error for every JSON object in
which `created` or one of the three counts of `usage` is given as a JSON string, or in
which `choices` is present and is neither an array nor `null`, or in which the
`finish_reason` of a choice is a number, a boolean, an array or an object. -/
theorem shape_mismatch_is_rejected {Msg : Type} (codec : MessageCodec Msg) (data : List Byte)
    (members : List (List Byte × JSON)) (resp : ChatCompletionResponse Msg)
    (h : json.scan data = some (JSON.object members))
    (hbad : createdIsString members = true ∨ countIsString 0 members = true ∨
      countIsString 1 members = true ∨ countIsString 2 members = true ∨
      choicesIsNoArray members = true ∨ finishReasonIsNoString members = true) :
    (ChatCompletionResponse.Unmarshal codec data resp).2 ≠ none := by
  unfold ChatCompletionResponse.Unmarshal
  apply Unmarshal_failed
  intro t hs
  rw [h] at hs
  simp only [Option.some.injEq] at hs
  subst hs
  rcases hbad with hb | hb | hb | hb | hb | hb
  · exact created_string_failed codec members hb resp none
  · exact count_string_failed codec 0 (by decide) members hb resp none
  · exact count_string_failed codec 1 (by decide) members hb resp none
  · exact count_string_failed codec 2 (by decide) members hb resp none
  · exact choices_no_array_failed codec members hb resp none
  · exact finish_reason_failed codec members hb resp none

set_option maxRecDepth 1000000 in
theorem shape_mismatch_is_rejected_witness :
    json.scan exampleCountString =
      some (JSON.object [(str "\"usage\"",
        JSON.object [(str "\"prompt_tokens\"", JSON.literal (str "\"not-a-number\""))])]) ∧
    countIsString 0 [(str "\"usage\"",
        JSON.object [(str "\"prompt_tokens\"", JSON.literal (str "\"not-a-number\""))])] = true ∧
    (ChatCompletionResponse.Unmarshal MessageCodec.unit
      exampleCountString
      (ChatCompletionResponse.zero Unit)).2 ≠ none ∧
    (ChatCompletionResponse.Unmarshal MessageCodec.unit
      exampleCountString
      (ChatCompletionResponse.zero Unit)).2 = some GoError.UnmarshalTypeError ∧
    (ChatCompletionResponse.Unmarshal MessageCodec.unit
      exampleFinishReasonArray
      (ChatCompletionResponse.zero Unit)).2 = some GoError.UnmarshalTypeError ∧
    (ChatCompletionResponse.Unmarshal MessageCodec.unit exampleChoicesString
      (ChatCompletionResponse.zero Unit)).2 = some GoError.UnmarshalTypeError :=
  ⟨rfl, by decide,
   shape_mismatch_is_rejected MessageCodec.unit
     exampleCountString
     [(str "\"usage\"",
        JSON.object [(str "\"prompt_tokens\"", JSON.literal (str "\"not-a-number\""))])]
     (ChatCompletionResponse.zero Unit) rfl (Or.inr (Or.inl (by decide))),
   by decide, by decide, by decide⟩

/-! ## The builder: what a mutator call changes -/

theorem Heap.clientOf_transports (σ : Heap) (ts : List http.Client) (b : Nat) :
    Heap.clientOf { σ with transports := ts } b = σ.clientOf b := rfl

theorem WithRefererURL_eq {σ : Heap} {b c : Nat} {cl : Client} (h : σ.clientOf b = some (c, cl))
    (u : GoString) :
    clientBuilder.WithRefererURL σ b u = some (σ.setClient c { cl with refererURL := u }, b) := by
  simp only [clientBuilder.WithRefererURL, h]

theorem WithRefererTitle_eq {σ : Heap} {b c : Nat} {cl : Client}
    (h : σ.clientOf b = some (c, cl)) (t : GoString) :
    clientBuilder.WithRefererTitle σ b t =
      some (σ.setClient c { cl with refererTitle := t }, b) := by
  simp only [clientBuilder.WithRefererTitle, h]

theorem WithHTTPClient_eq {σ : Heap} {b c : Nat} {cl : Client} (h : σ.clientOf b = some (c, cl))
    (p : Option Nat) :
    clientBuilder.WithHTTPClient σ b p = some (σ.setClient c { cl with httpClient := p }, b) := by
  simp only [clientBuilder.WithHTTPClient, h]

/-- The result of `WithDefaultTimeout` on a builder whose transport is the valid handle
`t`. -/
theorem WithDefaultTimeout_some {σ : Heap} {b c t : Nat} {cl : Client} {tr : http.Client}
    (h : σ.clientOf b = some (c, cl)) (ht : cl.httpClient = some t)
    (htr : σ.transports[t]? = some tr) (d : Duration) :
    clientBuilder.WithDefaultTimeout σ b d =
      some ({ σ with transports := σ.transports.set t { tr with Timeout := d } }, b) := by
  simp only [clientBuilder.WithDefaultTimeout, h, ht, htr]

/-- The result of `WithDefaultTimeout` on a builder whose transport is nil. -/
theorem WithDefaultTimeout_none {σ : Heap} {b c : Nat} {cl : Client}
    (h : σ.clientOf b = some (c, cl)) (ht : cl.httpClient = none) (d : Duration) :
    clientBuilder.WithDefaultTimeout σ b d =
      some ({ transports := σ.transports ++ [http.Client.mk 0 0 0 d],
              clients := σ.clients.set c { cl with httpClient := some σ.transports.length },
              builders := σ.builders }, b) := by
  simp only [clientBuilder.WithDefaultTimeout, h, ht, Heap.setClient]
  simp

/-- A mutator call returns the builder it was called on, whose client is the same object
as before, and changes no field of that object but the one it sets. -/
theorem Mutator.run_frame {σ σ' : Heap} {b b' c : Nat} {cl : Client} {m : Mutator}
    (h : σ.clientOf b = some (c, cl)) (hr : m.run σ b = some (σ', b')) :
    b' = b ∧ ∃ cl', σ'.clientOf b = some (c, cl') ∧
      ((∀ u, m ≠ Mutator.WithBaseURL u) → cl'.baseURL = cl.baseURL) ∧
      ((∀ k, m ≠ Mutator.WithAPIKey k) → cl'.apiKey = cl.apiKey) ∧
      ((∀ u, m ≠ Mutator.WithRefererURL u) → cl'.refererURL = cl.refererURL) ∧
      ((∀ t, m ≠ Mutator.WithRefererTitle t) → cl'.refererTitle = cl.refererTitle) ∧
      ((∀ p, m ≠ Mutator.WithHTTPClient p) → (∀ d, m ≠ Mutator.WithDefaultTimeout d) →
        cl'.httpClient = cl.httpClient ∧ σ'.transports = σ.transports) := by
  cases m with
  | WithBaseURL u =>
    rw [Mutator.run, WithBaseURL_eq h] at hr
    simp only [Option.some.injEq, Prod.mk.injEq] at hr
    obtain ⟨rfl, rfl⟩ := hr
    exact ⟨rfl, _, Heap.clientOf_setClient h _, fun hn => absurd rfl (hn u), fun _ => rfl,
      fun _ => rfl, fun _ => rfl, fun _ _ => ⟨rfl, rfl⟩⟩
  | WithAPIKey k =>
    rw [Mutator.run, WithAPIKey_eq h] at hr
    simp only [Option.some.injEq, Prod.mk.injEq] at hr
    obtain ⟨rfl, rfl⟩ := hr
    exact ⟨rfl, _, Heap.clientOf_setClient h _, fun _ => rfl, fun hn => absurd rfl (hn k),
      fun _ => rfl, fun _ => rfl, fun _ _ => ⟨rfl, rfl⟩⟩
  | WithHTTPClient p =>
    rw [Mutator.run, WithHTTPClient_eq h] at hr
    simp only [Option.some.injEq, Prod.mk.injEq] at hr
    obtain ⟨rfl, rfl⟩ := hr
    exact ⟨rfl, _, Heap.clientOf_setClient h _, fun _ => rfl, fun _ => rfl,
      fun _ => rfl, fun _ => rfl, fun hn _ => absurd rfl (hn p)⟩
  | WithDefaultTimeout d =>
    rw [Mutator.run] at hr
    cases ht : cl.httpClient with
    | none =>
      rw [WithDefaultTimeout_none h ht] at hr
      simp only [Option.some.injEq, Prod.mk.injEq] at hr
      obtain ⟨rfl, rfl⟩ := hr
      exact ⟨rfl, _, Heap.clientOf_setClient h _, fun _ => rfl, fun _ => rfl,
        fun _ => rfl, fun _ => rfl, fun _ hn => absurd rfl (hn d)⟩
    | some t =>
      cases htr : σ.transports[t]? with
      | none => simp [clientBuilder.WithDefaultTimeout, h, ht, htr] at hr
      | some tr =>
        rw [WithDefaultTimeout_some h ht htr] at hr
        simp only [Option.some.injEq, Prod.mk.injEq] at hr
        obtain ⟨rfl, rfl⟩ := hr
        exact ⟨rfl, cl, h, fun _ => rfl, fun _ => rfl,
          fun _ => rfl, fun _ => rfl, fun _ hn => absurd rfl (hn d)⟩
  | WithRefererURL u =>
    rw [Mutator.run, WithRefererURL_eq h] at hr
    simp only [Option.some.injEq, Prod.mk.injEq] at hr
    obtain ⟨rfl, rfl⟩ := hr
    exact ⟨rfl, _, Heap.clientOf_setClient h _, fun _ => rfl, fun _ => rfl,
      fun hn => absurd rfl (hn u), fun _ => rfl, fun _ _ => ⟨rfl, rfl⟩⟩
  | WithRefererTitle t =>
    rw [Mutator.run, WithRefererTitle_eq h] at hr
    simp only [Option.some.injEq, Prod.mk.injEq] at hr
    obtain ⟨rfl, rfl⟩ := hr
    exact ⟨rfl, _, Heap.clientOf_setClient h _, fun _ => rfl, fun _ => rfl,
      fun _ => rfl, fun hn => absurd rfl (hn t), fun _ _ => ⟨rfl, rfl⟩⟩

/-- A chain of mutator calls returns the builder it started on, whose client is the same
object as before, with every field that no call of the chain sets as it was. -/
theorem Mutator.chain_frame : ∀ (ms : List Mutator) {σ σ' : Heap} {b b' c : Nat} {cl : Client},
    σ.clientOf b = some (c, cl) → Mutator.chain σ b ms = some (σ', b') →
    b' = b ∧ ∃ cl', σ'.clientOf b = some (c, cl') ∧
      ((∀ m ∈ ms, ∀ u, m ≠ Mutator.WithBaseURL u) → cl'.baseURL = cl.baseURL) ∧
      ((∀ m ∈ ms, ∀ k, m ≠ Mutator.WithAPIKey k) → cl'.apiKey = cl.apiKey) ∧
      ((∀ m ∈ ms, ∀ u, m ≠ Mutator.WithRefererURL u) → cl'.refererURL = cl.refererURL) ∧
      ((∀ m ∈ ms, ∀ t, m ≠ Mutator.WithRefererTitle t) → cl'.refererTitle = cl.refererTitle) ∧
      ((∀ m ∈ ms, ∀ p, m ≠ Mutator.WithHTTPClient p) →
        (∀ m ∈ ms, ∀ d, m ≠ Mutator.WithDefaultTimeout d) →
        cl'.httpClient = cl.httpClient ∧ σ'.transports = σ.transports) := by
  intro ms
  induction ms with
  | nil =>
    intro σ σ' b b' c cl h hr
    simp only [Mutator.chain, Option.some.injEq, Prod.mk.injEq] at hr
    obtain ⟨rfl, rfl⟩ := hr
    exact ⟨rfl, cl, h, fun _ => rfl, fun _ => rfl, fun _ => rfl, fun _ => rfl,
      fun _ _ => ⟨rfl, rfl⟩⟩
  | cons m ms ih =>
    intro σ σ' b b' c cl h hr
    rw [Mutator.chain] at hr
    cases h1 : m.run σ b with
    | none => simp [h1] at hr
    | some r =>
      obtain ⟨σ₁, b₁⟩ := r
      simp only [h1] at hr
      obtain ⟨rfl, cl₁, hc₁, f1, f2, f3, f4, f5⟩ := Mutator.run_frame h h1
      obtain ⟨rfl, cl₂, hc₂, g1, g2, g3, g4, g5⟩ := ih hc₁ hr
      refine ⟨rfl, cl₂, hc₂, ?_, ?_, ?_, ?_, ?_⟩
      · intro hn
        rw [g1 (fun m' hm' => hn m' (List.mem_cons_of_mem _ hm')),
          f1 (hn m (List.mem_cons_self _ _))]
      · intro hn
        rw [g2 (fun m' hm' => hn m' (List.mem_cons_of_mem _ hm')),
          f2 (hn m (List.mem_cons_self _ _))]
      · intro hn
        rw [g3 (fun m' hm' => hn m' (List.mem_cons_of_mem _ hm')),
          f3 (hn m (List.mem_cons_self _ _))]
      · intro hn
        rw [g4 (fun m' hm' => hn m' (List.mem_cons_of_mem _ hm')),
          f4 (hn m (List.mem_cons_self _ _))]
      · intro hn hd
        have a := g5 (fun m' hm' => hn m' (List.mem_cons_of_mem _ hm'))
          (fun m' hm' => hd m' (List.mem_cons_of_mem _ hm'))
        have a' := f5 (hn m (List.mem_cons_self _ _)) (hd m (List.mem_cons_self _ _))
        exact ⟨a.1.trans a'.1, a.2.trans a'.2⟩

/-- C17: on every builder, `WithAPIKey(x)` returns the builder it was called on and sets
`apiKey` to exactly `x`, and `WithRefererURL(x)` and `WithRefererTitle(x)` do the same for
`refererURL` and `refererTitle`; `WithBaseURL(x)` sets `baseURL`, to the value that it
stores for `x`.  Each leaves the other four fields of the client, and every transport, as
they were.  And the field is still `x` after any later calls on the builder none of
which is a call of the same mutator: the last call for a field determines it. -/
theorem string_mutator_sets_own_field (σ : Heap) (b c : Nat) (cl : Client) (x : GoString)
    (h : σ.clientOf b = some (c, cl)) :
    (∃ σ', clientBuilder.WithAPIKey σ b x = some (σ', b) ∧
      σ'.clientOf b = some (c, { cl with apiKey := x }) ∧
      σ'.transports = σ.transports ∧ σ'.builders = σ.builders ∧
      ∀ ms σ'' b'', (∀ m ∈ ms, ∀ k, m ≠ Mutator.WithAPIKey k) →
        Mutator.chain σ' b ms = some (σ'', b'') →
        b'' = b ∧ ∃ cl'', σ''.clientOf b = some (c, cl'') ∧ cl''.apiKey = x) ∧
    (∃ σ', clientBuilder.WithRefererURL σ b x = some (σ', b) ∧
      σ'.clientOf b = some (c, { cl with refererURL := x }) ∧
      σ'.transports = σ.transports ∧ σ'.builders = σ.builders ∧
      ∀ ms σ'' b'', (∀ m ∈ ms, ∀ u, m ≠ Mutator.WithRefererURL u) →
        Mutator.chain σ' b ms = some (σ'', b'') →
        b'' = b ∧ ∃ cl'', σ''.clientOf b = some (c, cl'') ∧ cl''.refererURL = x) ∧
    (∃ σ', clientBuilder.WithRefererTitle σ b x = some (σ', b) ∧
      σ'.clientOf b = some (c, { cl with refererTitle := x }) ∧
      σ'.transports = σ.transports ∧ σ'.builders = σ.builders ∧
      ∀ ms σ'' b'', (∀ m ∈ ms, ∀ t, m ≠ Mutator.WithRefererTitle t) →
        Mutator.chain σ' b ms = some (σ'', b'') →
        b'' = b ∧ ∃ cl'', σ''.clientOf b = some (c, cl'') ∧ cl''.refererTitle = x) ∧
    (∃ σ' r, clientBuilder.WithBaseURL σ b x = some (σ', b) ∧
      σ'.clientOf b = some (c, { cl with baseURL := r }) ∧
      σ'.transports = σ.transports ∧ σ'.builders = σ.builders ∧
      ∀ ms σ'' b'', (∀ m ∈ ms, ∀ u, m ≠ Mutator.WithBaseURL u) →
        Mutator.chain σ' b ms = some (σ'', b'') →
        b'' = b ∧ ∃ cl'', σ''.clientOf b = some (c, cl'') ∧ cl''.baseURL = r) := by
  refine ⟨⟨_, WithAPIKey_eq h x, Heap.clientOf_setClient h _, rfl, rfl, ?_⟩,
    ⟨_, WithRefererURL_eq h x, Heap.clientOf_setClient h _, rfl, rfl, ?_⟩,
    ⟨_, WithRefererTitle_eq h x, Heap.clientOf_setClient h _, rfl, rfl, ?_⟩,
    ⟨_, _, WithBaseURL_eq h x, Heap.clientOf_setClient h _, rfl, rfl, ?_⟩⟩
  · intro ms σ'' b'' hn hr
    obtain ⟨hb, cl'', hc, -, g2, -, -, -⟩ :=
      Mutator.chain_frame ms (Heap.clientOf_setClient h _) hr
    exact ⟨hb, cl'', hc, g2 hn⟩
  · intro ms σ'' b'' hn hr
    obtain ⟨hb, cl'', hc, -, -, g3, -, -⟩ :=
      Mutator.chain_frame ms (Heap.clientOf_setClient h _) hr
    exact ⟨hb, cl'', hc, g3 hn⟩
  · intro ms σ'' b'' hn hr
    obtain ⟨hb, cl'', hc, -, -, -, g4, -⟩ :=
      Mutator.chain_frame ms (Heap.clientOf_setClient h _) hr
    exact ⟨hb, cl'', hc, g4 hn⟩
  · intro ms σ'' b'' hn hr
    obtain ⟨hb, cl'', hc, g1, -, -, -, -⟩ :=
      Mutator.chain_frame ms (Heap.clientOf_setClient h _) hr
    exact ⟨hb, cl'', hc, g1 hn⟩

theorem string_mutator_sets_own_field_witness :
    exampleChainHeap.clientOf 0 =
      some (0, Client.mk (some 1) (str "https://x") (str "k") [] (str "app")) ∧
    (clientBuilder.WithAPIKey exampleChainHeap 0 (str " k2 ")).bind
        (fun r => (Mutator.chain r.1 r.2
          [Mutator.WithRefererURL (str "u"), Mutator.WithBaseURL (str "v/")]).bind
            (fun r₁ => r₁.1.clientOf r₁.2)) =
      some (0, Client.mk (some 1) (str "v") (str " k2 ") (str "u") (str "app")) ∧
    ∃ σ', clientBuilder.WithAPIKey exampleChainHeap 0 (str " k2 ") = some (σ', 0) ∧
      σ'.clientOf 0 =
        some (0, Client.mk (some 1) (str "https://x") (str " k2 ") [] (str "app")) ∧
      σ'.transports = exampleChainHeap.transports ∧ σ'.builders = exampleChainHeap.builders ∧
      ∀ ms σ'' b'', (∀ m ∈ ms, ∀ k, m ≠ Mutator.WithAPIKey k) →
        Mutator.chain σ' 0 ms = some (σ'', b'') →
        b'' = 0 ∧ ∃ cl'', σ''.clientOf 0 = some (0, cl'') ∧ cl''.apiKey = str " k2 " :=
  ⟨by decide, by decide,
   (string_mutator_sets_own_field exampleChainHeap 0 0
     (Client.mk (some 1) (str "https://x") (str "k") [] (str "app")) (str " k2 ")
     (by decide)).1⟩

theorem RemoveTrailingSlashes_slashes (u : GoString) (hu : ∀ x ∈ u, x.val = 0x2F) :
    strutil.RemoveTrailingSlashes u = [] := by
  unfold strutil.RemoveTrailingSlashes
  rw [List.rdropWhile_eq_nil_iff]
  intro x hx
  simpa using hu x hx

/-- C18: for every string `u` that consists of `/` bytes only (the empty string, `"/"`,
`"//"`, ...) and every key `k`, `NewClient().WithAPIKey(k).WithBaseURL(u).Create()` returns
a nil client and `ErrBaseURLRequired`, although the builder started with the non-empty
default base URL: the default is not put back. -/
theorem slashes_baseURL_is_not_defaulted (σ₀ : Heap) (k u : GoString)
    (hu : ∀ x ∈ u, x.val = 0x2F) :
    (∃ c cl, (NewClient σ₀).1.clientOf (NewClient σ₀).2 = some (c, cl) ∧
      cl.baseURL = defaultBaseURL ∧ defaultBaseURL ≠ []) ∧
    ∃ σ, thenCreate ((clientBuilder.WithAPIKey (NewClient σ₀).1 (NewClient σ₀).2 k).bind
        (fun r => clientBuilder.WithBaseURL r.1 r.2 u)) =
      some (σ, none, some GoError.ErrBaseURLRequired) := by
  have h0 := NewClient_clientOf σ₀
  refine ⟨⟨_, _, h0, rfl, by decide⟩, ?_⟩
  have h1 := Heap.clientOf_setClient h0
    { httpClient := some σ₀.transports.length, baseURL := defaultBaseURL, apiKey := k }
  rw [WithAPIKey_eq h0, Option.bind]
  simp only
  rw [WithBaseURL_eq h1, thenCreate, Create_eq (Heap.clientOf_setClient h1 _)]
  simp only [RemoveTrailingSlashes_slashes u hu, if_true]
  exact ⟨_, rfl⟩

set_option maxRecDepth 100000 in
theorem slashes_baseURL_is_not_defaulted_witness :
    (∀ x ∈ str "//", x.val = 0x2F) ∧
    (thenCreate ((clientBuilder.WithAPIKey (NewClient Heap.empty).1 (NewClient Heap.empty).2
        (str "k")).bind (fun r => clientBuilder.WithBaseURL r.1 r.2 (str "//")))).map Prod.snd =
      some (none, some GoError.ErrBaseURLRequired) ∧
    ∃ σ, thenCreate ((clientBuilder.WithAPIKey (NewClient Heap.empty).1 (NewClient Heap.empty).2
        (str "k")).bind (fun r => clientBuilder.WithBaseURL r.1 r.2 (str "//"))) =
      some (σ, none, some GoError.ErrBaseURLRequired) :=
  ⟨by decide, by decide,
   (slashes_baseURL_is_not_defaulted Heap.empty (str "k") (str "//") (by decide)).2⟩

/-- C14: for every transport handle `h` that points to a transport and every duration `d`,
after `WithHTTPClient(h).WithDefaultTimeout(d)` the builder's transport is still the handle
`h`, no transport has been allocated, and the transport that `h` points to, which is the
caller's own, has the `Timeout` `d` and is otherwise as it was, like every other
transport.  And after `WithHTTPClient(nil)`, `WithDefaultTimeout(d)` does not fail: it
allocates a transport `&http.Client{}`, sets its `Timeout` to `d` and makes it the
builder's transport; the transports that existed are as they were. -/
theorem WithDefaultTimeout_writes_through (σ : Heap) (b c h : Nat) (cl : Client)
    (tr : http.Client) (d : Duration)
    (hb : σ.clientOf b = some (c, cl)) (hh : σ.transports[h]? = some tr) :
    (∃ σ₁ σ₂, clientBuilder.WithHTTPClient σ b (some h) = some (σ₁, b) ∧
      clientBuilder.WithDefaultTimeout σ₁ b d = some (σ₂, b) ∧
      σ₂.clientOf b = some (c, { cl with httpClient := some h }) ∧
      σ₂.transports[h]? = some { tr with Timeout := d } ∧
      σ₂.transports.length = σ.transports.length ∧
      ∀ t, t ≠ h → σ₂.transports[t]? = σ.transports[t]?) ∧
    (∃ σ₁ σ₂, clientBuilder.WithHTTPClient σ b none = some (σ₁, b) ∧
      clientBuilder.WithDefaultTimeout σ₁ b d = some (σ₂, b) ∧
      σ₂.clientOf b = some (c, { cl with httpClient := some σ.transports.length }) ∧
      σ.transports[σ.transports.length]? = none ∧
      σ₂.transports = σ.transports ++ [http.Client.mk 0 0 0 d]) := by
  constructor
  · have h1 : (σ.setClient c { cl with httpClient := some h }).clientOf b =
        some (c, { cl with httpClient := some h }) := Heap.clientOf_setClient hb _
    have hlt : h < σ.transports.length := (List.getElem?_eq_some.1 hh).1
    refine ⟨_, _, WithHTTPClient_eq hb (some h), WithDefaultTimeout_some h1 rfl hh d, h1,
      ?_, ?_, ?_⟩
    · show (σ.transports.set h { tr with Timeout := d })[h]? = _
      simp [List.getElem?_set_self, hlt]
    · show (σ.transports.set h { tr with Timeout := d }).length = _
      simp
    · intro t ht
      show (σ.transports.set h { tr with Timeout := d })[t]? = _
      rw [List.getElem?_set_ne (Ne.symm ht)]
  · have h1 : (σ.setClient c { cl with httpClient := none }).clientOf b =
        some (c, { cl with httpClient := none }) := Heap.clientOf_setClient hb _
    refine ⟨_, _, WithHTTPClient_eq hb none, WithDefaultTimeout_none h1 rfl d, ?_, ?_, rfl⟩
    · have h2 := Heap.clientOf_setClient h1
        { cl with httpClient := some σ.transports.length }
      exact h2
    · simp

theorem WithDefaultTimeout_writes_through_witness :
    exampleChainHeap.clientOf 0 =
      some (0, Client.mk (some 1) (str "https://x") (str "k") [] (str "app")) ∧
    exampleChainHeap.transports[0]? = some (http.Client.mk 0 0 0 defaultTimeout) ∧
    (∃ σ₁ σ₂, clientBuilder.WithHTTPClient exampleChainHeap 0 (some 0) = some (σ₁, 0) ∧
      clientBuilder.WithDefaultTimeout σ₁ 0 7 = some (σ₂, 0) ∧
      σ₂.clientOf 0 =
        some (0, Client.mk (some 0) (str "https://x") (str "k") [] (str "app")) ∧
      σ₂.transports[0]? = some (http.Client.mk 0 0 0 7) ∧
      σ₂.transports.length = exampleChainHeap.transports.length ∧
      ∀ t, t ≠ 0 → σ₂.transports[t]? = exampleChainHeap.transports[t]?) ∧
    (∃ σ₁ σ₂, clientBuilder.WithHTTPClient exampleChainHeap 0 none = some (σ₁, 0) ∧
      clientBuilder.WithDefaultTimeout σ₁ 0 7 = some (σ₂, 0) ∧
      σ₂.clientOf 0 =
        some (0, Client.mk (some 2) (str "https://x") (str "k") [] (str "app")) ∧
      exampleChainHeap.transports[exampleChainHeap.transports.length]? = none ∧
      σ₂.transports = exampleChainHeap.transports ++ [http.Client.mk 0 0 0 7]) :=
  ⟨by decide, by decide,
   WithDefaultTimeout_writes_through exampleChainHeap 0 0 0
     (Client.mk (some 1) (str "https://x") (str "k") [] (str "app"))
     (http.Client.mk 0 0 0 defaultTimeout) 7 (by decide) (by decide)⟩

/-- C13, as amended: the client that a successful `Create` returns is the builder's own
client object, not a copy.  `Create` changes nothing and returns the address in `b.client`,
and that address stays in `b.client` under every chain of later mutator calls.  A later
call of `WithBaseURL`, `WithAPIKey`, `WithHTTPClient`, `WithRefererURL` or
`WithRefererTitle` on the builder writes its field into the returned client and leaves the
other four fields of the returned client as they were when `Create` returned. -/
theorem created_client_is_builders_client (σ σ' : Heap) (b c : Nat) (x : GoString)
    (p : Option Nat) (hc : clientBuilder.Create σ b = some (σ', some c, none)) :
    σ' = σ ∧ ∃ cl, σ'.clients[c]? = some cl ∧ σ'.clientOf b = some (c, cl) ∧
      cl.baseURL ≠ [] ∧ cl.apiKey ≠ [] ∧
      (∃ σ₂ r, clientBuilder.WithBaseURL σ' b x = some (σ₂, b) ∧
        σ₂.clients[c]? = some { cl with baseURL := r }) ∧
      (∃ σ₂, clientBuilder.WithAPIKey σ' b x = some (σ₂, b) ∧
        σ₂.clients[c]? = some { cl with apiKey := x }) ∧
      (∃ σ₂, clientBuilder.WithHTTPClient σ' b p = some (σ₂, b) ∧
        σ₂.clients[c]? = some { cl with httpClient := p }) ∧
      (∃ σ₂, clientBuilder.WithRefererURL σ' b x = some (σ₂, b) ∧
        σ₂.clients[c]? = some { cl with refererURL := x }) ∧
      (∃ σ₂, clientBuilder.WithRefererTitle σ' b x = some (σ₂, b) ∧
        σ₂.clients[c]? = some { cl with refererTitle := x }) ∧
      ∀ ms σ₂ b₂, Mutator.chain σ' b ms = some (σ₂, b₂) →
        b₂ = b ∧ ∃ cl₂, σ₂.clientOf b = some (c, cl₂) ∧ σ₂.clients[c]? = some cl₂ := by
  obtain ⟨rfl, cl, h, hu, hk⟩ := Create_success hc
  refine ⟨rfl, cl, Heap.clientOf_clients h, h, hu, hk,
    ⟨_, _, WithBaseURL_eq h x, Heap.clientOf_clients (Heap.clientOf_setClient h _)⟩,
    ⟨_, WithAPIKey_eq h x, Heap.clientOf_clients (Heap.clientOf_setClient h _)⟩,
    ⟨_, WithHTTPClient_eq h p, Heap.clientOf_clients (Heap.clientOf_setClient h _)⟩,
    ⟨_, WithRefererURL_eq h x, Heap.clientOf_clients (Heap.clientOf_setClient h _)⟩,
    ⟨_, WithRefererTitle_eq h x, Heap.clientOf_clients (Heap.clientOf_setClient h _)⟩, ?_⟩
  intro ms σ₂ b₂ hr
  obtain ⟨hb, cl₂, h₂, -⟩ := Mutator.chain_frame ms h hr
  exact ⟨hb, cl₂, h₂, Heap.clientOf_clients h₂⟩

theorem created_client_is_builders_client_witness :
    clientBuilder.Create exampleChainHeap 0 = some (exampleChainHeap, some 0, none) ∧
    (clientBuilder.WithAPIKey exampleChainHeap 0 (str "")).map (fun r => r.1.clients[0]?) =
      some (some (Client.mk (some 1) (str "https://x") [] [] (str "app"))) ∧
    exampleChainHeap = exampleChainHeap ∧
    ∃ cl, exampleChainHeap.clients[0]? = some cl ∧ exampleChainHeap.clientOf 0 = some (0, cl) ∧
      cl.baseURL ≠ [] ∧ cl.apiKey ≠ [] ∧
      (∃ σ₂ r, clientBuilder.WithBaseURL exampleChainHeap 0 (str "") = some (σ₂, 0) ∧
        σ₂.clients[0]? = some { cl with baseURL := r }) ∧
      (∃ σ₂, clientBuilder.WithAPIKey exampleChainHeap 0 (str "") = some (σ₂, 0) ∧
        σ₂.clients[0]? = some { cl with apiKey := str "" }) ∧
      (∃ σ₂, clientBuilder.WithHTTPClient exampleChainHeap 0 none = some (σ₂, 0) ∧
        σ₂.clients[0]? = some { cl with httpClient := none }) ∧
      (∃ σ₂, clientBuilder.WithRefererURL exampleChainHeap 0 (str "") = some (σ₂, 0) ∧
        σ₂.clients[0]? = some { cl with refererURL := str "" }) ∧
      (∃ σ₂, clientBuilder.WithRefererTitle exampleChainHeap 0 (str "") = some (σ₂, 0) ∧
        σ₂.clients[0]? = some { cl with refererTitle := str "" }) ∧
      ∀ ms σ₂ b₂, Mutator.chain exampleChainHeap 0 ms = some (σ₂, b₂) →
        b₂ = 0 ∧ ∃ cl₂, σ₂.clientOf 0 = some (0, cl₂) ∧ σ₂.clients[0]? = some cl₂ :=
  ⟨by decide, by decide,
   created_client_is_builders_client exampleChainHeap exampleChainHeap 0 0 (str "") none
     (by decide)⟩

/-- C13, the claim as stated fails: `NewClient().WithAPIKey("k")` is a builder on which
`Create` succeeds; it returns the client at address 0, whose `baseURL` is the default and
whose `apiKey` is `"k"`.  After the later call `WithAPIKey("")` on the builder, the client
at address 0, the one that `Create` returned, has an empty `apiKey`. -/
theorem created_client_changes_with_builder :
    thenCreate (clientBuilder.WithAPIKey (NewClient Heap.empty).1 (NewClient Heap.empty).2
        (str "k")) =
      some (Heap.mk [http.Client.mk 0 0 0 defaultTimeout]
        [Client.mk (some 0) defaultBaseURL (str "k") [] []] [clientBuilder.mk (some 0)],
        some 0, none) ∧
    (clientBuilder.WithAPIKey (Heap.mk [http.Client.mk 0 0 0 defaultTimeout]
        [Client.mk (some 0) defaultBaseURL (str "k") [] []] [clientBuilder.mk (some 0)]) 0
        (str "")).map (fun r => r.1.clients[0]?) =
      some (some (Client.mk (some 0) defaultBaseURL [] [] [])) := by
  decide

/-- C15, as amended: for every chain of mutator calls on `NewClient()` that contains no call
of `WithDefaultTimeout` and no call of `WithHTTPClient`, and is followed by a successful
`Create`, the returned client's transport is the one that `NewClient` allocated, and its
timeout is 3 minutes. -/
theorem default_timeout_is_3_minutes (σ₀ σ' : Heap) (ms : List Mutator) (c : Nat)
    (hd : ∀ m ∈ ms, ∀ d, m ≠ Mutator.WithDefaultTimeout d)
    (hp : ∀ m ∈ ms, ∀ p, m ≠ Mutator.WithHTTPClient p)
    (h : thenCreate (Mutator.chain (NewClient σ₀).1 (NewClient σ₀).2 ms) =
      some (σ', some c, none)) :
    ∃ cl tr, σ'.clients[c]? = some cl ∧ cl.httpClient = some σ₀.transports.length ∧
      σ₀.transports[σ₀.transports.length]? = none ∧
      σ'.transports[σ₀.transports.length]? = some tr ∧
      tr.Timeout = 3 * time.Minute ∧ tr.Timeout = 180000000000 := by
  cases hch : Mutator.chain (NewClient σ₀).1 (NewClient σ₀).2 ms with
  | none => simp [hch, thenCreate] at h
  | some r =>
    obtain ⟨σ, b⟩ := r
    rw [hch, thenCreate] at h
    obtain ⟨hb, cl', hc', -, -, -, -, g5⟩ := Mutator.chain_frame ms (NewClient_clientOf σ₀) hch
    subst hb
    obtain ⟨rfl, cl, hcl, -, -⟩ := Create_success h
    rw [hc'] at hcl
    simp only [Option.some.injEq, Prod.mk.injEq] at hcl
    obtain ⟨rfl, rfl⟩ := hcl
    obtain ⟨e1, e2⟩ := g5 hp hd
    refine ⟨cl', http.Client.mk 0 0 0 defaultTimeout, Heap.clientOf_clients hc', e1, by simp,
      ?_, rfl, by decide⟩
    rw [e2]
    simp [NewClient]

theorem default_timeout_is_3_minutes_witness :
    thenCreate (Mutator.chain (NewClient exampleCallerHeap).1 (NewClient exampleCallerHeap).2
        [Mutator.WithRefererURL (str "u"), Mutator.WithAPIKey (str "k")]) =
      some (Heap.mk [http.Client.mk 0 0 0 5, http.Client.mk 0 0 0 defaultTimeout]
        [Client.mk (some 1) defaultBaseURL (str "k") (str "u") []] [clientBuilder.mk (some 0)],
        some 0, none) ∧
    ∃ cl tr, (Heap.mk [http.Client.mk 0 0 0 5, http.Client.mk 0 0 0 defaultTimeout]
        [Client.mk (some 1) defaultBaseURL (str "k") (str "u") []]
        [clientBuilder.mk (some 0)]).clients[0]? = some cl ∧
      cl.httpClient = some exampleCallerHeap.transports.length ∧
      exampleCallerHeap.transports[exampleCallerHeap.transports.length]? = none ∧
      (Heap.mk [http.Client.mk 0 0 0 5, http.Client.mk 0 0 0 defaultTimeout]
        [Client.mk (some 1) defaultBaseURL (str "k") (str "u") []]
        [clientBuilder.mk (some 0)]).transports[exampleCallerHeap.transports.length]? =
          some tr ∧
      tr.Timeout = 3 * time.Minute ∧ tr.Timeout = 180000000000 :=
  ⟨by decide,
   default_timeout_is_3_minutes exampleCallerHeap _
     [Mutator.WithRefererURL (str "u"), Mutator.WithAPIKey (str "k")] 0
     (by simp) (by simp) (by decide)⟩

/-- C15, the claim as stated fails: the chain `WithAPIKey("k").WithHTTPClient(h)` on
`NewClient()` contains no call of `WithDefaultTimeout`, and `Create` succeeds after it; for
the caller's transport `h`, whose timeout is 5 nanoseconds, the returned client's transport
is `h`, whose timeout is not 3 minutes; and for `h == nil` the returned client has no
transport at all. -/
theorem custom_transport_keeps_its_timeout :
    thenCreate (Mutator.chain (NewClient exampleCallerHeap).1 (NewClient exampleCallerHeap).2
        [Mutator.WithAPIKey (str "k"), Mutator.WithHTTPClient (some 0)]) =
      some (Heap.mk [http.Client.mk 0 0 0 5, http.Client.mk 0 0 0 defaultTimeout]
        [Client.mk (some 0) defaultBaseURL (str "k") [] []] [clientBuilder.mk (some 0)],
        some 0, none) ∧
    (5 : Duration) ≠ 3 * time.Minute ∧
    thenCreate (Mutator.chain (NewClient exampleCallerHeap).1 (NewClient exampleCallerHeap).2
        [Mutator.WithAPIKey (str "k"), Mutator.WithHTTPClient none]) =
      some (Heap.mk [http.Client.mk 0 0 0 5, http.Client.mk 0 0 0 defaultTimeout]
        [Client.mk none defaultBaseURL (str "k") [] []] [clientBuilder.mk (some 0)],
        some 0, none) := by
  decide

/-! ## Decoding a response: numbers -/

theorem digit_val (k : Nat) (h : k < 10) : (byte (0x30 + k)).val = 0x30 + k := by
  rw [byte_val]
  omega

/-- The digits of `n` are decimal digits, at least one, and `n` is their value. -/
theorem digits_spec : ∀ (fuel n : Nat), n < fuel →
    rfc8259.digits fuel n ≠ [] ∧
    (∃ d l, rfc8259.digits fuel n = d :: l ∧ 0x30 ≤ d.val ∧ d.val ≤ 0x39) ∧
    (∀ d ∈ rfc8259.digits fuel n, 0x30 ≤ d.val ∧ d.val ≤ 0x39) ∧
    (rfc8259.digits fuel n).foldl (fun acc d => acc * 10 + (d.val - 0x30)) 0 = n := by
  intro fuel
  induction fuel with
  | zero => intro n h; omega
  | succ f ih =>
    intro n h
    rw [rfc8259.digits]
    by_cases hn : n < 10
    · rw [if_pos hn]
      refine ⟨by simp, ⟨_, _, rfl, ?_, ?_⟩, ?_, ?_⟩
      · rw [digit_val n hn]; omega
      · rw [digit_val n hn]; omega
      · intro d hd
        rw [List.mem_singleton] at hd
        rw [hd, digit_val n hn]
        omega
      · simp only [List.foldl_cons, List.foldl_nil]
        rw [digit_val n hn]
        omega
    · rw [if_neg hn]
      obtain ⟨h1, ⟨d, l, h2, h3⟩, h4, h5⟩ := ih (n / 10) (by omega)
      have hm : n % 10 < 10 := Nat.mod_lt _ (by decide)
      refine ⟨by simp [h1], ⟨d, l ++ [byte (0x30 + n % 10)], by rw [h2]; rfl, h3⟩, ?_, ?_⟩
      · intro x hx
        rw [List.mem_append, List.mem_singleton] at hx
        rcases hx with hx | hx
        · exact h4 x hx
        · rw [hx, digit_val _ hm]
          omega
      · rw [List.foldl_append, h5]
        simp only [List.foldl_cons, List.foldl_nil]
        rw [digit_val _ hm]
        omega

/-- What `strconv.ParseInt` makes of the JSON number that stands for an integer: the
integer when it is in the range of `int64`, and an error otherwise. -/
theorem ParseInt_number (n : Int) :
    strconv.ParseInt (rfc8259.number n) =
      if -2 ^ 63 ≤ n ∧ n < 2 ^ 63 then some n else none := by
  obtain ⟨h1, ⟨d, l, h2, h3⟩, h4, h5⟩ := digits_spec (n.natAbs + 1) n.natAbs (by omega)
  have hall : (rfc8259.digits (n.natAbs + 1) n.natAbs).all
      (fun d => decide (0x30 ≤ d.val) && decide (d.val ≤ 0x39)) = true := by
    rw [List.all_eq_true]
    intro x hx
    simpa using h4 x hx
  unfold rfc8259.number strconv.ParseInt
  by_cases hneg : n < 0
  · rw [if_pos hneg]
    simp only
    have e1 : (0x2D : Byte).val = 0x2B ∨ (0x2D : Byte).val = 0x2D := Or.inr rfl
    have e2 : (0x2D : Byte).val = 0x2D := rfl
    rw [if_pos e1, if_neg h1, if_pos hall, if_pos e2, h5]
    by_cases hr : n.natAbs ≤ 2 ^ 63
    · rw [if_pos hr, if_pos (by omega)]
      congr 1
      omega
    · rw [if_neg hr, if_neg (by omega)]
  · rw [if_neg hneg, h2]
    simp only
    have hd : ¬(d.val = 0x2B ∨ d.val = 0x2D) := by omega
    rw [if_neg hd, if_neg (by simp), ← h2, if_pos hall, if_neg (by omega), h5]
    by_cases hr : n.natAbs < 2 ^ 63
    · rw [if_pos hr, if_pos (by omega)]
      congr 1
      omega
    · rw [if_neg hr, if_neg (by omega)]

theorem literalKind_number (n : Int) :
    json.literalKind (rfc8259.number n) = json.LiteralKind.number := by
  obtain ⟨-, ⟨d, l, h2, h3⟩, -, -⟩ := digits_spec (n.natAbs + 1) n.natAbs (by omega)
  unfold rfc8259.number json.literalKind
  by_cases hneg : n < 0
  · rw [if_pos hneg]
    simp only
    have e1 : ¬(0x2D : Byte).val = 0x6E := by decide
    have e2 : ¬((0x2D : Byte).val = 0x74 ∨ (0x2D : Byte).val = 0x66) := by decide
    have e3 : ¬(0x2D : Byte).val = 0x22 := by decide
    have e4 : (0x2D : Byte).val = 0x2D ∨ (0x30 ≤ (0x2D : Byte).val ∧ (0x2D : Byte).val ≤ 0x39) :=
      Or.inl rfl
    rw [if_neg e1, if_neg e2, if_neg e3, if_pos e4]
  · rw [if_neg hneg, h2]
    simp only
    rw [if_neg (by omega), if_neg (by omega), if_neg (by omega), if_pos (Or.inr (by omega))]

/-- Decoding the JSON number that stands for an integer of the range of `int64` into an
`int` stores the integer. -/
theorem storeInt_number (n : Int) (h1 : -2 ^ 63 ≤ n) (h2 : n < 2 ^ 63) (v : Int)
    (saved : Option GoError) :
    json.storeInt (JSON.literal (rfc8259.number n)) v saved = ⟨n, saved, none⟩ := by
  unfold json.storeInt
  simp only [literalKind_number, ParseInt_number, if_pos (And.intro h1 h2)]

/-! ## Decoding a response: the loop over the members of an object -/

/-- A property of the target that the decoding of every member keeps holds after the
loop, whether or not the loop ends with an error. -/
theorem decodeMembers_invariant {α : Type}
    (field : GoString → Option (JSON → α → Option GoError → json.Out α)) (P : α → Prop) :
    ∀ (ms : List (List Byte × JSON)) (v : α) (s : Option GoError),
      (∀ m ∈ ms, ∀ key dec, json.unquoteBytes m.1 = some key → field key = some dec →
        ∀ v s, P v → P (dec m.2 v s).val) →
      P v → P (json.decodeMembers field ms v s).val := by
  intro ms
  induction ms with
  | nil => intro v s _ hv; exact hv
  | cons m ms ih =>
    intro v s h hv
    obtain ⟨k, t⟩ := m
    rw [json.decodeMembers]
    cases hk : json.unquoteBytes k with
    | none => exact hv
    | some key =>
      simp only
      cases hf : field key with
      | none =>
        simp only
        exact ih v s (fun m hm => h m (List.mem_cons_of_mem _ hm)) hv
      | some dec =>
        simp only
        have hd := h (k, t) (List.mem_cons_self _ _) key dec hk hf v s hv
        cases he : (dec t v s).err with
        | some e => exact hd
        | none => exact ih _ _ (fun m hm => h m (List.mem_cons_of_mem _ hm)) hd

/-- When every key is a string and the decoding of no member reports an error, the loop
reports none. -/
theorem decodeMembers_no_error {α : Type}
    (field : GoString → Option (JSON → α → Option GoError → json.Out α)) :
    ∀ (ms : List (List Byte × JSON)) (v : α) (s : Option GoError),
      (∀ m ∈ ms, (∃ key, json.unquoteBytes m.1 = some key) ∧
        ∀ key dec, json.unquoteBytes m.1 = some key → field key = some dec →
          ∀ v s, (dec m.2 v s).err = none ∧ (dec m.2 v s).saved = s) →
      (json.decodeMembers field ms v s).err = none ∧
        (json.decodeMembers field ms v s).saved = s := by
  intro ms
  induction ms with
  | nil => intro v s _; exact ⟨rfl, rfl⟩
  | cons m ms ih =>
    intro v s h
    obtain ⟨k, t⟩ := m
    obtain ⟨⟨key, hk⟩, hdec⟩ := h (k, t) (List.mem_cons_self _ _)
    rw [json.decodeMembers]
    simp only at hk
    rw [hk]
    simp only
    cases hf : field key with
    | none =>
      simp only
      exact ih v s (fun m hm => h m (List.mem_cons_of_mem _ hm))
    | some dec =>
      simp only
      obtain ⟨he, hs⟩ := hdec key dec hk hf v s
      rw [he]
      simp only
      rw [hs]
      exact ih _ _ (fun m hm => h m (List.mem_cons_of_mem _ hm))

/-- When the decoding of no member returns an error, a property of the target that the
decoding of some member establishes and the decoding of every member keeps holds after
the loop. -/
theorem decodeMembers_establishes {α : Type}
    (field : GoString → Option (JSON → α → Option GoError → json.Out α)) (P : α → Prop) :
    ∀ (ms : List (List Byte × JSON)) (v : α) (s : Option GoError),
      (∀ m ∈ ms, (∃ key, json.unquoteBytes m.1 = some key) ∧
        ∀ key dec, json.unquoteBytes m.1 = some key → field key = some dec →
          ∀ v s, (dec m.2 v s).err = none ∧ (dec m.2 v s).saved = s) →
      (∀ m ∈ ms, ∀ key dec, json.unquoteBytes m.1 = some key → field key = some dec →
        ∀ v s, P v → P (dec m.2 v s).val) →
      (∃ m ∈ ms, ∃ key dec, json.unquoteBytes m.1 = some key ∧ field key = some dec ∧
        ∀ v s, P (dec m.2 v s).val) →
      P (json.decodeMembers field ms v s).val := by
  intro ms
  induction ms with
  | nil =>
    intro v s _ _ hex
    obtain ⟨m, hm, -⟩ := hex
    simp at hm
  | cons m ms ih =>
    intro v s hne hpres hex
    obtain ⟨k, t⟩ := m
    rw [json.decodeMembers]
    obtain ⟨m₀, hm₀, key₀, dec₀, hk₀, hf₀, hest⟩ := hex
    rcases List.mem_cons.1 hm₀ with hhead | htail
    · subst hhead
      simp only at hk₀
      rw [hk₀]
      simp only
      rw [hf₀]
      simp only
      rw [((hne _ (List.mem_cons_self _ _)).2 key₀ dec₀ hk₀ hf₀ v s).1]
      simp only
      exact decodeMembers_invariant field P ms _ _
        (fun m hm => hpres m (List.mem_cons_of_mem _ hm)) (hest v s)
    · have hex' : ∃ m ∈ ms, ∃ key dec, json.unquoteBytes m.1 = some key ∧
          field key = some dec ∧ ∀ v s, P (dec m.2 v s).val :=
        ⟨m₀, htail, key₀, dec₀, hk₀, hf₀, hest⟩
      cases hk : json.unquoteBytes k with
      | none =>
        obtain ⟨key, hkey⟩ := (hne (k, t) (List.mem_cons_self _ _)).1
        simp only at hkey
        rw [hk] at hkey
        exact absurd hkey (by simp)
      | some key =>
        simp only
        cases hf : field key with
        | none =>
          simp only
          exact ih v s (fun m hm => hne m (List.mem_cons_of_mem _ hm))
            (fun m hm => hpres m (List.mem_cons_of_mem _ hm)) hex'
        | some dec =>
          simp only
          rw [((hne _ (List.mem_cons_self _ _)).2 key dec hk hf v s).1]
          simp only
          exact ih _ _ (fun m hm => hne m (List.mem_cons_of_mem _ hm))
            (fun m hm => hpres m (List.mem_cons_of_mem _ hm)) hex'

/-! ## Decoding a response: the usage -/

theorem unquoteBytes_of_token {tok : List Byte} {s : GoString}
    (h : rfc8259.StringToken tok s) : json.unquoteBytes tok = some s := by
  cases h with
  | mk body s hb => exact unquoteBytes_token hb

theorem exists_of_omits_false {fields : List GoString} {i : Nat}
    {ms : List (List Byte × JSON)} (h : json.omits fields i ms = false) :
    ∃ m ∈ ms, ∃ key, json.unquoteBytes m.1 = some key ∧
      json.fieldIndex fields key = some i := by
  unfold json.omits at h
  have h' : ¬ (ms.all (fun m => !json.names fields i m.1) = true) := by simp [h]
  rw [List.all_eq_true] at h'
  push_neg at h'
  obtain ⟨m, hm, hn⟩ := h'
  refine ⟨m, hm, ?_⟩
  have hn' : json.names fields i m.1 = true := by simpa using hn
  unfold json.names at hn'
  cases hk : json.unquoteBytes m.1 with
  | none => simp [hk] at hn'
  | some key =>
    refine ⟨key, rfl, ?_⟩
    simpa [hk] using hn'

/-- What the decoding of a member of a usage object that gives the counts `p`, `c` and
`t` does: it reports no error, stores the count that the key names and keeps the other
counts. -/
theorem usage_member_decode (p c t : Int)
    (hp : -2 ^ 63 ≤ p ∧ p < 2 ^ 63) (hc : -2 ^ 63 ≤ c ∧ c < 2 ^ 63)
    (ht : -2 ^ 63 ≤ t ∧ t < 2 ^ 63) (m : List Byte × JSON) (hm : UsageMember p c t m) :
    (∃ key, json.unquoteBytes m.1 = some key) ∧
    ∀ key dec, json.unquoteBytes m.1 = some key →
      ChatCompletionResponseUsage.field key = some dec →
      ∀ v s, ((dec m.2 v s).err = none ∧ (dec m.2 v s).saved = s) ∧
        ((dec m.2 v s).val.PromptTokens = p ∨
          (json.fieldIndex usageFields key ≠ some 0 ∧
            (dec m.2 v s).val.PromptTokens = v.PromptTokens)) ∧
        ((dec m.2 v s).val.CompletionTokens = c ∨
          (json.fieldIndex usageFields key ≠ some 1 ∧
            (dec m.2 v s).val.CompletionTokens = v.CompletionTokens)) ∧
        ((dec m.2 v s).val.TotalTokens = t ∨
          (json.fieldIndex usageFields key ≠ some 2 ∧
            (dec m.2 v s).val.TotalTokens = v.TotalTokens)) := by
  obtain ⟨key₀, hk₀, h0, h1, h2⟩ := hm
  have hu := unquoteBytes_of_token hk₀
  refine ⟨⟨key₀, hu⟩, ?_⟩
  intro key dec hk hf v s
  rw [hu] at hk
  simp only [Option.some.injEq] at hk
  subst hk
  unfold ChatCompletionResponseUsage.field at hf
  split at hf
  · rename_i hi
    simp only [Option.some.injEq] at hf
    subst hf
    simp only [h0 hi, storeInt_number p hp.1 hp.2, hi]
    simp
  · rename_i hi
    simp only [Option.some.injEq] at hf
    subst hf
    simp only [h1 hi, storeInt_number c hc.1 hc.2, hi]
    simp
  · rename_i hi
    simp only [Option.some.injEq] at hf
    subst hf
    simp only [h2 hi, storeInt_number t ht.1 ht.2, hi]
    simp
  · simp at hf

theorem usage_field_some (key : GoString) (j : Nat) (hj : j < 3)
    (h : json.fieldIndex usageFields key = some j) :
    ∃ dec, ChatCompletionResponseUsage.field key = some dec := by
  unfold ChatCompletionResponseUsage.field
  rw [h]
  match j, hj with
  | 0, _ => exact ⟨_, rfl⟩
  | 1, _ => exact ⟨_, rfl⟩
  | 2, _ => exact ⟨_, rfl⟩

/-- Decoding a usage object that gives the counts `p`, `c` and `t`, each in the range of
`int64`, reports no error and stores the three counts, whatever the target held. -/
theorem usage_object_decode (p c t : Int)
    (hp : -2 ^ 63 ≤ p ∧ p < 2 ^ 63) (hc : -2 ^ 63 ≤ c ∧ c < 2 ^ 63)
    (ht : -2 ^ 63 ≤ t ∧ t < 2 ^ 63) (u : JSON) (hu : UsageObject p c t u)
    (v : ChatCompletionResponseUsage) (s : Option GoError) :
    (ChatCompletionResponseUsage.decode u v s).err = none ∧
    (ChatCompletionResponseUsage.decode u v s).saved = s ∧
    (ChatCompletionResponseUsage.decode u v s).val = ⟨p, c, t⟩ := by
  obtain ⟨counts, rfl, hall, o0, o1, o2⟩ := hu
  have hdec := fun m hm => usage_member_decode p c t hp hc ht m (hall m hm)
  have hok : ∀ m ∈ counts, (∃ key, json.unquoteBytes m.1 = some key) ∧
      ∀ key dec, json.unquoteBytes m.1 = some key →
        ChatCompletionResponseUsage.field key = some dec →
        ∀ v s, (dec m.2 v s).err = none ∧ (dec m.2 v s).saved = s :=
    fun m hm => ⟨(hdec m hm).1, fun key dec hk hf v s => ((hdec m hm).2 key dec hk hf v s).1⟩
  have hne := decodeMembers_no_error ChatCompletionResponseUsage.field counts v s hok
  have e0 : (json.decodeMembers ChatCompletionResponseUsage.field counts v s).val.PromptTokens
      = p := by
    apply decodeMembers_establishes ChatCompletionResponseUsage.field
      (fun u => u.PromptTokens = p) counts v s hok
    · intro m hm key dec hk hf v s hv
      rcases ((hdec m hm).2 key dec hk hf v s).2.1 with h | h
      · exact h
      · exact h.2.trans hv
    · obtain ⟨m, hm, key, hk, hi⟩ := exists_of_omits_false o0
      obtain ⟨dec, hf⟩ := usage_field_some key 0 (by decide) hi
      refine ⟨m, hm, key, dec, hk, hf, fun v s => ?_⟩
      rcases ((hdec m hm).2 key dec hk hf v s).2.1 with h | h
      · exact h
      · exact absurd hi h.1
  have e1 : (json.decodeMembers ChatCompletionResponseUsage.field counts v
      s).val.CompletionTokens = c := by
    apply decodeMembers_establishes ChatCompletionResponseUsage.field
      (fun u => u.CompletionTokens = c) counts v s hok
    · intro m hm key dec hk hf v s hv
      rcases ((hdec m hm).2 key dec hk hf v s).2.2.1 with h | h
      · exact h
      · exact h.2.trans hv
    · obtain ⟨m, hm, key, hk, hi⟩ := exists_of_omits_false o1
      obtain ⟨dec, hf⟩ := usage_field_some key 1 (by decide) hi
      refine ⟨m, hm, key, dec, hk, hf, fun v s => ?_⟩
      rcases ((hdec m hm).2 key dec hk hf v s).2.2.1 with h | h
      · exact h
      · exact absurd hi h.1
  have e2 : (json.decodeMembers ChatCompletionResponseUsage.field counts v s).val.TotalTokens
      = t := by
    apply decodeMembers_establishes ChatCompletionResponseUsage.field
      (fun u => u.TotalTokens = t) counts v s hok
    · intro m hm key dec hk hf v s hv
      rcases ((hdec m hm).2 key dec hk hf v s).2.2.2 with h | h
      · exact h
      · exact h.2.trans hv
    · obtain ⟨m, hm, key, hk, hi⟩ := exists_of_omits_false o2
      obtain ⟨dec, hf⟩ := usage_field_some key 2 (by decide) hi
      refine ⟨m, hm, key, dec, hk, hf, fun v s => ?_⟩
      rcases ((hdec m hm).2 key dec hk hf v s).2.2.2 with h | h
      · exact h
      · exact absurd hi h.1
  refine ⟨hne.1, hne.2, ?_⟩
  show (json.decodeMembers ChatCompletionResponseUsage.field counts v s).val = ⟨p, c, t⟩
  cases hval : (json.decodeMembers ChatCompletionResponseUsage.field counts v s).val with
  | mk a b d =>
    rw [hval] at e0 e1 e2
    simp only at e0 e1 e2
    rw [e0, e1, e2]

theorem response_usage_key {Msg : Type} (codec : MessageCodec Msg) :
    ChatCompletionResponse.field codec (str "usage") =
      some (fun t v saved =>
        ⟨{ v with Usage := (ChatCompletionResponseUsage.decode t v.Usage saved).val },
         (ChatCompletionResponseUsage.decode t v.Usage saved).saved,
         (ChatCompletionResponseUsage.decode t v.Usage saved).err⟩) := by
  have h : json.fieldIndex responseFields (str "usage") = some 2 := by decide
  unfold ChatCompletionResponse.field
  rw [h]

/-- C12, as amended: for all integers `p`, `c` and `t` of the range of a 64-bit `int`,
whether or not `t` is `p + c`, decoding a usage object that gives the counts `p`, `c` and
`t` reports no error and stores the three counts as they are, whatever the usage held and
wherever in a response the object stands; and decoding a response object whose one member
is such a `usage` succeeds, with the other fields of the target as they were. -/
theorem usage_counts_stored_unchanged {Msg : Type} (codec : MessageCodec Msg)
    (data k : List Byte) (u : JSON) (p c t : Int)
    (hp : -2 ^ 63 ≤ p ∧ p < 2 ^ 63) (hc : -2 ^ 63 ≤ c ∧ c < 2 ^ 63)
    (ht : -2 ^ 63 ≤ t ∧ t < 2 ^ 63)
    (hscan : json.scan data = some (JSON.object [(k, u)]))
    (hk : rfc8259.StringToken k (str "usage")) (hu : UsageObject p c t u)
    (resp : ChatCompletionResponse Msg) :
    (∀ v s, ChatCompletionResponseUsage.decode u v s = ⟨⟨p, c, t⟩, s, none⟩) ∧
    ChatCompletionResponse.Unmarshal codec data resp =
      ({ resp with Usage := ⟨p, c, t⟩ }, none) := by
  refine ⟨fun v s => ?_, ?_⟩
  · obtain ⟨he, hs, hv⟩ := usage_object_decode p c t hp hc ht u hu v s
    cases hd : ChatCompletionResponseUsage.decode u v s with
    | mk a b d =>
      rw [hd] at he hs hv
      simp only at he hs hv
      rw [he, hs, hv]
  obtain ⟨he, hs, hv⟩ := usage_object_decode p c t hp hc ht u hu resp.Usage none
  unfold ChatCompletionResponse.Unmarshal json.Unmarshal
  rw [hscan]
  simp only
  have hd : ChatCompletionResponse.decode codec (JSON.object [(k, u)]) resp none =
      ⟨{ resp with Usage := ⟨p, c, t⟩ }, none, none⟩ := by
    unfold ChatCompletionResponse.decode json.storeStruct
    simp only
    rw [json.decodeMembers, unquoteBytes_of_token hk]
    simp only
    rw [response_usage_key]
    simp only
    rw [he, hs, hv]
    simp only
    rw [json.decodeMembers]
  rw [hd]

/-- A string token without escapes: plain ASCII between the quotes. -/
theorem StringToken_plain (s : GoString)
    (hs : ∀ b ∈ s, 0x20 ≤ b.val ∧ b.val < 0x80 ∧ b.val ≠ 0x22 ∧ b.val ≠ 0x5C) :
    rfc8259.StringToken (0x22 :: (s ++ [0x22])) s :=
  .mk _ _ (StringBody_of_plain s hs)

set_option maxRecDepth 1000000 in
theorem usage_counts_stored_unchanged_witness :
    json.scan exampleUsageMismatch =
      some (JSON.object [(str "\"usage\"",
        JSON.object [(str "\"prompt_tokens\"", JSON.literal (rfc8259.number 10)),
          (str "\"completion_tokens\"", JSON.literal (rfc8259.number 5)),
          (str "\"total_tokens\"", JSON.literal (rfc8259.number 99))])]) ∧
    (99 : Int) ≠ 10 + 5 ∧
    ChatCompletionResponse.Unmarshal MessageCodec.unit exampleUsageMismatch
        (ChatCompletionResponse.zero Unit) =
      (⟨[], ⟨[], 0, true⟩, ⟨10, 5, 99⟩, 0, [], []⟩, none) :=
  ⟨rfl, by decide,
   (usage_counts_stored_unchanged MessageCodec.unit exampleUsageMismatch (str "\"usage\"")
     (JSON.object [(str "\"prompt_tokens\"", JSON.literal (rfc8259.number 10)),
       (str "\"completion_tokens\"", JSON.literal (rfc8259.number 5)),
       (str "\"total_tokens\"", JSON.literal (rfc8259.number 99))]) 10 5 99
     (by decide) (by decide) (by decide) rfl
     (StringToken_plain (str "usage") (by decide))
     ⟨_, rfl,
      List.forall_mem_cons.2 ⟨⟨str "prompt_tokens",
        StringToken_plain (str "prompt_tokens") (by decide),
        fun _ => rfl, fun h => absurd h (by decide), fun h => absurd h (by decide)⟩,
       List.forall_mem_cons.2 ⟨⟨str "completion_tokens",
        StringToken_plain (str "completion_tokens") (by decide),
        fun h => absurd h (by decide), fun _ => rfl, fun h => absurd h (by decide)⟩,
       List.forall_mem_cons.2 ⟨⟨str "total_tokens",
        StringToken_plain (str "total_tokens") (by decide),
        fun h => absurd h (by decide), fun h => absurd h (by decide), fun _ => rfl⟩,
       fun _ h => absurd h (List.not_mem_nil _)⟩⟩⟩,
      by decide, by decide, by decide⟩
     (ChatCompletionResponse.zero Unit)).2⟩

set_option maxRecDepth 1000000 in
/-- C12, the claim as stated fails: `p = 9223372036854775808`, which is 2^63, `c = 5` and
`t = 15` are integers; decoding the response whose usage object gives them returns a type
error, and the first count is 0 afterwards. -/
theorem count_beyond_int64_is_rejected :
    json.scan exampleHugeCount =
      some (JSON.object [(str "\"usage\"",
        JSON.object [(str "\"prompt_tokens\"", JSON.literal (rfc8259.number 9223372036854775808)),
          (str "\"completion_tokens\"", JSON.literal (rfc8259.number 5)),
          (str "\"total_tokens\"", JSON.literal (rfc8259.number 15))])]) ∧
    ChatCompletionResponse.Unmarshal MessageCodec.unit exampleHugeCount
        (ChatCompletionResponse.zero Unit) =
      (⟨[], ⟨[], 0, true⟩, ⟨0, 5, 15⟩, 0, [], []⟩, some GoError.UnmarshalTypeError) :=
  ⟨rfl, by decide⟩

/-! ## Decoding a response: the sign and the range of the counts -/

/-- What `strconv.ParseInt` returns is in the range of `int64`, and it is negative only for
a text that starts with a minus sign. -/
theorem ParseInt_bounds {item : List Byte} {n : Int} (h : strconv.ParseInt item = some n) :
    (-2 ^ 63 ≤ n ∧ n < 2 ^ 63) ∧ (item.head? ≠ some 0x2D → 0 ≤ n) := by
  unfold strconv.ParseInt at h
  cases item with
  | nil => simp at h
  | cons c rest =>
    simp only at h
    generalize (if c.val = 0x2B ∨ c.val = 0x2D then rest else c :: rest) = ds at h
    generalize List.foldl (fun acc (d : Byte) => acc * 10 + (d.val - 0x30)) 0 ds = N at h
    by_cases h1 : ds = []
    · rw [if_pos h1] at h
      simp at h
    · rw [if_neg h1] at h
      by_cases h2 : ds.all (fun d => decide (0x30 ≤ d.val) && decide (d.val ≤ 0x39)) = true
      · rw [if_pos h2] at h
        by_cases h3 : c.val = 0x2D
        · rw [if_pos h3] at h
          by_cases h4 : N ≤ 2 ^ 63
          · rw [if_pos h4] at h
            simp only [Option.some.injEq] at h
            refine ⟨by omega, fun hne => ?_⟩
            exfalso
            apply hne
            simp only [List.head?_cons, Option.some.injEq]
            exact Fin.ext h3
          · rw [if_neg h4] at h
            simp at h
        · rw [if_neg h3] at h
          by_cases h4 : N < 2 ^ 63
          · rw [if_pos h4] at h
            simp only [Option.some.injEq] at h
            exact ⟨by omega, fun _ => by omega⟩
          · rw [if_neg h4] at h
            simp at h
      · rw [if_neg h2] at h
        simp at h

theorem storeInt_val (t : JSON) (v : Int) (s : Option GoError) :
    (json.storeInt t v s).val = v ∨
      ∃ item n, t = JSON.literal item ∧ strconv.ParseInt item = some n ∧
        (json.storeInt t v s).val = n := by
  unfold json.storeInt
  cases t with
  | array es => left; rfl
  | object ms => left; rfl
  | literal item =>
    simp only
    cases json.literalKind item with
    | null => left; rfl
    | bool => left; rfl
    | string =>
      simp only
      cases json.unquoteBytes item <;> (left; rfl)
    | number =>
      simp only
      cases hp : strconv.ParseInt item with
      | none => left; rfl
      | some n => right; exact ⟨item, n, rfl, hp, rfl⟩
    | invalid => left; rfl

theorem storeInt_range (t : JSON) (v : Int) (s : Option GoError)
    (hv : -2 ^ 63 ≤ v ∧ v < 2 ^ 63) :
    -2 ^ 63 ≤ (json.storeInt t v s).val ∧ (json.storeInt t v s).val < 2 ^ 63 := by
  rcases storeInt_val t v s with h | ⟨item, n, -, hp, h⟩
  · rw [h]; exact hv
  · rw [h]; exact (ParseInt_bounds hp).1

theorem storeInt_nonneg (t : JSON) (v : Int) (s : Option GoError) (ht : t.isNegative = false)
    (hv : 0 ≤ v) : 0 ≤ (json.storeInt t v s).val := by
  rcases storeInt_val t v s with h | ⟨item, n, rfl, hp, h⟩
  · rw [h]; exact hv
  · rw [h]
    apply (ParseInt_bounds hp).2
    simpa [JSON.isNegative] using ht

/-- The decoding of a field of the usage stores into the count that the key names and
keeps the other counts. -/
theorem usage_field_count (key : GoString)
    (dec : JSON → ChatCompletionResponseUsage → Option GoError →
      json.Out ChatCompletionResponseUsage)
    (hf : ChatCompletionResponseUsage.field key = some dec) (j : Nat) (t : JSON)
    (v : ChatCompletionResponseUsage) (s : Option GoError) :
    (dec t v s).val.count j =
      if json.fieldIndex usageFields key = some j then (json.storeInt t (v.count j) s).val
      else v.count j := by
  unfold ChatCompletionResponseUsage.field at hf
  split at hf
  · rename_i hi
    simp only [Option.some.injEq] at hf
    subst hf
    rw [hi]
    match j with
    | 0 => rfl
    | 1 => rfl
    | 2 => rfl
    | _ + 3 => rfl
  · rename_i hi
    simp only [Option.some.injEq] at hf
    subst hf
    rw [hi]
    match j with
    | 0 => rfl
    | 1 => rfl
    | 2 => rfl
    | _ + 3 => rfl
  · rename_i hi
    simp only [Option.some.injEq] at hf
    subst hf
    rw [hi]
    match j with
    | 0 => rfl
    | 1 => rfl
    | 2 => rfl
    | _ + 3 => rfl
  · simp at hf

theorem names_of_fieldIndex {fields : List GoString} {i : Nat} {k : List Byte} {key : GoString}
    (hk : json.unquoteBytes k = some key) (hi : json.fieldIndex fields key = some i) :
    json.names fields i k = true := by
  unfold json.names
  rw [hk]
  simp [hi]

/-- Decoding a usage value keeps a property of a count that every number stored into the
count keeps. -/
theorem usage_decode_count_invariant (P : Int → Prop) (j : Nat) (t : JSON)
    (hstore : ∀ counts, t = JSON.object counts → ∀ m ∈ counts,
      json.names usageFields j m.1 = true → ∀ v s, P v → P (json.storeInt m.2 v s).val)
    (v : ChatCompletionResponseUsage) (s : Option GoError) (hv : P (v.count j)) :
    P ((ChatCompletionResponseUsage.decode t v s).val.count j) := by
  unfold ChatCompletionResponseUsage.decode
  cases t with
  | literal item => rw [storeStruct_literal_val]; exact hv
  | array es => exact hv
  | object counts =>
    unfold json.storeStruct
    refine decodeMembers_invariant ChatCompletionResponseUsage.field (fun u => P (u.count j))
      counts v s ?_ hv
    intro m hm key dec hk hf v' s' hv'
    show P ((dec m.2 v' s').val.count j)
    rw [usage_field_count key dec hf]
    by_cases hi : json.fieldIndex usageFields key = some j
    · rw [if_pos hi]
      exact hstore counts rfl m hm (names_of_fieldIndex hk hi) _ _ hv'
    · rw [if_neg hi]
      exact hv'

/-- Decoding a response object keeps a property of a count of the usage that every number
stored into the count keeps. -/
theorem response_count_invariant {Msg : Type} (codec : MessageCodec Msg) (P : Int → Prop)
    (j : Nat) (members : List (List Byte × JSON))
    (hstore : ∀ m ∈ members, json.names responseFields 2 m.1 = true →
      ∀ counts, m.2 = JSON.object counts → ∀ m' ∈ counts,
        json.names usageFields j m'.1 = true → ∀ v s, P v → P (json.storeInt m'.2 v s).val)
    (v : ChatCompletionResponse Msg) (s : Option GoError) (hv : P (v.Usage.count j)) :
    P ((json.decodeMembers (ChatCompletionResponse.field codec) members v s).val.Usage.count
      j) := by
  refine decodeMembers_invariant (ChatCompletionResponse.field codec)
    (fun r => P (r.Usage.count j)) members v s ?_ hv
  intro m hm key dec hk hf v' s' hv'
  show P ((dec m.2 v' s').val.Usage.count j)
  by_cases hi : json.fieldIndex responseFields key = some 2
  · rw [response_field_usage_eq codec key dec hf hi]
    exact usage_decode_count_invariant P j m.2
      (hstore m hm (names_of_fieldIndex hk hi)) _ _ hv'
  · rw [response_field_Usage codec key dec hf hi]
    exact hv'

/-- The usage after `Unmarshal` into a response: the one before, or the one that decoding
the members of the object that the input is gives. -/
theorem Unmarshal_usage_invariant {Msg : Type} (codec : MessageCodec Msg) (P : Int → Prop)
    (j : Nat) (data : List Byte)
    (hstore : ∀ members, json.scan data = some (JSON.object members) →
      ∀ m ∈ members, json.names responseFields 2 m.1 = true →
      ∀ counts, m.2 = JSON.object counts → ∀ m' ∈ counts,
        json.names usageFields j m'.1 = true → ∀ v s, P v → P (json.storeInt m'.2 v s).val)
    (v : ChatCompletionResponse Msg) (hv : P (v.Usage.count j)) :
    P ((ChatCompletionResponse.Unmarshal codec data v).1.Usage.count j) := by
  cases hs : json.scan data with
  | none =>
    unfold ChatCompletionResponse.Unmarshal json.Unmarshal
    rw [hs]
    exact hv
  | some t =>
    unfold ChatCompletionResponse.Unmarshal
    rw [Unmarshal_fst_of_scan _ data v t hs]
    unfold ChatCompletionResponse.decode
    cases t with
    | literal item => rw [storeStruct_literal_val]; exact hv
    | array es => exact hv
    | object members =>
      unfold json.storeStruct
      exact response_count_invariant codec P j members (hstore members hs) v none hv

theorem hasMember_false {fields : List GoString} {i : Nat} {p : JSON → Bool}
    {ms : List (List Byte × JSON)} (h : json.hasMember fields i p ms = false)
    {m : List Byte × JSON} (hm : m ∈ ms) (hn : json.names fields i m.1 = true) :
    p m.2 = false := by
  unfold json.hasMember at h
  rw [List.any_eq_false] at h
  have := h m hm
  simpa [hn] using this

theorem zero_usage_count (Msg : Type) (j : Nat) :
    (ChatCompletionResponse.zero Msg).Usage.count j = 0 := by
  match j with
  | 0 => rfl
  | 1 => rfl
  | 2 => rfl
  | _ + 3 => rfl

/-- C16, as amended: the counts of the usage are integers of the range of a 64-bit `int`,
not all of them non-negative.  For every input, whether or not decoding it into a
zero-valued `ChatCompletionResponse` succeeds, each of the three counts is at least -2^63
and less than 2^63 afterwards, and it is at least 0 unless the input is a response object
with a `usage` object that gives that count as a number written with a minus sign. -/
theorem usage_counts_are_signed {Msg : Type} (codec : MessageCodec Msg) (data : List Byte) :
    ((-2 ^ 63 ≤ (ChatCompletionResponse.Unmarshal codec data
        (ChatCompletionResponse.zero Msg)).1.Usage.PromptTokens ∧
      (ChatCompletionResponse.Unmarshal codec data
        (ChatCompletionResponse.zero Msg)).1.Usage.PromptTokens < 2 ^ 63) ∧
     (-2 ^ 63 ≤ (ChatCompletionResponse.Unmarshal codec data
        (ChatCompletionResponse.zero Msg)).1.Usage.CompletionTokens ∧
      (ChatCompletionResponse.Unmarshal codec data
        (ChatCompletionResponse.zero Msg)).1.Usage.CompletionTokens < 2 ^ 63) ∧
     (-2 ^ 63 ≤ (ChatCompletionResponse.Unmarshal codec data
        (ChatCompletionResponse.zero Msg)).1.Usage.TotalTokens ∧
      (ChatCompletionResponse.Unmarshal codec data
        (ChatCompletionResponse.zero Msg)).1.Usage.TotalTokens < 2 ^ 63)) ∧
    ∀ t, json.scan data = some t →
      (t.givesNegativeCount 0 = false →
        0 ≤ (ChatCompletionResponse.Unmarshal codec data
          (ChatCompletionResponse.zero Msg)).1.Usage.PromptTokens) ∧
      (t.givesNegativeCount 1 = false →
        0 ≤ (ChatCompletionResponse.Unmarshal codec data
          (ChatCompletionResponse.zero Msg)).1.Usage.CompletionTokens) ∧
      (t.givesNegativeCount 2 = false →
        0 ≤ (ChatCompletionResponse.Unmarshal codec data
          (ChatCompletionResponse.zero Msg)).1.Usage.TotalTokens) := by
  have hr : ∀ j, -2 ^ 63 ≤ (ChatCompletionResponse.Unmarshal codec data
        (ChatCompletionResponse.zero Msg)).1.Usage.count j ∧
      (ChatCompletionResponse.Unmarshal codec data
        (ChatCompletionResponse.zero Msg)).1.Usage.count j < 2 ^ 63 := by
    intro j
    refine Unmarshal_usage_invariant codec (fun n => -2 ^ 63 ≤ n ∧ n < 2 ^ 63) j data ?_ _ ?_
    · intro _ _ m _ _ _ _ m' _ _ v s hv
      exact storeInt_range m'.2 v s hv
    · simp only [zero_usage_count]
      decide
  have hn : ∀ j t, json.scan data = some t → t.givesNegativeCount j = false →
      0 ≤ (ChatCompletionResponse.Unmarshal codec data
        (ChatCompletionResponse.zero Msg)).1.Usage.count j := by
    intro j t hs hg
    refine Unmarshal_usage_invariant codec (fun n => 0 ≤ n) j data ?_ _ ?_
    · intro members hs' m hm hnames counts hc m' hm' hnames' v s hv
      rw [hs] at hs'
      simp only [Option.some.injEq] at hs'
      subst hs'
      rw [JSON.givesNegativeCount] at hg
      have h1 := hasMember_false hg hm hnames
      rw [hc] at h1
      exact storeInt_nonneg m'.2 v s (hasMember_false h1 hm' hnames') hv
    · simp only [zero_usage_count]
      decide
  exact ⟨⟨hr 0, hr 1, hr 2⟩, fun t hs => ⟨hn 0 t hs, hn 1 t hs, hn 2 t hs⟩⟩

set_option maxRecDepth 1000000 in
theorem usage_counts_are_signed_witness :
    json.scan exampleNegativeCount =
      some (JSON.object [(str "\"usage\"",
        JSON.object [(str "\"prompt_tokens\"", JSON.literal (str "-1")),
          (str "\"completion_tokens\"", JSON.literal (str "5")),
          (str "\"total_tokens\"", JSON.literal (str "4"))])]) ∧
    (JSON.object [(str "\"usage\"",
        JSON.object [(str "\"prompt_tokens\"", JSON.literal (str "-1")),
          (str "\"completion_tokens\"", JSON.literal (str "5")),
          (str "\"total_tokens\"", JSON.literal (str "4"))])]).givesNegativeCount 0 = true ∧
    (JSON.object [(str "\"usage\"",
        JSON.object [(str "\"prompt_tokens\"", JSON.literal (str "-1")),
          (str "\"completion_tokens\"", JSON.literal (str "5")),
          (str "\"total_tokens\"", JSON.literal (str "4"))])]).givesNegativeCount 2 = false ∧
    0 ≤ (ChatCompletionResponse.Unmarshal MessageCodec.unit exampleNegativeCount
      (ChatCompletionResponse.zero Unit)).1.Usage.TotalTokens :=
  ⟨rfl, by decide, by decide,
   ((usage_counts_are_signed MessageCodec.unit exampleNegativeCount).2 _ rfl).2.2 (by decide)⟩

set_option maxRecDepth 1000000 in
/-- C16, the claim as stated fails: the input
`{"usage":{"prompt_tokens":-1,"completion_tokens":5,"total_tokens":4}}` decodes
successfully, and `Usage.PromptTokens` is -1 afterwards. -/
theorem negative_count_decodes :
    ChatCompletionResponse.Unmarshal MessageCodec.unit exampleNegativeCount
        (ChatCompletionResponse.zero Unit) =
      (⟨[], ⟨[], 0, true⟩, ⟨-1, 5, 4⟩, 0, [], []⟩, none) ∧
    ¬ (0 ≤ (ChatCompletionResponse.Unmarshal MessageCodec.unit exampleNegativeCount
        (ChatCompletionResponse.zero Unit)).1.Usage.PromptTokens) := by
  decide

/-! ## Decoding a response: the choices -/

theorem finishReason_decode_token {tok : List Byte} {r : GoString}
    (h : rfc8259.StringToken tok r) (v : chatCompletionFinishReason) (s : Option GoError) :
    chatCompletionFinishReason.decode (JSON.literal tok) v s = ⟨⟨r⟩, s, none⟩ := by
  unfold chatCompletionFinishReason.decode
  rw [JSON.raw, UnmarshalJSON_token h]

theorem codec_store_accepted {Msg : Type} (codec : MessageCodec Msg) (t : JSON)
    (h : ∀ v, (codec.decode t v).2 = (none, none)) (v : Msg) (s : Option GoError) :
    (codec.store t v s).err = none ∧ (codec.store t v s).saved = s := by
  unfold MessageCodec.store
  rw [h v]
  cases s <;> exact ⟨rfl, rfl⟩

/-- What the decoding of a member of a choice object with the finish reason `r` does: it
reports no error, and it stores `r` or keeps the finish reason. -/
theorem choice_member_decode {Msg : Type} (codec : MessageCodec Msg) (r : GoString)
    (m : List Byte × JSON) (hm : ChoiceMember codec r m) :
    (∃ key, json.unquoteBytes m.1 = some key) ∧
    ∀ key dec, json.unquoteBytes m.1 = some key →
      ChatCompletionResponseChoice.field codec key = some dec →
      ∀ v s, ((dec m.2 v s).err = none ∧ (dec m.2 v s).saved = s) ∧
        ((dec m.2 v s).val.FinishReason = ⟨r⟩ ∨
          (json.fieldIndex choiceFields key ≠ some 0 ∧
            (dec m.2 v s).val.FinishReason = v.FinishReason)) := by
  obtain ⟨key₀, hk₀, h0, h1⟩ := hm
  have hu := unquoteBytes_of_token hk₀
  refine ⟨⟨key₀, hu⟩, ?_⟩
  intro key dec hk hf v s
  rw [hu] at hk
  simp only [Option.some.injEq] at hk
  subst hk
  unfold ChatCompletionResponseChoice.field at hf
  split at hf
  · rename_i hi
    simp only [Option.some.injEq] at hf
    subst hf
    obtain ⟨tok, ht, htok⟩ := h0 hi
    simp only [ht, finishReason_decode_token htok]
    simp
  · rename_i hi
    simp only [Option.some.injEq] at hf
    subst hf
    obtain ⟨e1, e2⟩ := codec_store_accepted codec m.2 (h1 hi) v.Message s
    simp only [e1, e2, hi]
    simp
  · simp at hf

theorem choice_field_some {Msg : Type} (codec : MessageCodec Msg) (key : GoString)
    (h : json.fieldIndex choiceFields key = some 0) :
    ∃ dec, ChatCompletionResponseChoice.field codec key = some dec := by
  unfold ChatCompletionResponseChoice.field
  rw [h]
  exact ⟨_, rfl⟩

/-- Decoding a choice object with the finish reason `r` reports no error and stores `r`,
whatever the target held. -/
theorem choice_object_decode {Msg : Type} (codec : MessageCodec Msg) (e : JSON)
    (r : GoString) (he : ChoiceObject codec e r) (v : ChatCompletionResponseChoice Msg)
    (s : Option GoError) :
    (ChatCompletionResponseChoice.decode codec e v s).err = none ∧
    (ChatCompletionResponseChoice.decode codec e v s).saved = s ∧
    (ChatCompletionResponseChoice.decode codec e v s).val.FinishReason = ⟨r⟩ := by
  obtain ⟨fields, rfl, hall, o0⟩ := he
  have hdec := fun m hm => choice_member_decode codec r m (hall m hm)
  have hok : ∀ m ∈ fields, (∃ key, json.unquoteBytes m.1 = some key) ∧
      ∀ key dec, json.unquoteBytes m.1 = some key →
        ChatCompletionResponseChoice.field codec key = some dec →
        ∀ v s, (dec m.2 v s).err = none ∧ (dec m.2 v s).saved = s :=
    fun m hm => ⟨(hdec m hm).1, fun key dec hk hf v s => ((hdec m hm).2 key dec hk hf v s).1⟩
  have hne := decodeMembers_no_error (ChatCompletionResponseChoice.field codec) fields v s hok
  refine ⟨hne.1, hne.2, ?_⟩
  apply decodeMembers_establishes (ChatCompletionResponseChoice.field codec)
    (fun c => c.FinishReason = ⟨r⟩) fields v s hok
  · intro m hm key dec hk hf v s hv
    rcases ((hdec m hm).2 key dec hk hf v s).2 with h | h
    · exact h
    · exact h.2.trans hv
  · obtain ⟨m, hm, key, hk, hi⟩ := exists_of_omits_false o0
    obtain ⟨dec, hf⟩ := choice_field_some codec key hi
    refine ⟨m, hm, key, dec, hk, hf, fun v s => ?_⟩
    rcases ((hdec m hm).2 key dec hk hf v s).2 with h | h
    · exact h
    · exact absurd hi h.1

theorem take_set_self {α : Type} (l : List α) (i : Nat) (a : α) :
    (l.set i a).take i = l.take i := by
  apply List.ext_getElem?
  intro j
  rw [List.getElem?_take, List.getElem?_take]
  split
  · rw [List.getElem?_set_ne (by omega)]
  · rfl

/-- The loop over the elements of an array, when the decoding of each element reports no
error: as many elements as the array has are stored, from the index `i` on and in the order
of the array, and the elements before `i` are kept. -/
theorem decodeElems_spec {α β : Type} (dec : JSON → α → Option GoError → json.Out α)
    (zero : α) (f : α → β) :
    ∀ (es : List JSON) (rs : List β),
      List.Forall₂ (fun e r => ∀ v s, (dec e v s).err = none ∧ (dec e v s).saved = s ∧
        f (dec e v s).val = r) es rs →
      ∀ (i : Nat) (v : json.Slice α) (s : Option GoError), i ≤ v.array.length →
        (json.decodeElems dec zero es i v s).err = none ∧
        (json.decodeElems dec zero es i v s).saved = s ∧
        (json.decodeElems dec zero es i v s).val.toList.length = i + es.length ∧
        ((json.decodeElems dec zero es i v s).val.toList.drop i).map f = rs ∧
        (json.decodeElems dec zero es i v s).val.toList.take i = v.array.take i := by
  intro es rs h
  induction h with
  | nil =>
    intro i v s hi
    rw [json.decodeElems]
    by_cases h0 : i = 0
    · subst h0
      rw [if_pos rfl]
      exact ⟨rfl, rfl, rfl, rfl, by simp [json.Slice.toList]⟩
    · rw [if_neg h0]
      refine ⟨rfl, rfl, ?_, ?_, ?_⟩
      · simp only [json.Slice.toList, List.length_take, List.length_nil]
        omega
      · simp only [json.Slice.toList]
        rw [List.drop_eq_nil_of_le (by simp only [List.length_take]; omega)]
        rfl
      · simp only [json.Slice.toList, List.take_take, Nat.min_self]
  | @cons e r es rs hd _ ih =>
    intro i v s hi
    rw [json.decodeElems]
    generalize hg : (if i ≥ v.array.length then v.array ++ [zero] else v.array) = grown
    have hlen : i < grown.length := by
      rw [← hg]
      by_cases hc : i ≥ v.array.length
      · rw [if_pos hc, List.length_append, List.length_singleton]
        omega
      · rw [if_neg hc]
        omega
    have htake : grown.take i = v.array.take i := by
      rw [← hg]
      by_cases hc : i ≥ v.array.length
      · rw [if_pos hc, List.take_append_of_le_length hi]
      · rw [if_neg hc]
    obtain ⟨he, hs, hf⟩ := hd (grown.getD i zero) s
    rw [he]
    simp only
    rw [hs]
    have hlen₁ : i + 1 ≤ (grown.set i (dec e (grown.getD i zero) s).val).length := by
      rw [List.length_set]
      omega
    obtain ⟨r1, r2, r3, r4, r5⟩ := ih (i + 1)
      ⟨grown.set i (dec e (grown.getD i zero) s).val, max v.len (i + 1), false⟩ s hlen₁
    simp only at r5
    generalize json.decodeElems dec zero es (i + 1)
      ⟨grown.set i (dec e (grown.getD i zero) s).val, max v.len (i + 1), false⟩ s = R
      at r1 r2 r3 r4 r5
    have hRi : i < R.val.toList.length := by omega
    have hget : R.val.toList[i]? = some (dec e (grown.getD i zero) s).val := by
      have h1 : (R.val.toList.take (i + 1))[i]? = R.val.toList[i]? :=
        List.getElem?_take_of_succ
      rw [← h1, r5, List.getElem?_take_of_succ, List.getElem?_set_self hlen]
    refine ⟨r1, r2, by rw [r3, List.length_cons]; omega, ?_, ?_⟩
    · rw [List.drop_eq_getElem_cons hRi, List.map_cons, r4]
      congr 1
      have h2 : R.val.toList[i]? = some R.val.toList[i] := List.getElem?_eq_getElem hRi
      rw [h2] at hget
      rw [Option.some.inj hget]
      exact hf
    · have h3 : R.val.toList.take i = (R.val.toList.take (i + 1)).take i := by
        rw [List.take_take, Nat.min_eq_left (by omega)]
      rw [h3, r5, List.take_take, Nat.min_eq_left (by omega), take_set_self, htake]

/-- Decoding an array of choice objects with the finish reasons `reasons` into a slice
reports no error and gives as many choices as the array has elements, with the finish
reasons in the order of the array, whatever the slice held. -/
theorem choices_array_decode {Msg : Type} (codec : MessageCodec Msg) (elems : List JSON)
    (reasons : List GoString) (h : List.Forall₂ (ChoiceObject codec) elems reasons)
    (v : json.Slice (ChatCompletionResponseChoice Msg)) (s : Option GoError) :
    (json.storeSlice (ChatCompletionResponseChoice.decode codec)
      (ChatCompletionResponseChoice.zero codec) (JSON.array elems) v s).err = none ∧
    (json.storeSlice (ChatCompletionResponseChoice.decode codec)
      (ChatCompletionResponseChoice.zero codec) (JSON.array elems) v s).saved = s ∧
    (json.storeSlice (ChatCompletionResponseChoice.decode codec)
      (ChatCompletionResponseChoice.zero codec) (JSON.array elems) v s).val.toList.map
        (fun ch => ch.FinishReason) = reasons.map chatCompletionFinishReason.mk := by
  have h' : List.Forall₂ (fun e r => ∀ v s,
      (ChatCompletionResponseChoice.decode codec e v s).err = none ∧
      (ChatCompletionResponseChoice.decode codec e v s).saved = s ∧
      (ChatCompletionResponseChoice.decode codec e v s).val.FinishReason = r) elems
      (reasons.map chatCompletionFinishReason.mk) := by
    rw [List.forall₂_map_right_iff]
    exact h.imp (fun e r he v s => choice_object_decode codec e r he v s)
  obtain ⟨r1, r2, -, r4, -⟩ := decodeElems_spec (ChatCompletionResponseChoice.decode codec)
    (ChatCompletionResponseChoice.zero codec) (fun ch => ch.FinishReason) elems _ h' 0 v s
    (Nat.zero_le _)
  exact ⟨r1, r2, by simpa using r4⟩

/-! ## Decoding a response: the envelope -/

/-- What the decoding of a member of a response object of the expected shape does: it
reports no error, and for each field of the response it stores the expected value or keeps
the field. -/
theorem response_member_decode {Msg : Type} (codec : MessageCodec Msg)
    (id object model : GoString) (created : Int) (reasons : List GoString) (p c t : Int)
    (hcr : -2 ^ 63 ≤ created ∧ created < 2 ^ 63)
    (hp : -2 ^ 63 ≤ p ∧ p < 2 ^ 63) (hc : -2 ^ 63 ≤ c ∧ c < 2 ^ 63)
    (ht : -2 ^ 63 ≤ t ∧ t < 2 ^ 63) (m : List Byte × JSON)
    (hm : ResponseMember codec id object model created reasons p c t m) :
    (∃ key, json.unquoteBytes m.1 = some key) ∧
    ∀ key dec, json.unquoteBytes m.1 = some key →
      ChatCompletionResponse.field codec key = some dec →
      ∀ v s, ((dec m.2 v s).err = none ∧ (dec m.2 v s).saved = s) ∧
        ((dec m.2 v s).val.ID = id ∨
          (json.fieldIndex responseFields key ≠ some 0 ∧ (dec m.2 v s).val.ID = v.ID)) ∧
        ((dec m.2 v s).val.Choices.toList.map (fun ch => ch.FinishReason) =
            reasons.map chatCompletionFinishReason.mk ∨
          (json.fieldIndex responseFields key ≠ some 1 ∧
            (dec m.2 v s).val.Choices = v.Choices)) ∧
        ((dec m.2 v s).val.Usage = ⟨p, c, t⟩ ∨
          (json.fieldIndex responseFields key ≠ some 2 ∧
            (dec m.2 v s).val.Usage = v.Usage)) ∧
        ((dec m.2 v s).val.Created = created ∨
          (json.fieldIndex responseFields key ≠ some 3 ∧
            (dec m.2 v s).val.Created = v.Created)) ∧
        ((dec m.2 v s).val.Model = model ∨
          (json.fieldIndex responseFields key ≠ some 4 ∧
            (dec m.2 v s).val.Model = v.Model)) ∧
        ((dec m.2 v s).val.Object = object ∨
          (json.fieldIndex responseFields key ≠ some 5 ∧
            (dec m.2 v s).val.Object = v.Object)) := by
  obtain ⟨key₀, hk₀, h0, h1, h2, h3, h4, h5⟩ := hm
  have hu := unquoteBytes_of_token hk₀
  refine ⟨⟨key₀, hu⟩, ?_⟩
  intro key dec hk hf v s
  rw [hu] at hk
  simp only [Option.some.injEq] at hk
  subst hk
  unfold ChatCompletionResponse.field at hf
  split at hf
  · rename_i hi
    simp only [Option.some.injEq] at hf
    subst hf
    obtain ⟨tok, ht, htok⟩ := h0 hi
    cases htok with
    | mk body _ hb =>
      simp only [ht, storeString_token hb, hi]
      simp
  · rename_i hi
    simp only [Option.some.injEq] at hf
    subst hf
    obtain ⟨elems, he, hel⟩ := h1 hi
    obtain ⟨e1, e2, e3⟩ := choices_array_decode codec elems reasons hel v.Choices s
    simp only [he, e1, e2, e3, hi]
    simp
  · rename_i hi
    simp only [Option.some.injEq] at hf
    subst hf
    obtain ⟨e1, e2, e3⟩ := usage_object_decode p c t hp hc ht m.2 (h2 hi) v.Usage s
    simp only [e1, e2, e3, hi]
    simp
  · rename_i hi
    simp only [Option.some.injEq] at hf
    subst hf
    simp only [h3 hi, storeInt_number created hcr.1 hcr.2, hi]
    simp
  · rename_i hi
    simp only [Option.some.injEq] at hf
    subst hf
    obtain ⟨tok, ht, htok⟩ := h4 hi
    cases htok with
    | mk body _ hb =>
      simp only [ht, storeString_token hb, hi]
      simp
  · rename_i hi
    simp only [Option.some.injEq] at hf
    subst hf
    obtain ⟨tok, ht, htok⟩ := h5 hi
    cases htok with
    | mk body _ hb =>
      simp only [ht, storeString_token hb, hi]
      simp
  · simp at hf

/-- For every input that the scanner reads as a response object in which each of the six
keys occurs and whose values are of the expected types, decoding succeeds, whatever the
target held, and the fields are the values under the keys, the choices in the order of the
array. -/
theorem envelope_decode_of_scan {Msg : Type} (codec : MessageCodec Msg) (data : List Byte)
    (members : List (List Byte × JSON)) (id object model : GoString) (created : Int)
    (reasons : List GoString) (p c t : Int)
    (hcr : -2 ^ 63 ≤ created ∧ created < 2 ^ 63)
    (hp : -2 ^ 63 ≤ p ∧ p < 2 ^ 63) (hc : -2 ^ 63 ≤ c ∧ c < 2 ^ 63)
    (ht : -2 ^ 63 ≤ t ∧ t < 2 ^ 63)
    (hscan : json.scan data = some (JSON.object members))
    (hm : ∀ m ∈ members, ResponseMember codec id object model created reasons p c t m)
    (hkeys : ∀ i, i < 6 → json.omits responseFields i members = false)
    (resp : ChatCompletionResponse Msg) :
    (ChatCompletionResponse.Unmarshal codec data resp).2 = none ∧
    (ChatCompletionResponse.Unmarshal codec data resp).1.ID = id ∧
    (ChatCompletionResponse.Unmarshal codec data resp).1.Object = object ∧
    (ChatCompletionResponse.Unmarshal codec data resp).1.Created = created ∧
    (ChatCompletionResponse.Unmarshal codec data resp).1.Model = model ∧
    (ChatCompletionResponse.Unmarshal codec data resp).1.Usage = ⟨p, c, t⟩ ∧
    (ChatCompletionResponse.Unmarshal codec data resp).1.Choices.toList.length =
      reasons.length ∧
    (ChatCompletionResponse.Unmarshal codec data resp).1.Choices.toList.map
      (fun ch => ch.FinishReason) = reasons.map chatCompletionFinishReason.mk := by
  have hdec := fun m hm' =>
    response_member_decode codec id object model created reasons p c t hcr hp hc ht m (hm m hm')
  have hok : ∀ m ∈ members, (∃ key, json.unquoteBytes m.1 = some key) ∧
      ∀ key dec, json.unquoteBytes m.1 = some key →
        ChatCompletionResponse.field codec key = some dec →
        ∀ v s, (dec m.2 v s).err = none ∧ (dec m.2 v s).saved = s :=
    fun m hm' => ⟨(hdec m hm').1,
      fun key dec hk hf v s => ((hdec m hm').2 key dec hk hf v s).1⟩
  have hne := decodeMembers_no_error (ChatCompletionResponse.field codec) members resp none hok
  have hU : ChatCompletionResponse.Unmarshal codec data resp =
      ((json.decodeMembers (ChatCompletionResponse.field codec) members resp none).val,
        none) := by
    unfold ChatCompletionResponse.Unmarshal json.Unmarshal
    rw [hscan]
    simp only
    have hd : ChatCompletionResponse.decode codec (JSON.object members) resp none =
        json.decodeMembers (ChatCompletionResponse.field codec) members resp none := rfl
    rw [hd, hne.1, hne.2]
  have hex : ∀ i, i < 6 → ∃ m ∈ members, ∃ key dec, json.unquoteBytes m.1 = some key ∧
      ChatCompletionResponse.field codec key = some dec ∧
      json.fieldIndex responseFields key = some i := by
    intro i hi
    obtain ⟨m, hm', key, hk, hidx⟩ := exists_of_omits_false (hkeys i hi)
    obtain ⟨dec, hf⟩ := response_field_of_index codec key i hidx hi
    exact ⟨m, hm', key, dec, hk, hf, hidx⟩
  have e0 : (json.decodeMembers (ChatCompletionResponse.field codec) members resp none).val.ID
      = id := by
    apply decodeMembers_establishes (ChatCompletionResponse.field codec)
      (fun r => r.ID = id) members resp none hok
    · intro m hm' key dec hk hf v s hv
      rcases ((hdec m hm').2 key dec hk hf v s).2.1 with h | h
      · exact h
      · exact h.2.trans hv
    · obtain ⟨m, hm', key, dec, hk, hf, hidx⟩ := hex 0 (by decide)
      refine ⟨m, hm', key, dec, hk, hf, fun v s => ?_⟩
      rcases ((hdec m hm').2 key dec hk hf v s).2.1 with h | h
      · exact h
      · exact absurd hidx h.1
  have e1 : (json.decodeMembers (ChatCompletionResponse.field codec) members resp
      none).val.Choices.toList.map (fun ch => ch.FinishReason) =
        reasons.map chatCompletionFinishReason.mk := by
    apply decodeMembers_establishes (ChatCompletionResponse.field codec)
      (fun r => r.Choices.toList.map (fun ch => ch.FinishReason) =
        reasons.map chatCompletionFinishReason.mk) members resp none hok
    · intro m hm' key dec hk hf v s hv
      rcases ((hdec m hm').2 key dec hk hf v s).2.2.1 with h | h
      · exact h
      · show (dec m.2 v s).val.Choices.toList.map _ = _
        rw [h.2]
        exact hv
    · obtain ⟨m, hm', key, dec, hk, hf, hidx⟩ := hex 1 (by decide)
      refine ⟨m, hm', key, dec, hk, hf, fun v s => ?_⟩
      rcases ((hdec m hm').2 key dec hk hf v s).2.2.1 with h | h
      · exact h
      · exact absurd hidx h.1
  have e2 : (json.decodeMembers (ChatCompletionResponse.field codec) members resp
      none).val.Usage = ⟨p, c, t⟩ := by
    apply decodeMembers_establishes (ChatCompletionResponse.field codec)
      (fun r => r.Usage = ⟨p, c, t⟩) members resp none hok
    · intro m hm' key dec hk hf v s hv
      rcases ((hdec m hm').2 key dec hk hf v s).2.2.2.1 with h | h
      · exact h
      · exact h.2.trans hv
    · obtain ⟨m, hm', key, dec, hk, hf, hidx⟩ := hex 2 (by decide)
      refine ⟨m, hm', key, dec, hk, hf, fun v s => ?_⟩
      rcases ((hdec m hm').2 key dec hk hf v s).2.2.2.1 with h | h
      · exact h
      · exact absurd hidx h.1
  have e3 : (json.decodeMembers (ChatCompletionResponse.field codec) members resp
      none).val.Created = created := by
    apply decodeMembers_establishes (ChatCompletionResponse.field codec)
      (fun r => r.Created = created) members resp none hok
    · intro m hm' key dec hk hf v s hv
      rcases ((hdec m hm').2 key dec hk hf v s).2.2.2.2.1 with h | h
      · exact h
      · exact h.2.trans hv
    · obtain ⟨m, hm', key, dec, hk, hf, hidx⟩ := hex 3 (by decide)
      refine ⟨m, hm', key, dec, hk, hf, fun v s => ?_⟩
      rcases ((hdec m hm').2 key dec hk hf v s).2.2.2.2.1 with h | h
      · exact h
      · exact absurd hidx h.1
  have e4 : (json.decodeMembers (ChatCompletionResponse.field codec) members resp
      none).val.Model = model := by
    apply decodeMembers_establishes (ChatCompletionResponse.field codec)
      (fun r => r.Model = model) members resp none hok
    · intro m hm' key dec hk hf v s hv
      rcases ((hdec m hm').2 key dec hk hf v s).2.2.2.2.2.1 with h | h
      · exact h
      · exact h.2.trans hv
    · obtain ⟨m, hm', key, dec, hk, hf, hidx⟩ := hex 4 (by decide)
      refine ⟨m, hm', key, dec, hk, hf, fun v s => ?_⟩
      rcases ((hdec m hm').2 key dec hk hf v s).2.2.2.2.2.1 with h | h
      · exact h
      · exact absurd hidx h.1
  have e5 : (json.decodeMembers (ChatCompletionResponse.field codec) members resp
      none).val.Object = object := by
    apply decodeMembers_establishes (ChatCompletionResponse.field codec)
      (fun r => r.Object = object) members resp none hok
    · intro m hm' key dec hk hf v s hv
      rcases ((hdec m hm').2 key dec hk hf v s).2.2.2.2.2.2 with h | h
      · exact h
      · exact h.2.trans hv
    · obtain ⟨m, hm', key, dec, hk, hf, hidx⟩ := hex 5 (by decide)
      refine ⟨m, hm', key, dec, hk, hf, fun v s => ?_⟩
      rcases ((hdec m hm').2 key dec hk hf v s).2.2.2.2.2.2 with h | h
      · exact h
      · exact absurd hidx h.1
  rw [hU]
  refine ⟨rfl, e0, e5, e3, e4, e2, ?_, e1⟩
  have hl := congrArg List.length e1
  simpa using hl

set_option maxRecDepth 1000000 in
theorem exampleEndToEnd_members :
    ∀ m ∈ exampleEndToEndMembers,
      ResponseMember MessageCodec.unit (str "abc") (str "chat.completion") (str "gpt-x")
        1700000000 [str "stop"] 10 5 15 m :=
  List.forall_mem_cons.2
    ⟨⟨str "id", StringToken_plain (str "id") (by decide),
      fun _ => ⟨_, rfl, StringToken_plain (str "abc") (by decide)⟩,
      fun h => absurd h (by decide), fun h => absurd h (by decide),
      fun h => absurd h (by decide), fun h => absurd h (by decide),
      fun h => absurd h (by decide)⟩,
    List.forall_mem_cons.2
    ⟨⟨str "object", StringToken_plain (str "object") (by decide),
      fun h => absurd h (by decide), fun h => absurd h (by decide),
      fun h => absurd h (by decide), fun h => absurd h (by decide),
      fun h => absurd h (by decide),
      fun _ => ⟨_, rfl, StringToken_plain (str "chat.completion") (by decide)⟩⟩,
    List.forall_mem_cons.2
    ⟨⟨str "created", StringToken_plain (str "created") (by decide),
      fun h => absurd h (by decide), fun h => absurd h (by decide),
      fun h => absurd h (by decide), fun _ => rfl,
      fun h => absurd h (by decide), fun h => absurd h (by decide)⟩,
    List.forall_mem_cons.2
    ⟨⟨str "model", StringToken_plain (str "model") (by decide),
      fun h => absurd h (by decide), fun h => absurd h (by decide),
      fun h => absurd h (by decide), fun h => absurd h (by decide),
      fun _ => ⟨_, rfl, StringToken_plain (str "gpt-x") (by decide)⟩,
      fun h => absurd h (by decide)⟩,
    List.forall_mem_cons.2
    ⟨⟨str "choices", StringToken_plain (str "choices") (by decide),
      fun h => absurd h (by decide),
      fun _ => ⟨_, rfl, List.Forall₂.cons
        ⟨_, rfl,
          List.forall_mem_cons.2
            ⟨⟨str "finish_reason", StringToken_plain (str "finish_reason") (by decide),
              fun _ => ⟨_, rfl, StringToken_plain (str "stop") (by decide)⟩,
              fun h => absurd h (by decide)⟩,
            List.forall_mem_cons.2
            ⟨⟨str "message", StringToken_plain (str "message") (by decide),
              fun h => absurd h (by decide), fun _ _ => rfl⟩,
            fun _ h => absurd h (List.not_mem_nil _)⟩⟩,
          by decide⟩
        List.Forall₂.nil⟩,
      fun h => absurd h (by decide), fun h => absurd h (by decide),
      fun h => absurd h (by decide), fun h => absurd h (by decide)⟩,
    List.forall_mem_cons.2
    ⟨⟨str "usage", StringToken_plain (str "usage") (by decide),
      fun h => absurd h (by decide), fun h => absurd h (by decide),
      fun _ => ⟨_, rfl,
        List.forall_mem_cons.2
          ⟨⟨str "prompt_tokens", StringToken_plain (str "prompt_tokens") (by decide),
            fun _ => rfl, fun h => absurd h (by decide), fun h => absurd h (by decide)⟩,
          List.forall_mem_cons.2
          ⟨⟨str "completion_tokens", StringToken_plain (str "completion_tokens") (by decide),
            fun h => absurd h (by decide), fun _ => rfl, fun h => absurd h (by decide)⟩,
          List.forall_mem_cons.2
          ⟨⟨str "total_tokens", StringToken_plain (str "total_tokens") (by decide),
            fun h => absurd h (by decide), fun h => absurd h (by decide), fun _ => rfl⟩,
          fun _ h => absurd h (List.not_mem_nil _)⟩⟩⟩,
        by decide, by decide, by decide⟩,
      fun h => absurd h (by decide), fun h => absurd h (by decide),
      fun h => absurd h (by decide)⟩,
    fun _ h => absurd h (List.not_mem_nil _)⟩⟩⟩⟩⟩⟩

/-! ## The string literals that the scanner accepts can be unquoted -/

/-- What `scanString` returns as the bytes between the quotes. -/
theorem scanString_scanned : ∀ (fuel : Nat) (l body after : List Byte),
    json.scanString fuel l = some (body, after) → json.Scanned body := by
  intro fuel
  induction fuel with
  | zero => intro l body after h; simp [json.scanString] at h
  | succ n ih =>
    intro l body after h
    cases l with
    | nil => simp [json.scanString] at h
    | cons c rest =>
      rw [json.scanString.eq_def] at h
      simp only at h
      by_cases h1 : c.val = 0x22
      · rw [if_pos h1] at h
        simp only [Option.some.injEq, Prod.mk.injEq] at h
        rw [← h.1]
        exact .nil
      · rw [if_neg h1] at h
        by_cases h2 : c.val = 0x5C
        · rw [if_pos h2] at h
          cases rest with
          | nil => simp at h
          | cons e rest₁ =>
            simp only at h
            by_cases h3 : e.val = 0x62 ∨ e.val = 0x66 ∨ e.val = 0x6E ∨ e.val = 0x72 ∨
                e.val = 0x74 ∨ e.val = 0x5C ∨ e.val = 0x2F ∨ e.val = 0x22
            · rw [if_pos h3] at h
              cases hr : json.scanString n rest₁ with
              | none => simp [hr] at h
              | some r =>
                obtain ⟨body', after'⟩ := r
                simp only [hr, Option.some.injEq, Prod.mk.injEq] at h
                rw [← h.1]
                exact .escape c e body' h2 h3 (ih _ _ _ hr)
            · rw [if_neg h3] at h
              by_cases h4 : e.val = 0x75
              · rw [if_pos h4] at h
                by_cases h5 : 4 ≤ rest₁.length ∧ (rest₁.take 4).all json.isHex = true
                · rw [if_pos h5] at h
                  cases hr : json.scanString n (rest₁.drop 4) with
                  | none => simp [hr] at h
                  | some r =>
                    obtain ⟨body', after'⟩ := r
                    simp only [hr, Option.some.injEq, Prod.mk.injEq] at h
                    rw [← h.1]
                    obtain ⟨hlen, hall⟩ := h5
                    match rest₁, hlen, hall with
                    | g1 :: g2 :: g3 :: g4 :: r₂, _, hall =>
                      simp only [List.take_succ_cons, List.take_zero, List.all_cons,
                        List.all_nil, Bool.and_true, Bool.and_eq_true] at hall
                      exact .escapeU c e g1 g2 g3 g4 body' h2 h4
                        ⟨hall.1, hall.2.1, hall.2.2.1, hall.2.2.2⟩ (ih _ _ _ hr)
                · rw [if_neg h5] at h
                  simp at h
              · rw [if_neg h4] at h
                simp at h
        · rw [if_neg h2] at h
          by_cases h3 : c.val < 0x20
          · rw [if_pos h3] at h
            simp at h
          · rw [if_neg h3] at h
            cases hr : json.scanString n rest with
            | none => simp [hr] at h
            | some r =>
              obtain ⟨body', after'⟩ := r
              simp only [hr, Option.some.injEq, Prod.mk.injEq] at h
              rw [← h.1]
              exact .plain c body' h1 h2 (by omega) (ih _ _ _ hr)

theorem first_cases (n : Nat) :
    utf8.first n = 0xF0 ∨ utf8.first n = 0xF1 ∨ utf8.first n = 0x02 ∨ utf8.first n = 0x13 ∨
    utf8.first n = 0x03 ∨ utf8.first n = 0x23 ∨ utf8.first n = 0x34 ∨ utf8.first n = 0x04 ∨
    utf8.first n = 0x44 := by
  unfold utf8.first
  split_ifs <;> simp

/-- The bytes that `DecodeRune` takes for a rune of more than one byte are all `0x80` or
above. -/
theorem DecodeRune_size (p0 : Byte) (t : List Byte) :
    (utf8.DecodeRune (p0 :: t)).2 = 1 ∨
    ((utf8.DecodeRune (p0 :: t)).2 = 2 ∧ ∃ b1 t1, t = b1 :: t1 ∧ 0x80 ≤ b1.val) ∨
    ((utf8.DecodeRune (p0 :: t)).2 = 3 ∧
      ∃ b1 b2 t2, t = b1 :: b2 :: t2 ∧ 0x80 ≤ b1.val ∧ 0x80 ≤ b2.val) ∨
    ((utf8.DecodeRune (p0 :: t)).2 = 4 ∧
      ∃ b1 b2 b3 t3, t = b1 :: b2 :: b3 :: t3 ∧ 0x80 ≤ b1.val ∧ 0x80 ≤ b2.val ∧
        0x80 ≤ b3.val) := by
  have key : ∀ x, (x = 0xF0 ∨ x = 0xF1 ∨ x = 0x02 ∨ x = 0x13 ∨ x = 0x03 ∨ x = 0x23 ∨
      x = 0x34 ∨ x = 0x04 ∨ x = 0x44) → utf8.first p0.val = x →
      ((utf8.DecodeRune (p0 :: t)).2 = 1 ∨
      ((utf8.DecodeRune (p0 :: t)).2 = 2 ∧ ∃ b1 t1, t = b1 :: t1 ∧ 0x80 ≤ b1.val) ∨
      ((utf8.DecodeRune (p0 :: t)).2 = 3 ∧
        ∃ b1 b2 t2, t = b1 :: b2 :: t2 ∧ 0x80 ≤ b1.val ∧ 0x80 ≤ b2.val) ∨
      ((utf8.DecodeRune (p0 :: t)).2 = 4 ∧
        ∃ b1 b2 b3 t3, t = b1 :: b2 :: b3 :: t3 ∧ 0x80 ≤ b1.val ∧ 0x80 ≤ b2.val ∧
          0x80 ≤ b3.val)) := by
    intro x hx hf
    unfold utf8.DecodeRune
    simp only [hf]
    rcases hx with rfl | rfl | rfl | rfl | rfl | rfl | rfl | rfl | rfl
    · left
      rw [if_pos (by decide)]
      split <;> rfl
    · left
      rw [if_pos (by decide)]
      split <;> rfl
    all_goals
      rw [if_neg (by decide)]
      split
      · left; rfl
      · cases t with
        | nil => left; rfl
        | cons b1 t1 =>
          simp only
          split
          · left; rfl
          · rename_i hb1
            have hb1' : 0x80 ≤ b1.val := by
              simp only [utf8.acceptRanges] at hb1
              revert hb1
              first
              | (intro hb1; have : ¬ (b1.val < 0x80) := fun h => hb1 (Or.inl h); omega)
              | (intro hb1; have : ¬ (b1.val < 0xA0) := fun h => hb1 (Or.inl h); omega)
              | (intro hb1; have : ¬ (b1.val < 0x90) := fun h => hb1 (Or.inl h); omega)
            split
            · right; left
              exact ⟨rfl, b1, t1, rfl, hb1'⟩
            · cases t1 with
              | nil => left; rfl
              | cons b2 t2 =>
                simp only
                split
                · left; rfl
                · rename_i hb2
                  have hb2' : 0x80 ≤ b2.val := by
                    have : ¬ (b2.val < 0x80) := fun h => hb2 (Or.inl h)
                    omega
                  split
                  · right; right; left
                    exact ⟨rfl, b1, b2, t2, rfl, hb1', hb2'⟩
                  · cases t2 with
                    | nil => left; rfl
                    | cons b3 t3 =>
                      simp only
                      split
                      · left; rfl
                      · rename_i hb3
                        have hb3' : 0x80 ≤ b3.val := by
                          have : ¬ (b3.val < 0x80) := fun h => hb3 (Or.inl h)
                          omega
                        right; right; right
                        exact ⟨rfl, b1, b2, b3, t3, rfl, hb1', hb2', hb3'⟩
  exact key _ (first_cases p0.val) rfl

theorem Scanned_tail {c : Byte} {l : List Byte} (h : json.Scanned (c :: l))
    (hc : 0x80 ≤ c.val) : json.Scanned l := by
  cases h with
  | plain _ _ _ _ _ hl => exact hl
  | escape _ _ _ h1 => omega
  | escapeU _ _ _ _ _ _ _ h1 => omega

/-- Past the bytes of a rune of more than one byte the scanned bytes go on. -/
theorem Scanned_drop_rune {c : Byte} {l : List Byte} (h : json.Scanned (c :: l))
    (hc : 0x80 ≤ c.val) :
    1 ≤ (utf8.DecodeRune (c :: l)).2 ∧
    json.Scanned ((c :: l).drop (utf8.DecodeRune (c :: l)).2) := by
  have h0 := Scanned_tail h hc
  rcases DecodeRune_size c l with h1 | ⟨h2, b1, t1, rfl, g1⟩ |
    ⟨h3, b1, b2, t2, rfl, g1, g2⟩ | ⟨h4, b1, b2, b3, t3, rfl, g1, g2, g3⟩
  · rw [h1]
    exact ⟨Nat.le_refl _, h0⟩
  · rw [h2]
    exact ⟨by decide, Scanned_tail h0 g1⟩
  · rw [h3]
    exact ⟨by decide, Scanned_tail (Scanned_tail h0 g1) g2⟩
  · rw [h4]
    exact ⟨by decide, Scanned_tail (Scanned_tail (Scanned_tail h0 g1) g2) g3⟩

theorem isHex_hexVal {c : Byte} (h : json.isHex c = true) : ∃ v, json.hexVal c = some v := by
  unfold json.isHex at h
  unfold json.hexVal
  simp only [Bool.or_eq_true, Bool.and_eq_true, decide_eq_true_eq] at h
  split_ifs
  · exact ⟨_, rfl⟩
  · exact ⟨_, rfl⟩
  · exact ⟨_, rfl⟩
  · omega

theorem getu4_scanned (c e h1 h2 h3 h4 : Byte) (l : List Byte) (hc : c.val = 0x5C)
    (he : e.val = 0x75)
    (hh : json.isHex h1 = true ∧ json.isHex h2 = true ∧ json.isHex h3 = true ∧
      json.isHex h4 = true) :
    ∃ rr, json.getu4 (c :: e :: h1 :: h2 :: h3 :: h4 :: l) = some rr := by
  obtain ⟨v1, e1⟩ := isHex_hexVal hh.1
  obtain ⟨v2, e2⟩ := isHex_hexVal hh.2.1
  obtain ⟨v3, e3⟩ := isHex_hexVal hh.2.2.1
  obtain ⟨v4, e4⟩ := isHex_hexVal hh.2.2.2
  unfold json.getu4
  simp only
  rw [if_neg (by omega), e1, e2, e3, e4]
  exact ⟨_, rfl⟩

/-- When `getu4` finds an escape at the start of scanned bytes, the scanned bytes go on
after the six bytes of the escape. -/
theorem Scanned_drop_getu4 {l : List Byte} (h : json.Scanned l) {r : Nat}
    (hg : json.getu4 l = some r) : json.Scanned (l.drop 6) := by
  unfold json.getu4 at hg
  match l, h, hg with
  | b0 :: b1 :: g1 :: g2 :: g3 :: g4 :: l', h, hg =>
    simp only at hg
    by_cases hb : b0.val ≠ 0x5C ∨ b1.val ≠ 0x75
    · rw [if_pos hb] at hg
      simp at hg
    · have hb0 : b0.val = 0x5C := by omega
      have hb1 : b1.val = 0x75 := by omega
      simp only [List.drop_succ_cons, List.drop_zero]
      cases h with
      | plain _ _ _ h2 => omega
      | escape _ _ _ _ h2 => omega
      | escapeU _ _ _ _ _ _ _ _ _ _ hl => exact hl

/-- The second loop of `unquoteBytes` does not fail on scanned bytes. -/
theorem unquoteLoop_scanned : ∀ (fuel : Nat) (l : List Byte), json.Scanned l →
    l.length < fuel → (json.unquoteLoop fuel l).isSome = true := by
  intro fuel
  induction fuel with
  | zero => intro l _ h; omega
  | succ n ih =>
    intro l hs hlen
    cases hs with
    | nil => rw [json.unquoteLoop.eq_def]; rfl
    | plain c l' h1 h2 h3 hl =>
      simp only [List.length_cons] at hlen
      rw [json.unquoteLoop.eq_def]
      simp only
      rw [if_neg h2, if_neg (by omega)]
      by_cases h4 : c.val < 0x80
      · rw [if_pos h4, Option.isSome_map']
        exact ih l' hl (by omega)
      · rw [if_neg h4, Option.isSome_map']
        obtain ⟨hk, hd⟩ := Scanned_drop_rune (.plain c l' h1 h2 h3 hl) (by omega)
        exact ih _ hd (by simp only [List.length_drop, List.length_cons]; omega)
    | escape c e l' h1 h2 hl =>
      simp only [List.length_cons] at hlen
      rw [json.unquoteLoop.eq_def]
      simp only
      rw [if_pos h1]
      have hi := ih l' hl (by omega)
      by_cases a1 : e.val = 0x22 ∨ e.val = 0x5C ∨ e.val = 0x2F ∨ e.val = 0x27
      · rw [if_pos a1, Option.isSome_map']
        exact hi
      · rw [if_neg a1]
        by_cases a2 : e.val = 0x62
        · rw [if_pos a2, Option.isSome_map']
          exact hi
        · rw [if_neg a2]
          by_cases a3 : e.val = 0x66
          · rw [if_pos a3, Option.isSome_map']
            exact hi
          · rw [if_neg a3]
            by_cases a4 : e.val = 0x6E
            · rw [if_pos a4, Option.isSome_map']
              exact hi
            · rw [if_neg a4]
              by_cases a5 : e.val = 0x72
              · rw [if_pos a5, Option.isSome_map']
                exact hi
              · rw [if_neg a5]
                by_cases a6 : e.val = 0x74
                · rw [if_pos a6, Option.isSome_map']
                  exact hi
                · omega
    | escapeU c e h1 h2 h3 h4 l' hc he hh hl =>
      simp only [List.length_cons] at hlen
      obtain ⟨rr, hrr⟩ := getu4_scanned c e h1 h2 h3 h4 l' hc he hh
      rw [json.unquoteLoop.eq_def]
      simp only
      rw [if_pos hc, if_neg (by omega), if_neg (by omega), if_neg (by omega),
        if_neg (by omega), if_neg (by omega), if_neg (by omega), if_pos he, hrr]
      simp only [List.drop_succ_cons, List.drop_zero]
      have hi := ih l' hl (by omega)
      by_cases hsur : utf16.IsSurrogate rr = true
      · rw [if_pos hsur]
        by_cases hdec : utf16.DecodeRune rr (json.getu4 l') ≠ 0xFFFD
        · rw [if_pos hdec, Option.isSome_map']
          cases hg : json.getu4 l' with
          | none =>
            rw [hg] at hdec
            exact absurd rfl hdec
          | some r2 =>
            exact ih _ (Scanned_drop_getu4 hl hg)
              (by simp only [List.length_drop]; omega)
        · rw [if_neg hdec, Option.isSome_map']
          exact hi
      · rw [if_neg hsur, Option.isSome_map']
        exact hi

/-- The first loop of `unquoteBytes` stops in scanned bytes. -/
theorem unquoteSkip_scanned : ∀ (fuel : Nat) (l : List Byte), json.Scanned l →
    json.Scanned (json.unquoteSkip fuel l) := by
  intro fuel
  induction fuel with
  | zero => intro l hs; rw [json.unquoteSkip.eq_def]; exact hs
  | succ n ih =>
    intro l hs
    cases l with
    | nil => rw [json.unquoteSkip.eq_def]; exact hs
    | cons c rest =>
      rw [json.unquoteSkip.eq_def]
      simp only
      by_cases h1 : c.val = 0x5C ∨ c.val = 0x22 ∨ c.val < 0x20
      · rw [if_pos h1]; exact hs
      · rw [if_neg h1]
        by_cases h2 : c.val < 0x80
        · rw [if_pos h2]
          cases hs with
          | plain _ _ _ _ _ hl => exact ih _ hl
          | escape _ _ _ hc => omega
          | escapeU _ _ _ _ _ _ _ hc => omega
        · rw [if_neg h2]
          split
          · exact hs
          · exact ih _ (Scanned_drop_rune hs (by omega)).2

/-- Every string literal that the scanner accepts stands for a string: `unquoteBytes` does
not fail on it. -/
theorem unquoteBytes_scanned {body : List Byte} (h : json.Scanned body) :
    (json.unquoteBytes (0x22 :: (body ++ [0x22]))).isSome = true := by
  unfold json.unquoteBytes
  have hlast : (0x22 :: (body ++ [0x22]) : List Byte).getLast? = some 0x22 := by
    have e : (0x22 :: (body ++ [0x22]) : List Byte) = (0x22 :: body) ++ [0x22] := rfl
    rw [e, List.getLast?_concat]
  rw [if_neg (by
    intro hor
    rcases hor with h1 | h1 | h1
    · simp only [List.length_cons, List.length_append, List.length_singleton] at h1
      omega
    · simp at h1
    · exact h1 hlast)]
  have hbody : ((0x22 :: (body ++ [0x22]) : List Byte).drop 1).dropLast = body := by
    simp
  simp only [hbody]
  split
  · rfl
  · have hs := unquoteSkip_scanned body.length body h
    have hl := unquoteLoop_scanned ((json.unquoteSkip body.length body).length + 1) _ hs
      (Nat.lt_succ_self _)
    cases hu : json.unquoteLoop ((json.unquoteSkip body.length body).length + 1)
      (json.unquoteSkip body.length body) with
    | none => rw [hu] at hl; simp at hl
    | some t => rfl

theorem literalKind_string_iff (c : Byte) (l : List Byte) :
    json.literalKind (c :: l) = json.LiteralKind.string ↔ c.val = 0x22 := by
  unfold json.literalKind
  simp only
  constructor
  · intro h
    by_contra hc
    split_ifs at h
  · intro h
    rw [if_neg (by omega), if_neg (by omega), if_pos h]

/-- A value that the scanner delimits and that is a string is a string literal whose bytes
between the quotes are scanned bytes. -/
theorem scan_string_scanned {data : List Byte} {t : JSON} (h : json.scan data = some t)
    (ht : t.isString = true) :
    ∃ body, t = JSON.literal (0x22 :: (body ++ [0x22])) ∧ json.Scanned body := by
  unfold json.scan at h
  split at h
  · simp at h
  · rename_i t' r hp
    split at h
    · simp only [Option.some.injEq] at h
      subst h
      cases hsk : json.skipSpace data with
      | nil =>
        rw [hsk, json.parseValue] at hp
        simp at hp
      | cons c rest =>
        rw [hsk] at hp
        by_cases h1 : c.val = 0x22
        · rw [json.parseValue] at hp
          rw [if_neg (by omega), if_neg (by omega), if_pos h1] at hp
          cases hs : json.scanString rest.length rest with
          | none => simp [hs] at hp
          | some r' =>
            obtain ⟨body, after⟩ := r'
            simp only [hs, Option.some.injEq, Prod.mk.injEq] at hp
            refine ⟨body, ?_, scanString_scanned _ _ _ _ hs⟩
            rw [← hp.1]
            have hc : c = (0x22 : Byte) := Fin.ext h1
            rw [hc]
        · exfalso
          by_cases h2 : c.val = 0x6E
          · rw [json.parseValue] at hp
            rw [if_neg (by omega), if_neg (by omega), if_neg (by omega), if_neg (by omega),
              if_neg (by omega), if_pos h2] at hp
            split at hp
            · simp at hp
            · rename_i item after hw
              simp only [Option.some.injEq, Prod.mk.injEq] at hp
              rw [← hp.1, scanWord_item _ _ _ _ hw] at ht
              revert ht
              decide
          · rcases parseValue_no_string _ _ c rest r t' hp h1 h2 with ha | ho |
              ⟨c', l, rfl, g1, g2⟩
            · cases t' <;> simp [JSON.isArray, JSON.isString] at ha ht
            · cases t' <;> simp [JSON.isObject, JSON.isString] at ho ht
            · simp only [JSON.isString, beq_iff_eq] at ht
              exact g1 ((literalKind_string_iff c' l).1 ht)
    · simp at h

theorem UnmarshalJSON_scanned_string (cfr : chatCompletionFinishReason) {data : List Byte}
    {t : JSON} (h : json.scan data = some t) (ht : t.isString = true) :
    ∃ s, cfr.UnmarshalJSON data = ({ Value := s }, none) := by
  obtain ⟨body, rfl, hb⟩ := scan_string_scanned h ht
  obtain ⟨s, hs⟩ := Option.isSome_iff_exists.1 (unquoteBytes_scanned hb)
  refine ⟨s, ?_⟩
  unfold chatCompletionFinishReason.UnmarshalJSON json.Unmarshal
  rw [h]
  simp only [json.storeString, literalKind_quote, hs]

theorem UnmarshalJSON_null (cfr : chatCompletionFinishReason) {data : List Byte} {t : JSON}
    (h : json.scan data = some t) (ht : t.isNull = true) :
    cfr.UnmarshalJSON data = ({ Value := [] }, none) := by
  cases t with
  | array es => simp [JSON.isNull] at ht
  | object ms => simp [JSON.isNull] at ht
  | literal item =>
    simp only [JSON.isNull, beq_iff_eq] at ht
    unfold chatCompletionFinishReason.UnmarshalJSON json.Unmarshal
    rw [h]
    simp only [json.storeString, ht]

theorem UnmarshalJSON_no_string (cfr : chatCompletionFinishReason) {data : List Byte}
    {t : JSON} (h : json.scan data = some t) (hs : t.isString = false)
    (hn : t.isNull = false) :
    (cfr.UnmarshalJSON data).1 = cfr ∧ (cfr.UnmarshalJSON data).2 ≠ none := by
  have hU : (json.Unmarshal json.storeString data []).2 ≠ none := by
    apply Unmarshal_failed
    intro t' ht'
    rw [h] at ht'
    simp only [Option.some.injEq] at ht'
    subst ht'
    cases t with
    | array es => exact typeError_failed _ _
    | object ms => exact typeError_failed _ _
    | literal item =>
      simp only [JSON.isString, JSON.isNull, beq_eq_false_iff_ne, ne_eq] at hs hn
      unfold json.storeString
      simp only
      cases hk : json.literalKind item with
      | null => exact absurd hk hn
      | bool => exact typeError_failed _ _
      | string => exact absurd hk hs
      | number => exact typeError_failed _ _
      | invalid => exact outOfSync_failed _ _
  unfold chatCompletionFinishReason.UnmarshalJSON
  cases hr : json.Unmarshal json.storeString data [] with
  | mk value err =>
    rw [hr] at hU
    cases err with
    | none => exact absurd rfl hU
    | some e => exact ⟨rfl, by simp⟩

theorem UnmarshalJSON_syntax_error (cfr : chatCompletionFinishReason) {data : List Byte}
    (h : json.scan data = none) : cfr.UnmarshalJSON data = (cfr, some GoError.SyntaxError) := by
  unfold chatCompletionFinishReason.UnmarshalJSON json.Unmarshal
  rw [h]

/-! ## The scanner accepts the texts of the grammar: numbers -/

theorem scanDigits_append : ∀ (ds X : List Byte), (∀ x ∈ ds, rfc8259.isDigit x = true) →
    (∀ c r, X = c :: r → rfc8259.isDigit c = false) → json.scanDigits (ds ++ X) = (ds, X) := by
  intro ds
  induction ds with
  | nil =>
    intro X _ hX
    cases X with
    | nil => rfl
    | cons c r =>
      have := hX c r rfl
      simp only [rfc8259.isDigit, Bool.and_eq_false_iff, decide_eq_false_iff_not] at this
      rw [List.nil_append, json.scanDigits, if_neg (by omega)]
  | cons d ds ih =>
    intro X hds hX
    have hd := hds d (List.mem_cons_self _ _)
    simp only [rfc8259.isDigit, Bool.and_eq_true, decide_eq_true_eq] at hd
    rw [List.cons_append, json.scanDigits, if_pos hd,
      ih X (fun x hx => hds x (List.mem_cons_of_mem _ hx)) hX]

theorem EndsNumber_digit {after : List Byte} (h : rfc8259.EndsNumber after) :
    ∀ c r, after = c :: r → rfc8259.isDigit c = false :=
  fun c r e => (h c r e).1

theorem scanExp_spec (ep after : List Byte) (he : rfc8259.Exp ep)
    (ha : rfc8259.EndsNumber after) : json.scanExp (ep ++ after) = some (ep, after) := by
  rcases he with rfl | ⟨e, ds, rfl, h1, h2, h3⟩ | ⟨e, s, ds, rfl, h1, h2, h3, h4⟩
  · rw [List.nil_append]
    unfold json.scanExp
    cases after with
    | nil => rfl
    | cons c r =>
      obtain ⟨-, -, g1, g2⟩ := ha c r rfl
      simp only
      rw [if_neg (by omega)]
  · cases ds with
    | nil => exact absurd rfl h2
    | cons d ds' =>
      have hd := h3 d (List.mem_cons_self _ _)
      simp only [rfc8259.isDigit, Bool.and_eq_true, decide_eq_true_eq] at hd
      have hsd := scanDigits_append (d :: ds') after h3 (EndsNumber_digit ha)
      unfold json.scanExp
      simp only [List.cons_append]
      rw [if_pos h1, if_neg (by omega)]
      simp only [List.cons_append] at hsd
      rw [hsd]
      simp
  · have hsd := scanDigits_append ds after h4 (EndsNumber_digit ha)
    unfold json.scanExp
    simp only [List.cons_append]
    rw [if_pos h1, if_pos h2, hsd]
    simp only
    rw [if_neg h3]

theorem scanFrac_spec (fp X : List Byte) (hf : rfc8259.Frac fp)
    (hX : ∀ c r, X = c :: r → rfc8259.isDigit c = false ∧ c.val ≠ 0x2E) :
    json.scanFrac (fp ++ X) = some (fp, X) := by
  rcases hf with rfl | ⟨p, ds, rfl, h1, h2, h3⟩
  · rw [List.nil_append]
    unfold json.scanFrac
    cases X with
    | nil => rfl
    | cons c r =>
      simp only
      rw [if_neg (hX c r rfl).2]
  · have hsd := scanDigits_append ds X h3 (fun c r e => (hX c r e).1)
    unfold json.scanFrac
    simp only [List.cons_append]
    rw [if_pos h1, hsd]
    simp only
    rw [if_neg h2]

theorem Exp_head {ep : List Byte} (he : rfc8259.Exp ep) {after : List Byte}
    (ha : rfc8259.EndsNumber after) :
    ∀ c r, ep ++ after = c :: r → rfc8259.isDigit c = false ∧ c.val ≠ 0x2E := by
  intro c r hc
  rcases he with rfl | ⟨e, ds, rfl, h1, -⟩ | ⟨e, s, ds, rfl, h1, -⟩
  · rw [List.nil_append] at hc
    exact ⟨(ha c r hc).1, (ha c r hc).2.1⟩
  · simp only [List.cons_append, List.cons.injEq] at hc
    rw [← hc.1]
    simp only [rfc8259.isDigit, Bool.and_eq_false_iff, decide_eq_false_iff_not]
    omega
  · simp only [List.cons_append, List.cons.injEq] at hc
    rw [← hc.1]
    simp only [rfc8259.isDigit, Bool.and_eq_false_iff, decide_eq_false_iff_not]
    omega

theorem Frac_head {fp : List Byte} (hf : rfc8259.Frac fp) {X : List Byte}
    (hX : ∀ c r, X = c :: r → rfc8259.isDigit c = false ∧ c.val ≠ 0x2E) :
    ∀ c r, fp ++ X = c :: r → rfc8259.isDigit c = false := by
  intro c r hc
  rcases hf with rfl | ⟨p, ds, rfl, h1, -⟩
  · rw [List.nil_append] at hc
    exact (hX c r hc).1
  · simp only [List.cons_append, List.cons.injEq] at hc
    rw [← hc.1]
    simp only [rfc8259.isDigit, Bool.and_eq_false_iff, decide_eq_false_iff_not]
    omega

theorem scanUnsigned_spec (ip fp ep after : List Byte) (hi : rfc8259.IntPart ip)
    (hf : rfc8259.Frac fp) (he : rfc8259.Exp ep) (ha : rfc8259.EndsNumber after) :
    json.scanUnsigned (ip ++ (fp ++ ep) ++ after) = some (ip ++ (fp ++ ep), after) := by
  have e1 : ip ++ (fp ++ ep) ++ after = ip ++ (fp ++ (ep ++ after)) := by
    simp only [List.append_assoc]
  have hF := scanFrac_spec fp (ep ++ after) hf (Exp_head he ha)
  have hE := scanExp_spec ep after he ha
  rw [e1]
  rcases hi with ⟨z, rfl, hz⟩ | ⟨d, ds, rfl, h1, h2, h3⟩
  · unfold json.scanUnsigned
    simp only [List.cons_append, List.nil_append]
    rw [if_pos hz]
    simp only [hF, hE]
    simp
  · have hsd := scanDigits_append ds (fp ++ (ep ++ after)) h3 (Frac_head hf (Exp_head he ha))
    unfold json.scanUnsigned
    simp only [List.cons_append]
    rw [if_neg (by omega), if_pos ⟨h1, h2⟩, hsd]
    simp only [hF, hE]
    simp

theorem IntPart_head {ip : List Byte} (hi : rfc8259.IntPart ip) :
    ∃ d l, ip = d :: l ∧ 0x30 ≤ d.val ∧ d.val ≤ 0x39 := by
  rcases hi with ⟨z, rfl, hz⟩ | ⟨d, ds, rfl, h1, h2, -⟩
  · exact ⟨z, [], rfl, by omega, by omega⟩
  · exact ⟨d, ds, rfl, by omega, h2⟩

/-- The scanner delimits a number of the grammar. -/
theorem scanNumber_spec (tok after : List Byte) (h : rfc8259.Number tok)
    (ha : rfc8259.EndsNumber after) : json.scanNumber (tok ++ after) = some (tok, after) := by
  obtain ⟨ip, fp, ep, hi, hf, he, rfl | ⟨m, hm, rfl⟩⟩ := h
  · obtain ⟨d, l, rfl, h1, h2⟩ := IntPart_head hi
    have hu := scanUnsigned_spec (d :: l) fp ep after hi hf he ha
    unfold json.scanNumber
    simp only [List.cons_append] at hu ⊢
    rw [if_neg (by omega)]
    exact hu
  · have hu := scanUnsigned_spec ip fp ep after hi hf he ha
    unfold json.scanNumber
    simp only [List.cons_append]
    rw [if_pos hm, hu]

theorem Number_head {tok : List Byte} (h : rfc8259.Number tok) :
    ∃ c l, tok = c :: l ∧ (c.val = 0x2D ∨ (0x30 ≤ c.val ∧ c.val ≤ 0x39)) := by
  obtain ⟨ip, fp, ep, hi, hf, he, rfl | ⟨m, hm, rfl⟩⟩ := h
  · obtain ⟨d, l, rfl, h1, h2⟩ := IntPart_head hi
    exact ⟨d, _, rfl, Or.inr ⟨h1, h2⟩⟩
  · exact ⟨m, _, rfl, Or.inl hm⟩

/-! ## The scanner accepts the texts of the grammar: values -/

theorem skipSpace_cons {c : Byte} (l : List Byte) (h : json.isSpace c = false) :
    json.skipSpace (c :: l) = c :: l := by
  rw [json.skipSpace.eq_def]
  simp only
  rw [h]
  simp

theorem Ws_isSpace {b : Byte}
    (h : b.val = 0x20 ∨ b.val = 0x09 ∨ b.val = 0x0A ∨ b.val = 0x0D) :
    json.isSpace b = true := by
  unfold json.isSpace
  simp only [Bool.or_eq_true, decide_eq_true_eq]
  omega

theorem skipSpace_ws : ∀ (ws l : List Byte), rfc8259.Ws ws →
    json.skipSpace (ws ++ l) = json.skipSpace l := by
  intro ws
  induction ws with
  | nil => intro l _; rfl
  | cons b ws ih =>
    intro l h
    rw [List.cons_append, json.skipSpace.eq_def]
    simp only
    rw [Ws_isSpace (h b (List.mem_cons_self _ _))]
    simp only [if_true]
    exact ih l (fun x hx => h x (List.mem_cons_of_mem _ hx))

theorem skipSpace_ws_nil (ws : List Byte) (h : rfc8259.Ws ws) : json.skipSpace ws = [] := by
  have := skipSpace_ws ws [] h
  rw [List.append_nil] at this
  rw [this]
  rfl

/-- The first byte of the text of a well-formed value: not white space, and none of the
bytes that end an array or an object or separate their parts. -/
theorem raw_head {n : Nat} {t : JSON} (h : JSON.WF n t) :
    ∃ c l, t.raw = c :: l ∧ json.isSpace c = false ∧ c.val ≠ 0x5D ∧ c.val ≠ 0x7D := by
  cases h with
  | string _ tok s hs =>
    cases hs with
    | mk body s hb => exact ⟨0x22, _, by rw [JSON.raw], by decide, by decide, by decide⟩
  | number _ tok hn =>
    obtain ⟨c, l, rfl, hc⟩ := Number_head hn
    refine ⟨c, l, by rw [JSON.raw], ?_, by omega, by omega⟩
    unfold json.isSpace
    simp only [Bool.or_eq_false_iff, decide_eq_false_iff_not]
    omega
  | true => exact ⟨0x74, _, by rw [JSON.raw], by decide, by decide, by decide⟩
  | false => exact ⟨0x66, _, by rw [JSON.raw], by decide, by decide, by decide⟩
  | null => exact ⟨0x6E, _, by rw [JSON.raw], by decide, by decide, by decide⟩
  | array n es _ => exact ⟨0x5B, _, by rw [JSON.raw], by decide, by decide, by decide⟩
  | object n ms _ _ => exact ⟨0x7B, _, by rw [JSON.raw], by decide, by decide, by decide⟩

theorem EndsNumber_cons (c : Byte) (l : List Byte)
    (h : c.val = 0x2C ∨ c.val = 0x5D ∨ c.val = 0x7D) : rfc8259.EndsNumber (c :: l) := by
  intro c' r e
  simp only [List.cons.injEq] at e
  rw [← e.1]
  simp only [rfc8259.isDigit, Bool.and_eq_false_iff, decide_eq_false_iff_not]
  omega

theorem EndsNumber_ws (ws : List Byte) (h : rfc8259.Ws ws) : rfc8259.EndsNumber ws := by
  intro c r e
  have := h c (by rw [e]; exact List.mem_cons_self _ _)
  simp only [rfc8259.isDigit, Bool.and_eq_false_iff, decide_eq_false_iff_not]
  omega

theorem scanString_token_rest {body : List Byte} {s : GoString}
    (hb : rfc8259.StringBody body s) (A : List Byte) :
    json.scanString (body ++ 0x22 :: A).length (body ++ 0x22 :: A) = some (body, A) :=
  scanString_mono_le (by simp only [List.length_append, List.length_cons]; omega)
    (scanString_body hb A)

/-- The scanner reads a well-formed literal back as it is, and stops right after it. -/
theorem parseValue_literal {n : Nat} {tok : List Byte} (h : JSON.WF n (JSON.literal tok)) :
    ∀ fuel d after, 2 * tok.length ≤ fuel → rfc8259.EndsNumber after →
      json.parseValue fuel d (tok ++ after) = some (JSON.literal tok, after) := by
  intro fuel d after hf ha
  cases h with
  | string _ _ s hs =>
    cases hs with
    | mk body s hb =>
      simp only [List.length_cons] at hf
      obtain ⟨f, rfl⟩ := Nat.exists_eq_succ_of_ne_zero (by omega : fuel ≠ 0)
      have e1 : (0x22 :: (body ++ [0x22]) : List Byte) ++ after =
          0x22 :: (body ++ 0x22 :: after) := by
        simp only [List.cons_append, List.append_assoc, List.nil_append]
      rw [e1]
      exact parseValue_quote f d _ body after (scanString_token_rest hb after)
  | number _ _ hn =>
    obtain ⟨c, l, rfl, hc⟩ := Number_head hn
    simp only [List.length_cons] at hf
    obtain ⟨f, rfl⟩ := Nat.exists_eq_succ_of_ne_zero (by omega : fuel ≠ 0)
    have hs := scanNumber_spec (c :: l) after hn ha
    rw [List.cons_append] at hs ⊢
    rw [json.parseValue]
    rw [if_neg (by omega), if_neg (by omega), if_neg (by omega), if_neg (by omega),
      if_neg (by omega), if_neg (by omega), hs]
  | true _ =>
    simp only [List.length_cons] at hf
    obtain ⟨f, rfl⟩ := Nat.exists_eq_succ_of_ne_zero (by omega : fuel ≠ 0)
    have hw : json.scanWord [0x74, 0x72, 0x75, 0x65] (0x74 :: ([0x72, 0x75, 0x65] ++ after)) =
        some ([0x74, 0x72, 0x75, 0x65], after) := by simp [json.scanWord]
    rw [List.cons_append, json.parseValue]
    rw [if_neg (by decide), if_neg (by decide), if_neg (by decide), if_pos (by decide), hw]
  | false _ =>
    simp only [List.length_cons] at hf
    obtain ⟨f, rfl⟩ := Nat.exists_eq_succ_of_ne_zero (by omega : fuel ≠ 0)
    have hw : json.scanWord [0x66, 0x61, 0x6C, 0x73, 0x65]
        (0x66 :: ([0x61, 0x6C, 0x73, 0x65] ++ after)) =
        some ([0x66, 0x61, 0x6C, 0x73, 0x65], after) := by simp [json.scanWord]
    rw [List.cons_append, json.parseValue]
    rw [if_neg (by decide), if_neg (by decide), if_neg (by decide), if_neg (by decide),
      if_pos (by decide), hw]
  | null _ =>
    simp only [List.length_cons] at hf
    obtain ⟨f, rfl⟩ := Nat.exists_eq_succ_of_ne_zero (by omega : fuel ≠ 0)
    have hw : json.scanWord [0x6E, 0x75, 0x6C, 0x6C] (0x6E :: ([0x75, 0x6C, 0x6C] ++ after)) =
        some ([0x6E, 0x75, 0x6C, 0x6C], after) := by simp [json.scanWord]
    rw [List.cons_append, json.parseValue]
    rw [if_neg (by decide), if_neg (by decide), if_neg (by decide), if_neg (by decide),
      if_neg (by decide), if_pos (by decide), hw]

theorem Ws_nil : rfc8259.Ws [] := fun b hb => by simp at hb

theorem Ws_space : rfc8259.Ws [0x20] := fun b hb => by
  simp only [List.mem_singleton] at hb
  rw [hb]
  exact Or.inl rfl

theorem Ws_newline : rfc8259.Ws [0x0A] := fun b hb => by
  simp only [List.mem_singleton] at hb
  rw [hb]
  exact Or.inr (Or.inr (Or.inl rfl))

theorem EndsNumber_ws_cons (w : List Byte) (c : Byte) (l : List Byte) (hw : rfc8259.Ws w)
    (h : c.val = 0x2C ∨ c.val = 0x5D ∨ c.val = 0x7D) : rfc8259.EndsNumber (w ++ c :: l) := by
  cases w with
  | nil => exact EndsNumber_cons c l h
  | cons b w' =>
    intro c' r e
    simp only [List.cons_append, List.cons.injEq] at e
    have := hw b (List.mem_cons_self _ _)
    rw [← e.1]
    simp only [rfc8259.isDigit, Bool.and_eq_false_iff, decide_eq_false_iff_not]
    omega

theorem EndsNumber_ws_append (w l : List Byte) (hw : rfc8259.Ws w)
    (h : rfc8259.EndsNumber l) : rfc8259.EndsNumber (w ++ l) := by
  cases w with
  | nil => exact h
  | cons b w' =>
    intro c' r e
    simp only [List.cons_append, List.cons.injEq] at e
    have := hw b (List.mem_cons_self _ _)
    rw [← e.1]
    simp only [rfc8259.isDigit, Bool.and_eq_false_iff, decide_eq_false_iff_not]
    omega

/-- The first byte of a text of a well-formed value: not white space, and none of the
closing bracket and brace. -/
theorem text_head {n : Nat} {t : JSON} {d : List Byte} (h : JSON.WF n t)
    (ht : rfc8259.Text (rfc8259.Item.value t) d) :
    ∃ c l, d = c :: l ∧ json.isSpace c = false ∧ c.val ≠ 0x5D ∧ c.val ≠ 0x7D := by
  cases ht with
  | literal tok => exact raw_head h
  | emptyArray w _ => exact ⟨0x5B, _, rfl, by decide, by decide, by decide⟩
  | array e es w body _ _ => exact ⟨0x5B, _, rfl, by decide, by decide, by decide⟩
  | emptyObject w _ => exact ⟨0x7B, _, rfl, by decide, by decide, by decide⟩
  | object m ms w body _ _ => exact ⟨0x7B, _, rfl, by decide, by decide, by decide⟩

theorem text_elems_head {n : Nat} {e : JSON} {es : List JSON} {d : List Byte}
    (h : JSON.WF n e) (ht : rfc8259.Text (rfc8259.Item.elems (e :: es)) d) :
    ∃ c l, d = c :: l ∧ json.isSpace c = false ∧ c.val ≠ 0x5D := by
  cases ht with
  | lastElem e d w hd _ =>
    obtain ⟨c, l, rfl, h1, h2, -⟩ := text_head h hd
    exact ⟨c, _, rfl, h1, h2⟩
  | consElem e e₁ es d w₁ w₂ body hd _ _ _ =>
    obtain ⟨c, l, rfl, h1, h2, -⟩ := text_head h hd
    exact ⟨c, _, rfl, h1, h2⟩

theorem text_members_head {m : List Byte × JSON} {ms : List (List Byte × JSON)}
    {d : List Byte} (hk : ∃ s, rfc8259.StringToken m.1 s)
    (ht : rfc8259.Text (rfc8259.Item.members (m :: ms)) d) :
    ∃ c l, d = c :: l ∧ json.isSpace c = false ∧ c.val ≠ 0x7D := by
  obtain ⟨s, hs⟩ := hk
  cases ht with
  | lastMember k v w₁ w₂ d w₃ _ _ _ _ =>
    cases hs with
    | mk body s hb => exact ⟨0x22, _, rfl, by decide, by decide⟩
  | consMember k v m ms w₁ w₂ d w₃ w₄ body _ _ _ _ _ _ =>
    cases hs with
    | mk body s hb => exact ⟨0x22, _, rfl, by decide, by decide⟩

/-- The scanner on one member of an object, up to the byte after the white space that
follows its value. -/
theorem parseMembers_member (f d : Nat) (k : List Byte) (v : JSON) (w₁ w₂ dv w₃ X : List Byte)
    (hk : ∃ s, rfc8259.StringToken k s) {n : Nat} (hv : JSON.WF n v)
    (hw₁ : rfc8259.Ws w₁) (hw₂ : rfc8259.Ws w₂) (hw₃ : rfc8259.Ws w₃)
    (ht : rfc8259.Text (rfc8259.Item.value v) dv)
    (hP : json.parseValue f d (dv ++ (w₃ ++ X)) = some (v, w₃ ++ X)) :
    json.parseMembers (f + 1) d (k ++ (w₁ ++ 0x3A :: (w₂ ++ (dv ++ (w₃ ++ X))))) =
      match json.skipSpace X with
      | [] => none
      | c₂ :: rest₃ =>
        if c₂.val = 0x2C then
          match json.parseMembers f d (json.skipSpace rest₃) with
          | none => none
          | some (ms, after₂) => some ((k, v) :: ms, after₂)
        else if c₂.val = 0x7D then some ([(k, v)], rest₃)
        else none := by
  obtain ⟨s, hs⟩ := hk
  cases hs with
  | mk body s hb =>
    obtain ⟨c, l, hr, hc, -⟩ := text_head hv ht
    have e1 : (0x22 :: (body ++ [0x22]) : List Byte) ++
        (w₁ ++ 0x3A :: (w₂ ++ (dv ++ (w₃ ++ X)))) =
        0x22 :: (body ++ 0x22 :: (w₁ ++ 0x3A :: (w₂ ++ (dv ++ (w₃ ++ X))))) := by
      simp only [List.cons_append, List.append_assoc, List.nil_append]
    have hsk : json.skipSpace (w₂ ++ (dv ++ (w₃ ++ X))) = dv ++ (w₃ ++ X) := by
      rw [skipSpace_ws _ _ hw₂, hr, List.cons_append]
      exact skipSpace_cons _ hc
    have hsk1 : json.skipSpace (w₁ ++ 0x3A :: (w₂ ++ (dv ++ (w₃ ++ X)))) =
        0x3A :: (w₂ ++ (dv ++ (w₃ ++ X))) := by
      rw [skipSpace_ws _ _ hw₁]
      exact skipSpace_cons _ (by decide)
    rw [e1, json.parseMembers]
    rw [if_pos (by decide), scanString_token_rest hb]
    simp only
    rw [hsk1]
    simp only
    rw [if_pos (by decide), hsk]
    simp only [hP, skipSpace_ws _ _ hw₃]
    try rfl

/-- The scanner reads every text of a well-formed value back as that value, and stops right
after it; likewise for the elements of an array and the members of an object. -/
theorem parse_text {item : rfc8259.Item} {data : List Byte} (h : rfc8259.Text item data) :
    match item with
    | rfc8259.Item.value t =>
      ∀ n, JSON.WF n t → ∀ fuel d after, 2 * data.length ≤ fuel →
        d + n ≤ json.maxNestingDepth → rfc8259.EndsNumber after →
        json.parseValue fuel d (data ++ after) = some (t, after)
    | rfc8259.Item.elems es =>
      ∀ n, (∀ x ∈ es, JSON.WF n x) → ∀ fuel d after, 2 * data.length + 1 ≤ fuel →
        d + n ≤ json.maxNestingDepth →
        json.parseElems fuel d (data ++ 0x5D :: after) = some (es, after)
    | rfc8259.Item.members ms =>
      ∀ n, (∀ m ∈ ms, ∃ s, rfc8259.StringToken m.1 s) → (∀ m ∈ ms, JSON.WF n m.2) →
        ∀ fuel d after, 2 * data.length + 1 ≤ fuel → d + n ≤ json.maxNestingDepth →
        json.parseMembers fuel d (data ++ 0x7D :: after) = some (ms, after) := by
  induction h with
  | literal tok =>
    intro n hwf fuel d after hf hd ha
    exact parseValue_literal hwf fuel d after hf ha
  | emptyArray w hw =>
    intro n hwf fuel d after hf hd ha
    cases hwf with
    | array n es _ =>
      simp only [List.length_cons, List.length_append, List.length_nil] at hf
      obtain ⟨f, rfl⟩ := Nat.exists_eq_succ_of_ne_zero (by omega : fuel ≠ 0)
      have hd1 : ¬ d + 1 > json.maxNestingDepth := by omega
      have hsk : json.skipSpace (w ++ [0x5D] ++ after) = 0x5D :: after := by
        rw [List.append_assoc, skipSpace_ws _ _ hw]
        exact skipSpace_cons _ (by decide)
      rw [List.cons_append, json.parseValue]
      rw [if_neg (by decide), if_pos (by decide), if_neg hd1, hsk]
      simp only
      rw [if_pos (by decide)]
  | array e es w body hw hb ih =>
    intro n hwf fuel d after hf hd ha
    cases hwf with
    | array n es hes =>
      simp only [List.length_cons, List.length_append, List.length_nil] at hf
      obtain ⟨f, rfl⟩ := Nat.exists_eq_succ_of_ne_zero (by omega : fuel ≠ 0)
      have hd1 : ¬ d + 1 > json.maxNestingDepth := by omega
      obtain ⟨c, l, hr, hc, hc2⟩ := text_elems_head (hes e (List.mem_cons_self _ _)) hb
      have hp := ih n hes f (d + 1) after (by omega) (by omega)
      have hsk : json.skipSpace (w ++ (body ++ [0x5D]) ++ after) =
          c :: (l ++ 0x5D :: after) := by
        rw [List.append_assoc, skipSpace_ws _ _ hw, hr]
        simp only [List.cons_append, List.append_assoc, List.nil_append]
        exact skipSpace_cons _ hc
      rw [hr, List.cons_append] at hp
      rw [List.cons_append, json.parseValue]
      rw [if_neg (by decide), if_pos (by decide), if_neg hd1, hsk]
      simp only
      rw [if_neg hc2, hp]
  | emptyObject w hw =>
    intro n hwf fuel d after hf hd ha
    cases hwf with
    | object n ms _ _ =>
      simp only [List.length_cons, List.length_append, List.length_nil] at hf
      obtain ⟨f, rfl⟩ := Nat.exists_eq_succ_of_ne_zero (by omega : fuel ≠ 0)
      have hd1 : ¬ d + 1 > json.maxNestingDepth := by omega
      have hsk : json.skipSpace (w ++ [0x7D] ++ after) = 0x7D :: after := by
        rw [List.append_assoc, skipSpace_ws _ _ hw]
        exact skipSpace_cons _ (by decide)
      rw [List.cons_append, json.parseValue]
      rw [if_pos (by decide), if_neg hd1, hsk]
      simp only
      rw [if_pos (by decide)]
  | object m ms w body hw hb ih =>
    intro n hwf fuel d after hf hd ha
    cases hwf with
    | object n ms hk hms =>
      simp only [List.length_cons, List.length_append, List.length_nil] at hf
      obtain ⟨f, rfl⟩ := Nat.exists_eq_succ_of_ne_zero (by omega : fuel ≠ 0)
      have hd1 : ¬ d + 1 > json.maxNestingDepth := by omega
      obtain ⟨c, l, hr, hc, hc2⟩ := text_members_head (hk m (List.mem_cons_self _ _)) hb
      have hp := ih n hk hms f (d + 1) after (by omega) (by omega)
      have hsk : json.skipSpace (w ++ (body ++ [0x7D]) ++ after) =
          c :: (l ++ 0x7D :: after) := by
        rw [List.append_assoc, skipSpace_ws _ _ hw, hr]
        simp only [List.cons_append, List.append_assoc, List.nil_append]
        exact skipSpace_cons _ hc
      rw [hr, List.cons_append] at hp
      rw [List.cons_append, json.parseValue]
      rw [if_pos (by decide), if_neg hd1, hsk]
      simp only
      rw [if_neg hc2, hp]
  | lastElem e dv w hv hw ih =>
    intro n hwf fuel d after hf hd
    simp only [List.length_append] at hf
    obtain ⟨f, rfl⟩ := Nat.exists_eq_succ_of_ne_zero (by omega : fuel ≠ 0)
    have hp := ih n (hwf e (List.mem_cons_self _ _)) f d (w ++ 0x5D :: after) (by omega) hd
      (EndsNumber_ws_cons w _ _ hw (by decide))
    have hsk : json.skipSpace (w ++ 0x5D :: after) = 0x5D :: after := by
      rw [skipSpace_ws _ _ hw]
      exact skipSpace_cons _ (by decide)
    rw [List.append_assoc, json.parseElems, hp]
    simp only
    rw [hsk]
    simp only
    rw [if_neg (by decide), if_pos (by decide)]
  | consElem e e₁ es dv w₁ w₂ body hv hw₁ hw₂ hb ihv ihb =>
    intro n hwf fuel d after hf hd
    simp only [List.length_append, List.length_cons] at hf
    obtain ⟨f, rfl⟩ := Nat.exists_eq_succ_of_ne_zero (by omega : fuel ≠ 0)
    have e1 : dv ++ (w₁ ++ 0x2C :: (w₂ ++ body)) ++ 0x5D :: after =
        dv ++ (w₁ ++ 0x2C :: (w₂ ++ (body ++ 0x5D :: after))) := by
      simp only [List.append_assoc, List.cons_append]
    have hp := ihv n (hwf e (List.mem_cons_self _ _)) f d
      (w₁ ++ 0x2C :: (w₂ ++ (body ++ 0x5D :: after))) (by omega) hd
      (EndsNumber_ws_cons w₁ _ _ hw₁ (by decide))
    obtain ⟨c, l, hr, hc, -⟩ :=
      text_elems_head (hwf e₁ (List.mem_cons_of_mem _ (List.mem_cons_self _ _))) hb
    have hsk1 : json.skipSpace (w₁ ++ 0x2C :: (w₂ ++ (body ++ 0x5D :: after))) =
        0x2C :: (w₂ ++ (body ++ 0x5D :: after)) := by
      rw [skipSpace_ws _ _ hw₁]
      exact skipSpace_cons _ (by decide)
    have hsk2 : json.skipSpace (w₂ ++ (body ++ 0x5D :: after)) = body ++ 0x5D :: after := by
      rw [skipSpace_ws _ _ hw₂, hr, List.cons_append]
      exact skipSpace_cons _ hc
    rw [e1, json.parseElems, hp]
    simp only
    rw [hsk1]
    simp only
    rw [if_pos (by decide), hsk2,
      ihb n (fun x hx => hwf x (List.mem_cons_of_mem _ hx)) f d after (by omega) hd]
  | lastMember k v w₁ w₂ dv w₃ hw₁ hw₂ hv hw₃ ih =>
    intro n hk hwf fuel d after hf hd
    simp only [List.length_append, List.length_cons] at hf
    obtain ⟨f, rfl⟩ := Nat.exists_eq_succ_of_ne_zero (by omega : fuel ≠ 0)
    have e1 : k ++ (w₁ ++ 0x3A :: (w₂ ++ (dv ++ w₃))) ++ 0x7D :: after =
        k ++ (w₁ ++ 0x3A :: (w₂ ++ (dv ++ (w₃ ++ 0x7D :: after)))) := by
      simp only [List.append_assoc, List.cons_append]
    have hv' : JSON.WF n v := hwf (k, v) (List.mem_cons_self _ _)
    rw [e1, parseMembers_member f d k v w₁ w₂ dv w₃ _ (hk (k, v) (List.mem_cons_self _ _)) hv'
      hw₁ hw₂ hw₃ hv
      (ih n hv' f d _ (by omega) hd (EndsNumber_ws_cons w₃ _ _ hw₃ (by decide)))]
    rw [skipSpace_cons _ (by decide)]
    simp only
    rw [if_neg (by decide), if_pos (by decide)]
  | consMember k v m ms w₁ w₂ dv w₃ w₄ body hw₁ hw₂ hv hw₃ hw₄ hb ihv ihb =>
    intro n hk hwf fuel d after hf hd
    simp only [List.length_append, List.length_cons] at hf
    obtain ⟨f, rfl⟩ := Nat.exists_eq_succ_of_ne_zero (by omega : fuel ≠ 0)
    have e1 : k ++ (w₁ ++ 0x3A :: (w₂ ++ (dv ++ (w₃ ++ 0x2C :: (w₄ ++ body))))) ++
        0x7D :: after =
        k ++ (w₁ ++ 0x3A :: (w₂ ++ (dv ++ (w₃ ++ 0x2C :: (w₄ ++ (body ++ 0x7D :: after)))))) := by
      simp only [List.append_assoc, List.cons_append]
    have hv' : JSON.WF n v := hwf (k, v) (List.mem_cons_self _ _)
    obtain ⟨c, l, hr, hc, -⟩ :=
      text_members_head (hk m (List.mem_cons_of_mem _ (List.mem_cons_self _ _))) hb
    have hsk : json.skipSpace (w₄ ++ (body ++ 0x7D :: after)) = body ++ 0x7D :: after := by
      rw [skipSpace_ws _ _ hw₄, hr, List.cons_append]
      exact skipSpace_cons _ hc
    rw [e1, parseMembers_member f d k v w₁ w₂ dv w₃ _ (hk (k, v) (List.mem_cons_self _ _)) hv'
      hw₁ hw₂ hw₃ hv
      (ihv n hv' f d _ (by omega) hd (EndsNumber_ws_cons w₃ _ _ hw₃ (by decide)))]
    rw [skipSpace_cons _ (by decide)]
    simp only
    rw [if_pos (by decide), hsk,
      ihb n (fun x hx => hk x (List.mem_cons_of_mem _ hx))
        (fun x hx => hwf x (List.mem_cons_of_mem _ hx)) f d after (by omega) hd]

/-- The scanner accepts every JSON text, and reads it as the value it is a text of. -/
theorem scan_text {n : Nat} {t : JSON} {data : List Byte} (h : rfc8259.JSONText n t data)
    (hn : n ≤ json.maxNestingDepth) : json.scan data = some t := by
  obtain ⟨hwf, ws₁, d, ws₂, h₁, ht, h₂, rfl⟩ := h
  obtain ⟨c, l, hr, hc, -⟩ := text_head hwf ht
  have hsk : json.skipSpace (ws₁ ++ (d ++ ws₂)) = d ++ ws₂ := by
    rw [skipSpace_ws _ _ h₁, hr, List.cons_append]
    exact skipSpace_cons _ hc
  have hp := parse_text ht
  simp only at hp
  unfold json.scan
  rw [hsk, hp n hwf _ 0 ws₂ (by simp only [List.length_append]; omega) (by omega)
    (EndsNumber_ws ws₂ h₂)]
  simp only
  rw [if_pos (skipSpace_ws_nil ws₂ h₂)]

mutual

/-- The text of a value without white space between its tokens is a text of it. -/
theorem Text_raw : ∀ (t : JSON), rfc8259.Text (rfc8259.Item.value t) t.raw
  | JSON.literal tok => by rw [JSON.raw]; exact .literal tok
  | JSON.array [] => by
    rw [JSON.raw, JSON.rawElems]
    exact .emptyArray [] Ws_nil
  | JSON.array (e :: es) => by
    rw [JSON.raw]
    exact .array e es [] _ Ws_nil (Text_rawElems (e :: es) (List.cons_ne_nil _ _))
  | JSON.object [] => by
    rw [JSON.raw, JSON.rawMembers]
    exact .emptyObject [] Ws_nil
  | JSON.object (m :: ms) => by
    rw [JSON.raw]
    exact .object m ms [] _ Ws_nil (Text_rawMembers (m :: ms) (List.cons_ne_nil _ _))

theorem Text_rawElems : ∀ (es : List JSON), es ≠ [] →
    rfc8259.Text (rfc8259.Item.elems es) (JSON.rawElems es)
  | [], h => absurd rfl h
  | [e], _ => by
    rw [JSON.rawElems]
    have := rfc8259.Text.lastElem e _ [] (Text_raw e) Ws_nil
    rw [List.append_nil] at this
    exact this
  | e :: e₁ :: es, _ => by
    rw [JSON.rawElems]
    exact .consElem e e₁ es _ [] [] _ (Text_raw e) Ws_nil Ws_nil
      (Text_rawElems (e₁ :: es) (List.cons_ne_nil _ _))

theorem Text_rawMembers : ∀ (ms : List (List Byte × JSON)), ms ≠ [] →
    rfc8259.Text (rfc8259.Item.members ms) (JSON.rawMembers ms)
  | [], h => absurd rfl h
  | [(k, v)], _ => by
    rw [JSON.rawMembers]
    have := rfc8259.Text.lastMember k v [] [] _ [] Ws_nil Ws_nil (Text_raw v) Ws_nil
    rw [List.append_nil] at this
    exact this
  | (k, v) :: m :: ms, _ => by
    rw [JSON.rawMembers]
    exact .consMember k v m ms [] [] _ [] [] _ Ws_nil Ws_nil (Text_raw v) Ws_nil Ws_nil
      (Text_rawMembers (m :: ms) (List.cons_ne_nil _ _))

end

/-- The text of a well-formed value without white space between its tokens, with white
space around it or not, is a JSON text of it. -/
theorem JSONText_raw {n : Nat} {t : JSON} (h : JSON.WF n t) (ws₁ ws₂ : List Byte)
    (h₁ : rfc8259.Ws ws₁) (h₂ : rfc8259.Ws ws₂) :
    rfc8259.JSONText n t (ws₁ ++ (t.raw ++ ws₂)) :=
  ⟨h, ws₁, t.raw, ws₂, h₁, Text_raw t, h₂, rfl⟩

theorem scan_raw {n : Nat} {t : JSON} (h : JSON.WF n t) (hn : n ≤ json.maxNestingDepth)
    (ws₁ ws₂ : List Byte) (h₁ : rfc8259.Ws ws₁) (h₂ : rfc8259.Ws ws₂) :
    json.scan (ws₁ ++ (t.raw ++ ws₂)) = some t :=
  scan_text (JSONText_raw h ws₁ ws₂ h₁ h₂) hn

/-! ## The finish reason: the inputs that `UnmarshalJSON` accepts -/

theorem isHex_iff_hexDigit (c : Byte) :
    json.isHex c = true ↔ (rfc8259.hexDigit c).isSome = true := by
  unfold json.isHex rfc8259.hexDigit
  simp only [Bool.or_eq_true, Bool.and_eq_true, decide_eq_true_eq]
  constructor
  · intro h
    split
    · rfl
    · split
      · rfl
      · split
        · rfl
        · omega
  · intro h
    split at h
    · omega
    · split at h
      · omega
      · split at h
        · omega
        · simp at h

/-- The string literals that the scanner accepts are those of the rule `*char` of RFC 8259
read on bytes. -/
theorem Chars_iff_Scanned (body : List Byte) : rfc8259.Chars body ↔ json.Scanned body := by
  constructor
  · intro h
    induction h with
    | nil => exact .nil
    | unescaped c l h1 h2 h3 _ ih => exact .plain c l h1 h2 h3 ih
    | escape c e l h1 h2 _ ih => exact .escape c e l h1 h2 ih
    | escapeU c e g1 g2 g3 g4 l h1 h2 hh _ ih =>
      exact .escapeU c e g1 g2 g3 g4 l h1 h2
        ⟨(isHex_iff_hexDigit _).2 hh.1, (isHex_iff_hexDigit _).2 hh.2.1,
          (isHex_iff_hexDigit _).2 hh.2.2.1, (isHex_iff_hexDigit _).2 hh.2.2.2⟩ ih
  · intro h
    induction h with
    | nil => exact .nil
    | plain c l h1 h2 h3 _ ih => exact .unescaped c l h1 h2 h3 ih
    | escape c e l h1 h2 _ ih => exact .escape c e l h1 h2 ih
    | escapeU c e g1 g2 g3 g4 l h1 h2 hh _ ih =>
      exact .escapeU c e g1 g2 g3 g4 l h1 h2
        ⟨(isHex_iff_hexDigit _).1 hh.1, (isHex_iff_hexDigit _).1 hh.2.1,
          (isHex_iff_hexDigit _).1 hh.2.2.1, (isHex_iff_hexDigit _).1 hh.2.2.2⟩ ih

theorem byte_eq_of_val {c d : Byte} (h : c.val = d.val) : c = d := Fin.ext h

/-- The scanner accepts every string literal of the rule `*char` read on bytes. -/
theorem scanString_chars {body : List Byte} (h : rfc8259.Chars body) (rest : List Byte) :
    json.scanString (body.length + 1) (body ++ 0x22 :: rest) = some (body, rest) := by
  induction h with
  | nil => exact scanString_quote _ rest
  | unescaped c l h1 h2 h3 _ ih => exact scanString_plain _ c _ _ _ ⟨h1, h2, h3⟩ ih
  | escape c e l h1 h2 _ ih =>
    have ec : c = 0x5C := byte_eq_of_val h1
    subst ec
    exact scanString_escape _ e _ _ _ h2 (scanString_mono _ _ _ _ ih)
  | escapeU c e g1 g2 g3 g4 l h1 h2 hh _ ih =>
    have ec : c = 0x5C := byte_eq_of_val h1
    have ee : e = 0x75 := byte_eq_of_val h2
    subst ec ee
    exact scanString_escapeU _ g1 g2 g3 g4 _ _ _
      ⟨(isHex_iff_hexDigit _).2 hh.1, (isHex_iff_hexDigit _).2 hh.2.1,
        (isHex_iff_hexDigit _).2 hh.2.2.1, (isHex_iff_hexDigit _).2 hh.2.2.2⟩
      (scanString_mono_le (by simp) ih)

theorem scanString_chars_rest {body : List Byte} (h : rfc8259.Chars body) (A : List Byte) :
    json.scanString (body ++ 0x22 :: A).length (body ++ 0x22 :: A) = some (body, A) :=
  scanString_mono_le (by simp only [List.length_append, List.length_cons]; omega)
    (scanString_chars h A)

/-- What the scanner has read when it accepts a string literal: the body, the closing
quote, and what it hands back. -/
theorem scanString_input : ∀ (fuel : Nat) (l body after : List Byte),
    json.scanString fuel l = some (body, after) → l = body ++ 0x22 :: after := by
  intro fuel
  induction fuel with
  | zero => intro l body after h; simp [json.scanString] at h
  | succ n ih =>
    intro l body after h
    cases l with
    | nil => simp [json.scanString] at h
    | cons c rest =>
      rw [json.scanString.eq_def] at h
      simp only at h
      by_cases h1 : c.val = 0x22
      · rw [if_pos h1] at h
        simp only [Option.some.injEq, Prod.mk.injEq] at h
        rw [← h.1, ← h.2, (byte_eq_of_val h1 : c = 0x22)]
        rfl
      · rw [if_neg h1] at h
        by_cases h2 : c.val = 0x5C
        · rw [if_pos h2] at h
          cases rest with
          | nil => simp at h
          | cons e rest₁ =>
            simp only at h
            by_cases h3 : e.val = 0x62 ∨ e.val = 0x66 ∨ e.val = 0x6E ∨ e.val = 0x72 ∨
                e.val = 0x74 ∨ e.val = 0x5C ∨ e.val = 0x2F ∨ e.val = 0x22
            · rw [if_pos h3] at h
              cases hr : json.scanString n rest₁ with
              | none => simp [hr] at h
              | some r =>
                obtain ⟨body', after'⟩ := r
                simp only [hr, Option.some.injEq, Prod.mk.injEq] at h
                rw [← h.1, ← h.2, ih _ _ _ hr]
                rfl
            · rw [if_neg h3] at h
              by_cases h4 : e.val = 0x75
              · rw [if_pos h4] at h
                by_cases h5 : 4 ≤ rest₁.length ∧ (rest₁.take 4).all json.isHex = true
                · rw [if_pos h5] at h
                  cases hr : json.scanString n (rest₁.drop 4) with
                  | none => simp [hr] at h
                  | some r =>
                    obtain ⟨body', after'⟩ := r
                    simp only [hr, Option.some.injEq, Prod.mk.injEq] at h
                    rw [← h.1, ← h.2]
                    have e1 := ih _ _ _ hr
                    have e2 : rest₁ = rest₁.take 4 ++ rest₁.drop 4 :=
                      (List.take_append_drop 4 rest₁).symm
                    rw [e1] at e2
                    simp only [List.cons_append, List.append_assoc]
                    exact congrArg (fun x => c :: e :: x) e2
                · rw [if_neg h5] at h
                  simp at h
              · rw [if_neg h4] at h
                simp at h
        · rw [if_neg h2] at h
          by_cases h3 : c.val < 0x20
          · rw [if_pos h3] at h
            simp at h
          · rw [if_neg h3] at h
            cases hr : json.scanString n rest with
            | none => simp [hr] at h
            | some r =>
              obtain ⟨body', after'⟩ := r
              simp only [hr, Option.some.injEq, Prod.mk.injEq] at h
              rw [← h.1, ← h.2, ih _ _ _ hr]
              rfl

theorem isSpace_Ws {b : Byte} (h : json.isSpace b = true) :
    b.val = 0x20 ∨ b.val = 0x09 ∨ b.val = 0x0A ∨ b.val = 0x0D := by
  unfold json.isSpace at h
  simp only [Bool.or_eq_true, decide_eq_true_eq] at h
  omega

/-- An input is white space followed by what is left when the white space is skipped, and
what is left does not start with white space. -/
theorem skipSpace_split : ∀ (data : List Byte),
    ∃ ws, rfc8259.Ws ws ∧ data = ws ++ json.skipSpace data ∧
      ∀ c l, json.skipSpace data = c :: l → json.isSpace c = false := by
  intro data
  induction data with
  | nil => exact ⟨[], fun b hb => by simp at hb, rfl, fun c l h => by simp [json.skipSpace] at h⟩
  | cons b data ih =>
    by_cases hb : json.isSpace b = true
    · obtain ⟨ws, h1, h2, h3⟩ := ih
      have e : json.skipSpace (b :: data) = json.skipSpace data := by
        rw [json.skipSpace.eq_def]
        simp only
        rw [if_pos hb]
      refine ⟨b :: ws, ?_, ?_, ?_⟩
      · intro x hx
        rcases List.mem_cons.1 hx with rfl | hx
        · exact isSpace_Ws hb
        · exact h1 x hx
      · rw [e, List.cons_append, ← h2]
      · rw [e]
        exact h3
    · have hb' : json.isSpace b = false := by
        cases h : json.isSpace b with
        | false => rfl
        | true => exact absurd h hb
      refine ⟨[], fun x hx => by simp at hx, ?_, ?_⟩
      · rw [skipSpace_cons _ hb']
        rfl
      · rw [skipSpace_cons _ hb']
        intro c l h
        simp only [List.cons.injEq] at h
        rw [← h.1]
        exact hb'

theorem Ws_of_skipSpace_nil (l : List Byte) (h : json.skipSpace l = []) : rfc8259.Ws l := by
  obtain ⟨ws, h1, h2, -⟩ := skipSpace_split l
  rw [h, List.append_nil] at h2
  rw [h2]
  exact h1

theorem scanWord_input (word input item after : List Byte)
    (h : json.scanWord word input = some (item, after)) : input = word ++ after := by
  unfold json.scanWord at h
  by_cases hp : word.isPrefixOf input = true
  · rw [if_pos hp] at h
    simp only [Option.some.injEq, Prod.mk.injEq] at h
    rw [← h.2]
    obtain ⟨t, rfl⟩ := List.isPrefixOf_iff_prefix.1 hp
    rw [List.drop_left]
  · rw [if_neg hp] at h
    simp at h

/-- An input that the scanner accepts is white space, a value that does not start with
white space, and white space. -/
theorem scan_parts {data : List Byte} {t : JSON} (h : json.scan data = some t) :
    ∃ ws₁ c l ws₂, rfc8259.Ws ws₁ ∧ rfc8259.Ws ws₂ ∧ json.isSpace c = false ∧
      data = ws₁ ++ c :: l ∧
      json.parseValue (2 * data.length + 1 + 1) 0 (c :: l) = some (t, ws₂) := by
  unfold json.scan at h
  split at h
  · simp at h
  · rename_i t' r hp
    split at h
    · rename_i hr
      simp only [Option.some.injEq] at h
      subst h
      obtain ⟨ws₁, h1, h2, h3⟩ := skipSpace_split data
      cases hsk : json.skipSpace data with
      | nil =>
        rw [hsk, json.parseValue] at hp
        simp at hp
      | cons c l =>
        rw [hsk] at hp h2
        exact ⟨ws₁, c, l, r, h1, Ws_of_skipSpace_nil r hr, h3 c l hsk, h2, hp⟩
    · simp at h

theorem literalKind_null_iff (c : Byte) (l : List Byte) :
    json.literalKind (c :: l) = json.LiteralKind.null ↔ c.val = 0x6E := by
  unfold json.literalKind
  simp only
  constructor
  · intro h
    by_contra hc
    split_ifs at h
  · intro h
    rw [if_pos h]

/-- The inputs that the scanner accepts as one string: a string literal of the rule
`*char` read on bytes, with white space around it or not. -/
theorem scan_string_input {data : List Byte} {t : JSON} (h : json.scan data = some t)
    (ht : t.isString = true) :
    ∃ ws₁ body ws₂, rfc8259.Ws ws₁ ∧ rfc8259.Ws ws₂ ∧ rfc8259.Chars body ∧
      data = ws₁ ++ (0x22 :: (body ++ [0x22]) ++ ws₂) := by
  obtain ⟨ws₁, c, l, ws₂, h1, h2, hc, hd, hp⟩ := scan_parts h
  by_cases hq : c.val = 0x22
  · rw [json.parseValue] at hp
    rw [if_neg (by omega), if_neg (by omega), if_pos hq] at hp
    cases hs : json.scanString l.length l with
    | none => simp [hs] at hp
    | some r' =>
      obtain ⟨body, after⟩ := r'
      simp only [hs, Option.some.injEq, Prod.mk.injEq] at hp
      refine ⟨ws₁, body, ws₂, h1, h2, (Chars_iff_Scanned body).2 (scanString_scanned _ _ _ _ hs), ?_⟩
      rw [hd, scanString_input _ _ _ _ hs, hp.2, (byte_eq_of_val hq : c = 0x22)]
      simp only [List.cons_append, List.append_assoc, List.nil_append]
  · exfalso
    by_cases h2 : c.val = 0x6E
    · rw [json.parseValue] at hp
      rw [if_neg (by omega), if_neg (by omega), if_neg (by omega), if_neg (by omega),
        if_neg (by omega), if_pos h2] at hp
      split at hp
      · simp at hp
      · rename_i item after hw
        simp only [Option.some.injEq, Prod.mk.injEq] at hp
        rw [← hp.1, scanWord_item _ _ _ _ hw] at ht
        revert ht
        decide
    · rcases parseValue_no_string _ _ c l ws₂ t hp hq h2 with ha | ho | ⟨c', l', rfl, g1, g2⟩
      · cases t <;> simp [JSON.isArray, JSON.isString] at ha ht
      · cases t <;> simp [JSON.isObject, JSON.isString] at ho ht
      · simp only [JSON.isString, beq_iff_eq] at ht
        exact g1 ((literalKind_string_iff c' l').1 ht)

/-- The inputs that the scanner accepts as `null`: the word `null`, with white space around
it or not. -/
theorem scan_null_input {data : List Byte} {t : JSON} (h : json.scan data = some t)
    (ht : t.isNull = true) :
    ∃ ws₁ ws₂, rfc8259.Ws ws₁ ∧ rfc8259.Ws ws₂ ∧ data = ws₁ ++ (str "null" ++ ws₂) := by
  obtain ⟨ws₁, c, l, ws₂, h1, h2, hc, hd, hp⟩ := scan_parts h
  by_cases hn : c.val = 0x6E
  · rw [json.parseValue] at hp
    rw [if_neg (by omega), if_neg (by omega), if_neg (by omega), if_neg (by omega),
      if_neg (by omega), if_pos hn] at hp
    split at hp
    · simp at hp
    · rename_i item after hw
      simp only [Option.some.injEq, Prod.mk.injEq] at hp
      refine ⟨ws₁, ws₂, h1, h2, ?_⟩
      rw [hd, scanWord_input _ _ _ _ hw, hp.2]
      rfl
  · exfalso
    by_cases hq : c.val = 0x22
    · rw [json.parseValue] at hp
      rw [if_neg (by omega), if_neg (by omega), if_pos hq] at hp
      cases hs : json.scanString l.length l with
      | none => simp [hs] at hp
      | some r' =>
        obtain ⟨body, after⟩ := r'
        simp only [hs, Option.some.injEq, Prod.mk.injEq] at hp
        rw [← hp.1] at ht
        simp only [JSON.isNull, beq_iff_eq] at ht
        exact hn ((literalKind_null_iff c _).1 ht)
    · rcases parseValue_no_string _ _ c l ws₂ t hp hq hn with ha | ho | ⟨c', l', rfl, g1, g2⟩
      · cases t <;> simp [JSON.isArray, JSON.isNull] at ha ht
      · cases t <;> simp [JSON.isObject, JSON.isNull] at ho ht
      · simp only [JSON.isNull, beq_iff_eq] at ht
        exact g2 ((literalKind_null_iff c' l').1 ht)

/-- The scanner accepts a string literal of the rule `*char` read on bytes, with white
space around it or not. -/
theorem scan_chars {body : List Byte} (hb : rfc8259.Chars body) (ws₁ ws₂ : List Byte)
    (h₁ : rfc8259.Ws ws₁) (h₂ : rfc8259.Ws ws₂) :
    json.scan (ws₁ ++ (0x22 :: (body ++ [0x22]) ++ ws₂)) =
      some (JSON.literal (0x22 :: (body ++ [0x22]))) := by
  have e1 : (0x22 :: (body ++ [0x22]) : List Byte) ++ ws₂ = 0x22 :: (body ++ 0x22 :: ws₂) := by
    simp only [List.cons_append, List.append_assoc, List.nil_append]
  have hsk : json.skipSpace (ws₁ ++ (0x22 :: (body ++ [0x22]) ++ ws₂)) =
      0x22 :: (body ++ 0x22 :: ws₂) := by
    rw [skipSpace_ws _ _ h₁, e1]
    exact skipSpace_cons _ (by decide)
  unfold json.scan
  rw [hsk, parseValue_quote _ 0 _ body ws₂ (scanString_chars_rest hb ws₂)]
  simp only
  rw [if_pos (skipSpace_ws_nil ws₂ h₂)]

/-- What a well-formed value is, by its text: a string token, `null`, or a value whose text
starts with a byte other than the quote and `n`, on which a target of kind `string` is a
type error. -/
theorem WF_kind {n : Nat} {t : JSON} (h : JSON.WF n t) :
    (∃ s, rfc8259.StringToken t.raw s) ∨ t.raw = str "null" ∨
      ((∃ c l, t.raw = c :: l ∧ json.isSpace c = false ∧ c.val ≠ 0x22 ∧ c.val ≠ 0x6E) ∧
        ∀ v saved, json.storeString t v saved = json.typeError v saved) := by
  cases h with
  | string _ tok s hs => exact Or.inl ⟨s, by rw [JSON.raw]; exact hs⟩
  | number _ tok hn =>
    obtain ⟨c, l, rfl, hc⟩ := Number_head hn
    refine Or.inr (Or.inr ⟨⟨c, l, by rw [JSON.raw], ?_, by omega, by omega⟩, ?_⟩)
    · unfold json.isSpace
      simp only [Bool.or_eq_false_iff, decide_eq_false_iff_not]
      omega
    · intro v saved
      have hk : json.literalKind (c :: l) = json.LiteralKind.number := by
        unfold json.literalKind
        simp only
        rw [if_neg (by omega), if_neg (by omega), if_neg (by omega), if_pos hc]
      unfold json.storeString
      simp only [hk]
  | true _ =>
    exact Or.inr (Or.inr ⟨⟨0x74, _, by rw [JSON.raw], by decide, by decide, by decide⟩,
      fun v saved => rfl⟩)
  | false _ =>
    exact Or.inr (Or.inr ⟨⟨0x66, _, by rw [JSON.raw], by decide, by decide, by decide⟩,
      fun v saved => rfl⟩)
  | null _ => exact Or.inr (Or.inl (by rw [JSON.raw]; rfl))
  | array n es _ =>
    exact Or.inr (Or.inr ⟨⟨0x5B, _, by rw [JSON.raw], by decide, by decide, by decide⟩,
      fun v saved => rfl⟩)
  | object n ms _ _ =>
    exact Or.inr (Or.inr ⟨⟨0x7B, _, by rw [JSON.raw], by decide, by decide, by decide⟩,
      fun v saved => rfl⟩)

theorem UnmarshalJSON_typeError (cfr : chatCompletionFinishReason) {data : List Byte} {t : JSON}
    (h : json.scan data = some t)
    (ht : ∀ v saved, json.storeString t v saved = json.typeError v saved) :
    cfr.UnmarshalJSON data = (cfr, some GoError.UnmarshalTypeError) := by
  unfold chatCompletionFinishReason.UnmarshalJSON json.Unmarshal
  rw [h]
  simp only [ht, json.typeError, json.saveError]

theorem UnmarshalJSON_receiver (cfr : chatCompletionFinishReason) (data : List Byte)
    (h : (cfr.UnmarshalJSON data).2 ≠ none) : (cfr.UnmarshalJSON data).1 = cfr := by
  unfold chatCompletionFinishReason.UnmarshalJSON at h ⊢
  cases hr : json.Unmarshal json.storeString data [] with
  | mk value err =>
    rw [hr] at h
    cases err with
    | none => exact absurd rfl h
    | some e => rfl

theorem scan_null_ws (ws₁ ws₂ : List Byte) (h₁ : rfc8259.Ws ws₁) (h₂ : rfc8259.Ws ws₂) :
    json.scan (ws₁ ++ (str "null" ++ ws₂)) = some (JSON.literal (str "null")) :=
  scan_raw (JSON.WF.null 0) (Nat.zero_le _) ws₁ ws₂ h₁ h₂

/-- The inputs on which `UnmarshalJSON` returns no error. -/
theorem UnmarshalJSON_ok_iff (cfr : chatCompletionFinishReason) (data : List Byte) :
    (cfr.UnmarshalJSON data).2 = none ↔
      (∃ ws₁ body ws₂, rfc8259.Ws ws₁ ∧ rfc8259.Ws ws₂ ∧ rfc8259.Chars body ∧
        data = ws₁ ++ (0x22 :: (body ++ [0x22]) ++ ws₂)) ∨
      (∃ ws₁ ws₂, rfc8259.Ws ws₁ ∧ rfc8259.Ws ws₂ ∧ data = ws₁ ++ (str "null" ++ ws₂)) := by
  constructor
  · intro hok
    cases hs : json.scan data with
    | none =>
      rw [UnmarshalJSON_syntax_error cfr hs] at hok
      simp at hok
    | some t =>
      cases h1 : t.isString with
      | true => exact Or.inl (scan_string_input hs h1)
      | false =>
        cases h2 : t.isNull with
        | true => exact Or.inr (scan_null_input hs h2)
        | false => exact absurd hok (UnmarshalJSON_no_string cfr hs h1 h2).2
  · rintro (⟨ws₁, body, ws₂, h1, h2, hb, rfl⟩ | ⟨ws₁, ws₂, h1, h2, rfl⟩)
    · obtain ⟨s, he⟩ := UnmarshalJSON_scanned_string cfr (scan_chars hb ws₁ ws₂ h1 h2)
        (by simp only [JSON.isString, literalKind_quote, beq_self_eq_true])
      rw [he]
    · rw [UnmarshalJSON_null cfr (scan_null_ws ws₁ ws₂ h1 h2) (by decide)]

theorem UnmarshalJSON_token_ws (cfr : chatCompletionFinishReason) {tok : List Byte}
    {s : GoString} (h : rfc8259.StringToken tok s) (ws₁ ws₂ : List Byte)
    (h₁ : rfc8259.Ws ws₁) (h₂ : rfc8259.Ws ws₂) :
    cfr.UnmarshalJSON (ws₁ ++ (tok ++ ws₂)) = ({ Value := s }, none) := by
  have hs := scan_raw (JSON.WF.string 0 tok s h) (Nat.zero_le _) ws₁ ws₂ h₁ h₂
  rw [JSON.raw] at hs
  cases h with
  | mk body s hb =>
    unfold chatCompletionFinishReason.UnmarshalJSON json.Unmarshal
    rw [hs]
    simp only [storeString_token hb]

/-- The first byte of a text of a value is the first byte of its text without white
space. -/
theorem text_first {t : JSON} {d : List Byte} (ht : rfc8259.Text (rfc8259.Item.value t) d) :
    d.head? = t.raw.head? := by
  cases ht with
  | literal tok => rw [JSON.raw]
  | emptyArray w _ => rw [JSON.raw]; rfl
  | array e es w body _ _ => rw [JSON.raw]; rfl
  | emptyObject w _ => rw [JSON.raw]; rfl
  | object m ms w body _ _ => rw [JSON.raw]; rfl

/-- A JSON text of a value that is not a string and not `null`: `UnmarshalJSON` returns an
error and leaves the receiver as it was. -/
theorem UnmarshalJSON_other (cfr : chatCompletionFinishReason) {n : Nat} {t : JSON}
    {data : List Byte} (h : rfc8259.JSONText n t data)
    (hs : ∀ s, ¬ rfc8259.StringToken t.raw s) (hn : t.raw ≠ str "null") :
    (cfr.UnmarshalJSON data).1 = cfr ∧ (cfr.UnmarshalJSON data).2 ≠ none ∧
    (n ≤ json.maxNestingDepth →
      cfr.UnmarshalJSON data = (cfr, some GoError.UnmarshalTypeError)) := by
  have hj := h
  obtain ⟨hwf, ws₁, d, ws₂, h₁, ht, h₂, rfl⟩ := h
  rcases WF_kind hwf with ⟨s, h1⟩ | h1 | ⟨⟨c, l, hr, hc, hq, hnn⟩, hte⟩
  · exact absurd h1 (hs s)
  · exact absurd h1 hn
  · have hne : (cfr.UnmarshalJSON (ws₁ ++ (d ++ ws₂))).2 ≠ none := by
      intro hok
      have hd : ∃ l₁, d = c :: l₁ := by
        have hf := text_first ht
        rw [hr] at hf
        cases d with
        | nil => simp at hf
        | cons c₁ l₁ =>
          simp only [List.head?_cons, Option.some.injEq] at hf
          exact ⟨l₁, by rw [hf]⟩
      obtain ⟨l₁, rfl⟩ := hd
      have hsk : json.skipSpace (ws₁ ++ (c :: l₁ ++ ws₂)) = c :: (l₁ ++ ws₂) := by
        rw [skipSpace_ws _ _ h₁, List.cons_append]
        exact skipSpace_cons _ hc
      rcases (UnmarshalJSON_ok_iff cfr _).1 hok with ⟨w₁, body, w₂, g1, g2, -, e⟩ |
        ⟨w₁, w₂, g1, g2, e⟩
      · rw [e, skipSpace_ws _ _ g1, List.cons_append, skipSpace_cons _ (by decide)] at hsk
        simp only [List.cons.injEq] at hsk
        rw [← hsk.1] at hq
        exact hq rfl
      · have e2 : str "null" ++ w₂ = 0x6E :: ([0x75, 0x6C, 0x6C] ++ w₂) := rfl
        rw [e, skipSpace_ws _ _ g1, e2, skipSpace_cons _ (by decide)] at hsk
        simp only [List.cons.injEq] at hsk
        rw [← hsk.1] at hnn
        exact hnn rfl
    exact ⟨UnmarshalJSON_receiver cfr _ hne, hne,
      fun hd => UnmarshalJSON_typeError cfr (scan_text hj hd) hte⟩

theorem StringBody_head {body : List Byte} {s : GoString} (h : rfc8259.StringBody body s) :
    ∀ c l, body = c :: l → c.val < 0xF5 := by
  intro c l e
  cases h with
  | nil => simp at e
  | ascii b t s hb _ =>
    simp only [List.cons.injEq] at e
    rw [← e.1]
    omega
  | utf8_2 b0 b1 t s hc _ =>
    simp only [List.cons.injEq] at e
    rw [← e.1]
    have := char2_bounds hc
    omega
  | utf8_3 b0 b1 b2 t s hc _ =>
    simp only [List.cons.injEq] at e
    rw [← e.1]
    have := char3_bounds hc
    omega
  | utf8_4 b0 b1 b2 b3 t s hc _ =>
    simp only [List.cons.injEq] at e
    rw [← e.1]
    have := char4_bounds hc
    omega
  | escape e' v t s he _ =>
    simp only [List.cons.injEq] at e
    rw [← e.1]
    decide
  | escapeU h1 h2 h3 h4 c' t s hh _ _ =>
    simp only [List.cons.injEq] at e
    rw [← e.1]
    decide
  | escapePair h1 h2 h3 h4 l1 l2 l3 l4 hi lo t s hhi hlo _ _ =>
    simp only [List.cons.injEq] at e
    rw [← e.1]
    decide

/-- No string token starts, after its quote, with a byte from `0xF5` on: no UTF-8 character
starts with one. -/
theorem StringToken_head {tok : List Byte} {s : GoString} (h : rfc8259.StringToken tok s) :
    ∀ q c l, tok = q :: c :: l → c.val < 0xF5 ∨ l = [] := by
  intro q c l e
  cases h with
  | mk body s hb =>
    simp only [List.cons.injEq] at e
    cases body with
    | nil =>
      simp only [List.nil_append, List.cons.injEq] at e
      exact Or.inr e.2.2.symm
    | cons b t =>
      simp only [List.cons_append, List.cons.injEq] at e
      exact Or.inl (by rw [← e.2.1]; exact StringBody_head hb b t rfl)

/-- The characters of a string token are characters of the rule `*char` read on bytes. -/
theorem Chars_of_StringBody {body : List Byte} {s : GoString}
    (h : rfc8259.StringBody body s) : rfc8259.Chars body := by
  induction h with
  | nil => exact .nil
  | ascii b t s hb _ ih => exact .unescaped b t hb.2.2.1 hb.2.2.2 hb.1 ih
  | utf8_2 b0 b1 t s hc _ ih =>
    obtain ⟨h1, h2, h3, h4⟩ := char2_bounds hc
    exact .unescaped b0 _ (by omega) (by omega) (by omega)
      (.unescaped b1 _ (by omega) (by omega) (by omega) ih)
  | utf8_3 b0 b1 b2 t s hc _ ih =>
    obtain ⟨h1, h2, h3⟩ := char3_bounds hc
    exact .unescaped b0 _ (by omega) (by omega) (by omega)
      (.unescaped b1 _ (by omega) (by omega) (by omega)
        (.unescaped b2 _ (by omega) (by omega) (by omega) ih))
  | utf8_4 b0 b1 b2 b3 t s hc _ ih =>
    obtain ⟨h1, h2, h3, h4⟩ := char4_bounds hc
    exact .unescaped b0 _ (by omega) (by omega) (by omega)
      (.unescaped b1 _ (by omega) (by omega) (by omega)
        (.unescaped b2 _ (by omega) (by omega) (by omega)
          (.unescaped b3 _ (by omega) (by omega) (by omega) ih)))
  | escape e v t s he _ ih =>
    refine .escape 0x5C e t rfl ?_ ih
    rcases simpleEscape_cases he with h | h | h | h | h | h | h | h <;> simp [h.1]
  | escapeU h1 h2 h3 h4 c t s hh _ _ ih =>
    obtain ⟨v1, v2, v3, v4, e1, e2, e3, e4, -⟩ := hex4_parts hh
    exact .escapeU 0x5C 0x75 h1 h2 h3 h4 t rfl rfl
      ⟨by rw [e1]; rfl, by rw [e2]; rfl, by rw [e3]; rfl, by rw [e4]; rfl⟩ ih
  | escapePair h1 h2 h3 h4 l1 l2 l3 l4 hi lo t s hhi hlo _ _ ih =>
    obtain ⟨v1, v2, v3, v4, e1, e2, e3, e4, -⟩ := hex4_parts hhi
    obtain ⟨w1, w2, w3, w4, f1, f2, f3, f4, -⟩ := hex4_parts hlo
    exact .escapeU 0x5C 0x75 h1 h2 h3 h4 _ rfl rfl
      ⟨by rw [e1]; rfl, by rw [e2]; rfl, by rw [e3]; rfl, by rw [e4]; rfl⟩
      (.escapeU 0x5C 0x75 l1 l2 l3 l4 t rfl rfl
        ⟨by rw [f1]; rfl, by rw [f2]; rfl, by rw [f3]; rfl, by rw [f4]; rfl⟩ ih)

theorem StringToken_chars {tok : List Byte} {s : GoString} (h : rfc8259.StringToken tok s) :
    ∃ body, rfc8259.Chars body ∧ tok = 0x22 :: (body ++ [0x22]) := by
  cases h with
  | mk body s hb => exact ⟨body, Chars_of_StringBody hb, rfl⟩

theorem StringToken_quote {tok : List Byte} {s : GoString} (h : rfc8259.StringToken tok s) :
    tok.head? = some 0x22 := by
  cases h with
  | mk body s hb => rfl

/-- C19, counterexample: the input `"\xff"`, a string literal whose one byte is not UTF-8,
is no JSON string token and is not `null`, and `UnmarshalJSON` returns no error on it: it
sets the receiver to the replacement character.  The same holds of the input ` null`, the
literal `null` after a space, on which the receiver is set to `{Value: ""}`. -/
theorem invalid_utf8_literal_is_accepted :
    (∀ s, ¬ rfc8259.StringToken [0x22, 0xFF, 0x22] s) ∧
    ([0x22, 0xFF, 0x22] : List Byte) ≠ str "null" ∧
    FinishReasonStop.UnmarshalJSON [0x22, 0xFF, 0x22] = ({ Value := [0xEF, 0xBF, 0xBD] }, none) ∧
    (∀ s, ¬ rfc8259.StringToken (str " null") s) ∧
    str " null" ≠ str "null" ∧
    FinishReasonStop.UnmarshalJSON (str " null") = ({ Value := str "" }, none) := by
  refine ⟨?_, by decide, by decide, ?_, by decide, by decide⟩
  · intro s h
    rcases StringToken_head h 0x22 0xFF [0x22] rfl with h1 | h1
    · exact absurd h1 (by decide)
    · exact absurd h1 (by decide)
  · intro s h
    exact absurd (StringToken_quote h) (by decide)

/-- C19: `UnmarshalJSON` returns no error exactly on the inputs that are, with JSON white
space around them or not, a string literal as the scanner of `encoding/json` reads it (a
quote, characters of the rule `*char` of RFC 8259 read on bytes, a quote) or the literal
`null`.  Every JSON string token is such a literal, and on it the receiver is set to the
string the token stands for.  On `null` the receiver is set to `{Value: ""}`, whatever it
held.  On every other well-formed JSON value (a number, `true`, `false`, an array, an
object) `UnmarshalJSON` returns an error, an `UnmarshalTypeError` when the value is nested
no deeper than the scanner allows, and leaves the receiver as it was; and whenever
`UnmarshalJSON` returns an error the receiver is as it was. -/
theorem UnmarshalJSON_succeeds_on_string_or_null (cfr : chatCompletionFinishReason) :
    (∀ data, (cfr.UnmarshalJSON data).2 = none ↔
      (∃ ws₁ body ws₂, rfc8259.Ws ws₁ ∧ rfc8259.Ws ws₂ ∧ rfc8259.Chars body ∧
        data = ws₁ ++ (0x22 :: (body ++ [0x22]) ++ ws₂)) ∨
      (∃ ws₁ ws₂, rfc8259.Ws ws₁ ∧ rfc8259.Ws ws₂ ∧ data = ws₁ ++ (str "null" ++ ws₂))) ∧
    (∀ tok s ws₁ ws₂, rfc8259.StringToken tok s → rfc8259.Ws ws₁ → rfc8259.Ws ws₂ →
      (∃ body, rfc8259.Chars body ∧ tok = 0x22 :: (body ++ [0x22])) ∧
      cfr.UnmarshalJSON (ws₁ ++ (tok ++ ws₂)) = ({ Value := s }, none)) ∧
    (∀ ws₁ ws₂, rfc8259.Ws ws₁ → rfc8259.Ws ws₂ →
      cfr.UnmarshalJSON (ws₁ ++ (str "null" ++ ws₂)) = ({ Value := str "" }, none)) ∧
    (∀ n t data, rfc8259.JSONText n t data →
      (∀ s, ¬ rfc8259.StringToken t.raw s) → t.raw ≠ str "null" →
      (cfr.UnmarshalJSON data).1 = cfr ∧ (cfr.UnmarshalJSON data).2 ≠ none ∧
      (n ≤ json.maxNestingDepth →
        cfr.UnmarshalJSON data = (cfr, some GoError.UnmarshalTypeError))) ∧
    (∀ data, (cfr.UnmarshalJSON data).2 ≠ none → (cfr.UnmarshalJSON data).1 = cfr) :=
  ⟨fun data => UnmarshalJSON_ok_iff cfr data,
   fun _ _ ws₁ ws₂ h h₁ h₂ => ⟨StringToken_chars h, UnmarshalJSON_token_ws cfr h ws₁ ws₂ h₁ h₂⟩,
   fun ws₁ ws₂ h₁ h₂ => UnmarshalJSON_null cfr (scan_null_ws ws₁ ws₂ h₁ h₂) (by decide),
   fun _ _ _ h hs hn => UnmarshalJSON_other cfr h hs hn,
   fun data h => UnmarshalJSON_receiver cfr data h⟩

theorem WF_stop : JSON.WF 0 (JSON.literal (str "\"stop\"")) :=
  JSON.WF.string 0 _ (str "stop") (rfc8259.StringToken.mk _ _ StringBody_stop)

theorem WF_array_stop : JSON.WF 1 (JSON.array [JSON.literal (str "\"stop\"")]) :=
  JSON.WF.array 0 _ (fun e he => by
    simp only [List.mem_singleton] at he
    rw [he]
    exact WF_stop)

/-- The input ` [ "stop" ]` and a line feed is a JSON text of the array of the one string
`"stop"`. -/
theorem JSONText_array_stop :
    rfc8259.JSONText 1 (JSON.array [JSON.literal (str "\"stop\"")])
      ([0x20] ++ (0x5B :: ([0x20] ++ ((str "\"stop\"" ++ [0x20]) ++ [0x5D])) ++ [0x0A])) :=
  ⟨WF_array_stop, [0x20], _, [0x0A], Ws_space,
    rfc8259.Text.array _ [] [0x20] _ Ws_space
      (rfc8259.Text.lastElem _ _ [0x20] (rfc8259.Text.literal _) Ws_space),
    Ws_newline, rfl⟩

set_option maxRecDepth 1000000 in
theorem UnmarshalJSON_succeeds_on_string_or_null_witness :
    ((FinishReasonStop.UnmarshalJSON (str " \"length\"\n")).2 = none ↔
      (∃ ws₁ body ws₂, rfc8259.Ws ws₁ ∧ rfc8259.Ws ws₂ ∧ rfc8259.Chars body ∧
        str " \"length\"\n" = ws₁ ++ (0x22 :: (body ++ [0x22]) ++ ws₂)) ∨
      (∃ ws₁ ws₂, rfc8259.Ws ws₁ ∧ rfc8259.Ws ws₂ ∧
        str " \"length\"\n" = ws₁ ++ (str "null" ++ ws₂))) ∧
    FinishReasonStop.UnmarshalJSON ([0x20] ++ (0x22 :: (str "length" ++ [0x22]) ++ [0x0A])) =
      (FinishReasonLength, none) ∧
    FinishReasonStop.UnmarshalJSON ([0x20] ++ (str "null" ++ [0x0A])) =
      ({ Value := str "" }, none) ∧
    str " [ \"stop\" ]\n" =
      [0x20] ++ (0x5B :: ([0x20] ++ ((str "\"stop\"" ++ [0x20]) ++ [0x5D])) ++ [0x0A]) ∧
    FinishReasonStop.UnmarshalJSON
        ([0x20] ++ (0x5B :: ([0x20] ++ ((str "\"stop\"" ++ [0x20]) ++ [0x5D])) ++ [0x0A])) =
      (FinishReasonStop, some GoError.UnmarshalTypeError) ∧
    FinishReasonStop.UnmarshalJSON (str "12") =
      (FinishReasonStop, some GoError.UnmarshalTypeError) ∧
    FinishReasonStop.UnmarshalJSON (str "true") =
      (FinishReasonStop, some GoError.UnmarshalTypeError) ∧
    FinishReasonStop.UnmarshalJSON (str "\x7b\"a\":null\x7d") =
      (FinishReasonStop, some GoError.UnmarshalTypeError) :=
  ⟨(UnmarshalJSON_succeeds_on_string_or_null FinishReasonStop).1 (str " \"length\"\n"),
   ((UnmarshalJSON_succeeds_on_string_or_null FinishReasonStop).2.1
     (0x22 :: (str "length" ++ [0x22])) (str "length") [0x20] [0x0A]
     (StringToken_plain (str "length") (by decide)) Ws_space Ws_newline).2,
   (UnmarshalJSON_succeeds_on_string_or_null FinishReasonStop).2.2.1 [0x20] [0x0A]
     Ws_space Ws_newline,
   by decide,
   ((UnmarshalJSON_succeeds_on_string_or_null FinishReasonStop).2.2.2.1 1
     (JSON.array [JSON.literal (str "\"stop\"")]) _ JSONText_array_stop
     (fun s h => absurd (StringToken_quote h) (by decide)) (by decide)).2.2 (by decide),
   by decide, by decide, by decide⟩

/-! ## Well-formed values: the examples -/

theorem WF_mono {n : Nat} {t : JSON} (h : JSON.WF n t) : ∀ m, n ≤ m → JSON.WF m t := by
  induction h with
  | string n tok s hs => intro m _; exact .string m tok s hs
  | number n tok hn => intro m _; exact .number m tok hn
  | true n => intro m _; exact .true m
  | false n => intro m _; exact .false m
  | null n => intro m _; exact .null m
  | array n es _ ih =>
    intro m hm
    obtain ⟨k, rfl⟩ := Nat.exists_eq_succ_of_ne_zero (by omega : m ≠ 0)
    exact .array k es (fun e he => ih e he k (by omega))
  | object n ms hk _ ih =>
    intro m hm
    obtain ⟨k, rfl⟩ := Nat.exists_eq_succ_of_ne_zero (by omega : m ≠ 0)
    exact .object k ms hk (fun e he => ih e he k (by omega))

theorem WF_plain (n : Nat) (s : GoString)
    (hs : ∀ b ∈ s, 0x20 ≤ b.val ∧ b.val < 0x80 ∧ b.val ≠ 0x22 ∧ b.val ≠ 0x5C) :
    JSON.WF n (JSON.literal (0x22 :: (s ++ [0x22]))) :=
  .string n _ s (StringToken_plain s hs)

/-- A digit from 1 to 9 followed by digits is a JSON number. -/
theorem Number_plain (d : Byte) (ds : List Byte) (hd : 0x31 ≤ d.val ∧ d.val ≤ 0x39)
    (hds : ∀ x ∈ ds, rfc8259.isDigit x = true) : rfc8259.Number (d :: ds) :=
  ⟨d :: ds, [], [], Or.inr ⟨d, ds, rfl, hd.1, hd.2, hds⟩, Or.inl rfl, Or.inl rfl,
    Or.inl (by simp)⟩

set_option maxRecDepth 1000000 in
theorem WF_exampleChoice (n : Nat) (reason : List Byte) (s : GoString)
    (h : rfc8259.StringToken reason s) : JSON.WF (n + 2) (exampleChoice reason) :=
  .object (n + 1) _
    (List.forall_mem_cons.2 ⟨⟨_, StringToken_plain (str "finish_reason") (by decide)⟩,
      List.forall_mem_cons.2 ⟨⟨_, StringToken_plain (str "message") (by decide)⟩,
        fun _ h => absurd h (List.not_mem_nil _)⟩⟩)
    (List.forall_mem_cons.2 ⟨.string _ _ s h,
      List.forall_mem_cons.2 ⟨.object n [] (fun _ h => absurd h (List.not_mem_nil _))
        (fun _ h => absurd h (List.not_mem_nil _)),
        fun _ h => absurd h (List.not_mem_nil _)⟩⟩)

set_option maxRecDepth 1000000 in
theorem exampleResponseMembers_keys (created : List Byte) (choices : List JSON) :
    ∀ m ∈ exampleResponseMembers created choices, ∃ s, rfc8259.StringToken m.1 s :=
  List.forall_mem_cons.2 ⟨⟨_, StringToken_plain (str "id") (by decide)⟩,
  List.forall_mem_cons.2 ⟨⟨_, StringToken_plain (str "object") (by decide)⟩,
  List.forall_mem_cons.2 ⟨⟨_, StringToken_plain (str "created") (by decide)⟩,
  List.forall_mem_cons.2 ⟨⟨_, StringToken_plain (str "model") (by decide)⟩,
  List.forall_mem_cons.2 ⟨⟨_, StringToken_plain (str "choices") (by decide)⟩,
  List.forall_mem_cons.2 ⟨⟨_, StringToken_plain (str "usage") (by decide)⟩,
    fun _ h => absurd h (List.not_mem_nil _)⟩⟩⟩⟩⟩⟩

set_option maxRecDepth 1000000 in
theorem exampleResponseMembers_values (n : Nat) (created : List Byte) (choices : List JSON)
    (hcr : rfc8259.Number created) (hch : ∀ e ∈ choices, JSON.WF (n + 2) e) :
    ∀ m ∈ exampleResponseMembers created choices, JSON.WF (n + 3) m.2 :=
  List.forall_mem_cons.2 ⟨WF_plain _ (str "abc") (by decide),
  List.forall_mem_cons.2 ⟨WF_plain _ (str "chat.completion") (by decide),
  List.forall_mem_cons.2 ⟨.number _ _ hcr,
  List.forall_mem_cons.2 ⟨WF_plain _ (str "gpt-x") (by decide),
  List.forall_mem_cons.2 ⟨.array (n + 2) _ hch,
  List.forall_mem_cons.2 ⟨.object (n + 2) _
    (List.forall_mem_cons.2 ⟨⟨_, StringToken_plain (str "prompt_tokens") (by decide)⟩,
      List.forall_mem_cons.2 ⟨⟨_, StringToken_plain (str "completion_tokens") (by decide)⟩,
      List.forall_mem_cons.2 ⟨⟨_, StringToken_plain (str "total_tokens") (by decide)⟩,
        fun _ h => absurd h (List.not_mem_nil _)⟩⟩⟩)
    (List.forall_mem_cons.2 ⟨.number _ _ (Number_plain 0x31 [0x30] (by decide) (by decide)),
      List.forall_mem_cons.2 ⟨.number _ _ (Number_plain 0x35 [] (by decide) (by decide)),
      List.forall_mem_cons.2 ⟨.number _ _ (Number_plain 0x31 [0x35] (by decide) (by decide)),
        fun _ h => absurd h (List.not_mem_nil _)⟩⟩⟩),
    fun _ h => absurd h (List.not_mem_nil _)⟩⟩⟩⟩⟩⟩

/-- The response objects of the examples are well formed. -/
theorem WF_exampleResponse (n : Nat) (created : List Byte) (choices : List JSON)
    (hcr : rfc8259.Number created) (hch : ∀ e ∈ choices, JSON.WF (n + 2) e) :
    JSON.WF (n + 4) (JSON.object (exampleResponseMembers created choices)) :=
  .object (n + 3) _ (exampleResponseMembers_keys created choices)
    (exampleResponseMembers_values n created choices hcr hch)

set_option maxRecDepth 1000000 in
theorem ChoiceObject_example (s : GoString)
    (hs : ∀ b ∈ s, 0x20 ≤ b.val ∧ b.val < 0x80 ∧ b.val ≠ 0x22 ∧ b.val ≠ 0x5C) :
    ChoiceObject MessageCodec.unit (exampleChoice (0x22 :: (s ++ [0x22]))) s :=
  ⟨_, rfl,
    List.forall_mem_cons.2
      ⟨⟨str "finish_reason", StringToken_plain (str "finish_reason") (by decide),
        fun _ => ⟨_, rfl, StringToken_plain s hs⟩,
        fun h => absurd h (by decide)⟩,
      List.forall_mem_cons.2
      ⟨⟨str "message", StringToken_plain (str "message") (by decide),
        fun h => absurd h (by decide), fun _ _ => rfl⟩,
      fun _ h => absurd h (List.not_mem_nil _)⟩⟩,
    rfl⟩

set_option maxRecDepth 1000000 in
/-- The members of the response objects of the examples have the shape of a response. -/
theorem exampleResponseMembers_shape (created : Int) (choices : List JSON)
    (reasons : List GoString)
    (hch : List.Forall₂ (ChoiceObject MessageCodec.unit) choices reasons) :
    ∀ m ∈ exampleResponseMembers (rfc8259.number created) choices,
      ResponseMember MessageCodec.unit (str "abc") (str "chat.completion") (str "gpt-x")
        created reasons 10 5 15 m :=
  List.forall_mem_cons.2
    ⟨⟨str "id", StringToken_plain (str "id") (by decide),
      fun _ => ⟨_, rfl, StringToken_plain (str "abc") (by decide)⟩,
      fun h => absurd h (by decide), fun h => absurd h (by decide),
      fun h => absurd h (by decide), fun h => absurd h (by decide),
      fun h => absurd h (by decide)⟩,
    List.forall_mem_cons.2
    ⟨⟨str "object", StringToken_plain (str "object") (by decide),
      fun h => absurd h (by decide), fun h => absurd h (by decide),
      fun h => absurd h (by decide), fun h => absurd h (by decide),
      fun h => absurd h (by decide),
      fun _ => ⟨_, rfl, StringToken_plain (str "chat.completion") (by decide)⟩⟩,
    List.forall_mem_cons.2
    ⟨⟨str "created", StringToken_plain (str "created") (by decide),
      fun h => absurd h (by decide), fun h => absurd h (by decide),
      fun h => absurd h (by decide), fun _ => rfl,
      fun h => absurd h (by decide), fun h => absurd h (by decide)⟩,
    List.forall_mem_cons.2
    ⟨⟨str "model", StringToken_plain (str "model") (by decide),
      fun h => absurd h (by decide), fun h => absurd h (by decide),
      fun h => absurd h (by decide), fun h => absurd h (by decide),
      fun _ => ⟨_, rfl, StringToken_plain (str "gpt-x") (by decide)⟩,
      fun h => absurd h (by decide)⟩,
    List.forall_mem_cons.2
    ⟨⟨str "choices", StringToken_plain (str "choices") (by decide),
      fun h => absurd h (by decide),
      fun _ => ⟨_, rfl, hch⟩,
      fun h => absurd h (by decide), fun h => absurd h (by decide),
      fun h => absurd h (by decide), fun h => absurd h (by decide)⟩,
    List.forall_mem_cons.2
    ⟨⟨str "usage", StringToken_plain (str "usage") (by decide),
      fun h => absurd h (by decide), fun h => absurd h (by decide),
      fun _ => ⟨_, rfl,
        List.forall_mem_cons.2
          ⟨⟨str "prompt_tokens", StringToken_plain (str "prompt_tokens") (by decide),
            fun _ => rfl, fun h => absurd h (by decide), fun h => absurd h (by decide)⟩,
          List.forall_mem_cons.2
          ⟨⟨str "completion_tokens", StringToken_plain (str "completion_tokens") (by decide),
            fun h => absurd h (by decide), fun _ => rfl, fun h => absurd h (by decide)⟩,
          List.forall_mem_cons.2
          ⟨⟨str "total_tokens", StringToken_plain (str "total_tokens") (by decide),
            fun h => absurd h (by decide), fun h => absurd h (by decide), fun _ => rfl⟩,
          fun _ h => absurd h (List.not_mem_nil _)⟩⟩⟩,
        by decide, by decide, by decide⟩,
      fun h => absurd h (by decide), fun h => absurd h (by decide),
      fun h => absurd h (by decide)⟩,
    fun _ h => absurd h (List.not_mem_nil _)⟩⟩⟩⟩⟩⟩

theorem exampleResponseMembers_complete (created : List Byte) (choices : List JSON) :
    ∀ i, i < 6 → json.omits responseFields i (exampleResponseMembers created choices) = false := by
  intro i hi
  have h : i = 0 ∨ i = 1 ∨ i = 2 ∨ i = 3 ∨ i = 4 ∨ i = 5 := by omega
  rcases h with rfl | rfl | rfl | rfl | rfl | rfl <;> rfl

/-! ## Values nested deeper than the scanner allows -/

theorem exampleNested_raw (k : Nat) : ∃ l, (exampleNested k).raw = 0x5B :: l := by
  cases k with
  | zero => exact ⟨_, by rw [exampleNested, JSON.raw]⟩
  | succ k => exact ⟨_, by rw [exampleNested, JSON.raw]⟩

theorem WF_exampleNested : ∀ (k : Nat), JSON.WF (k + 1) (exampleNested k)
  | 0 => by
    rw [exampleNested]
    exact .array 0 [] (fun _ h => absurd h (List.not_mem_nil _))
  | k + 1 => by
    rw [exampleNested]
    exact .array (k + 1) _ (fun e he => by
      simp only [List.mem_singleton] at he
      rw [he]
      exact WF_exampleNested k)

/-- The scanner rejects arrays in one another once more of them are open than it allows. -/
theorem parseValue_deep : ∀ (k fuel d : Nat) (X : List Byte),
    json.maxNestingDepth < d + (k + 1) →
    json.parseValue fuel d ((exampleNested k).raw ++ X) = none := by
  intro k
  induction k with
  | zero =>
    intro fuel d X hd
    cases fuel with
    | zero => rw [json.parseValue]
    | succ f =>
      rw [exampleNested, JSON.raw, List.cons_append, json.parseValue]
      rw [if_neg (by decide), if_pos (by decide), if_pos (by omega)]
  | succ k ih =>
    intro fuel d X hd
    cases fuel with
    | zero => rw [json.parseValue]
    | succ f =>
      obtain ⟨l, hl⟩ := exampleNested_raw k
      have e1 : (exampleNested (k + 1)).raw ++ X =
          0x5B :: ((exampleNested k).raw ++ (0x5D :: X)) := by
        rw [exampleNested, JSON.raw, JSON.rawElems]
        simp only [List.cons_append, List.append_assoc, List.nil_append]
      rw [e1, json.parseValue]
      rw [if_neg (by decide), if_pos (by decide)]
      by_cases hd1 : d + 1 > json.maxNestingDepth
      · rw [if_pos hd1]
      · rw [if_neg hd1]
        have hsk : json.skipSpace ((exampleNested k).raw ++ 0x5D :: X) =
            0x5B :: (l ++ 0x5D :: X) := by
          rw [hl, List.cons_append]
          exact skipSpace_cons _ (by decide)
        rw [hsk]
        simp only
        rw [if_neg (by decide)]
        cases f with
        | zero => rw [json.parseElems]
        | succ f₁ =>
          have := ih f₁ (d + 1) (0x5D :: X) (by omega)
          rw [hl, List.cons_append] at this
          rw [json.parseElems, this]

set_option maxRecDepth 100000 in
/-- The scanner rejects the text of an object whose first member is `"x"` with a value that
it rejects. -/
theorem scan_first_member_rejected (v : JSON) (ms : List (List Byte × JSON)) (l : List Byte)
    (hl : v.raw = 0x5B :: l) (hv : ∀ f X, json.parseValue f 1 (v.raw ++ X) = none) :
    json.scan (JSON.object (([0x22, 0x78, 0x22], v) :: ms)).raw = none := by
  have hraw : ∃ X, (JSON.object (([0x22, 0x78, 0x22], v) :: ms)).raw =
      0x7B :: 0x22 :: 0x78 :: 0x22 :: 0x3A :: (v.raw ++ X) := by
    cases ms with
    | nil =>
      refine ⟨[0x7D], ?_⟩
      rw [JSON.raw, JSON.rawMembers]
      simp only [List.cons_append, List.append_assoc, List.nil_append]
    | cons m ms' =>
      refine ⟨0x2C :: (JSON.rawMembers (m :: ms') ++ [0x7D]), ?_⟩
      rw [JSON.raw, JSON.rawMembers]
      simp only [List.cons_append, List.append_assoc, List.nil_append]
  obtain ⟨X, hX⟩ := hraw
  have hm : ∀ f, json.parseMembers f 1
      (0x22 :: 0x78 :: 0x22 :: 0x3A :: (v.raw ++ X)) = none := by
    intro f
    cases f with
    | zero => rw [json.parseMembers]
    | succ f₁ =>
      have hs : json.scanString
          (0x78 :: 0x22 :: 0x3A :: (v.raw ++ X)).length
          (0x78 :: 0x22 :: 0x3A :: (v.raw ++ X)) =
          some ([0x78], 0x3A :: (v.raw ++ X)) :=
        scanString_token_rest (StringBody_of_plain [0x78] (by decide)) _
      have hsk : json.skipSpace (v.raw ++ X) = v.raw ++ X := by
        rw [hl, List.cons_append]
        exact skipSpace_cons _ (by decide)
      rw [json.parseMembers]
      rw [if_pos (by decide), hs]
      simp only
      rw [skipSpace_cons _ (by decide)]
      simp only
      rw [if_pos (by decide), hsk, hv]
  unfold json.scan
  rw [hX, skipSpace_cons _ (by decide)]
  have hp : ∀ f, json.parseValue (f + 1) 0
      (0x7B :: 0x22 :: 0x78 :: 0x22 :: 0x3A :: (v.raw ++ X)) = none := by
    intro f
    rw [json.parseValue]
    rw [if_pos (by decide), if_neg (by decide), skipSpace_cons _ (by decide)]
    simp only
    rw [if_neg (by decide), hm]
  rw [hp]

/-! ## Decoding a response: the envelope, from the text -/

set_option maxRecDepth 100000 in
/-- The number `1.7e9` is a JSON number. -/
theorem Number_exponent : rfc8259.Number (str "1.7e9") :=
  ⟨[0x31], [0x2E, 0x37], [0x65, 0x39],
    Or.inr ⟨0x31, [], rfl, by decide, by decide, fun _ h => absurd h (List.not_mem_nil _)⟩,
    Or.inr ⟨0x2E, [0x37], rfl, rfl, by simp, by decide⟩,
    Or.inr (Or.inl ⟨0x65, [0x39], rfl, Or.inl rfl, by simp, by decide⟩),
    Or.inl rfl⟩

set_option maxRecDepth 1000000 in
theorem WF_exampleChoices_stop :
    ∀ e ∈ [exampleChoice (str "\"stop\"")], JSON.WF 2 e :=
  List.forall_mem_cons.2 ⟨WF_exampleChoice 0 _ _ (StringToken_plain (str "stop") (by decide)),
    fun _ h => absurd h (List.not_mem_nil _)⟩

set_option maxRecDepth 1000000 in
theorem WF_exampleChoices_two :
    ∀ e ∈ [exampleChoice (str "\"stop\""), exampleChoice (str "\"length\"")], JSON.WF 2 e :=
  List.forall_mem_cons.2 ⟨WF_exampleChoice 0 _ _ (StringToken_plain (str "stop") (by decide)),
    List.forall_mem_cons.2
      ⟨WF_exampleChoice 0 _ _ (StringToken_plain (str "length") (by decide)),
      fun _ h => absurd h (List.not_mem_nil _)⟩⟩

set_option maxRecDepth 1000000 in
/-- The input of the end-to-end example of the spec is a JSON text of its response
object. -/
theorem JSONText_exampleEndToEnd :
    rfc8259.JSONText 4 (JSON.object exampleEndToEndMembers) exampleEndToEnd :=
  ⟨WF_exampleResponse 0 (str "1700000000") [exampleChoice (str "\"stop\"")]
      (Number_plain 0x31 _ (by decide) (by decide)) WF_exampleChoices_stop,
    [], _, [], Ws_nil, Text_raw _, Ws_nil, by decide⟩

set_option maxRecDepth 1000000 in
theorem JSONText_exampleTwoChoices :
    rfc8259.JSONText 4
      (JSON.object (exampleResponseMembers (str "1700000000")
        [exampleChoice (str "\"stop\""), exampleChoice (str "\"length\"")]))
      exampleTwoChoices :=
  ⟨WF_exampleResponse 0 (str "1700000000") _
      (Number_plain 0x31 _ (by decide) (by decide)) WF_exampleChoices_two,
    [], _, [], Ws_nil, Text_raw _, Ws_nil, by decide⟩

set_option maxRecDepth 1000000 in
theorem JSONText_exampleHugeCreated :
    rfc8259.JSONText 4
      (JSON.object (exampleResponseMembers (str "9223372036854775808")
        [exampleChoice (str "\"stop\"")]))
      exampleHugeCreated :=
  ⟨WF_exampleResponse 0 (str "9223372036854775808") _
      (Number_plain 0x39 _ (by decide) (by decide)) WF_exampleChoices_stop,
    [], _, [], Ws_nil, Text_raw _, Ws_nil, by decide⟩

set_option maxRecDepth 1000000 in
theorem JSONText_exampleExponentCreated :
    rfc8259.JSONText 4
      (JSON.object (exampleResponseMembers (str "1.7e9") [exampleChoice (str "\"stop\"")]))
      exampleExponentCreated :=
  ⟨WF_exampleResponse 0 (str "1.7e9") _ Number_exponent WF_exampleChoices_stop,
    [], _, [], Ws_nil, Text_raw _, Ws_nil, by decide⟩

set_option maxRecDepth 1000000 in
theorem WF_exampleDeep : JSON.WF 10001 (JSON.object exampleDeepMembers) :=
  .object 10000 _
    (List.forall_mem_cons.2 ⟨⟨_, StringToken_plain (str "x") (by decide)⟩,
      exampleResponseMembers_keys _ _⟩)
    (List.forall_mem_cons.2 ⟨WF_exampleNested 9999,
      exampleResponseMembers_values 9997 _ _ (Number_plain 0x31 _ (by decide) (by decide))
        (fun e he => WF_mono (WF_exampleChoices_stop e he) _ (by decide))⟩)

theorem JSONText_exampleDeep :
    rfc8259.JSONText 10001 (JSON.object exampleDeepMembers) exampleDeep :=
  ⟨WF_exampleDeep, [], _, [], Ws_nil, Text_raw _, Ws_nil, by
    rw [List.nil_append, List.append_nil]
    rfl⟩

theorem scan_exampleDeep : json.scan exampleDeep = none := by
  obtain ⟨l, hl⟩ := exampleNested_raw 9999
  exact scan_first_member_rejected (exampleNested 9999) _ l hl
    (fun f X => parseValue_deep 9999 f 1 X (by decide))

theorem response_syntax_error {Msg : Type} (codec : MessageCodec Msg) (data : List Byte)
    (v : ChatCompletionResponse Msg) (h : json.scan data = none) :
    ChatCompletionResponse.Unmarshal codec data v = (v, some GoError.SyntaxError) := by
  unfold ChatCompletionResponse.Unmarshal json.Unmarshal
  rw [h]

set_option maxRecDepth 1000000 in
/-- C11, the claim as stated fails, in three ways.  The end-to-end example of the spec with
`created` 2^63 is a well-formed response object whose six keys have values of the expected
types, and decoding it returns a type error and leaves `Created` 0.  So does the example
with `created` written `1.7e9`, a JSON number.  And the example after a first member `x`
whose value is 10000 arrays in one another is a well-formed response object with the six
keys as in the example, and decoding it returns a syntax error and decodes nothing: the
scanner of `encoding/json` allows no more than 10000 arrays and objects in one another. -/
theorem created_beyond_int64_is_rejected :
    (rfc8259.JSONText 4
        (JSON.object (exampleResponseMembers (rfc8259.number 9223372036854775808)
          [exampleChoice (str "\"stop\"")])) exampleHugeCreated ∧
      (∀ m ∈ exampleResponseMembers (rfc8259.number 9223372036854775808)
          [exampleChoice (str "\"stop\"")],
        ResponseMember MessageCodec.unit (str "abc") (str "chat.completion") (str "gpt-x")
          9223372036854775808 [str "stop"] 10 5 15 m) ∧
      ChatCompletionResponse.Unmarshal MessageCodec.unit exampleHugeCreated
          (ChatCompletionResponse.zero Unit) =
        (⟨str "abc", ⟨[⟨FinishReasonStop, ()⟩], 1, false⟩, ⟨10, 5, 15⟩, 0,
          str "gpt-x", str "chat.completion"⟩, some GoError.UnmarshalTypeError)) ∧
    (rfc8259.JSONText 4
        (JSON.object (exampleResponseMembers (str "1.7e9") [exampleChoice (str "\"stop\"")]))
        exampleExponentCreated ∧
      rfc8259.Number (str "1.7e9") ∧
      ChatCompletionResponse.Unmarshal MessageCodec.unit exampleExponentCreated
          (ChatCompletionResponse.zero Unit) =
        (⟨str "abc", ⟨[⟨FinishReasonStop, ()⟩], 1, false⟩, ⟨10, 5, 15⟩, 0,
          str "gpt-x", str "chat.completion"⟩, some GoError.UnmarshalTypeError)) ∧
    (rfc8259.JSONText 10001 (JSON.object exampleDeepMembers) exampleDeep ∧
      (∀ m ∈ exampleDeepMembers,
        ResponseMember MessageCodec.unit (str "abc") (str "chat.completion") (str "gpt-x")
          1700000000 [str "stop"] 10 5 15 m) ∧
      (∀ i, i < 6 → json.omits responseFields i exampleDeepMembers = false) ∧
      ChatCompletionResponse.Unmarshal MessageCodec.unit exampleDeep
          (ChatCompletionResponse.zero Unit) =
        (ChatCompletionResponse.zero Unit, some GoError.SyntaxError)) := by
  refine ⟨⟨JSONText_exampleHugeCreated, ?_, by decide⟩,
    ⟨JSONText_exampleExponentCreated, Number_exponent, by decide⟩,
    ⟨JSONText_exampleDeep, ?_, ?_, ?_⟩⟩
  · exact exampleResponseMembers_shape 9223372036854775808 _ _
      (List.Forall₂.cons (ChoiceObject_example (str "stop") (by decide)) List.Forall₂.nil)
  · refine List.forall_mem_cons.2 ⟨?_, exampleResponseMembers_shape 1700000000 _ _
      (List.Forall₂.cons (ChoiceObject_example (str "stop") (by decide)) List.Forall₂.nil)⟩
    exact ⟨str "x", StringToken_plain (str "x") (by decide),
      fun h => absurd h (by decide), fun h => absurd h (by decide),
      fun h => absurd h (by decide), fun h => absurd h (by decide),
      fun h => absurd h (by decide), fun h => absurd h (by decide)⟩
  · intro i hi
    have h : i = 0 ∨ i = 1 ∨ i = 2 ∨ i = 3 ∨ i = 4 ∨ i = 5 := by omega
    rcases h with rfl | rfl | rfl | rfl | rfl | rfl <;> rfl
  · exact response_syntax_error _ _ _ scan_exampleDeep

/-- C11: for every JSON text of a response object (RFC 8259, with white space between its
tokens or not), nested no deeper than the scanner of `encoding/json` allows, in which each
of the keys `id`, `object`, `created`, `model`, `choices` and `usage` occurs, the keys in
any order and with keys of no field among them, and whose values are of the expected types
(JSON strings for `id`, `object` and `model`; for `created` an integer of the range of
`int`, written in decimal digits without fraction or exponent; for `choices` an array of
choice objects, each with a string `finish_reason` and with no `message` but one that the
decoding of the message accepts; for `usage` an object with the three counts as such
integers), decoding succeeds, whatever the target held; `ID`, `Object`, `Created` and
`Model` are the values under those keys, the three counts of `Usage` are the values under
`prompt_tokens`, `completion_tokens` and `total_tokens`, and `Choices` has as many choices
as the array has elements, the i-th choice with the finish reason of the i-th element. -/
theorem envelope_fields_decode {Msg : Type} (codec : MessageCodec Msg) (data : List Byte)
    (n : Nat) (members : List (List Byte × JSON)) (id object model : GoString) (created : Int)
    (reasons : List GoString) (p c t : Int)
    (hcr : -2 ^ 63 ≤ created ∧ created < 2 ^ 63)
    (hp : -2 ^ 63 ≤ p ∧ p < 2 ^ 63) (hc : -2 ^ 63 ≤ c ∧ c < 2 ^ 63)
    (ht : -2 ^ 63 ≤ t ∧ t < 2 ^ 63)
    (htext : rfc8259.JSONText n (JSON.object members) data)
    (hn : n ≤ json.maxNestingDepth)
    (hm : ∀ m ∈ members, ResponseMember codec id object model created reasons p c t m)
    (hkeys : ∀ i, i < 6 → json.omits responseFields i members = false)
    (resp : ChatCompletionResponse Msg) :
    (ChatCompletionResponse.Unmarshal codec data resp).2 = none ∧
    (ChatCompletionResponse.Unmarshal codec data resp).1.ID = id ∧
    (ChatCompletionResponse.Unmarshal codec data resp).1.Object = object ∧
    (ChatCompletionResponse.Unmarshal codec data resp).1.Created = created ∧
    (ChatCompletionResponse.Unmarshal codec data resp).1.Model = model ∧
    (ChatCompletionResponse.Unmarshal codec data resp).1.Usage = ⟨p, c, t⟩ ∧
    (ChatCompletionResponse.Unmarshal codec data resp).1.Choices.toList.length =
      reasons.length ∧
    (ChatCompletionResponse.Unmarshal codec data resp).1.Choices.toList.map
      (fun ch => ch.FinishReason) = reasons.map chatCompletionFinishReason.mk ∧
    (∀ (i : Nat) (r : GoString), reasons[i]? = some r →
      Option.map (fun ch => ch.FinishReason)
        (ChatCompletionResponse.Unmarshal codec data resp).1.Choices.toList[i]? =
        some (chatCompletionFinishReason.mk r)) := by
  have h := envelope_decode_of_scan codec data members id object model created reasons p c t
    hcr hp hc ht (scan_text htext hn) hm hkeys resp
  refine ⟨h.1, h.2.1, h.2.2.1, h.2.2.2.1, h.2.2.2.2.1, h.2.2.2.2.2.1, h.2.2.2.2.2.2.1,
    h.2.2.2.2.2.2.2, ?_⟩
  intro i r hr
  have e := congrArg (fun l => l[i]?) h.2.2.2.2.2.2.2
  simp only [List.getElem?_map] at e
  rw [e, hr]
  rfl

set_option maxRecDepth 1000000 in
theorem exampleTwoChoices_shape :
    ∀ m ∈ exampleResponseMembers (str "1700000000")
        [exampleChoice (str "\"stop\""), exampleChoice (str "\"length\"")],
      ResponseMember MessageCodec.unit (str "abc") (str "chat.completion") (str "gpt-x")
        1700000000 [str "stop", str "length"] 10 5 15 m := by
  have e1 : str "1700000000" = rfc8259.number 1700000000 := by decide
  have e2 : str "\"stop\"" = 0x22 :: (str "stop" ++ [0x22]) := by decide
  have e3 : str "\"length\"" = 0x22 :: (str "length" ++ [0x22]) := by decide
  rw [e1, e2, e3]
  exact exampleResponseMembers_shape 1700000000 _ _
    (List.Forall₂.cons (ChoiceObject_example (str "stop") (by decide))
      (List.Forall₂.cons (ChoiceObject_example (str "length") (by decide))
        List.Forall₂.nil))

set_option maxRecDepth 1000000 in
theorem envelope_fields_decode_witness :
    rfc8259.JSONText 4
      (JSON.object (exampleResponseMembers (str "1700000000")
        [exampleChoice (str "\"stop\""), exampleChoice (str "\"length\"")]))
      exampleTwoChoices ∧
    ChatCompletionResponse.Unmarshal MessageCodec.unit exampleTwoChoices
        (ChatCompletionResponse.zero Unit) =
      (⟨str "abc", ⟨[⟨FinishReasonStop, ()⟩, ⟨FinishReasonLength, ()⟩], 2, false⟩,
        ⟨10, 5, 15⟩, 1700000000, str "gpt-x", str "chat.completion"⟩, none) ∧
    ChatCompletionResponse.Unmarshal MessageCodec.unit exampleEndToEnd
        (ChatCompletionResponse.zero Unit) =
      (⟨str "abc", ⟨[⟨FinishReasonStop, ()⟩], 1, false⟩, ⟨10, 5, 15⟩, 1700000000,
        str "gpt-x", str "chat.completion"⟩, none) ∧
    ((ChatCompletionResponse.Unmarshal MessageCodec.unit exampleTwoChoices
        (ChatCompletionResponse.zero Unit)).2 = none ∧
    (ChatCompletionResponse.Unmarshal MessageCodec.unit exampleTwoChoices
        (ChatCompletionResponse.zero Unit)).1.ID = str "abc" ∧
    (ChatCompletionResponse.Unmarshal MessageCodec.unit exampleTwoChoices
        (ChatCompletionResponse.zero Unit)).1.Object = str "chat.completion" ∧
    (ChatCompletionResponse.Unmarshal MessageCodec.unit exampleTwoChoices
        (ChatCompletionResponse.zero Unit)).1.Created = 1700000000 ∧
    (ChatCompletionResponse.Unmarshal MessageCodec.unit exampleTwoChoices
        (ChatCompletionResponse.zero Unit)).1.Model = str "gpt-x" ∧
    (ChatCompletionResponse.Unmarshal MessageCodec.unit exampleTwoChoices
        (ChatCompletionResponse.zero Unit)).1.Usage = ⟨10, 5, 15⟩ ∧
    (ChatCompletionResponse.Unmarshal MessageCodec.unit exampleTwoChoices
        (ChatCompletionResponse.zero Unit)).1.Choices.toList.length =
      [str "stop", str "length"].length ∧
    (ChatCompletionResponse.Unmarshal MessageCodec.unit exampleTwoChoices
        (ChatCompletionResponse.zero Unit)).1.Choices.toList.map (fun ch => ch.FinishReason) =
      [str "stop", str "length"].map chatCompletionFinishReason.mk ∧
    (∀ (i : Nat) (r : GoString), [str "stop", str "length"][i]? = some r →
      Option.map (fun ch => ch.FinishReason)
        (ChatCompletionResponse.Unmarshal MessageCodec.unit exampleTwoChoices
          (ChatCompletionResponse.zero Unit)).1.Choices.toList[i]? =
        some (chatCompletionFinishReason.mk r))) ∧
    rfc8259.JSONText 4 (JSON.object exampleEndToEndMembers) exampleEndToEnd ∧
    (ChatCompletionResponse.Unmarshal MessageCodec.unit exampleEndToEnd
        (ChatCompletionResponse.zero Unit)).1.ID = str "abc" ∧
    (ChatCompletionResponse.Unmarshal MessageCodec.unit exampleEndToEnd
        (ChatCompletionResponse.zero Unit)).1.Choices.toList.map (fun ch => ch.FinishReason) =
      [str "stop"].map chatCompletionFinishReason.mk ∧
    (ChatCompletionResponse.Unmarshal MessageCodec.unit exampleEndToEnd
        (ChatCompletionResponse.zero Unit)).1.Usage = ⟨10, 5, 15⟩ :=
  ⟨JSONText_exampleTwoChoices, by decide, by decide,
   envelope_fields_decode MessageCodec.unit exampleTwoChoices 4
     (exampleResponseMembers (str "1700000000")
        [exampleChoice (str "\"stop\""), exampleChoice (str "\"length\"")])
     (str "abc") (str "chat.completion") (str "gpt-x") 1700000000 [str "stop", str "length"]
     10 5 15 (by decide) (by decide) (by decide) (by decide) JSONText_exampleTwoChoices
     (by decide) exampleTwoChoices_shape
     (exampleResponseMembers_complete _ _) (ChatCompletionResponse.zero Unit),
   JSONText_exampleEndToEnd,
   (envelope_fields_decode MessageCodec.unit exampleEndToEnd 4 exampleEndToEndMembers
     (str "abc") (str "chat.completion") (str "gpt-x") 1700000000 [str "stop"] 10 5 15
     (by decide) (by decide) (by decide) (by decide) JSONText_exampleEndToEnd (by decide)
     exampleEndToEnd_members (by decide) (ChatCompletionResponse.zero Unit)).2.1,
   (envelope_fields_decode MessageCodec.unit exampleEndToEnd 4 exampleEndToEndMembers
     (str "abc") (str "chat.completion") (str "gpt-x") 1700000000 [str "stop"] 10 5 15
     (by decide) (by decide) (by decide) (by decide) JSONText_exampleEndToEnd (by decide)
     exampleEndToEnd_members (by decide) (ChatCompletionResponse.zero Unit)).2.2.2.2.2.2.2.1,
   (envelope_fields_decode MessageCodec.unit exampleEndToEnd 4 exampleEndToEndMembers
     (str "abc") (str "chat.completion") (str "gpt-x") 1700000000 [str "stop"] 10 5 15
     (by decide) (by decide) (by decide) (by decide) JSONText_exampleEndToEnd (by decide)
     exampleEndToEnd_members (by decide) (ChatCompletionResponse.zero Unit)).2.2.2.2.2.1⟩

/-! ## Decoding a response: present keys of the expected types -/

theorem typed_usage_decode (u : JSON) (hu : TypedUsage u) (v : ChatCompletionResponseUsage)
    (s : Option GoError) :
    (ChatCompletionResponseUsage.decode u v s).err = none ∧
    (ChatCompletionResponseUsage.decode u v s).saved = s := by
  obtain ⟨counts, rfl, hall⟩ := hu
  have hok : ∀ m ∈ counts, (∃ key, json.unquoteBytes m.1 = some key) ∧
      ∀ key dec, json.unquoteBytes m.1 = some key →
        ChatCompletionResponseUsage.field key = some dec →
        ∀ v s, (dec m.2 v s).err = none ∧ (dec m.2 v s).saved = s := by
    intro m hm
    obtain ⟨p, c, t, hp, hc, ht, hmem⟩ := hall m hm
    have hdec := usage_member_decode p c t hp hc ht m hmem
    exact ⟨hdec.1, fun key dec hk hf v s => (hdec.2 key dec hk hf v s).1⟩
  exact decodeMembers_no_error ChatCompletionResponseUsage.field counts v s hok

theorem typed_choice_decode {Msg : Type} (codec : MessageCodec Msg) (e : JSON)
    (he : TypedChoice codec e) (v : ChatCompletionResponseChoice Msg) (s : Option GoError) :
    (ChatCompletionResponseChoice.decode codec e v s).err = none ∧
    (ChatCompletionResponseChoice.decode codec e v s).saved = s := by
  obtain ⟨fields, rfl, hall⟩ := he
  have hok : ∀ m ∈ fields, (∃ key, json.unquoteBytes m.1 = some key) ∧
      ∀ key dec, json.unquoteBytes m.1 = some key →
        ChatCompletionResponseChoice.field codec key = some dec →
        ∀ v s, (dec m.2 v s).err = none ∧ (dec m.2 v s).saved = s := by
    intro m hm
    obtain ⟨r, hmem⟩ := hall m hm
    have hdec := choice_member_decode codec r m hmem
    exact ⟨hdec.1, fun key dec hk hf v s => (hdec.2 key dec hk hf v s).1⟩
  exact decodeMembers_no_error (ChatCompletionResponseChoice.field codec) fields v s hok

theorem Forall₂_unit {α : Type} (P : α → Prop) : ∀ (es : List α), (∀ e ∈ es, P e) →
    List.Forall₂ (fun e (_ : Unit) => P e) es (es.map (fun _ => ())) := by
  intro es
  induction es with
  | nil => intro _; exact List.Forall₂.nil
  | cons e es ih =>
    intro h
    exact List.Forall₂.cons (h e (List.mem_cons_self _ _))
      (ih (fun x hx => h x (List.mem_cons_of_mem _ hx)))

theorem typed_choices_decode {Msg : Type} (codec : MessageCodec Msg) (elems : List JSON)
    (h : ∀ e ∈ elems, TypedChoice codec e)
    (v : json.Slice (ChatCompletionResponseChoice Msg)) (s : Option GoError) :
    (json.storeSlice (ChatCompletionResponseChoice.decode codec)
      (ChatCompletionResponseChoice.zero codec) (JSON.array elems) v s).err = none ∧
    (json.storeSlice (ChatCompletionResponseChoice.decode codec)
      (ChatCompletionResponseChoice.zero codec) (JSON.array elems) v s).saved = s := by
  have hf := Forall₂_unit
    (fun e => ∀ v s, (ChatCompletionResponseChoice.decode codec e v s).err = none ∧
      (ChatCompletionResponseChoice.decode codec e v s).saved = s ∧
      (fun (_ : ChatCompletionResponseChoice Msg) => ()) 
        (ChatCompletionResponseChoice.decode codec e v s).val = ()) elems
    (fun e he v s => ⟨(typed_choice_decode codec e (h e he) v s).1,
      (typed_choice_decode codec e (h e he) v s).2, rfl⟩)
  have := decodeElems_spec (ChatCompletionResponseChoice.decode codec)
    (ChatCompletionResponseChoice.zero codec) (fun _ => ()) elems _ hf 0 v s (Nat.zero_le _)
  exact ⟨this.1, this.2.1⟩

/-- The decoding of a member of a response object whose value is of the expected type
reports no error. -/
theorem typed_response_member_decode {Msg : Type} (codec : MessageCodec Msg)
    (m : List Byte × JSON) (hm : TypedResponseMember codec m) :
    (∃ key, json.unquoteBytes m.1 = some key) ∧
    ∀ key dec, json.unquoteBytes m.1 = some key →
      ChatCompletionResponse.field codec key = some dec →
      ∀ v s, (dec m.2 v s).err = none ∧ (dec m.2 v s).saved = s := by
  obtain ⟨key₀, hk₀, h0, h1, h2, h3, h4, h5⟩ := hm
  have hu := unquoteBytes_of_token hk₀
  refine ⟨⟨key₀, hu⟩, ?_⟩
  intro key dec hk hf v s
  rw [hu] at hk
  simp only [Option.some.injEq] at hk
  subst hk
  unfold ChatCompletionResponse.field at hf
  split at hf
  · rename_i hi
    simp only [Option.some.injEq] at hf
    subst hf
    obtain ⟨tok, r, ht, htok⟩ := h0 hi
    cases htok with
    | mk body _ hb =>
      simp only [ht, storeString_token hb]
      simp
  · rename_i hi
    simp only [Option.some.injEq] at hf
    subst hf
    obtain ⟨elems, he, hel⟩ := h1 hi
    obtain ⟨e1, e2⟩ := typed_choices_decode codec elems hel v.Choices s
    simp only [he, e1, e2]
    simp
  · rename_i hi
    simp only [Option.some.injEq] at hf
    subst hf
    obtain ⟨e1, e2⟩ := typed_usage_decode m.2 (h2 hi) v.Usage s
    simp only [e1, e2]
    simp
  · rename_i hi
    simp only [Option.some.injEq] at hf
    subst hf
    obtain ⟨k, hk, hv⟩ := h3 hi
    simp only [hv, storeInt_number k hk.1 hk.2]
    simp
  · rename_i hi
    simp only [Option.some.injEq] at hf
    subst hf
    obtain ⟨tok, r, ht, htok⟩ := h4 hi
    cases htok with
    | mk body _ hb =>
      simp only [ht, storeString_token hb]
      simp
  · rename_i hi
    simp only [Option.some.injEq] at hf
    subst hf
    obtain ⟨tok, r, ht, htok⟩ := h5 hi
    cases htok with
    | mk body _ hb =>
      simp only [ht, storeString_token hb]
      simp
  · simp at hf

/-- Decoding an object whose members have values of the expected types returns no
error. -/
theorem typed_response_decode {Msg : Type} (codec : MessageCodec Msg) (data : List Byte)
    (members : List (List Byte × JSON)) (h : json.scan data = some (JSON.object members))
    (hm : ∀ m ∈ members, TypedResponseMember codec m) (resp : ChatCompletionResponse Msg) :
    (ChatCompletionResponse.Unmarshal codec data resp).2 = none := by
  have hne := decodeMembers_no_error (ChatCompletionResponse.field codec) members resp none
    (fun m hm' => typed_response_member_decode codec m (hm m hm'))
  unfold ChatCompletionResponse.Unmarshal json.Unmarshal
  rw [h]
  simp only
  have hd : ChatCompletionResponse.decode codec (JSON.object members) resp none =
      json.decodeMembers (ChatCompletionResponse.field codec) members resp none := rfl
  rw [hd, hne.1, hne.2]

set_option maxRecDepth 1000000 in
theorem JSONText_exampleSparse :
    rfc8259.JSONText 2
      (JSON.object [(str "\"id\"", JSON.literal (str "\"x\"")),
        (str "\"usage\"", JSON.object [(str "\"total_tokens\"", JSON.literal (str "7"))])])
      exampleSparse :=
  ⟨.object 1 _
      (List.forall_mem_cons.2 ⟨⟨_, StringToken_plain (str "id") (by decide)⟩,
        List.forall_mem_cons.2 ⟨⟨_, StringToken_plain (str "usage") (by decide)⟩,
          fun _ h => absurd h (List.not_mem_nil _)⟩⟩)
      (List.forall_mem_cons.2 ⟨WF_plain 1 (str "x") (by decide),
        List.forall_mem_cons.2 ⟨.object 0 _
          (List.forall_mem_cons.2 ⟨⟨_, StringToken_plain (str "total_tokens") (by decide)⟩,
            fun _ h => absurd h (List.not_mem_nil _)⟩)
          (List.forall_mem_cons.2 ⟨.number 0 _ (Number_plain 0x37 [] (by decide) (by decide)),
            fun _ h => absurd h (List.not_mem_nil _)⟩),
          fun _ h => absurd h (List.not_mem_nil _)⟩⟩),
    [], _, [], Ws_nil, Text_raw _, Ws_nil, by decide⟩

set_option maxRecDepth 1000000 in
theorem exampleSparse_typed :
    ∀ m ∈ [(str "\"id\"", JSON.literal (str "\"x\"")),
        (str "\"usage\"", JSON.object [(str "\"total_tokens\"", JSON.literal (str "7"))])],
      TypedResponseMember MessageCodec.unit m :=
  List.forall_mem_cons.2
    ⟨⟨str "id", StringToken_plain (str "id") (by decide),
      fun _ => ⟨_, str "x", rfl, StringToken_plain (str "x") (by decide)⟩,
      fun h => absurd h (by decide), fun h => absurd h (by decide),
      fun h => absurd h (by decide), fun h => absurd h (by decide),
      fun h => absurd h (by decide)⟩,
    List.forall_mem_cons.2
    ⟨⟨str "usage", StringToken_plain (str "usage") (by decide),
      fun h => absurd h (by decide), fun h => absurd h (by decide),
      fun _ => ⟨_, rfl,
        List.forall_mem_cons.2
          ⟨⟨7, 7, 7, by decide, by decide, by decide,
            str "total_tokens", StringToken_plain (str "total_tokens") (by decide),
            fun h => absurd h (by decide), fun h => absurd h (by decide), fun _ => rfl⟩,
          fun _ h => absurd h (List.not_mem_nil _)⟩⟩,
      fun h => absurd h (by decide), fun h => absurd h (by decide),
      fun h => absurd h (by decide)⟩,
    fun _ h => absurd h (List.not_mem_nil _)⟩⟩

theorem JSONText_exampleEmptyObject :
    rfc8259.JSONText 1 (JSON.object []) exampleEmptyObject :=
  ⟨.object 0 [] (fun _ h => absurd h (List.not_mem_nil _))
      (fun _ h => absurd h (List.not_mem_nil _)),
    [], _, [], Ws_nil, Text_raw _, Ws_nil, by decide⟩

set_option maxRecDepth 1000000 in
theorem JSONText_exampleCreatedString :
    rfc8259.JSONText 1 (JSON.object [(str "\"created\"", JSON.literal (str "\"x\""))])
      exampleCreatedString :=
  ⟨.object 0 _
      (List.forall_mem_cons.2 ⟨⟨_, StringToken_plain (str "created") (by decide)⟩,
        fun _ h => absurd h (List.not_mem_nil _)⟩)
      (List.forall_mem_cons.2 ⟨WF_plain 0 (str "x") (by decide),
        fun _ h => absurd h (List.not_mem_nil _)⟩),
    [], _, [], Ws_nil, Text_raw _, Ws_nil, by decide⟩

set_option maxRecDepth 1000000 in
theorem JSONText_exampleUpperCaseKey :
    rfc8259.JSONText 3 (JSON.object [(str "\"Choices\"", JSON.array [JSON.object []])])
      exampleUpperCaseKey :=
  ⟨.object 2 _
      (List.forall_mem_cons.2 ⟨⟨_, StringToken_plain (str "Choices") (by decide)⟩,
        fun _ h => absurd h (List.not_mem_nil _)⟩)
      (List.forall_mem_cons.2 ⟨.array 1 _
        (List.forall_mem_cons.2 ⟨.object 0 [] (fun _ h => absurd h (List.not_mem_nil _))
          (fun _ h => absurd h (List.not_mem_nil _)),
          fun _ h => absurd h (List.not_mem_nil _)⟩),
        fun _ h => absurd h (List.not_mem_nil _)⟩),
    [], _, [], Ws_nil, Text_raw _, Ws_nil, by decide⟩

set_option maxRecDepth 1000000 in
theorem JSONText_exampleDeepObject :
    rfc8259.JSONText 10001 (JSON.object [(str "\"x\"", exampleNested 9999)])
      exampleDeepObject :=
  ⟨.object 10000 _
      (List.forall_mem_cons.2 ⟨⟨_, StringToken_plain (str "x") (by decide)⟩,
        fun _ h => absurd h (List.not_mem_nil _)⟩)
      (List.forall_mem_cons.2 ⟨WF_exampleNested 9999,
        fun _ h => absurd h (List.not_mem_nil _)⟩),
    [], _, [], Ws_nil, Text_raw _, Ws_nil, by
      rw [List.nil_append, List.append_nil]
      rfl⟩

theorem scan_exampleDeepObject : json.scan exampleDeepObject = none := by
  obtain ⟨l, hl⟩ := exampleNested_raw 9999
  exact scan_first_member_rejected (exampleNested 9999) [] l hl
    (fun f X => parseValue_deep 9999 f 1 X (by decide))

set_option maxRecDepth 1000000 in
/-- C9, the claim as stated fails, in three ways.  The object `{"created":"x"}` omits the
key `choices`, and decoding it does not succeed: it returns a type error.  The object
`{"Choices":[{}]}` omits the key `choices` too, and decoding it succeeds with one choice,
because `encoding/json` also matches a key to a field up to case.  And the object
`{"x":[[…]]}` with 10000 arrays in one another omits every key of the response, and
decoding it does not succeed: it returns a syntax error, because the scanner of
`encoding/json` allows no more than 10000 arrays and objects in one another. -/
theorem absent_key_neither_succeeds_nor_zero :
    (rfc8259.JSONText 1 (JSON.object [(str "\"created\"", JSON.literal (str "\"x\""))])
        exampleCreatedString ∧
      json.objectKeys exampleCreatedString = some [some (str "created")] ∧
      (ChatCompletionResponse.Unmarshal MessageCodec.unit exampleCreatedString
        (ChatCompletionResponse.zero Unit)).2 = some GoError.UnmarshalTypeError) ∧
    (rfc8259.JSONText 3 (JSON.object [(str "\"Choices\"", JSON.array [JSON.object []])])
        exampleUpperCaseKey ∧
      json.objectKeys exampleUpperCaseKey = some [some (str "Choices")] ∧
      (ChatCompletionResponse.Unmarshal MessageCodec.unit exampleUpperCaseKey
        (ChatCompletionResponse.zero Unit)).2 = none ∧
      (ChatCompletionResponse.Unmarshal MessageCodec.unit exampleUpperCaseKey
        (ChatCompletionResponse.zero Unit)).1.Choices.toList.length = 1) ∧
    (rfc8259.JSONText 10001 (JSON.object [(str "\"x\"", exampleNested 9999)])
        exampleDeepObject ∧
      (∀ m ∈ [(str "\"x\"", exampleNested 9999)], TypedResponseMember MessageCodec.unit m) ∧
      ChatCompletionResponse.Unmarshal MessageCodec.unit exampleDeepObject
          (ChatCompletionResponse.zero Unit) =
        (ChatCompletionResponse.zero Unit, some GoError.SyntaxError)) :=
  ⟨⟨JSONText_exampleCreatedString, by decide, by decide⟩,
   ⟨JSONText_exampleUpperCaseKey, by decide, by decide, by decide⟩,
   ⟨JSONText_exampleDeepObject,
    List.forall_mem_cons.2
      ⟨⟨str "x", StringToken_plain (str "x") (by decide),
        fun h => absurd h (by decide), fun h => absurd h (by decide),
        fun h => absurd h (by decide), fun h => absurd h (by decide),
        fun h => absurd h (by decide), fun h => absurd h (by decide)⟩,
      fun _ h => absurd h (List.not_mem_nil _)⟩,
    response_syntax_error _ _ _ scan_exampleDeepObject⟩⟩

/-- C9, as amended: when a JSON text of an object (RFC 8259, with white space between its
tokens or not), nested no deeper than the scanner of `encoding/json` allows, is decoded
into a `ChatCompletionResponse`, decoding succeeds when the keys that are present have
values of the expected types; and when the target is zero-valued, every field that no key
of the object names (by its exact name or, as `encoding/json` matches keys, up to case) has
its zero value afterwards, whether or not the other keys decode without error: without a
key for `choices` the choice sequence is empty, of length 0; without a key for `usage`, or
without a key for a count in every `usage` object, the count is 0.  And decoding `{}`
succeeds, with every field zero. -/
theorem absent_fields_decode_to_zero {Msg : Type} (codec : MessageCodec Msg) (n : Nat)
    (data : List Byte) (members : List (List Byte × JSON))
    (htext : rfc8259.JSONText n (JSON.object members) data)
    (hn : n ≤ json.maxNestingDepth) :
    ((∀ m ∈ members, TypedResponseMember codec m) →
      ∀ resp, (ChatCompletionResponse.Unmarshal codec data resp).2 = none) ∧
    (json.omits responseFields 0 members = true →
      (ChatCompletionResponse.Unmarshal codec data (ChatCompletionResponse.zero Msg)).1.ID = []) ∧
    (json.omits responseFields 1 members = true →
      (ChatCompletionResponse.Unmarshal codec data (ChatCompletionResponse.zero Msg)).1.Choices =
        ⟨[], 0, true⟩ ∧
      (ChatCompletionResponse.Unmarshal codec data
        (ChatCompletionResponse.zero Msg)).1.Choices.toList.length = 0) ∧
    (json.omits responseFields 2 members = true →
      (ChatCompletionResponse.Unmarshal codec data (ChatCompletionResponse.zero Msg)).1.Usage =
        ⟨0, 0, 0⟩) ∧
    (json.omits responseFields 3 members = true →
      (ChatCompletionResponse.Unmarshal codec data
        (ChatCompletionResponse.zero Msg)).1.Created = 0) ∧
    (json.omits responseFields 4 members = true →
      (ChatCompletionResponse.Unmarshal codec data
        (ChatCompletionResponse.zero Msg)).1.Model = []) ∧
    (json.omits responseFields 5 members = true →
      (ChatCompletionResponse.Unmarshal codec data
        (ChatCompletionResponse.zero Msg)).1.Object = []) ∧
    (omitsCount 0 members = true →
      (ChatCompletionResponse.Unmarshal codec data
        (ChatCompletionResponse.zero Msg)).1.Usage.PromptTokens = 0) ∧
    (omitsCount 1 members = true →
      (ChatCompletionResponse.Unmarshal codec data
        (ChatCompletionResponse.zero Msg)).1.Usage.CompletionTokens = 0) ∧
    (omitsCount 2 members = true →
      (ChatCompletionResponse.Unmarshal codec data
        (ChatCompletionResponse.zero Msg)).1.Usage.TotalTokens = 0) ∧
    ChatCompletionResponse.Unmarshal codec exampleEmptyObject (ChatCompletionResponse.zero Msg) =
      (ChatCompletionResponse.zero Msg, none) :=
  ⟨fun hm resp => typed_response_decode codec data members (scan_text htext hn) hm resp,
   absent_fields_of_scan codec data members (scan_text htext hn)⟩

set_option maxRecDepth 1000000 in
theorem absent_fields_decode_to_zero_witness :
    rfc8259.JSONText 2
      (JSON.object [(str "\"id\"", JSON.literal (str "\"x\"")),
        (str "\"usage\"", JSON.object [(str "\"total_tokens\"", JSON.literal (str "7"))])])
      exampleSparse ∧
    (ChatCompletionResponse.Unmarshal MessageCodec.unit exampleSparse
      (ChatCompletionResponse.zero Unit)).2 = none ∧
    (ChatCompletionResponse.Unmarshal MessageCodec.unit
      exampleSparse
      (ChatCompletionResponse.zero Unit)).1.Choices.toList.length = 0 ∧
    (ChatCompletionResponse.Unmarshal MessageCodec.unit
      exampleSparse
      (ChatCompletionResponse.zero Unit)).1.Usage.PromptTokens = 0 ∧
    ChatCompletionResponse.Unmarshal MessageCodec.unit
      exampleSparse (ChatCompletionResponse.zero Unit) =
      (⟨str "x", ⟨[], 0, true⟩, ⟨0, 0, 7⟩, 0, [], []⟩, none) ∧
    (ChatCompletionResponse.Unmarshal MessageCodec.unit exampleEmptyObject
      (ChatCompletionResponse.zero Unit)).2 = none ∧
    ChatCompletionResponse.Unmarshal MessageCodec.unit exampleEmptyObject
      (ChatCompletionResponse.zero Unit) = (ChatCompletionResponse.zero Unit, none) :=
  ⟨JSONText_exampleSparse,
   (absent_fields_decode_to_zero MessageCodec.unit 2 exampleSparse _ JSONText_exampleSparse
      (by decide)).1 exampleSparse_typed (ChatCompletionResponse.zero Unit),
   ((absent_fields_decode_to_zero MessageCodec.unit 2 exampleSparse _ JSONText_exampleSparse
      (by decide)).2.2.1 (by decide)).2,
   (absent_fields_decode_to_zero MessageCodec.unit 2 exampleSparse _ JSONText_exampleSparse
      (by decide)).2.2.2.2.2.2.2.1 (by decide),
   by decide,
   (absent_fields_decode_to_zero MessageCodec.unit 1 exampleEmptyObject [] 
      JSONText_exampleEmptyObject (by decide)).1
      (fun _ h => absurd h (List.not_mem_nil _)) (ChatCompletionResponse.zero Unit),
   (absent_fields_decode_to_zero MessageCodec.unit 2 exampleSparse _ JSONText_exampleSparse
      (by decide)).2.2.2.2.2.2.2.2.2.2⟩

end openroutergo
